import Mathlib

/-!
# Battleship: board and targeting engine

A shallow embedding of `GameBoard.cpp` / `GameBoard.h` and `BattleshipAlgorithm.cpp`.

* `std::vector<std::vector<T>>` is a list of rows; `g[y][x]` is `Grid.get d g x y`.
  The C++ code indexes with `int`; an index outside the vector is undefined behaviour in the
  source, and `Grid.get` answers the default `d` there while `Grid.set` leaves the grid alone.
* `int` is `Int` (no overflow: board sizes are at most 100 in the driver).
* `double` is a linearly ordered field `K` (`ℚ` for evaluation, `ℝ` for the analytic claims);
  `std::exp` and `std::sqrt` are passed in through `FloatOps`.
* Cell codes are the integers of the source: 0 Empty, 1 ShipIntact, 2 Mine, 3 ShipHit,
  4 MineTriggered, 5 Miss.
-/

namespace Battleship

/-! ## Grids -/

/-- Rows of a `std::vector<std::vector<T>>`; the outer index is `y`, the inner one `x`. -/
abbrev Grid (α : Type) := List (List α)

/-- The element `g[y][x]`; the default outside the vector. -/
def Grid.get {α : Type} (d : α) (g : Grid α) (x y : Int) : α :=
  if 0 ≤ x ∧ 0 ≤ y then (g.getD y.toNat []).getD x.toNat d else d

/-- The assignment `g[y][x] = v`. -/
def Grid.set {α : Type} (g : Grid α) (x y : Int) (v : α) : Grid α :=
  if 0 ≤ x ∧ 0 ≤ y then List.set g y.toNat (List.set (g.getD y.toNat []) x.toNat v) else g

/-- The vector `std::vector<std::vector<T>>(size, std::vector<T>(size, v))`. -/
def Grid.fill {α : Type} (size : Int) (v : α) : Grid α :=
  List.replicate size.toNat (List.replicate size.toNat v)

/-- A grid of `n` rows of `n` entries each. -/
def Grid.Square {α : Type} (n : Int) (g : Grid α) : Prop :=
  g.length = n.toNat ∧ ∀ row ∈ g, (row : List α).length = n.toNat

/-- The integers `lo, lo+1, ..., hi` of a loop `for (int i = lo; i <= hi; ++i)`. -/
def intRange (lo hi : Int) : List Int :=
  (List.range (hi + 1 - lo).toNat).map (fun (k : Nat) => lo + (k : Int))

/-! ## Cell codes -/

/-- Code 0. -/
abbrev Empty : Int := 0
/-- Code 1. -/
abbrev ShipIntact : Int := 1
/-- Code 2. -/
abbrev Mine : Int := 2
/-- Code 3. -/
abbrev ShipHit : Int := 3
/-- Code 4. -/
abbrev MineTriggered : Int := 4
/-- Code 5. -/
abbrev Miss : Int := 5

/-! ## GameBoard -/

/-- The struct `GameBoard::Ship`. -/
structure Ship where
  cells : List (Int × Int)
deriving DecidableEq

/-- The method `Ship::isSunk`: every cell of the ship reads 3. -/
def Ship.isSunk (s : Ship) (board : Grid Int) : Bool :=
  s.cells.all (fun c => Grid.get 0 board c.1 c.2 == 3)

/-- The `std::exp` and `std::sqrt` of the number type. -/
structure FloatOps (K : Type) where
  exp : K → K
  sqrt : K → K

/-- The data members of class `GameBoard`. -/
structure GameBoard (K : Type) where
  size_ : Int
  remainingShips_ : Int
  remainingMines_ : Int
  board_ : Grid Int
  shipProbabilities_ : Grid K
  mineProbabilities_ : Grid K
  initialShipProb_ : K
  initialMineProb_ : K
  ships_ : List Ship
  shotsBoard_ : Grid Int

section Board

variable {K : Type} [LinearOrderedField K]

/-- The constructor `GameBoard::GameBoard(int size)`. -/
def GameBoard.new (size : Int) : GameBoard K :=
  { size_ := size
    remainingShips_ := 0
    remainingMines_ := 0
    board_ := Grid.fill size 0
    shipProbabilities_ := Grid.fill size 0
    mineProbabilities_ := Grid.fill size 0
    initialShipProb_ := 0
    initialMineProb_ := 0
    ships_ := []
    shotsBoard_ := Grid.fill size 0 }

/-- The method `GameBoard::isValidPosition`. -/
def GameBoard.isValidPosition (b : GameBoard K) (x y : Int) : Bool :=
  decide (x ≥ 0) && decide (x < b.size_) && decide (y ≥ 0) && decide (y < b.size_)

/-- The method `GameBoard::canPlaceShip`. -/
def GameBoard.canPlaceShip (b : GameBoard K) (x y length : Int) (horizontal : Bool) : Bool :=
  if !b.isValidPosition x y then false
  else if horizontal && decide (x + length > b.size_) then false
  else if !horizontal && decide (y + length > b.size_) then false
  else
    (intRange (-1) length).all fun i =>
      (intRange (-1) 1).all fun j =>
        let checkX := if horizontal then x + i else x + j
        let checkY := if horizontal then y + j else y + i
        !(b.isValidPosition checkX checkY && Grid.get 0 b.board_ checkX checkY != 0)

/-- The cell written by iteration `i` of the loop of `placeShip`. -/
def shipCell (x y : Int) (horizontal : Bool) (i : Int) : Int × Int :=
  (if horizontal then x + i else x, if horizontal then y else y + i)

/-- The method `GameBoard::placeShip`. -/
def GameBoard.placeShip (b : GameBoard K) (x y length : Int) (horizontal : Bool) :
    Bool × GameBoard K :=
  if !b.canPlaceShip x y length horizontal then (false, b)
  else
    let step : Grid Int × Ship → Int → Grid Int × Ship := fun acc i =>
      let c := shipCell x y horizontal i
      (Grid.set acc.1 c.1 c.2 1, { cells := acc.2.cells ++ [c] })
    let r := (intRange 0 (length - 1)).foldl step (b.board_, { cells := [] })
    (true, { b with board_ := r.1
                    ships_ := b.ships_ ++ [r.2]
                    remainingShips_ := b.remainingShips_ + length })

/-- The method `GameBoard::canPlaceMine`. -/
def GameBoard.canPlaceMine (b : GameBoard K) (x y : Int) : Bool :=
  if !b.isValidPosition x y || Grid.get 0 b.board_ x y != 0 then false
  else
    (intRange (-1) 1).all fun dx =>
      (intRange (-1) 1).all fun dy =>
        !(b.isValidPosition (x + dx) (y + dy) && Grid.get 0 b.board_ (x + dx) (y + dy) == 1)

/-- The method `GameBoard::placeMine`. -/
def GameBoard.placeMine (b : GameBoard K) (x y : Int) : Bool × GameBoard K :=
  if !b.canPlaceMine x y then (false, b)
  else (true, { b with board_ := Grid.set b.board_ x y 2
                       remainingMines_ := b.remainingMines_ + 1 })

/-- The method `GameBoard::markSurroundingCells`. -/
def GameBoard.markSurroundingCells (b : GameBoard K) (ship : Ship) : GameBoard K :=
  ship.cells.foldl (fun b1 c =>
    (intRange (-1) 1).foldl (fun b2 dx =>
      (intRange (-1) 1).foldl (fun b3 dy =>
        if b3.isValidPosition (c.1 + dx) (c.2 + dy)
            && Grid.get 0 b3.board_ (c.1 + dx) (c.2 + dy) == 0
        then { b3 with board_ := Grid.set b3.board_ (c.1 + dx) (c.2 + dy) 5 }
        else b3) b2) b1) b

/-- The method `GameBoard::makeShot`. The inner loop over the cells of a ship stops at the
first cell equal to `(x, y)`, so each ship containing the cell is examined once. -/
def GameBoard.makeShot (b : GameBoard K) (x y : Int) : Bool × GameBoard K :=
  if !b.isValidPosition x y then (false, b)
  else
    let b1 := { b with shotsBoard_ := Grid.set b.shotsBoard_ x y 1 }
    if Grid.get 0 b1.board_ x y == 1 then
      let b2 := { b1 with board_ := Grid.set b1.board_ x y 3
                          remainingShips_ := b1.remainingShips_ - 1 }
      let b3 := b2.ships_.foldl (fun acc ship =>
        if ship.cells.any (fun c => c.1 == x && c.2 == y) then
          if ship.isSunk acc.board_ then acc.markSurroundingCells ship else acc
        else acc) b2
      (true, b3)
    else if Grid.get 0 b1.board_ x y == 2 then
      (false, { b1 with board_ := Grid.set b1.board_ x y 4 })
    else if Grid.get 0 b1.board_ x y == 0 then
      (false, { b1 with board_ := Grid.set b1.board_ x y 5 })
    else (false, b1)

/-- The method `GameBoard::isGameOver`. -/
def GameBoard.isGameOver (b : GameBoard K) : Bool := b.remainingShips_ == 0

/-- The method `GameBoard::isVictory`. -/
def GameBoard.isVictory (b : GameBoard K) : Bool := b.remainingShips_ == 0

/-- The method `GameBoard::setInitialShipProbability`. -/
def GameBoard.setInitialShipProbability (b : GameBoard K) (prob : K) : GameBoard K :=
  { b with initialShipProb_ := prob
           shipProbabilities_ := b.shipProbabilities_.map (fun row => row.map (fun _ => prob)) }

/-- The method `GameBoard::setInitialMineProbability`. -/
def GameBoard.setInitialMineProbability (b : GameBoard K) (prob : K) : GameBoard K :=
  { b with initialMineProb_ := prob
           mineProbabilities_ := b.mineProbabilities_.map (fun row => row.map (fun _ => prob)) }

/-- The method `GameBoard::updateProbabilities`. -/
def GameBoard.updateProbabilities (F : FloatOps K) (b : GameBoard K) (x y : Int)
    (hitShip hitMine : Bool) (shipFactor mineFactor : K) : GameBoard K :=
  let b1 : GameBoard K :=
    if hitShip then
      { b with shipProbabilities_ := Grid.set b.shipProbabilities_ x y 1
               mineProbabilities_ := Grid.set b.mineProbabilities_ x y 0 }
    else if hitMine then
      { b with shipProbabilities_ := Grid.set b.shipProbabilities_ x y 0
               mineProbabilities_ := Grid.set b.mineProbabilities_ x y 1 }
    else
      { b with shipProbabilities_ := Grid.set b.shipProbabilities_ x y 0
               mineProbabilities_ := Grid.set b.mineProbabilities_ x y 0 }
  if shipFactor ≠ 0 ∨ mineFactor ≠ 0 then
    (intRange (-2) 2).foldl (fun b2 dx =>
      (intRange (-2) 2).foldl (fun b3 dy =>
        let nx := x + dx
        let ny := y + dy
        if b3.isValidPosition nx ny then
          let distance := F.sqrt (((dx * dx + dy * dy : Int) : K))
          if distance ≤ 2 then
            let factor := F.exp (-distance)
            let b4 : GameBoard K :=
              if shipFactor ≠ 0 then
                let v := max 0 (min 1 (Grid.get 0 b3.shipProbabilities_ nx ny + shipFactor * factor))
                { b3 with shipProbabilities_ := Grid.set b3.shipProbabilities_ nx ny v }
              else b3
            if mineFactor ≠ 0 then
              let w := max 0 (min 1 (Grid.get 0 b4.mineProbabilities_ nx ny + mineFactor * factor))
              { b4 with mineProbabilities_ := Grid.set b4.mineProbabilities_ nx ny w }
            else b4
          else b3
        else b3) b2) b1
  else b1

end Board

/-! ## BattleshipAlgorithm -/

/-- The data members of class `BattleshipAlgorithm`; the shared board is held by value. -/
structure BattleshipAlgorithm (K : Type) where
  board_ : GameBoard K
  maxLives_ : Int
  currentLives_ : Int
  hasLastHit : Bool
  lastHitX : Int
  lastHitY : Int
  woundedCells_ : List (Int × Int)

/-- The initialiser list `{-1, 0}, {1, 0}, {0, -1}, {0, 1}`. -/
def directions : List (Int × Int) := [(-1, 0), (1, 0), (0, -1), (0, 1)]

/-- The value `*std::min_element` of a vector whose first entry is `a`. -/
def minElement (a : Int) (l : List Int) : Int := l.foldl min a

/-- The value `*std::max_element` of a vector whose first entry is `a`. -/
def maxElement (a : Int) (l : List Int) : Int := l.foldl max a

/-- The function `getSquarePattern`. -/
def getSquarePattern (n x0 y0 size : Int) : List (Int × Int) :=
  if n = 4 then
    (intRange 0 (n - 1)).foldl (fun pattern i =>
      let p1 := if x0 + i < size ∧ y0 + i < size then pattern ++ [(x0 + i, y0 + i)] else pattern
      if x0 + n - 1 - i < size ∧ y0 + i < size then p1 ++ [(x0 + n - 1 - i, y0 + i)] else p1) []
  else if n = 3 then
    (intRange 0 (n - 1)).foldl (fun pattern i =>
      if x0 + i < size ∧ y0 + i < size then pattern ++ [(x0 + i, y0 + i)] else pattern) []
  else []

/-- The order of `std::pair<int, int>`: by first component, then by second. -/
def pairLt (a b : Int × Int) : Bool :=
  decide (a.1 < b.1) || (decide (a.1 = b.1) && decide (a.2 < b.2))

/-- The call `std::set<std::pair<int, int>>::insert` on the sorted content of the set. -/
def setInsert (c : Int × Int) : List (Int × Int) → List (Int × Int)
  | [] => [c]
  | d :: rest =>
    if pairLt c d then c :: d :: rest
    else if pairLt d c then d :: setInsert c rest
    else d :: rest

/-- The values taken by `v` in `for (int v = 0; v < size; v += n)`; `none` when the loop
never ends, which is the case for a step `n ≤ 0` on a board of positive size. -/
def strideLoop (size n : Int) : Option (List Int) :=
  if size ≤ 0 then some []
  else if n ≤ 0 then none
  else some (((List.range size.toNat).map (fun (k : Nat) => (k : Int) * n)).filter (fun v => decide (v < size)))

/-- One pass of the inner loops of `findMaxShipCandidates` along a line of cells: `cellAt i`
is the shot mark of the `i`-th cell of the line and `mk c` the candidate with centre `c`. -/
def scanLine (size maxShipLen : Int) (cellAt : Int → Int) (mk : Int → Int × Int)
    (candidates : List (Int × Int)) : List (Int × Int) :=
  ((intRange 0 (size - 1)).foldl (fun (acc : Int × List (Int × Int)) i =>
    let streak := if cellAt i = 0 then acc.1 + 1 else 0
    if streak ≥ maxShipLen then
      let center := i - Int.tdiv maxShipLen 2
      if center ≥ i - streak + 1 ∧ center ≤ i then (streak, acc.2 ++ [mk center])
      else (streak, acc.2)
    else (streak, acc.2)) (0, candidates)).2

section Engine

variable {K : Type} [LinearOrderedField K]

/-- The function `getMaxAliveShipLength`. -/
def getMaxAliveShipLength (board : GameBoard K) : Int :=
  board.ships_.foldl (fun maxLen ship =>
    if !ship.isSunk board.board_ then
      let len : Int := ship.cells.length
      if len > maxLen then len else maxLen
    else maxLen) 0

/-- The function `findMaxShipCandidates`. -/
def findMaxShipCandidates (board : GameBoard K) (maxShipLen : Int) : List (Int × Int) :=
  let size := board.size_
  let shots := board.shotsBoard_
  let horizontal := (intRange 0 (size - 1)).foldl (fun candidates y =>
    scanLine size maxShipLen (fun x => Grid.get 0 shots x y) (fun center => (center, y))
      candidates) []
  (intRange 0 (size - 1)).foldl (fun candidates x =>
    scanLine size maxShipLen (fun y => Grid.get 0 shots x y) (fun center => (x, center))
      candidates) horizontal

namespace BattleshipAlgorithm

/-- The method `BattleshipAlgorithm::initializeProbabilities`. -/
def initializeProbabilities [FloorRing K] (e : BattleshipAlgorithm K) : BattleshipAlgorithm K :=
  let size := e.board_.size_
  let totalShips : Int := ⌊(0.2 : K) * (size : K) * (size : K)⌋
  let totalMines : Int := ⌊(0.03 : K) * (size : K) * (size : K)⌋
  let initialShipProb : K := (totalShips : K) / ((size * size : Int) : K)
  let initialMineProb : K := (totalMines : K) / ((size * size : Int) : K)
  let b1 := e.board_.setInitialShipProbability initialShipProb
  { e with board_ := b1.setInitialMineProbability initialMineProb }

/-- The constructor of `BattleshipAlgorithm`. The source leaves `lastHitX` and `lastHitY`
uninitialised; they are read only once `hasLastHit` is set, and start at 0 here. -/
def new [FloorRing K] (board : GameBoard K) (maxLives : Int) : BattleshipAlgorithm K :=
  initializeProbabilities
    { board_ := board, maxLives_ := maxLives, currentLives_ := maxLives, hasLastHit := false,
      lastHitX := 0, lastHitY := 0, woundedCells_ := [] }

/-- The method `BattleshipAlgorithm::calculateRiskCoefficient`. -/
def calculateRiskCoefficient (F : FloatOps K) (e : BattleshipAlgorithm K) : K :=
  let lambdaMax : K := 2
  let lifeRatio : K := (e.currentLives_ : K) / (e.maxLives_ : K)
  lambdaMax * F.exp (-3 * lifeRatio)

/-- The method `BattleshipAlgorithm::calculateUtility`. -/
def calculateUtility (F : FloatOps K) (e : BattleshipAlgorithm K) (x y : Int) : K :=
  let shipProb := Grid.get 0 e.board_.shipProbabilities_ x y
  let mineProb := Grid.get 0 e.board_.mineProbabilities_ x y
  let lambda := calculateRiskCoefficient F e
  let neighborPenalty : K :=
    (intRange (-1) 1).foldl (fun p1 dx =>
      (intRange (-1) 1).foldl (fun p2 dy =>
        let nx := x + dx
        let ny := y + dy
        if nx ≥ 0 ∧ nx < e.board_.size_ ∧ ny ≥ 0 ∧ ny < e.board_.size_ then
          if Grid.get 0 e.board_.board_ nx ny ≠ 0 then p2 + 0.1 else p2
        else p2) p1) 0
  shipProb - lambda * mineProb - neighborPenalty

/-- The repeated block
`double utility = calculateUtility(x, y); if (utility > bestUtility) { bestUtility = utility; bestMove = {x, y}; }`.
The running pair is `(bestUtility, bestMove)`; `none` stands for the initial value −∞. -/
def consider (F : FloatOps K) (e : BattleshipAlgorithm K) (best : Option K × (Int × Int))
    (x y : Int) : Option K × (Int × Int) :=
  let utility := calculateUtility F e x y
  match best.1 with
  | none => (some utility, (x, y))
  | some bestUtility => if utility > bestUtility then (some utility, (x, y)) else best

/-- The loop over `directions` around the cell `(x, y)`, shared by `findKillMove` and
`findBestMove`: every neighbour inside the board with shot mark 0 is considered. -/
def probeNeighbours (F : FloatOps K) (e : BattleshipAlgorithm K)
    (best : Option K × (Int × Int)) (x y : Int) : Option K × (Int × Int) :=
  directions.foldl (fun acc dir =>
    let nx := x + dir.1
    let ny := y + dir.2
    if nx ≥ 0 ∧ nx < e.board_.size_ ∧ ny ≥ 0 ∧ ny < e.board_.size_ then
      if Grid.get 0 e.board_.shotsBoard_ nx ny = 0 then consider F e acc nx ny else acc
    else acc) best

/-- The method `BattleshipAlgorithm::findKillMove`. -/
def findKillMove (F : FloatOps K) (e : BattleshipAlgorithm K) : Int × Int :=
  let size := e.board_.size_
  let start : Option K × (Int × Int) := (none, (-1, -1))
  match e.woundedCells_ with
  | c0 :: c1 :: rest =>
    let wounded := c0 :: c1 :: rest
    let x0 := c0.1
    let y0 := c0.2
    let isVertical := wounded.all (fun cell => cell.1 == x0)
    let isHorizontal := wounded.all (fun cell => cell.2 == y0)
    if isVertical then
      let ys := wounded.map (fun cell => cell.2)
      let minY := minElement c0.2 ys
      let maxY := maxElement c0.2 ys
      let x := c0.1
      let r1 :=
        if minY - 1 ≥ 0 ∧ Grid.get 0 e.board_.shotsBoard_ x (minY - 1) = 0 then
          consider F e start x (minY - 1)
        else start
      let r2 :=
        if maxY + 1 < size ∧ Grid.get 0 e.board_.shotsBoard_ x (maxY + 1) = 0 then
          consider F e r1 x (maxY + 1)
        else r1
      r2.2
    else if isHorizontal then
      let xs := wounded.map (fun cell => cell.1)
      let minX := minElement c0.1 xs
      let maxX := maxElement c0.1 xs
      let y := c0.2
      let r1 :=
        if minX - 1 ≥ 0 ∧ Grid.get 0 e.board_.shotsBoard_ (minX - 1) y = 0 then
          consider F e start (minX - 1) y
        else start
      let r2 :=
        if maxX + 1 < size ∧ Grid.get 0 e.board_.shotsBoard_ (maxX + 1) y = 0 then
          consider F e r1 (maxX + 1) y
        else r1
      r2.2
    else
      (wounded.foldl (fun acc cell => probeNeighbours F e acc cell.1 cell.2) start).2
  | wounded =>
    (wounded.foldl (fun acc cell => probeNeighbours F e acc cell.1 cell.2) start).2

/-- The two inner loops of the longest-ship tier of `findBestMove` for one orientation:
`(valid, mineSum)` over the `n` cells `cellAt 0, ..., cellAt (n-1)`, where `along c` is the
coordinate compared with `size`. The loop stops at the first cell that is off the board or
already shot. -/
def lineMineSum (e : BattleshipAlgorithm K) (n : Int) (cellAt : Int → Int × Int)
    (along : Int × Int → Int) : Bool × K :=
  (intRange 0 (n - 1)).foldl (fun (acc : Bool × K) d =>
    if !acc.1 then acc
    else
      let c := cellAt d
      if along c ≥ e.board_.size_ ∨ Grid.get 0 e.board_.shotsBoard_ c.1 c.2 ≠ 0 then
        (false, acc.2)
      else (true, acc.2 + Grid.get 0 e.board_.mineProbabilities_ c.1 c.2)) (true, 0)

/-- The loop over `candidates` in `findBestMove`: the running pair is
`(minMineSum, safestCell)`, starting from `(1e9, {-1, -1})`. -/
def safestPlacement (e : BattleshipAlgorithm K) (n : Int) (candidates : List (Int × Int)) :
    K × (Int × Int) :=
  candidates.foldl (fun (acc : K × (Int × Int)) c =>
    let x := c.1
    let y := c.2
    let h := lineMineSum e n (fun d => (x + d, y)) (fun p => p.1)
    let v := lineMineSum e n (fun d => (x, y + d)) (fun p => p.2)
    let acc1 := if h.1 = true ∧ h.2 < acc.1 then (h.2, (x + Int.tdiv n 2, y)) else acc
    if v.1 = true ∧ v.2 < acc1.1 then (v.2, (x, y + Int.tdiv n 2)) else acc1)
    (1000000000, (-1, -1))

/-- The set `patternCells` of `findBestMove`, in the iteration order of `std::set`, for the
loop origins `origins` of both nested loops. -/
def patternCells (n size : Int) (origins : List Int) : List (Int × Int) :=
  origins.foldl (fun s1 y0 =>
    origins.foldl (fun s2 x0 =>
      (getSquarePattern n x0 y0 size).foldl (fun s3 cell => setInsert cell s3) s2) s1) []

/-- The last tier of `findBestMove`: the scan of the whole board, row by row. -/
def fullScan (F : FloatOps K) (e : BattleshipAlgorithm K) (best : Option K × (Int × Int)) :
    Option K × (Int × Int) :=
  (intRange 0 (e.board_.size_ - 1)).foldl (fun acc1 i =>
    (intRange 0 (e.board_.size_ - 1)).foldl (fun acc2 j =>
      if Grid.get 0 e.board_.shotsBoard_ j i = 0 then consider F e acc2 j i else acc2) acc1) best

/-- The method `BattleshipAlgorithm::findBestMove`; `none` when the pattern loops never end. -/
def findBestMove (F : FloatOps K) (e : BattleshipAlgorithm K) : Option (Int × Int) :=
  let start : Option K × (Int × Int) := (none, (-1, -1))
  if !e.woundedCells_.isEmpty ∧ (findKillMove F e).1 ≠ -1 then some (findKillMove F e)
  else
    let size := e.board_.size_
    let n := getMaxAliveShipLength e.board_
    let best1 := if e.hasLastHit then probeNeighbours F e start e.lastHitX e.lastHitY else start
    let best2 : Option K × (Int × Int) :=
      if best1.2.1 = -1 then
        let r := safestPlacement e n (findMaxShipCandidates e.board_ n)
        let minMineSum := r.1
        let safestCell := r.2
        let mineThreshold : K := 0.5 * (n : K)
        if e.currentLives_ ≤ 2 ∧ minMineSum > mineThreshold then best1
        else if safestCell.1 ≠ -1 then (best1.1, safestCell)
        else best1
      else best1
    if best2.2.1 = -1 then
      match strideLoop size n with
      | none => none
      | some origins =>
        let best3 := (patternCells n size origins).foldl (fun acc c =>
          if Grid.get 0 e.board_.shotsBoard_ c.1 c.2 = 0 then consider F e acc c.1 c.2
          else acc) best2
        let best4 := if best3.2.1 = -1 then fullScan F e best3 else best3
        some best4.2
    else some best2.2

/-- The method `BattleshipAlgorithm::updateProbabilities`. -/
def updateProbabilities (F : FloatOps K) (e : BattleshipAlgorithm K) (x y : Int)
    (hitShip hitMine : Bool) : BattleshipAlgorithm K :=
  let size := e.board_.size_
  let b0 := e.board_.updateProbabilities F x y hitShip hitMine 0 0
  let b := (intRange (-2) 2).foldl (fun b1 dx =>
    (intRange (-2) 2).foldl (fun (b2 : GameBoard K) dy =>
      let nx := x + dx
      let ny := y + dy
      if nx ≥ 0 ∧ nx < size ∧ ny ≥ 0 ∧ ny < size then
        let distance := F.sqrt (((dx * dx + dy * dy : Int) : K))
        if distance ≤ 2 then
          let factor := F.exp (-distance)
          let b3 :=
            if hitShip = true ∧ ((dx = 0 ∧ dy ≠ 0) ∨ (dx ≠ 0 ∧ dy = 0)) then
              b2.updateProbabilities F nx ny false false (factor * 0.7) 0
            else b2
          if hitMine then b3.updateProbabilities F nx ny false false 0 (factor * 0.3) else b3
        else b2
      else b2) b1) b0
  { e with board_ := b }

/-- The part of `makeMove` after the cell `(x, y)` has been chosen: the shot and the
bookkeeping that follows it. -/
def fireAt (F : FloatOps K) (e : BattleshipAlgorithm K) (x y : Int) :
    Bool × BattleshipAlgorithm K :=
  let shot := e.board_.makeShot x y
  let hit := shot.1
  let e0 := { e with board_ := shot.2 }
  if hit then
    let e1 := { e0 with hasLastHit := true, lastHitX := x, lastHitY := y }
    let alreadyWounded := e1.woundedCells_.any (fun cell => cell.1 == x && cell.2 == y)
    let e2 := if !alreadyWounded then { e1 with woundedCells_ := e1.woundedCells_ ++ [(x, y)] }
              else e1
    let e3 := updateProbabilities F e2 x y true false
    let w := e3.board_.ships_.foldl (fun w ship =>
      let allHit := ship.cells.all (fun cell => Grid.get 0 e3.board_.board_ cell.1 cell.2 == 3)
      if allHit then ship.cells.foldl (fun w1 cell => w1.filter (fun c => c != cell)) w
      else w) e3.woundedCells_
    (hit, { e3 with woundedCells_ := w })
  else if Grid.get 0 e0.board_.board_ x y == 4 then
    (hit, updateProbabilities F { e0 with currentLives_ := e0.currentLives_ - 1 } x y false true)
  else
    (hit, updateProbabilities F e0 x y false false)

/-- The method `BattleshipAlgorithm::makeMove`; `none` when `findBestMove` never returns. -/
def makeMove (F : FloatOps K) (e : BattleshipAlgorithm K) :
    Option (Bool × BattleshipAlgorithm K) :=
  if e.currentLives_ ≤ 0 then some (false, e)
  else
    match findBestMove F e with
    | none => none
    | some (x, y) =>
      if x = -1 ∨ y = -1 then some (false, e)
      else some (fireAt F e x y)

/-- The method `BattleshipAlgorithm::getCurrentLives`. -/
def getCurrentLives (e : BattleshipAlgorithm K) : Int := e.currentLives_

end BattleshipAlgorithm

end Engine

/-! ## Evaluation on small inputs -/

/-- A rational stand-in for `std::exp` and `std::sqrt`, used to run the engine on `ℚ`:
`exp` by the first terms of its series, `sqrt` exact on 0, 1 and 4 and 3/2 in between. -/
def ratOps : FloatOps ℚ :=
  { exp := fun q => 1 + q + q * q / 2 + q * q * q / 6
    sqrt := fun q => if q ≤ 0 then 0 else if q = 1 then 1 else if q < 4 then 3 / 2
                     else if q = 4 then 2 else 3 }


/-! ## The driver (`main.cpp`) -/

section Driver

variable (K : Type) [LinearOrderedField K] [FloorRing K]

/-- The struct `ShipType` of the driver. -/
structure ShipType where
  length : Int
  count : Int
deriving DecidableEq

/-- The conversion `static_cast<int>` of a `double`: truncation toward zero. -/
def truncate {K : Type} [LinearOrderedField K] [FloorRing K] (q : K) : Int :=
  if 0 ≤ q then ⌊q⌋ else ⌈q⌉

/-- The function `calculateShipCount` of the driver. -/
def calculateShipCount (size : Int) : Int :=
  truncate (((⌊(0.2 : K) * (size : K) * (size : K)⌋ : Int) : K))

/-- The function `calculateFleet` of the driver. The running pair of the loop over
`baseFleet` is `(usedDecks, fleet)`. -/
def calculateFleet (size : Int) : List ShipType :=
  let area : Int := size * size
  let totalDecks : Int := truncate ((area : K) * 0.2 + 0.5)
  let baseFleet : List ShipType := [⟨4, 1⟩, ⟨3, 2⟩, ⟨2, 3⟩]
  let scale0 : Int := Int.tdiv size 10
  let scale : Int := if scale0 < 1 then 1 else scale0
  let r := baseFleet.foldl (fun (acc : Int × List ShipType) ship =>
    let newCount := ship.count * scale
    let newLength0 := ship.length * scale
    let newLength := if newLength0 > size then size else newLength0
    (acc.1 + newCount * newLength, acc.2 ++ [⟨newLength, newCount⟩])) (0, [])
  let singleShips := totalDecks - r.1
  if singleShips > 0 then r.2 ++ [⟨1, singleShips⟩] else r.2

/-- The total number of ship cells of a fleet: the sum of length × count over its entries. -/
def fleetCells (fleet : List ShipType) : Int :=
  (fleet.map (fun s => s.length * s.count)).sum

end Driver

section LoopBodies

variable {K : Type} [LinearOrderedField K]

/-- The body of the two nested loops of `GameBoard::updateProbabilities` for the offsets
`(dx, dy)` around `(x, y)`, on the running board `b3`. -/
def GameBoard.boostCell (F : FloatOps K) (shipFactor mineFactor : K) (x y : Int)
    (b3 : GameBoard K) (dx dy : Int) : GameBoard K :=
  let nx := x + dx
  let ny := y + dy
  if b3.isValidPosition nx ny then
    let distance := F.sqrt (((dx * dx + dy * dy : Int) : K))
    if distance ≤ 2 then
      let factor := F.exp (-distance)
      let b4 : GameBoard K :=
        if shipFactor ≠ 0 then
          let v := max 0 (min 1 (Grid.get 0 b3.shipProbabilities_ nx ny + shipFactor * factor))
          { b3 with shipProbabilities_ := Grid.set b3.shipProbabilities_ nx ny v }
        else b3
      if mineFactor ≠ 0 then
        let w := max 0 (min 1 (Grid.get 0 b4.mineProbabilities_ nx ny + mineFactor * factor))
        { b4 with mineProbabilities_ := Grid.set b4.mineProbabilities_ nx ny w }
      else b4
    else b3
  else b3

/-- The body of the two nested loops of `BattleshipAlgorithm::updateProbabilities` for the
offsets `(dx, dy)` around `(x, y)`, on the running board `b2` of size `size`. -/
def BattleshipAlgorithm.spreadCell (F : FloatOps K) (size x y : Int) (hitShip hitMine : Bool)
    (b2 : GameBoard K) (dx dy : Int) : GameBoard K :=
  let nx := x + dx
  let ny := y + dy
  if nx ≥ 0 ∧ nx < size ∧ ny ≥ 0 ∧ ny < size then
    let distance := F.sqrt (((dx * dx + dy * dy : Int) : K))
    if distance ≤ 2 then
      let factor := F.exp (-distance)
      let b3 :=
        if hitShip = true ∧ ((dx = 0 ∧ dy ≠ 0) ∨ (dx ≠ 0 ∧ dy = 0)) then
          b2.updateProbabilities F nx ny false false (factor * 0.7) 0
        else b2
      if hitMine then b3.updateProbabilities F nx ny false false 0 (factor * 0.3) else b3
    else b2
  else b2

end LoopBodies

/-! ## Vocabulary of the properties -/

section Vocabulary

variable {K : Type}

/-- The state of cell `(x, y)`: the entry `board_[y][x]`. -/
def GameBoard.cell (b : GameBoard K) (x y : Int) : Int := Grid.get 0 b.board_ x y

/-- The shot record at `(x, y)`: the entry `shotsBoard_[y][x]`. -/
def GameBoard.shot (b : GameBoard K) (x y : Int) : Int := Grid.get 0 b.shotsBoard_ x y

/-- The cell `(x, y)` lies on the board. -/
def GameBoard.inside (b : GameBoard K) (x y : Int) : Prop :=
  (0 ≤ x ∧ x < b.size_) ∧ (0 ≤ y ∧ y < b.size_)

/-- The four grids of the board have `size_` rows of `size_` entries, as the constructor
builds them. -/
def GameBoard.WF (b : GameBoard K) : Prop :=
  Grid.Square b.size_ b.board_ ∧ Grid.Square b.size_ b.shotsBoard_ ∧
    Grid.Square b.size_ b.shipProbabilities_ ∧ Grid.Square b.size_ b.mineProbabilities_

instance {α : Type} (n : Int) (g : Grid α) : Decidable (Grid.Square n g) := by
  unfold Grid.Square
  infer_instance

instance (b : GameBoard K) : Decidable b.WF := by
  unfold GameBoard.WF
  infer_instance

/-- The cell `c` is `d` itself or one of its eight neighbours. -/
def touches (c d : Int × Int) : Prop :=
  (d.1 - 1 ≤ c.1 ∧ c.1 ≤ d.1 + 1) ∧ (d.2 - 1 ≤ c.2 ∧ c.2 ≤ d.2 + 1)

instance (c d : Int × Int) : Decidable (touches c d) := by
  unfold touches
  infer_instance

instance (b : GameBoard K) (x y : Int) : Decidable (b.inside x y) := by
  unfold GameBoard.inside
  infer_instance

end Vocabulary

section ShotVocabulary

variable {K : Type}

/-- The board right after `makeShot` has written the shot mark and turned the intact ship
cell `(x, y)` into a hit one, before the loop over the ships. -/
def GameBoard.afterHit (b : GameBoard K) (x y : Int) : GameBoard K :=
  { b with shotsBoard_ := Grid.set b.shotsBoard_ x y 1
           board_ := Grid.set b.board_ x y 3
           remainingShips_ := b.remainingShips_ - 1 }

/-- The body of the loop over `ships_` in `makeShot`. -/
def GameBoard.sinkStep (x y : Int) (acc : GameBoard K) (ship : Ship) : GameBoard K :=
  if ship.cells.any (fun c => c.1 == x && c.2 == y) then
    if ship.isSunk acc.board_ then acc.markSurroundingCells ship else acc
  else acc

/-- What a run of `Empty → Miss` writes may do to a board `b`: only `board_` differs, it stays
square, and each cell is as before or went from 0 to 5. -/
def GameBoard.Revealed (b acc : GameBoard K) : Prop :=
  acc = { b with board_ := acc.board_ } ∧ Grid.Square b.size_ acc.board_ ∧
    ∀ x y, acc.cell x y = b.cell x y ∨ (b.cell x y = 0 ∧ acc.cell x y = 5)

end ShotVocabulary

section PlacementVocabulary

variable {K : Type}

/-- The cells pushed by the loop of `placeShip`, in order. -/
def shipCells (x y length : Int) (horizontal : Bool) : List (Int × Int) :=
  (intRange 0 (length - 1)).map (shipCell x y horizontal)

/-- The calls a driver makes on a board. -/
inductive BoardOp where
  | placeShip (x y length : Int) (horizontal : Bool)
  | placeMine (x y : Int)
  | makeShot (x y : Int)
deriving DecidableEq

/-- The call is a placement. -/
def BoardOp.isPlacement : BoardOp → Bool
  | .placeShip _ _ _ _ => true
  | .placeMine _ _ => true
  | .makeShot _ _ => false

/-- A ship placement asks for a length of at least 1. -/
def BoardOp.lengthOk : BoardOp → Bool
  | .placeShip _ _ length _ => decide (1 ≤ length)
  | _ => true

end PlacementVocabulary

section Runs

variable {K : Type} [LinearOrderedField K]

/-- The board after one call, whatever the call returned. -/
def GameBoard.apply (b : GameBoard K) : BoardOp → GameBoard K
  | .placeShip x y length horizontal => (b.placeShip x y length horizontal).2
  | .placeMine x y => (b.placeMine x y).2
  | .makeShot x y => (b.makeShot x y).2

/-- The board after a sequence of calls. -/
def GameBoard.run (b : GameBoard K) (ops : List BoardOp) : GameBoard K :=
  ops.foldl GameBoard.apply b

end Runs

section SoundVocabulary

variable {K : Type}

/-- No cell of `s` is a cell of `t` or one of the eight neighbours of a cell of `t`. -/
def separated (s t : Ship) : Prop :=
  ∀ c ∈ s.cells, ∀ d ∈ t.cells, ¬ touches c d

/-- What holds of every board a driver can build: grids of the right shape, ship cells that
read `ShipIntact` or `ShipHit`, ships that keep apart, mines that keep apart from intact ship
cells, and triggered mines that are marked in the shot record. -/
def GameBoard.Sound (b : GameBoard K) : Prop :=
  b.WF ∧
  (∀ s ∈ b.ships_, ∀ c ∈ s.cells, b.cell c.1 c.2 = 1 ∨ b.cell c.1 c.2 = 3) ∧
  b.ships_.Pairwise separated ∧
  (∀ m s : Int × Int, b.cell m.1 m.2 = 2 → b.cell s.1 s.2 = 1 → ¬ touches m s) ∧
  (∀ x y, b.cell x y = 4 → b.shot x y = 1)

end SoundVocabulary

section CountVocabulary

variable {K : Type}

/-- The cells of the board in state `ShipIntact`. -/
def GameBoard.intactCells (b : GameBoard K) : Finset (Int × Int) :=
  ((Finset.Icc 0 (b.size_ - 1)) ×ˢ (Finset.Icc 0 (b.size_ - 1))).filter
    (fun q => b.cell q.1 q.2 = 1)

/-- The number of cells of the board in state `ShipIntact`. -/
def GameBoard.intactCount (b : GameBoard K) : Nat := b.intactCells.card

end CountVocabulary

section SingleShipVocabulary

variable {K : Type}

/-- The state of a board whose only ship has the cells `cells`, of which exactly those in
`todo` are still intact and the others hit, with the counter at the length of `todo`. -/
def GameBoard.SingleShip (b : GameBoard K) (cells todo : List (Int × Int)) : Prop :=
  b.WF ∧ b.ships_ = [{ cells := cells }] ∧ todo.Nodup ∧
  (∀ c ∈ todo, c ∈ cells) ∧
  (∀ c ∈ cells, b.inside c.1 c.2 ∧ (c ∈ todo → b.cell c.1 c.2 = 1) ∧
    (c ∉ todo → b.cell c.1 c.2 = 3)) ∧
  b.remainingShips_ = (todo.length : Int)

/-- The calls `makeShot` on the cells of a list, in order. -/
def shotsAt (cells : List (Int × Int)) : List BoardOp :=
  cells.map (fun c => BoardOp.makeShot c.1 c.2)

end SingleShipVocabulary

section SameGameVocabulary

variable {K : Type}

/-- The board `b2` differs from `b` in the likelihood grids at most, and these keep their
shape. -/
def GameBoard.SameGame (b b2 : GameBoard K) : Prop :=
  b2.size_ = b.size_ ∧ b2.board_ = b.board_ ∧ b2.shotsBoard_ = b.shotsBoard_ ∧
  b2.ships_ = b.ships_ ∧ b2.remainingShips_ = b.remainingShips_ ∧
  b2.remainingMines_ = b.remainingMines_ ∧
  (Grid.Square b.size_ b.shipProbabilities_ → Grid.Square b.size_ b2.shipProbabilities_) ∧
  (Grid.Square b.size_ b.mineProbabilities_ → Grid.Square b.size_ b2.mineProbabilities_)

end SameGameVocabulary

section EngineVocabulary

variable {K : Type}

/-- A legal target: a cell of the board that is not marked in the shot record. -/
def BattleshipAlgorithm.Fresh (e : BattleshipAlgorithm K) (m : Int × Int) : Prop :=
  e.board_.inside m.1 m.2 ∧ e.board_.shot m.1 m.2 = 0

/-- A running best move is the no-move value or a legal target. -/
def BattleshipAlgorithm.Good (e : BattleshipAlgorithm K) (m : Int × Int) : Prop :=
  m = (-1, -1) ∨ e.Fresh m

/-- What holds of every engine state: the board is sound and the wounded cells lie on it. -/
def BattleshipAlgorithm.OK (e : BattleshipAlgorithm K) : Prop :=
  e.board_.Sound ∧ ∀ c ∈ e.woundedCells_, e.board_.inside c.1 c.2

end EngineVocabulary

section EngineRuns

variable {K : Type} [LinearOrderedField K]

/-- The cell `makeMove` fires at, if it fires: lives are left and `findBestMove` returns a
cell other than the no-move value. -/
def BattleshipAlgorithm.firedCell (F : FloatOps K) (e : BattleshipAlgorithm K) :
    Option (Int × Int) :=
  if e.currentLives_ ≤ 0 then none
  else
    match BattleshipAlgorithm.findBestMove F e with
    | none => none
    | some (x, y) => if x = -1 ∨ y = -1 then none else some (x, y)

/-- The engine states of a game: the engine is constructed on a board built by any sequence
of board calls, and then moves. -/
inductive BattleshipAlgorithm.Reachable [FloorRing K] (F : FloatOps K) :
    BattleshipAlgorithm K → Prop where
  | start (size : Int) (ops : List BoardOp) (maxLives : Int) :
      BattleshipAlgorithm.Reachable F
        (BattleshipAlgorithm.new ((GameBoard.new size : GameBoard K).run ops) maxLives)
  | move (e : BattleshipAlgorithm K) (hit : Bool) (e2 : BattleshipAlgorithm K) :
      BattleshipAlgorithm.Reachable F e → BattleshipAlgorithm.makeMove F e = some (hit, e2) →
      BattleshipAlgorithm.Reachable F e2

end EngineRuns

/-! ## Sample boards -/

/-- A 10×10 board with one horizontal ship of length 4 at row 5 starting at column 2. -/
def demoBoard : GameBoard ℚ := ((GameBoard.new 10).placeShip 2 5 4 true).2

/-- The board `demoBoard` after the shots at (2,5), (3,5) and (4,5). -/
def demoBoard3 : GameBoard ℚ :=
  (((demoBoard.makeShot 2 5).2.makeShot 3 5).2.makeShot 4 5).2

/-- Two ship placements on a 10×10 board. -/
def demoTwoShips : List BoardOp :=
  [BoardOp.placeShip 2 5 4 true, BoardOp.placeShip 0 0 2 false]

/-- A ship placement, a mine placement and a shot on a 10×10 board. -/
def demoGame : List BoardOp :=
  [BoardOp.placeShip 2 5 4 true, BoardOp.placeMine 0 0, BoardOp.makeShot 2 5]

/-- The cells of the ship of `demoBoard`, in the order of the end-to-end scenario. -/
def demoShots : List (Int × Int) := [(2, 5), (3, 5), (4, 5), (5, 5)]

/-- A 3×3 board with one mine at (0,0) and an engine with three lives on it. -/
def demoMineEngine : BattleshipAlgorithm ℚ :=
  BattleshipAlgorithm.new ((GameBoard.new 3 : GameBoard ℚ).run [BoardOp.placeMine 0 0]) 3

/-- An engine state on an unshot 5×5 board with the wounded cells (3,2) and (3,3). -/
def demoKill : BattleshipAlgorithm ℚ :=
  { board_ := GameBoard.new 5, maxLives_ := 3, currentLives_ := 3, hasLastHit := true,
    lastHitX := 3, lastHitY := 3, woundedCells_ := [(3, 2), (3, 3)] }

/-- An engine state with the given lives on an empty 3×3 board. -/
def demoLives (K : Type) [LinearOrderedField K] (maxLives currentLives : Int) :
    BattleshipAlgorithm K :=
  { board_ := GameBoard.new 3, maxLives_ := maxLives, currentLives_ := currentLives,
    hasLastHit := false, lastHitX := 0, lastHitY := 0, woundedCells_ := [] }

/-- An engine with three lives constructed on a 1×1 board whose only cell has been shot. -/
def demoFullEngine : BattleshipAlgorithm ℚ :=
  BattleshipAlgorithm.new ((GameBoard.new 1 : GameBoard ℚ).run [BoardOp.makeShot 0 0]) 3

/-- A 5×5 board with one ship on the cells (1,0), (2,0), (3,0). -/
def demoRowOps : List BoardOp := [BoardOp.placeShip 1 0 3 true]

/-- An engine with three lives constructed on the board of `demoRowOps`. -/
def demoRowEngine : BattleshipAlgorithm ℚ :=
  BattleshipAlgorithm.new ((GameBoard.new 5 : GameBoard ℚ).run demoRowOps) 3

/-- An engine with three lives constructed on a 1×1 board whose only cell holds a mine. -/
def demoOneMine : BattleshipAlgorithm ℚ :=
  BattleshipAlgorithm.new ((GameBoard.new 1 : GameBoard ℚ).run [BoardOp.placeMine 0 0]) 3

/-- A 5×5 board with a one-cell ship on (2,0) and a ship on (0,4), (1,4), (2,4). -/
def demoStaleOps : List BoardOp :=
  [BoardOp.placeShip 2 0 1 true, BoardOp.placeShip 0 4 3 true]

/-- An engine with three lives constructed on the board of `demoStaleOps`. -/
def demoStaleStart : BattleshipAlgorithm ℚ :=
  BattleshipAlgorithm.new ((GameBoard.new 5 : GameBoard ℚ).run demoStaleOps) 3

/-- The state of `demoStaleStart` after its first move, the shot at (2,0) that sinks the
one-cell ship. -/
def demoStaleHit : BattleshipAlgorithm ℚ :=
  (BattleshipAlgorithm.fireAt ratOps demoStaleStart 2 0).2

/-- The state after the second move, the shot at (1,0), a miss. -/
def demoStaleMiss : BattleshipAlgorithm ℚ :=
  (BattleshipAlgorithm.fireAt ratOps demoStaleHit 1 0).2

/-- The state of `demoRowEngine` after its first move, the hit at (2,0). -/
def demoRowHit : BattleshipAlgorithm ℚ :=
  (BattleshipAlgorithm.fireAt ratOps demoRowEngine 2 0).2

/-- The state after the second move, the hit at (1,0). -/
def demoRowTwo : BattleshipAlgorithm ℚ :=
  (BattleshipAlgorithm.fireAt ratOps demoRowHit 1 0).2

section SettledVocabulary

variable {K : Type}

/-- Every cell marked in the shot record carries the mark 1 and a resolved state: it is not
`Empty`, `ShipIntact` or `Mine`. -/
def GameBoard.Settled (b : GameBoard K) : Prop :=
  ∀ x y, b.shot x y ≠ 0 → b.shot x y = 1 ∧ b.cell x y ≠ 0 ∧ b.cell x y ≠ 1 ∧ b.cell x y ≠ 2

end SettledVocabulary

section UnitVocabulary

variable {K : Type} [LinearOrderedField K]

/-- Every entry of the grid lies in the interval [0, 1]. -/
def Grid.Unit (g : Grid K) : Prop :=
  ∀ row ∈ g, ∀ p ∈ (row : List K), 0 ≤ p ∧ p ≤ 1

/-- Both likelihood grids of the board have all their entries in [0, 1]. -/
def GameBoard.UnitGrids (b : GameBoard K) : Prop :=
  Grid.Unit b.shipProbabilities_ ∧ Grid.Unit b.mineProbabilities_

end UnitVocabulary

section WoundedVocabulary

variable {K : Type}

/-- Every cell in state `ShipIntact` or `ShipHit` is a cell of a registered ship. -/
def GameBoard.Manned (b : GameBoard K) : Prop :=
  ∀ x y, b.cell x y = 1 ∨ b.cell x y = 3 → ∃ s ∈ b.ships_, (x, y) ∈ s.cells

/-- The wounded list holds, each once, exactly the cells in state `ShipHit` that belong to a
registered ship that is not sunk. -/
def BattleshipAlgorithm.WoundedExact (e : BattleshipAlgorithm K) : Prop :=
  e.woundedCells_.Nodup ∧
  ∀ c : Int × Int, c ∈ e.woundedCells_ ↔
    (e.board_.cell c.1 c.2 = ShipHit ∧
      ∃ s ∈ e.board_.ships_, c ∈ s.cells ∧ s.isSunk e.board_.board_ = false)

end WoundedVocabulary

section PlaysVocabulary

variable {K : Type} [LinearOrderedField K]

/-- The engine states reached from the state `e0` by `makeMove` calls that return. -/
inductive BattleshipAlgorithm.Plays (F : FloatOps K) (e0 : BattleshipAlgorithm K) :
    BattleshipAlgorithm K → Prop where
  | start : BattleshipAlgorithm.Plays F e0 e0
  | move (e : BattleshipAlgorithm K) (hit : Bool) (e2 : BattleshipAlgorithm K) :
      BattleshipAlgorithm.Plays F e0 e → BattleshipAlgorithm.makeMove F e = some (hit, e2) →
      BattleshipAlgorithm.Plays F e0 e2

end PlaysVocabulary

section WindowVocabulary

variable {K : Type}

/-- The number of cells of the 3×3 window centred on `(x, y)` that lie on the board and whose
state is not `Empty`: the cells the loops of `calculateUtility` charge 0.1 for. -/
def BattleshipAlgorithm.occupiedNeighbours (e : BattleshipAlgorithm K) (x y : Int) : Nat :=
  ((intRange (-1) 1).map (fun dx => (intRange (-1) 1).countP (fun dy =>
    decide ((x + dx ≥ 0 ∧ x + dx < e.board_.size_ ∧ y + dy ≥ 0 ∧ y + dy < e.board_.size_) ∧
      Grid.get 0 e.board_.board_ (x + dx) (y + dy) ≠ 0)))).sum

/-- The number of cells of the 3×3 window centred on `(x, y)` that lie on the board and have
already been shot: the count the specification charges 0.1 for. -/
def BattleshipAlgorithm.shotNeighbours (e : BattleshipAlgorithm K) (x y : Int) : Nat :=
  ((intRange (-1) 1).map (fun dx => (intRange (-1) 1).countP (fun dy =>
    decide ((x + dx ≥ 0 ∧ x + dx < e.board_.size_ ∧ y + dy ≥ 0 ∧ y + dy < e.board_.size_) ∧
      Grid.get 0 e.board_.shotsBoard_ (x + dx) (y + dy) ≠ 0)))).sum

end WindowVocabulary

section ViewVocabulary

variable {K : Type}

/-- The lengths of the ships that are not sunk, in the order of the ship list. -/
def GameBoard.unsunkLengths (b : GameBoard K) : List Nat :=
  (b.ships_.filter (fun s => !s.isSunk b.board_)).map (fun s => s.cells.length)

/-- The two engine states show the same to an observer: the boards have the same size and the
same shot record, every cell whose state is resolved (`ShipHit`, `MineTriggered` or `Miss`)
on one board has the same state on the other, the unsunk ships have the same lengths, both
likelihood grids agree, and so do lives, last hit and wounded list. The boards may differ in
the unshot cells in state `Empty`, `ShipIntact` or `Mine` only. -/
def BattleshipAlgorithm.SameView (e1 e2 : BattleshipAlgorithm K) : Prop :=
  e1.board_.size_ = e2.board_.size_ ∧
  e1.board_.shotsBoard_ = e2.board_.shotsBoard_ ∧
  (∀ x ∈ intRange 0 (e1.board_.size_ - 1), ∀ y ∈ intRange 0 (e1.board_.size_ - 1),
    (3 ≤ e1.board_.cell x y ∨ 3 ≤ e2.board_.cell x y) →
      e1.board_.cell x y = e2.board_.cell x y) ∧
  e1.board_.unsunkLengths = e2.board_.unsunkLengths ∧
  e1.board_.shipProbabilities_ = e2.board_.shipProbabilities_ ∧
  e1.board_.mineProbabilities_ = e2.board_.mineProbabilities_ ∧
  e1.maxLives_ = e2.maxLives_ ∧ e1.currentLives_ = e2.currentLives_ ∧
  e1.hasLastHit = e2.hasLastHit ∧ e1.lastHitX = e2.lastHitX ∧ e1.lastHitY = e2.lastHitY ∧
  e1.woundedCells_ = e2.woundedCells_

instance [DecidableEq K] (e1 e2 : BattleshipAlgorithm K) : Decidable (e1.SameView e2) := by
  unfold BattleshipAlgorithm.SameView
  infer_instance

/-- Every entry of the grid of mine likelihoods is 0. -/
def GameBoard.NoMineLikelihood [Zero K] (b : GameBoard K) : Prop :=
  ∀ row ∈ b.mineProbabilities_, ∀ p ∈ (row : List K), p = 0

instance [Zero K] [DecidableEq K] (b : GameBoard K) : Decidable b.NoMineLikelihood := by
  unfold GameBoard.NoMineLikelihood
  infer_instance

end ViewVocabulary

section ViewDemo

/-- An engine with three lives on a 3×3 board whose ship lies on the row `y = 0`. -/
def demoTopEngine : BattleshipAlgorithm ℚ :=
  BattleshipAlgorithm.new ((GameBoard.new 3 : GameBoard ℚ).run [BoardOp.placeShip 0 0 3 true]) 3

/-- An engine with three lives on a 3×3 board whose ship lies on the row `y = 2`. -/
def demoBottomEngine : BattleshipAlgorithm ℚ :=
  BattleshipAlgorithm.new ((GameBoard.new 3 : GameBoard ℚ).run [BoardOp.placeShip 0 2 3 true]) 3

/-- The state of `demoTopEngine` after its first move, the shot at (1,1). -/
def demoTopAfter : BattleshipAlgorithm ℚ :=
  (BattleshipAlgorithm.fireAt ratOps demoTopEngine 1 1).2

/-- The state of `demoBottomEngine` after its first move, the shot at (1,1). -/
def demoBottomAfter : BattleshipAlgorithm ℚ :=
  (BattleshipAlgorithm.fireAt ratOps demoBottomEngine 1 1).2

end ViewDemo

section ProbeVocabulary

variable {K : Type}

/-- The orthogonal neighbours of `(x, y)` that lie on the board and are not marked in the shot
record, in the order left, right, up, down of `directions`. -/
def BattleshipAlgorithm.freshNeighbours (e : BattleshipAlgorithm K) (x y : Int) :
    List (Int × Int) :=
  (directions.map (fun dir => (x + dir.1, y + dir.2))).filter (fun c =>
    decide ((c.1 ≥ 0 ∧ c.1 < e.board_.size_ ∧ c.2 ≥ 0 ∧ c.2 < e.board_.size_) ∧
      Grid.get 0 e.board_.shotsBoard_ c.1 c.2 = 0))

end ProbeVocabulary

section ProbeDemo

/-- An engine state on an unshot 5×5 board with the single wounded cell (0,2). -/
def demoOneWounded : BattleshipAlgorithm ℚ :=
  { board_ := GameBoard.new 5, maxLives_ := 3, currentLives_ := 3, hasLastHit := true,
    lastHitX := 0, lastHitY := 2, woundedCells_ := [(0, 2)] }

end ProbeDemo

section SegmentVocabulary

variable {K : Type}

/-- Every registered ship holds the cells a `placeShip` call wrote: a line of cells. -/
def GameBoard.Lined (b : GameBoard K) : Prop :=
  ∀ s ∈ b.ships_, ∃ x y length horizontal, s.cells = shipCells x y length horizontal

/-- The wounded cells are the cells number `lo` to `hi` of the registered ship `s`, which was
placed at `(x, y)` with the given length and orientation. -/
def BattleshipAlgorithm.SegmentOf (e : BattleshipAlgorithm K) (s : Ship) (x y length : Int)
    (horizontal : Bool) (lo hi : Int) : Prop :=
  s ∈ e.board_.ships_ ∧ s.cells = shipCells x y length horizontal ∧
  0 ≤ lo ∧ lo ≤ hi ∧ hi < length ∧
  ∀ c : Int × Int, c ∈ e.woundedCells_ ↔ ∃ i, lo ≤ i ∧ i ≤ hi ∧ c = shipCell x y horizontal i

/-- The wounded list is empty or holds a run of consecutive cells of one registered ship. -/
def BattleshipAlgorithm.Segment (e : BattleshipAlgorithm K) : Prop :=
  e.woundedCells_ = [] ∨
  ∃ s x y length horizontal lo hi, e.SegmentOf s x y length horizontal lo hi

/-- The cell `m` is one of the four orthogonal neighbours of `w`. -/
def orthogonal (m w : Int × Int) : Prop :=
  m = (w.1 - 1, w.2) ∨ m = (w.1 + 1, w.2) ∨ m = (w.1, w.2 - 1) ∨ m = (w.1, w.2 + 1)

end SegmentVocabulary

/-! ## Grid lemmas -/

theorem Grid.get_set_ne {α : Type} (d : α) (g : Grid α) (x y a b : Int) (v : α)
    (h : ¬ (a = x ∧ b = y)) : Grid.get d (Grid.set g x y v) a b = Grid.get d g a b := by
  unfold Grid.get Grid.set
  by_cases hab : 0 ≤ a ∧ 0 ≤ b
  · by_cases hxy : 0 ≤ x ∧ 0 ≤ y
    · simp only [hab, hxy, and_self, if_true]
      by_cases hb : b = y
      · subst hb
        have hax : a.toNat ≠ x.toNat := by
          intro hc; apply h; constructor
          · omega
          · rfl
        simp only [List.getD_eq_getElem?_getD, List.getElem?_set]
        by_cases hlen : b.toNat < g.length
        · simp [hlen, List.getElem?_set, Ne.symm hax]
        · have hnone : g[b.toNat]? = none := List.getElem?_eq_none (by omega)
          simp [hlen, hnone]
      · have hby : y.toNat ≠ b.toNat := by omega
        simp only [List.getD_eq_getElem?_getD, List.getElem?_set, hby, if_false]
    · simp [hxy]
  · simp [hab]

theorem Grid.row_length {α : Type} (g : Grid α) (n : Int) (k : Nat)
    (hg : Grid.Square n g) (hk : k < g.length) : (g.getD k []).length = n.toNat := by
  apply hg.2
  rw [List.getD_eq_getElem?_getD, List.getElem?_eq_getElem hk]
  simp

theorem Grid.get_set_self {α : Type} (d : α) (g : Grid α) (n x y : Int) (v : α)
    (hg : Grid.Square n g) (hx : 0 ≤ x ∧ x < n) (hy : 0 ≤ y ∧ y < n) :
    Grid.get d (Grid.set g x y v) x y = v := by
  have h1 : y.toNat < g.length := by have := hg.1; omega
  have h2 := Grid.row_length g n y.toNat hg h1
  have h3 : x.toNat < (g.getD y.toNat []).length := by omega
  unfold Grid.get Grid.set
  simp only [hx.1, hy.1, and_self, if_true, List.getD_eq_getElem?_getD, List.getElem?_set, h1]
  rw [List.getD_eq_getElem?_getD] at h3
  simp [h3]

theorem Grid.square_set {α : Type} (g : Grid α) (n x y : Int) (v : α)
    (hg : Grid.Square n g) : Grid.Square n (Grid.set g x y v) := by
  unfold Grid.set
  split
  · refine ⟨by simpa using hg.1, ?_⟩
    intro row hmem
    rcases List.mem_or_eq_of_mem_set hmem with h | h
    · exact hg.2 row h
    · subst h
      rw [List.length_set]
      by_cases h1 : y.toNat < g.length
      · exact Grid.row_length g n y.toNat hg h1
      · rw [List.set_eq_of_length_le (by omega)] at hmem
        exact (List.length_set _ _ _) ▸ hg.2 _ hmem
  · exact hg

theorem Grid.square_fill {α : Type} (n : Int) (v : α) : Grid.Square n (Grid.fill n v) := by
  unfold Grid.Square Grid.fill
  refine ⟨by simp, ?_⟩
  intro row hmem
  rw [List.mem_replicate] at hmem
  simp [hmem.2]

theorem Grid.get_fill {α : Type} (d : α) (n : Int) (v : α) (x y : Int)
    (hx : 0 ≤ x ∧ x < n) (hy : 0 ≤ y ∧ y < n) : Grid.get d (Grid.fill n v) x y = v := by
  unfold Grid.get Grid.fill
  have h1 : y.toNat < n.toNat := by omega
  have h2 : x.toNat < n.toNat := by omega
  simp [hx.1, hy.1, List.getD_eq_getElem?_getD, List.getElem?_replicate, h1, h2]

theorem mem_intRange (lo hi i : Int) : i ∈ intRange lo hi ↔ lo ≤ i ∧ i ≤ hi := by
  unfold intRange
  simp only [List.mem_map, List.mem_range]
  constructor
  · rintro ⟨k, hk, rfl⟩
    have hk2 : (k : Int) < hi + 1 - lo := by omega
    constructor <;> omega
  · intro h
    refine ⟨(i - lo).toNat, ?_, ?_⟩
    · omega
    · have : ((i - lo).toNat : Int) = i - lo := Int.toNat_of_nonneg (by omega)
      omega


theorem Grid.get_outside {α : Type} (d : α) (g : Grid α) (n x y : Int)
    (hg : Grid.Square n g) (h : ¬ ((0 ≤ x ∧ x < n) ∧ (0 ≤ y ∧ y < n))) :
    Grid.get d g x y = d := by
  unfold Grid.get
  split
  · rename_i h0
    rw [List.getD_eq_getElem?_getD, List.getD_eq_getElem?_getD]
    by_cases hy : y.toNat < g.length
    · have hrow := Grid.row_length g n y.toNat hg hy
      rw [List.getD_eq_getElem?_getD] at hrow
      have hx : (g[y.toNat]?.getD []).length ≤ x.toNat := by
        rw [hrow]
        have := hg.1
        omega
      rw [List.getElem?_eq_none hx]
      rfl
    · have hnone : g[y.toNat]? = none := List.getElem?_eq_none (by omega)
      rw [hnone]
      rfl
  · rfl

theorem foldl_inv {α β : Type} (I : β → Prop) (f : β → α → β) (l : List α) (init : β)
    (h0 : I init) (hstep : ∀ b a, a ∈ l → I b → I (f b a)) : I (l.foldl f init) := by
  induction l generalizing init with
  | nil => exact h0
  | cons a l ih =>
    exact ih (f init a) (hstep init a (List.mem_cons_self a l) h0)
      (fun b x hx hb => hstep b x (List.mem_cons_of_mem a hx) hb)

theorem foldl_establish {α β : Type} (I J : β → Prop) (f : β → α → β) (l : List α) (init : β)
    (a : α) (ha : a ∈ l) (h0 : I init) (hI : ∀ b x, x ∈ l → I b → I (f b x))
    (hest : ∀ b, I b → J (f b a)) (hpres : ∀ b x, x ∈ l → I b → J b → J (f b x)) :
    J (l.foldl f init) := by
  induction l generalizing init with
  | nil => cases ha
  | cons c l ih =>
    have hI2 : ∀ b x, x ∈ l → I b → I (f b x) :=
      fun b x hx hb => hI b x (List.mem_cons_of_mem c hx) hb
    have hp2 : ∀ b x, x ∈ l → I b → J b → J (f b x) :=
      fun b x hx hb => hpres b x (List.mem_cons_of_mem c hx) hb
    have hIc : I (f init c) := hI init c (List.mem_cons_self c l) h0
    rcases List.mem_cons.mp ha with h | h
    · subst h
      have hJ : J (f init a) := hest init h0
      have : I (List.foldl f (f init a) l) ∧ J (List.foldl f (f init a) l) := by
        refine foldl_inv (fun b => I b ∧ J b) f l (f init a) ⟨hIc, hJ⟩ ?_
        intro b x hx hb
        exact ⟨hI2 b x hx hb.1, hp2 b x hx hb.1 hb.2⟩
      exact this.2
    · exact ih (f init c) h hIc hI2 hp2

section BoardLemmas

variable {K : Type}

theorem GameBoard.isValidPosition_iff (b : GameBoard K) (x y : Int) :
    b.isValidPosition x y = true ↔ (0 ≤ x ∧ x < b.size_) ∧ (0 ≤ y ∧ y < b.size_) := by
  unfold GameBoard.isValidPosition
  simp only [Bool.and_eq_true, decide_eq_true_eq, ge_iff_le]
  tauto

theorem GameBoard.get_ne_zero_inside (b : GameBoard K) (hb : Grid.Square b.size_ b.board_)
    (x y : Int) (h : Grid.get 0 b.board_ x y ≠ 0) :
    (0 ≤ x ∧ x < b.size_) ∧ (0 ≤ y ∧ y < b.size_) := by
  by_contra hc
  exact h (Grid.get_outside 0 b.board_ b.size_ x y hb hc)

end BoardLemmas

section MarkLemmas

variable {K : Type}

theorem GameBoard.revealed_refl (b : GameBoard K) (hb : Grid.Square b.size_ b.board_) :
    GameBoard.Revealed b b :=
  ⟨rfl, hb, fun _ _ => Or.inl rfl⟩

theorem GameBoard.revealed_step (b acc : GameBoard K) (x y : Int)
    (h : GameBoard.Revealed b acc) :
    GameBoard.Revealed b
      (if acc.isValidPosition x y && Grid.get 0 acc.board_ x y == 0
        then { acc with board_ := Grid.set acc.board_ x y 5 } else acc) := by
  obtain ⟨hframe, hsq, hcells⟩ := h
  split
  · rename_i hc
    simp only [Bool.and_eq_true, beq_iff_eq] at hc
    obtain ⟨hv, h0⟩ := hc
    have hsize : acc.size_ = b.size_ := by rw [hframe]
    rw [GameBoard.isValidPosition_iff, hsize] at hv
    refine ⟨?_, Grid.square_set _ _ _ _ _ hsq, ?_⟩
    · rw [hframe]
    · intro a c
      by_cases hac : a = x ∧ c = y
      · obtain ⟨rfl, rfl⟩ := hac
        right
        constructor
        · rcases hcells a c with h1 | h1
          · rw [← h1]; exact h0
          · exact h1.1
        · exact Grid.get_set_self 0 acc.board_ b.size_ a c 5 hsq hv.1 hv.2
      · have : GameBoard.cell { acc with board_ := Grid.set acc.board_ x y 5 } a c
            = acc.cell a c := Grid.get_set_ne 0 acc.board_ x y a c 5 hac
        rw [this]
        exact hcells a c
  · exact ⟨hframe, hsq, hcells⟩

theorem GameBoard.revealed_mark (b acc : GameBoard K) (ship : Ship)
    (h : GameBoard.Revealed b acc) : GameBoard.Revealed b (acc.markSurroundingCells ship) := by
  unfold GameBoard.markSurroundingCells
  refine foldl_inv (GameBoard.Revealed b) _ _ _ h ?_
  intro b1 c _ h1
  refine foldl_inv (GameBoard.Revealed b) _ _ _ h1 ?_
  intro b2 dx _ h2
  refine foldl_inv (GameBoard.Revealed b) _ _ _ h2 ?_
  intro b3 dy _ h3
  exact GameBoard.revealed_step b b3 (c.1 + dx) (c.2 + dy) h3

theorem GameBoard.revealed_trans (b b1 b2 : GameBoard K) (h1 : GameBoard.Revealed b b1)
    (h2 : GameBoard.Revealed b1 b2) : GameBoard.Revealed b b2 := by
  obtain ⟨hf1, hs1, hc1⟩ := h1
  obtain ⟨hf2, hs2, hc2⟩ := h2
  have hsize : b1.size_ = b.size_ := by rw [hf1]
  refine ⟨?_, hsize ▸ hs2, ?_⟩
  · rw [hf2, hf1]
  · intro x y
    rcases hc2 x y with h | h
    · rw [h]; exact hc1 x y
    · rcases hc1 x y with h' | h'
      · right; exact ⟨h' ▸ h.1, h.2⟩
      · rw [h'.2] at h; exact absurd h.1 (by decide)

theorem GameBoard.step_keeps (acc : GameBoard K) (x y a c : Int) (h : acc.cell x y ≠ 0) :
    GameBoard.cell (if acc.isValidPosition a c && Grid.get 0 acc.board_ a c == 0
        then { acc with board_ := Grid.set acc.board_ a c 5 } else acc) x y ≠ 0 := by
  split
  · rename_i hc
    simp only [Bool.and_eq_true, beq_iff_eq] at hc
    have hne : ¬ (x = a ∧ y = c) := by
      rintro ⟨rfl, rfl⟩
      exact h hc.2
    have : GameBoard.cell { acc with board_ := Grid.set acc.board_ a c 5 } x y = acc.cell x y :=
      Grid.get_set_ne 0 acc.board_ a c x y 5 hne
    rw [this]
    exact h
  · exact h

theorem GameBoard.mark_keeps (acc : GameBoard K) (ship : Ship) (x y : Int)
    (h : acc.cell x y ≠ 0) : (acc.markSurroundingCells ship).cell x y ≠ 0 := by
  unfold GameBoard.markSurroundingCells
  refine foldl_inv (fun (a : GameBoard K) => a.cell x y ≠ 0) _ _ _ h ?_
  intro b1 c _ h1
  refine foldl_inv (fun (a : GameBoard K) => a.cell x y ≠ 0) _ _ _ h1 ?_
  intro b2 dx _ h2
  refine foldl_inv (fun (a : GameBoard K) => a.cell x y ≠ 0) _ _ _ h2 ?_
  intro b3 dy _ h3
  exact GameBoard.step_keeps b3 x y (c.1 + dx) (c.2 + dy) h3

/-- After `markSurroundingCells`, every cell on the board that was `Empty` and touches a cell
of the ship reads `Miss`. -/
theorem GameBoard.mark_neighbour (b : GameBoard K) (hb : Grid.Square b.size_ b.board_)
    (ship : Ship) (c : Int × Int) (hc : c ∈ ship.cells) (x y : Int)
    (ht : touches (x, y) c) (hin : b.inside x y) (h0 : b.cell x y = 0) :
    (b.markSurroundingCells ship).cell x y = 5 := by
  have hne : (b.markSurroundingCells ship).cell x y ≠ 0 := by
    unfold GameBoard.markSurroundingCells
    refine foldl_establish (GameBoard.Revealed b) (fun (acc : GameBoard K) => acc.cell x y ≠ 0) _ _ _ c hc
      (GameBoard.revealed_refl b hb) ?_ ?_ ?_
    · intro b1 c1 _ h1
      exact GameBoard.revealed_mark b b1 ⟨[c1]⟩ h1
    · intro b1 h1
      have hdx : x - c.1 ∈ intRange (-1) 1 := by
        rw [mem_intRange]; unfold touches at ht; simp only at ht; omega
      have hdy : y - c.2 ∈ intRange (-1) 1 := by
        rw [mem_intRange]; unfold touches at ht; simp only at ht; omega
      refine foldl_establish (GameBoard.Revealed b) (fun (acc : GameBoard K) => acc.cell x y ≠ 0) _ _ _
        (x - c.1) hdx h1 ?_ ?_ ?_
      · intro b2 dx _ h2
        refine foldl_inv (GameBoard.Revealed b) _ _ _ h2 ?_
        intro b3 dy _ h3
        exact GameBoard.revealed_step b b3 (c.1 + dx) (c.2 + dy) h3
      · intro b2 h2
        refine foldl_establish (GameBoard.Revealed b) (fun (acc : GameBoard K) => acc.cell x y ≠ 0) _ _ _
          (y - c.2) hdy h2 ?_ ?_ ?_
        · intro b3 dy _ h3
          exact GameBoard.revealed_step b b3 (c.1 + (x - c.1)) (c.2 + dy) h3
        · intro b3 h3
          have e1 : c.1 + (x - c.1) = x := by omega
          have e2 : c.2 + (y - c.2) = y := by omega
          rw [e1, e2]
          obtain ⟨hframe, hsq, _⟩ := h3
          have hsize : b3.size_ = b.size_ := by rw [hframe]
          split
          · rw [GameBoard.cell]
            show Grid.get 0 (Grid.set b3.board_ x y 5) x y ≠ 0
            rw [Grid.get_set_self 0 b3.board_ b.size_ x y 5 hsq hin.1 hin.2]
            decide
          · rename_i hcnd
            intro hz
            apply hcnd
            simp only [Bool.and_eq_true, beq_iff_eq]
            refine ⟨?_, hz⟩
            rw [GameBoard.isValidPosition_iff, hsize]
            exact hin
        · intro b3 dy _ _ h3
          exact GameBoard.step_keeps b3 x y _ _ h3
      · intro b2 dx _ _ h2
        refine foldl_inv (fun (a : GameBoard K) => a.cell x y ≠ 0) _ _ _ h2 ?_
        intro b3 dy _ h3
        exact GameBoard.step_keeps b3 x y _ _ h3
    · intro b1 c1 _ _ hJ
      exact GameBoard.mark_keeps b1 ⟨[c1]⟩ x y hJ
  rcases (GameBoard.revealed_mark b b ship (GameBoard.revealed_refl b hb)).2.2 x y with h | h
  · exact absurd (h ▸ h0) hne
  · exact h.2

end MarkLemmas

section ShotLemmas

variable {K : Type}

theorem Ship.isSunk_congr (s : Ship) (g g2 : Grid Int)
    (h : ∀ c ∈ s.cells, (Grid.get 0 g c.1 c.2 = 3 ↔ Grid.get 0 g2 c.1 c.2 = 3)) :
    s.isSunk g = s.isSunk g2 := by
  unfold Ship.isSunk
  rw [Bool.eq_iff_iff]
  simp only [List.all_eq_true, beq_iff_eq]
  constructor
  · intro hh c hc
    exact (h c hc).mp (hh c hc)
  · intro hh c hc
    exact (h c hc).mpr (hh c hc)

theorem GameBoard.revealed_isSunk_eq (b acc : GameBoard K) (h : GameBoard.Revealed b acc)
    (s : Ship) : s.isSunk acc.board_ = s.isSunk b.board_ := by
  apply Ship.isSunk_congr
  intro c _
  have := h.2.2 c.1 c.2
  unfold GameBoard.cell at this
  omega

theorem GameBoard.makeShot_outside (b : GameBoard K) (x y : Int) (h : ¬ b.inside x y) :
    b.makeShot x y = (false, b) := by
  unfold GameBoard.makeShot
  have : b.isValidPosition x y = false := by
    rw [← Bool.not_eq_true, GameBoard.isValidPosition_iff]
    exact h
  simp [this]

theorem GameBoard.makeShot_hit (b : GameBoard K) (x y : Int) (hin : b.inside x y)
    (h1 : b.cell x y = 1) :
    b.makeShot x y = (true, b.ships_.foldl (GameBoard.sinkStep x y) (b.afterHit x y)) := by
  unfold GameBoard.makeShot
  have hv : b.isValidPosition x y = true := (GameBoard.isValidPosition_iff b x y).mpr hin
  unfold GameBoard.cell at h1
  simp only [hv, Bool.not_true, Bool.false_eq_true, if_false, h1, beq_self_eq_true, if_true]
  rfl

theorem GameBoard.makeShot_mine (b : GameBoard K) (x y : Int) (hin : b.inside x y)
    (h1 : b.cell x y = 2) :
    b.makeShot x y = (false, { b with shotsBoard_ := Grid.set b.shotsBoard_ x y 1
                                      board_ := Grid.set b.board_ x y 4 }) := by
  unfold GameBoard.makeShot
  have hv : b.isValidPosition x y = true := (GameBoard.isValidPosition_iff b x y).mpr hin
  unfold GameBoard.cell at h1
  simp [hv, h1]

theorem GameBoard.makeShot_empty (b : GameBoard K) (x y : Int) (hin : b.inside x y)
    (h1 : b.cell x y = 0) :
    b.makeShot x y = (false, { b with shotsBoard_ := Grid.set b.shotsBoard_ x y 1
                                      board_ := Grid.set b.board_ x y 5 }) := by
  unfold GameBoard.makeShot
  have hv : b.isValidPosition x y = true := (GameBoard.isValidPosition_iff b x y).mpr hin
  unfold GameBoard.cell at h1
  simp [hv, h1]

theorem GameBoard.makeShot_other (b : GameBoard K) (x y : Int) (hin : b.inside x y)
    (h0 : b.cell x y ≠ 0) (h1 : b.cell x y ≠ 1) (h2 : b.cell x y ≠ 2) :
    b.makeShot x y = (false, { b with shotsBoard_ := Grid.set b.shotsBoard_ x y 1 }) := by
  unfold GameBoard.makeShot
  have hv : b.isValidPosition x y = true := (GameBoard.isValidPosition_iff b x y).mpr hin
  unfold GameBoard.cell at h0 h1 h2
  simp [hv, h0, h1, h2]

theorem GameBoard.revealed_sink (b : GameBoard K) (x y : Int)
    (hb : Grid.Square b.size_ b.board_) :
    GameBoard.Revealed (b.afterHit x y)
      (b.ships_.foldl (GameBoard.sinkStep x y) (b.afterHit x y)) := by
  have hsq : Grid.Square (b.afterHit x y).size_ (b.afterHit x y).board_ :=
    Grid.square_set _ _ _ _ _ hb
  refine foldl_inv (GameBoard.Revealed (b.afterHit x y)) _ _ _
    (GameBoard.revealed_refl _ hsq) ?_
  intro acc ship _ hacc
  unfold GameBoard.sinkStep
  split
  · split
    · exact GameBoard.revealed_mark _ acc ship hacc
    · exact hacc
  · exact hacc

/-- When no ship through `(x, y)` is completed by the hit, the loop over the ships changes
nothing. -/
theorem GameBoard.sink_none (b : GameBoard K) (x y : Int)
    (h : ∀ s ∈ b.ships_, (x, y) ∈ s.cells → s.isSunk (b.afterHit x y).board_ = false) :
    b.ships_.foldl (GameBoard.sinkStep x y) (b.afterHit x y) = b.afterHit x y := by
  refine foldl_inv (fun (acc : GameBoard K) => acc = b.afterHit x y) _ _ _ rfl ?_
  intro acc ship hs hacc
  subst hacc
  unfold GameBoard.sinkStep
  split
  · rename_i hany
    have hmem : (x, y) ∈ ship.cells := by
      rw [List.any_eq_true] at hany
      obtain ⟨c, hc, hxy⟩ := hany
      simp only [Bool.and_eq_true, beq_iff_eq] at hxy
      have : c = (x, y) := Prod.ext hxy.1 hxy.2
      exact this ▸ hc
    simp [h ship hs hmem]
  · rfl

/-- When the hit completes the ship `s`, every cell on the board that read `Empty` and
touches a cell of `s` reads `Miss` after the loop over the ships. -/
theorem GameBoard.sink_reveals (b : GameBoard K) (x y : Int)
    (hb : Grid.Square b.size_ b.board_) (s : Ship) (hs : s ∈ b.ships_)
    (hxy : (x, y) ∈ s.cells) (hsunk : s.isSunk (b.afterHit x y).board_ = true)
    (c : Int × Int) (hc : c ∈ s.cells) (u v : Int) (ht : touches (u, v) c)
    (hin : b.inside u v) :
    (b.ships_.foldl (GameBoard.sinkStep x y) (b.afterHit x y)).cell u v ≠ 0 := by
  have hsq : Grid.Square (b.afterHit x y).size_ (b.afterHit x y).board_ :=
    Grid.square_set _ _ _ _ _ hb
  refine foldl_establish (GameBoard.Revealed (b.afterHit x y))
    (fun (acc : GameBoard K) => acc.cell u v ≠ 0) _ _ _ s hs
    (GameBoard.revealed_refl _ hsq) ?_ ?_ ?_
  · intro acc ship _ hacc
    unfold GameBoard.sinkStep
    split
    · split
      · exact GameBoard.revealed_mark _ acc ship hacc
      · exact hacc
    · exact hacc
  · intro acc hacc
    have hany : s.cells.any (fun c => c.1 == x && c.2 == y) = true := by
      rw [List.any_eq_true]
      exact ⟨(x, y), hxy, by simp⟩
    have hsk : s.isSunk acc.board_ = true := by
      rw [GameBoard.revealed_isSunk_eq _ acc hacc s]; exact hsunk
    unfold GameBoard.sinkStep
    simp only [hany, hsk, if_true]
    have hsize : acc.size_ = b.size_ := by rw [hacc.1]; rfl
    by_cases h0 : acc.cell u v = 0
    · have := GameBoard.mark_neighbour acc (hsize ▸ hacc.2.1) s c hc u v ht
        (by unfold GameBoard.inside; rw [hsize]; exact hin) h0
      rw [this]; decide
    · exact GameBoard.mark_keeps acc s u v h0
  · intro acc ship _ _ hJ
    unfold GameBoard.sinkStep
    split
    · split
      · exact GameBoard.mark_keeps acc ship u v hJ
      · exact hJ
    · exact hJ

theorem GameBoard.makeShot_frame (b : GameBoard K) (x y : Int) (hin : b.inside x y)
    (hb : Grid.Square b.size_ b.board_) :
    (b.makeShot x y).2 =
      { b with shotsBoard_ := Grid.set b.shotsBoard_ x y 1
               board_ := (b.makeShot x y).2.board_
               remainingShips_ := (b.makeShot x y).2.remainingShips_ } := by
  by_cases h1 : b.cell x y = 1
  · rw [GameBoard.makeShot_hit b x y hin h1]
    have h := (GameBoard.revealed_sink b x y hb).1
    simp only
    generalize b.ships_.foldl (GameBoard.sinkStep x y) (b.afterHit x y) = r at h ⊢
    rw [h]
    rfl
  · by_cases h2 : b.cell x y = 2
    · rw [GameBoard.makeShot_mine b x y hin h2]
    · by_cases h0 : b.cell x y = 0
      · rw [GameBoard.makeShot_empty b x y hin h0]
      · rw [GameBoard.makeShot_other b x y hin h0 h1 h2]

end ShotLemmas

section PlaceLemmas

variable {K : Type}

theorem Grid.foldl_set_square {α : Type} (n : Int) (v : α) (L : List (Int × Int))
    (g : Grid α) (hg : Grid.Square n g) :
    Grid.Square n (L.foldl (fun g c => Grid.set g c.1 c.2 v) g) :=
  foldl_inv (Grid.Square n) _ _ _ hg (fun g c _ h => Grid.square_set g n c.1 c.2 v h)

theorem Grid.get_foldl_set {α : Type} (d : α) (n : Int) (v : α) (L : List (Int × Int))
    (g : Grid α) (hg : Grid.Square n g)
    (hL : ∀ c ∈ L, (0 ≤ c.1 ∧ c.1 < n) ∧ (0 ≤ c.2 ∧ c.2 < n)) (a b : Int) :
    Grid.get d (L.foldl (fun g c => Grid.set g c.1 c.2 v) g) a b
      = if (a, b) ∈ L then v else Grid.get d g a b := by
  induction L generalizing g with
  | nil => simp
  | cons c L ih =>
    rw [List.foldl_cons, ih (Grid.set g c.1 c.2 v) (Grid.square_set g n c.1 c.2 v hg)
      (fun c2 h2 => hL c2 (List.mem_cons_of_mem c h2))]
    by_cases hmem : (a, b) ∈ L
    · simp [hmem]
    · by_cases hc : (a, b) = c
      · subst hc
        have hin := hL (a, b) (List.mem_cons_self _ _)
        simp only [hmem, if_false, List.mem_cons, true_or, if_true]
        exact Grid.get_set_self d g n a b v hg hin.1 hin.2
      · have hne : ¬ (a = c.1 ∧ b = c.2) := fun hh => hc (Prod.ext hh.1 hh.2)
        simp only [hmem, if_false, List.mem_cons, hc, or_self]
        exact Grid.get_set_ne d g c.1 c.2 a b v hne

theorem placeShip_fold (x y : Int) (horizontal : Bool) (l : List Int) (g : Grid Int)
    (cs : List (Int × Int)) :
    l.foldl (fun (acc : Grid Int × Ship) i =>
        (Grid.set acc.1 (shipCell x y horizontal i).1 (shipCell x y horizontal i).2 1,
          ({ cells := acc.2.cells ++ [shipCell x y horizontal i] } : Ship))) (g, { cells := cs })
      = ((l.map (shipCell x y horizontal)).foldl (fun g c => Grid.set g c.1 c.2 1) g,
          { cells := cs ++ l.map (shipCell x y horizontal) }) := by
  induction l generalizing g cs with
  | nil => simp
  | cons i l ih =>
    rw [List.foldl_cons, ih]
    simp

theorem GameBoard.placeShip_reject (b : GameBoard K) (x y length : Int) (horizontal : Bool)
    (h : b.canPlaceShip x y length horizontal = false) :
    b.placeShip x y length horizontal = (false, b) := by
  unfold GameBoard.placeShip
  simp [h]

theorem GameBoard.placeShip_accept (b : GameBoard K) (x y length : Int) (horizontal : Bool)
    (h : b.canPlaceShip x y length horizontal = true) :
    b.placeShip x y length horizontal =
      (true, { b with
        board_ := (shipCells x y length horizontal).foldl (fun g c => Grid.set g c.1 c.2 1) b.board_
        ships_ := b.ships_ ++ [{ cells := shipCells x y length horizontal }]
        remainingShips_ := b.remainingShips_ + length }) := by
  unfold GameBoard.placeShip
  simp only [h, Bool.not_true, Bool.false_eq_true, if_false]
  rw [placeShip_fold]
  simp [shipCells]

theorem mem_shipCells (x y length : Int) (horizontal : Bool) (c : Int × Int) :
    c ∈ shipCells x y length horizontal ↔
      ∃ i, 0 ≤ i ∧ i < length ∧ c = shipCell x y horizontal i := by
  unfold shipCells
  simp only [List.mem_map, mem_intRange]
  constructor
  · rintro ⟨i, hi, rfl⟩
    exact ⟨i, hi.1, by omega, rfl⟩
  · rintro ⟨i, h0, h1, rfl⟩
    exact ⟨i, ⟨h0, by omega⟩, rfl⟩

theorem GameBoard.canPlaceShip_scan (b : GameBoard K) (x y length : Int) (horizontal : Bool) :
    ((intRange (-1) length).all fun i =>
      (intRange (-1) 1).all fun j =>
        !(b.isValidPosition (if horizontal then x + i else x + j)
            (if horizontal then y + j else y + i)
          && Grid.get 0 b.board_ (if horizontal then x + i else x + j)
            (if horizontal then y + j else y + i) != 0)) = true ↔
      ∀ i, -1 ≤ i ∧ i ≤ length → ∀ j, -1 ≤ j ∧ j ≤ 1 →
        b.inside (if horizontal then x + i else x + j) (if horizontal then y + j else y + i) →
        b.cell (if horizontal then x + i else x + j) (if horizontal then y + j else y + i) = 0 := by
  simp only [List.all_eq_true, mem_intRange]
  constructor
  · intro h i hi j hj hin
    have h1 := h i hi j hj
    by_contra hne
    have hv := (GameBoard.isValidPosition_iff b _ _).mpr hin
    unfold GameBoard.cell at hne
    simp [hv, hne] at h1
  · intro h i hi j hj
    by_cases hv : b.isValidPosition (if horizontal then x + i else x + j)
        (if horizontal then y + j else y + i) = true
    · have h0 := h i hi j hj ((GameBoard.isValidPosition_iff b _ _).mp hv)
      unfold GameBoard.cell at h0
      simp [h0]
    · simp [hv]

theorem GameBoard.canPlaceShip_iff (b : GameBoard K) (x y length : Int) (horizontal : Bool) :
    b.canPlaceShip x y length horizontal = true ↔
      b.inside x y ∧ (horizontal = true → x + length ≤ b.size_) ∧
      (horizontal = false → y + length ≤ b.size_) ∧
      ∀ i, -1 ≤ i ∧ i ≤ length → ∀ j, -1 ≤ j ∧ j ≤ 1 →
        b.inside (if horizontal then x + i else x + j) (if horizontal then y + j else y + i) →
        b.cell (if horizontal then x + i else x + j) (if horizontal then y + j else y + i) = 0 := by
  unfold GameBoard.canPlaceShip
  by_cases h1 : (!b.isValidPosition x y) = true
  · rw [if_pos h1]
    simp only [Bool.false_eq_true, false_iff]
    rintro ⟨hin, _⟩
    have := (GameBoard.isValidPosition_iff b x y).mpr hin
    simp [this] at h1
  · rw [if_neg h1]
    have hv : b.isValidPosition x y = true := by simpa using h1
    have hin := (GameBoard.isValidPosition_iff b x y).mp hv
    by_cases h2 : (horizontal && decide (x + length > b.size_)) = true
    · rw [if_pos h2]
      simp only [Bool.false_eq_true, false_iff]
      rintro ⟨_, hh, _⟩
      simp only [Bool.and_eq_true, decide_eq_true_eq] at h2
      have := hh h2.1
      omega
    · rw [if_neg h2]
      by_cases h3 : (!horizontal && decide (y + length > b.size_)) = true
      · rw [if_pos h3]
        simp only [Bool.false_eq_true, false_iff]
        rintro ⟨_, _, hh, _⟩
        simp only [Bool.and_eq_true, decide_eq_true_eq, Bool.not_eq_true'] at h3
        have := hh h3.1
        omega
      · rw [if_neg h3]
        refine Iff.trans (GameBoard.canPlaceShip_scan b x y length horizontal) ?_
        constructor
        · intro h
          refine ⟨hin, ?_, ?_, h⟩
          · intro hh
            simp only [hh, Bool.true_and, decide_eq_true_eq] at h2
            omega
          · intro hh
            simp only [hh, Bool.not_false, Bool.true_and, decide_eq_true_eq] at h3
            omega
        · rintro ⟨_, _, _, h⟩
          exact h

end PlaceLemmas

section PlaceLemmas2

variable {K : Type}

theorem GameBoard.canPlaceMine_iff (b : GameBoard K) (x y : Int) :
    b.canPlaceMine x y = true ↔
      b.inside x y ∧ b.cell x y = 0 ∧
      ∀ dx, -1 ≤ dx ∧ dx ≤ 1 → ∀ dy, -1 ≤ dy ∧ dy ≤ 1 →
        b.inside (x + dx) (y + dy) → b.cell (x + dx) (y + dy) ≠ 1 := by
  unfold GameBoard.canPlaceMine
  by_cases h1 : (!b.isValidPosition x y || Grid.get 0 b.board_ x y != 0) = true
  · rw [if_pos h1]
    simp only [Bool.false_eq_true, false_iff]
    rintro ⟨hin, h0, _⟩
    have := (GameBoard.isValidPosition_iff b x y).mpr hin
    unfold GameBoard.cell at h0
    simp [this, h0] at h1
  · rw [if_neg h1]
    simp only [Bool.or_eq_true, Bool.not_eq_true', bne_iff_ne, ne_eq, not_or,
      Bool.not_eq_false, Decidable.not_not] at h1
    have hin := (GameBoard.isValidPosition_iff b x y).mp h1.1
    simp only [List.all_eq_true, mem_intRange]
    constructor
    · intro h
      refine ⟨hin, h1.2, ?_⟩
      intro dx hdx dy hdy hinn hc
      have h2 := h dx hdx dy hdy
      have hv := (GameBoard.isValidPosition_iff b _ _).mpr hinn
      unfold GameBoard.cell at hc
      simp [hv, hc] at h2
    · rintro ⟨_, _, h⟩ dx hdx dy hdy
      by_cases hv : b.isValidPosition (x + dx) (y + dy) = true
      · have := h dx hdx dy hdy ((GameBoard.isValidPosition_iff b _ _).mp hv)
        unfold GameBoard.cell at this
        simp [this]
      · simp [hv]

theorem GameBoard.placeMine_reject (b : GameBoard K) (x y : Int)
    (h : b.canPlaceMine x y = false) : b.placeMine x y = (false, b) := by
  unfold GameBoard.placeMine
  simp [h]

theorem GameBoard.placeMine_accept (b : GameBoard K) (x y : Int)
    (h : b.canPlaceMine x y = true) :
    b.placeMine x y = (true, { b with board_ := Grid.set b.board_ x y 2
                                      remainingMines_ := b.remainingMines_ + 1 }) := by
  unfold GameBoard.placeMine
  simp [h]

/-- A mine is accepted only where no touching cell on the board holds an intact ship. -/
theorem GameBoard.canPlaceMine_clear (b : GameBoard K) (x y : Int)
    (h : b.canPlaceMine x y = true) (u v : Int) (ht : touches (x, y) (u, v))
    (hin : b.inside u v) : b.cell u v ≠ 1 := by
  obtain ⟨_, _, hscan⟩ := (GameBoard.canPlaceMine_iff b x y).mp h
  unfold touches at ht
  simp only at ht
  have := hscan (u - x) (by omega) (v - y) (by omega)
  have e1 : x + (u - x) = u := by omega
  have e2 : y + (v - y) = v := by omega
  rw [e1, e2] at this
  exact this hin

/-- The cells of an accepted ship lie on the board. -/
theorem GameBoard.canPlaceShip_inside (b : GameBoard K) (x y length : Int) (horizontal : Bool)
    (h : b.canPlaceShip x y length horizontal = true) (c : Int × Int)
    (hc : c ∈ shipCells x y length horizontal) : b.inside c.1 c.2 := by
  obtain ⟨hin, hh, hv, _⟩ := (GameBoard.canPlaceShip_iff b x y length horizontal).mp h
  obtain ⟨i, h0, h1, rfl⟩ := (mem_shipCells x y length horizontal c).mp hc
  unfold GameBoard.inside at hin ⊢
  unfold shipCell
  cases horizontal
  · have := hv rfl
    simp only [Bool.false_eq_true, if_false]
    omega
  · have := hh rfl
    simp only [if_true]
    omega

/-- An accepted ship has only `Empty` cells on the board at and around its cells. -/
theorem GameBoard.canPlaceShip_clear (b : GameBoard K) (x y length : Int) (horizontal : Bool)
    (h : b.canPlaceShip x y length horizontal = true) (c : Int × Int)
    (hc : c ∈ shipCells x y length horizontal) (u v : Int) (ht : touches (u, v) c)
    (hin : b.inside u v) : b.cell u v = 0 := by
  obtain ⟨_, _, _, hscan⟩ := (GameBoard.canPlaceShip_iff b x y length horizontal).mp h
  obtain ⟨i, h0, h1, rfl⟩ := (mem_shipCells x y length horizontal c).mp hc
  unfold touches shipCell at ht
  cases horizontal
  · simp only [Bool.false_eq_true, if_false] at ht hscan
    have := hscan (v - y) (by omega) (u - x) (by omega)
    have e1 : x + (u - x) = u := by omega
    have e2 : y + (v - y) = v := by omega
    rw [e1, e2] at this
    exact this hin
  · simp only [if_true] at ht hscan
    have := hscan (u - x) (by omega) (v - y) (by omega)
    have e1 : x + (u - x) = u := by omega
    have e2 : y + (v - y) = v := by omega
    rw [e1, e2] at this
    exact this hin

theorem touches_self (c : Int × Int) : touches c c := by
  unfold touches
  omega

theorem touches_symm (c d : Int × Int) (h : touches c d) : touches d c := by
  unfold touches at h ⊢
  omega

/-- The state of every cell after an accepted `placeShip`. -/
theorem GameBoard.placeShip_cell (b : GameBoard K) (hb : Grid.Square b.size_ b.board_)
    (x y length : Int) (horizontal : Bool)
    (h : b.canPlaceShip x y length horizontal = true) (u v : Int) :
    (b.placeShip x y length horizontal).2.cell u v =
      if (u, v) ∈ shipCells x y length horizontal then 1 else b.cell u v := by
  rw [GameBoard.placeShip_accept b x y length horizontal h]
  exact Grid.get_foldl_set 0 b.size_ 1 _ b.board_ hb
    (fun c hc => GameBoard.canPlaceShip_inside b x y length horizontal h c hc) u v

theorem GameBoard.placeShip_square (b : GameBoard K) (hb : Grid.Square b.size_ b.board_)
    (x y length : Int) (horizontal : Bool) :
    Grid.Square b.size_ (b.placeShip x y length horizontal).2.board_ := by
  by_cases h : b.canPlaceShip x y length horizontal = true
  · rw [GameBoard.placeShip_accept b x y length horizontal h]
    exact Grid.foldl_set_square b.size_ 1 _ b.board_ hb
  · rw [GameBoard.placeShip_reject b x y length horizontal (by simpa using h)]
    exact hb

/-- The state of every cell after an accepted `placeMine`. -/
theorem GameBoard.placeMine_cell (b : GameBoard K) (hb : Grid.Square b.size_ b.board_)
    (x y : Int) (h : b.canPlaceMine x y = true) (u v : Int) :
    (b.placeMine x y).2.cell u v = if u = x ∧ v = y then 2 else b.cell u v := by
  rw [GameBoard.placeMine_accept b x y h]
  obtain ⟨hin, _, _⟩ := (GameBoard.canPlaceMine_iff b x y).mp h
  by_cases huv : u = x ∧ v = y
  · obtain ⟨rfl, rfl⟩ := huv
    simp only [and_self, if_true]
    exact Grid.get_set_self 0 b.board_ b.size_ u v 2 hb hin.1 hin.2
  · simp only [huv, if_false]
    exact Grid.get_set_ne 0 b.board_ x y u v 2 huv

end PlaceLemmas2

section SoundLemmas

variable {K : Type}

theorem GameBoard.cell_inside (b : GameBoard K) (hb : Grid.Square b.size_ b.board_)
    (x y : Int) (h : b.cell x y ≠ 0) : b.inside x y :=
  GameBoard.get_ne_zero_inside b hb x y h

/-- How `makeShot x y` may change the state of a cell `(u, v)`. -/
theorem GameBoard.makeShot_cell (b : GameBoard K) (hb : Grid.Square b.size_ b.board_)
    (x y u v : Int) :
    (b.makeShot x y).2.cell u v = b.cell u v ∨
    (b.cell u v = 0 ∧ (b.makeShot x y).2.cell u v = 5) ∨
    ((u = x ∧ v = y) ∧ b.cell u v = 1 ∧ (b.makeShot x y).2.cell u v = 3) ∨
    ((u = x ∧ v = y) ∧ b.cell u v = 2 ∧ (b.makeShot x y).2.cell u v = 4) := by
  by_cases hin : b.inside x y
  · by_cases h1 : b.cell x y = 1
    · rw [GameBoard.makeShot_hit b x y hin h1]
      have hrev := (GameBoard.revealed_sink b x y hb).2.2 u v
      by_cases huv : u = x ∧ v = y
      · obtain ⟨rfl, rfl⟩ := huv
        have h3 : (b.afterHit u v).cell u v = 3 :=
          Grid.get_set_self 0 b.board_ b.size_ u v 3 hb hin.1 hin.2
        rw [h3] at hrev
        right; right; left
        refine ⟨⟨rfl, rfl⟩, h1, ?_⟩
        rcases hrev with h | h
        · exact h
        · exact absurd h.1 (by decide)
      · have hsame : (b.afterHit x y).cell u v = b.cell u v :=
          Grid.get_set_ne 0 b.board_ x y u v 3 huv
        rw [hsame] at hrev
        rcases hrev with h | h
        · left; exact h
        · right; left; exact h
    · by_cases h2 : b.cell x y = 2
      · rw [GameBoard.makeShot_mine b x y hin h2]
        by_cases huv : u = x ∧ v = y
        · obtain ⟨rfl, rfl⟩ := huv
          right; right; right
          exact ⟨⟨rfl, rfl⟩, h2, Grid.get_set_self 0 b.board_ b.size_ u v 4 hb hin.1 hin.2⟩
        · left
          exact Grid.get_set_ne 0 b.board_ x y u v 4 huv
      · by_cases h0 : b.cell x y = 0
        · rw [GameBoard.makeShot_empty b x y hin h0]
          by_cases huv : u = x ∧ v = y
          · obtain ⟨rfl, rfl⟩ := huv
            right; left
            exact ⟨h0, Grid.get_set_self 0 b.board_ b.size_ u v 5 hb hin.1 hin.2⟩
          · left
            exact Grid.get_set_ne 0 b.board_ x y u v 5 huv
        · rw [GameBoard.makeShot_other b x y hin h0 h1 h2]
          left; rfl
  · rw [GameBoard.makeShot_outside b x y hin]
    left; rfl

/-- The shot record after `makeShot x y` on a cell of the board. -/
theorem GameBoard.makeShot_shot (b : GameBoard K) (hwf : b.WF) (x y : Int)
    (hin : b.inside x y) (u v : Int) :
    (b.makeShot x y).2.shot u v = if u = x ∧ v = y then 1 else b.shot u v := by
  rw [GameBoard.makeShot_frame b x y hin hwf.1]
  by_cases huv : u = x ∧ v = y
  · obtain ⟨rfl, rfl⟩ := huv
    simp only [and_self, if_true]
    exact Grid.get_set_self 0 b.shotsBoard_ b.size_ u v 1 hwf.2.1 hin.1 hin.2
  · simp only [huv, if_false]
    exact Grid.get_set_ne 0 b.shotsBoard_ x y u v 1 huv

theorem GameBoard.makeShot_square (b : GameBoard K) (hb : Grid.Square b.size_ b.board_)
    (x y : Int) : Grid.Square b.size_ (b.makeShot x y).2.board_ := by
  by_cases hin : b.inside x y
  · by_cases h1 : b.cell x y = 1
    · rw [GameBoard.makeShot_hit b x y hin h1]
      exact (GameBoard.revealed_sink b x y hb).2.1
    · by_cases h2 : b.cell x y = 2
      · rw [GameBoard.makeShot_mine b x y hin h2]
        exact Grid.square_set _ _ _ _ _ hb
      · by_cases h0 : b.cell x y = 0
        · rw [GameBoard.makeShot_empty b x y hin h0]
          exact Grid.square_set _ _ _ _ _ hb
        · rw [GameBoard.makeShot_other b x y hin h0 h1 h2]
          exact hb
  · rw [GameBoard.makeShot_outside b x y hin]
    exact hb

/-- The fields `makeShot` never writes. -/
theorem GameBoard.makeShot_keeps (b : GameBoard K) (hb : Grid.Square b.size_ b.board_)
    (x y : Int) :
    (b.makeShot x y).2.size_ = b.size_ ∧ (b.makeShot x y).2.ships_ = b.ships_ ∧
    (b.makeShot x y).2.remainingMines_ = b.remainingMines_ ∧
    (b.makeShot x y).2.shipProbabilities_ = b.shipProbabilities_ ∧
    (b.makeShot x y).2.mineProbabilities_ = b.mineProbabilities_ := by
  by_cases hin : b.inside x y
  · rw [GameBoard.makeShot_frame b x y hin hb]
    exact ⟨rfl, rfl, rfl, rfl, rfl⟩
  · rw [GameBoard.makeShot_outside b x y hin]
    exact ⟨rfl, rfl, rfl, rfl, rfl⟩

theorem GameBoard.makeShot_wf (b : GameBoard K) (hwf : b.WF) (x y : Int) :
    (b.makeShot x y).2.WF := by
  obtain ⟨h1, h2, h3, h4⟩ := hwf
  have hk := GameBoard.makeShot_keeps b h1 x y
  unfold GameBoard.WF
  rw [hk.1, hk.2.2.2.1, hk.2.2.2.2]
  refine ⟨GameBoard.makeShot_square b h1 x y, ?_, h3, h4⟩
  by_cases hin : b.inside x y
  · rw [GameBoard.makeShot_frame b x y hin h1]
    exact Grid.square_set _ _ _ _ _ h2
  · rw [GameBoard.makeShot_outside b x y hin]
    exact h2

theorem GameBoard.new_cell [LinearOrderedField K] (size x y : Int) :
    (GameBoard.new size : GameBoard K).cell x y = 0 := by
  by_cases hin : (0 ≤ x ∧ x < size) ∧ (0 ≤ y ∧ y < size)
  · exact Grid.get_fill 0 size 0 x y hin.1 hin.2
  · exact Grid.get_outside 0 _ size x y (Grid.square_fill size 0) hin

theorem GameBoard.new_wf [LinearOrderedField K] (size : Int) :
    (GameBoard.new size : GameBoard K).WF :=
  ⟨Grid.square_fill size 0, Grid.square_fill size 0, Grid.square_fill size 0,
    Grid.square_fill size 0⟩

end SoundLemmas

section SoundPreservation

variable {K : Type}

/-- The fields an accepted `placeShip` leaves alone, and the fields it writes. -/
theorem GameBoard.placeShip_keeps (b : GameBoard K) (x y length : Int) (horizontal : Bool)
    (h : b.canPlaceShip x y length horizontal = true) :
    (b.placeShip x y length horizontal).2.size_ = b.size_ ∧
    (b.placeShip x y length horizontal).2.shotsBoard_ = b.shotsBoard_ ∧
    (b.placeShip x y length horizontal).2.shipProbabilities_ = b.shipProbabilities_ ∧
    (b.placeShip x y length horizontal).2.mineProbabilities_ = b.mineProbabilities_ ∧
    (b.placeShip x y length horizontal).2.remainingMines_ = b.remainingMines_ ∧
    (b.placeShip x y length horizontal).2.ships_
      = b.ships_ ++ [{ cells := shipCells x y length horizontal }] ∧
    (b.placeShip x y length horizontal).2.remainingShips_ = b.remainingShips_ + length := by
  rw [GameBoard.placeShip_accept b x y length horizontal h]
  exact ⟨rfl, rfl, rfl, rfl, rfl, rfl, rfl⟩

theorem GameBoard.placeMine_keeps (b : GameBoard K) (x y : Int)
    (h : b.canPlaceMine x y = true) :
    (b.placeMine x y).2.size_ = b.size_ ∧
    (b.placeMine x y).2.shotsBoard_ = b.shotsBoard_ ∧
    (b.placeMine x y).2.shipProbabilities_ = b.shipProbabilities_ ∧
    (b.placeMine x y).2.mineProbabilities_ = b.mineProbabilities_ ∧
    (b.placeMine x y).2.remainingMines_ = b.remainingMines_ + 1 ∧
    (b.placeMine x y).2.ships_ = b.ships_ ∧
    (b.placeMine x y).2.remainingShips_ = b.remainingShips_ := by
  rw [GameBoard.placeMine_accept b x y h]
  exact ⟨rfl, rfl, rfl, rfl, rfl, rfl, rfl⟩

theorem GameBoard.sound_new [LinearOrderedField K] (size : Int) :
    (GameBoard.new size : GameBoard K).Sound := by
  refine ⟨GameBoard.new_wf size, ?_, ?_, ?_, ?_⟩
  · intro s hs
    cases hs
  · exact List.Pairwise.nil
  · intro m s hm
    rw [GameBoard.new_cell] at hm
    exact absurd hm (by decide)
  · intro x y h4
    rw [GameBoard.new_cell] at h4
    exact absurd h4 (by decide)

theorem GameBoard.sound_placeShip (b : GameBoard K) (hs : b.Sound) (x y length : Int)
    (horizontal : Bool) : (b.placeShip x y length horizontal).2.Sound := by
  by_cases h : b.canPlaceShip x y length horizontal = true
  · obtain ⟨hwf, hcells, hpair, hmine, htrig⟩ := hs
    have hk := GameBoard.placeShip_keeps b x y length horizontal h
    have hcell := GameBoard.placeShip_cell b hwf.1 x y length horizontal h
    have hclear := GameBoard.canPlaceShip_clear b x y length horizontal h
    refine ⟨?_, ?_, ?_, ?_, ?_⟩
    · unfold GameBoard.WF
      rw [hk.1, hk.2.1, hk.2.2.1, hk.2.2.2.1]
      exact ⟨GameBoard.placeShip_square b hwf.1 x y length horizontal, hwf.2⟩
    · intro s hsm c hc
      rw [hk.2.2.2.2.2.1, List.mem_append] at hsm
      rw [hcell]
      by_cases hmem : (c.1, c.2) ∈ shipCells x y length horizontal
      · simp [hmem]
      · simp only [hmem, if_false]
        rcases hsm with h1 | h1
        · exact hcells s h1 c hc
        · rw [List.mem_singleton] at h1
          subst h1
          exact absurd hc hmem
    · rw [hk.2.2.2.2.2.1, List.pairwise_append]
      refine ⟨hpair, List.pairwise_singleton _ _, ?_⟩
      intro s hsm t ht
      rw [List.mem_singleton] at ht
      subst ht
      intro c hc d hd htouch
      have hne : b.cell c.1 c.2 ≠ 0 := by
        rcases hcells s hsm c hc with h1 | h1 <;> rw [h1] <;> decide
      exact hne (hclear d hd c.1 c.2 htouch (GameBoard.cell_inside b hwf.1 c.1 c.2 hne))
    · intro m s hm hs1 htouch
      rw [hcell] at hm hs1
      by_cases hmm : (m.1, m.2) ∈ shipCells x y length horizontal
      · simp [hmm] at hm
      · simp only [hmm, if_false] at hm
        by_cases hsm : (s.1, s.2) ∈ shipCells x y length horizontal
        · have hne : b.cell m.1 m.2 ≠ 0 := by rw [hm]; decide
          exact hne (hclear (s.1, s.2) hsm m.1 m.2 htouch
            (GameBoard.cell_inside b hwf.1 m.1 m.2 hne))
        · simp only [hsm, if_false] at hs1
          exact hmine m s hm hs1 htouch
    · intro u v h4
      rw [hcell] at h4
      by_cases hmm : (u, v) ∈ shipCells x y length horizontal
      · simp [hmm] at h4
      · simp only [hmm, if_false] at h4
        have := htrig u v h4
        unfold GameBoard.shot at this ⊢
        rw [hk.2.1]
        exact this
  · rw [GameBoard.placeShip_reject b x y length horizontal (by simpa using h)]
    exact hs

theorem GameBoard.sound_placeMine (b : GameBoard K) (hs : b.Sound) (x y : Int) :
    (b.placeMine x y).2.Sound := by
  by_cases h : b.canPlaceMine x y = true
  · obtain ⟨hwf, hcells, hpair, hmine, htrig⟩ := hs
    have hk := GameBoard.placeMine_keeps b x y h
    have hcell := GameBoard.placeMine_cell b hwf.1 x y h
    obtain ⟨hin, h0, _⟩ := (GameBoard.canPlaceMine_iff b x y).mp h
    refine ⟨?_, ?_, ?_, ?_, ?_⟩
    · unfold GameBoard.WF
      rw [hk.1, hk.2.1, hk.2.2.1, hk.2.2.2.1]
      refine ⟨?_, hwf.2⟩
      rw [GameBoard.placeMine_accept b x y h]
      exact Grid.square_set _ _ _ _ _ hwf.1
    · intro s hsm c hc
      rw [hk.2.2.2.2.2.1] at hsm
      rw [hcell]
      have hold := hcells s hsm c hc
      by_cases hxy : c.1 = x ∧ c.2 = y
      · rw [hxy.1, hxy.2, h0] at hold
        rcases hold with h1 | h1 <;> exact absurd h1 (by decide)
      · simp only [hxy, if_false]
        exact hold
    · rw [hk.2.2.2.2.2.1]
      exact hpair
    · intro m s hm hs1 htouch
      rw [hcell] at hm hs1
      by_cases hsx : s.1 = x ∧ s.2 = y
      · simp [hsx] at hs1
      · simp only [hsx, if_false] at hs1
        by_cases hmx : m.1 = x ∧ m.2 = y
        · have hne : b.cell s.1 s.2 ≠ 0 := by rw [hs1]; decide
          have ht2 : touches (x, y) (s.1, s.2) := by
            unfold touches at htouch ⊢
            simp only
            omega
          exact GameBoard.canPlaceMine_clear b x y h s.1 s.2 ht2
            (GameBoard.cell_inside b hwf.1 s.1 s.2 hne) hs1
        · simp only [hmx, if_false] at hm
          exact hmine m s hm hs1 htouch
    · intro u v h4
      rw [hcell] at h4
      by_cases hxy : u = x ∧ v = y
      · simp [hxy] at h4
      · simp only [hxy, if_false] at h4
        have := htrig u v h4
        unfold GameBoard.shot at this ⊢
        rw [hk.2.1]
        exact this
  · rw [GameBoard.placeMine_reject b x y (by simpa using h)]
    exact hs

theorem GameBoard.sound_makeShot (b : GameBoard K) (hs : b.Sound) (x y : Int) :
    (b.makeShot x y).2.Sound := by
  obtain ⟨hwf, hcells, hpair, hmine, htrig⟩ := hs
  have hk := GameBoard.makeShot_keeps b hwf.1 x y
  have hcell := GameBoard.makeShot_cell b hwf.1 x y
  refine ⟨GameBoard.makeShot_wf b hwf x y, ?_, ?_, ?_, ?_⟩
  · intro s hsm c hc
    rw [hk.2.1] at hsm
    have hold := hcells s hsm c hc
    have := hcell c.1 c.2
    omega
  · rw [hk.2.1]
    exact hpair
  · intro m s hm hs1 htouch
    have h1 := hcell m.1 m.2
    have h2 := hcell s.1 s.2
    exact hmine m s (by omega) (by omega) htouch
  · intro u v h4
    by_cases hin : b.inside x y
    · rw [GameBoard.makeShot_shot b hwf x y hin]
      by_cases huv : u = x ∧ v = y
      · simp [huv]
      · simp only [huv, if_false]
        have h1 := hcell u v
        exact htrig u v (by omega)
    · rw [GameBoard.makeShot_outside b x y hin] at h4 ⊢
      exact htrig u v h4

theorem GameBoard.sound_apply [LinearOrderedField K] (b : GameBoard K) (hs : b.Sound)
    (op : BoardOp) : (b.apply op).Sound := by
  cases op with
  | placeShip x y length horizontal => exact GameBoard.sound_placeShip b hs x y length horizontal
  | placeMine x y => exact GameBoard.sound_placeMine b hs x y
  | makeShot x y => exact GameBoard.sound_makeShot b hs x y

theorem GameBoard.sound_run [LinearOrderedField K] (b : GameBoard K) (hs : b.Sound)
    (ops : List BoardOp) : (b.run ops).Sound :=
  foldl_inv GameBoard.Sound _ _ _ hs (fun b1 op _ h1 => GameBoard.sound_apply b1 h1 op)

end SoundPreservation

section CountLemmas

variable {K : Type}

theorem GameBoard.mem_intactCells (b : GameBoard K) (q : Int × Int) :
    q ∈ b.intactCells ↔ b.inside q.1 q.2 ∧ b.cell q.1 q.2 = 1 := by
  unfold GameBoard.intactCells GameBoard.inside
  simp only [Finset.mem_filter, Finset.mem_product, Finset.mem_Icc]
  constructor
  · rintro ⟨⟨h1, h2⟩, h3⟩
    exact ⟨⟨⟨h1.1, by omega⟩, ⟨h2.1, by omega⟩⟩, h3⟩
  · rintro ⟨⟨h1, h2⟩, h3⟩
    exact ⟨⟨⟨h1.1, by omega⟩, ⟨h2.1, by omega⟩⟩, h3⟩

theorem GameBoard.mem_intactCells_wf (b : GameBoard K) (hb : Grid.Square b.size_ b.board_)
    (q : Int × Int) : q ∈ b.intactCells ↔ b.cell q.1 q.2 = 1 := by
  rw [GameBoard.mem_intactCells]
  constructor
  · exact fun h => h.2
  · intro h
    exact ⟨GameBoard.cell_inside b hb q.1 q.2 (by rw [h]; decide), h⟩

theorem GameBoard.intactCells_congr (b b2 : GameBoard K) (hsize : b2.size_ = b.size_)
    (h : ∀ u v, b2.cell u v = 1 ↔ b.cell u v = 1) : b2.intactCells = b.intactCells := by
  ext q
  rw [GameBoard.mem_intactCells, GameBoard.mem_intactCells]
  unfold GameBoard.inside
  rw [hsize, h q.1 q.2]

theorem intRange_nodup (lo hi : Int) : (intRange lo hi).Nodup := by
  unfold intRange
  refine List.Nodup.map ?_ (List.nodup_range _)
  intro a c hac
  simp only at hac
  omega

theorem intRange_length (lo hi : Int) : (intRange lo hi).length = (hi + 1 - lo).toNat := by
  unfold intRange
  simp

theorem shipCells_nodup (x y length : Int) (horizontal : Bool) :
    (shipCells x y length horizontal).Nodup := by
  unfold shipCells
  refine List.Nodup.map ?_ (intRange_nodup _ _)
  intro i j hij
  unfold shipCell at hij
  cases horizontal
  · simp only [Bool.false_eq_true, if_false, Prod.mk.injEq] at hij
    omega
  · simp only [if_true, Prod.mk.injEq] at hij
    omega

theorem shipCells_length (x y length : Int) (horizontal : Bool) :
    (shipCells x y length horizontal).length = length.toNat := by
  unfold shipCells
  rw [List.length_map, intRange_length]
  congr 1
  omega

/-- An accepted `placeShip` of a length of at least 1 adds `length` intact cells. -/
theorem GameBoard.placeShip_count (b : GameBoard K) (hb : Grid.Square b.size_ b.board_)
    (x y length : Int) (horizontal : Bool) (hlen : 0 ≤ length)
    (h : b.canPlaceShip x y length horizontal = true) :
    ((b.placeShip x y length horizontal).2.intactCount : Int) = b.intactCount + length := by
  have hcell := GameBoard.placeShip_cell b hb x y length horizontal h
  have hk := GameBoard.placeShip_keeps b x y length horizontal h
  have hsq := GameBoard.placeShip_square b hb x y length horizontal
  have hset : (b.placeShip x y length horizontal).2.intactCells
      = b.intactCells ∪ (shipCells x y length horizontal).toFinset := by
    ext q
    rw [Finset.mem_union, GameBoard.mem_intactCells_wf _ (hk.1 ▸ hsq),
      GameBoard.mem_intactCells_wf b hb, List.mem_toFinset, hcell]
    by_cases hq : (q.1, q.2) ∈ shipCells x y length horizontal
    · simp [hq]
    · simp [hq]
  have hdisj : Disjoint b.intactCells (shipCells x y length horizontal).toFinset := by
    rw [Finset.disjoint_left]
    intro q hq1 hq2
    rw [List.mem_toFinset] at hq2
    rw [GameBoard.mem_intactCells] at hq1
    have := GameBoard.canPlaceShip_clear b x y length horizontal h q hq2 q.1 q.2
      (touches_self q) hq1.1
    rw [hq1.2] at this
    exact absurd this (by decide)
  unfold GameBoard.intactCount
  rw [hset, Finset.card_union_of_disjoint hdisj,
    List.toFinset_card_of_nodup (shipCells_nodup x y length horizontal), shipCells_length]
  push_cast
  omega

theorem GameBoard.placeMine_count (b : GameBoard K) (hb : Grid.Square b.size_ b.board_)
    (x y : Int) : (b.placeMine x y).2.intactCount = b.intactCount := by
  by_cases h : b.canPlaceMine x y = true
  · unfold GameBoard.intactCount
    rw [GameBoard.intactCells_congr b _ (GameBoard.placeMine_keeps b x y h).1]
    intro u v
    rw [GameBoard.placeMine_cell b hb x y h]
    obtain ⟨_, h0, _⟩ := (GameBoard.canPlaceMine_iff b x y).mp h
    by_cases huv : u = x ∧ v = y
    · obtain ⟨rfl, rfl⟩ := huv
      simp [h0]
    · simp [huv]
  · rw [GameBoard.placeMine_reject b x y (by simpa using h)]

/-- The counter after `makeShot`. -/
theorem GameBoard.makeShot_remaining (b : GameBoard K) (hb : Grid.Square b.size_ b.board_)
    (x y : Int) :
    (b.makeShot x y).2.remainingShips_ =
      if b.inside x y ∧ b.cell x y = 1 then b.remainingShips_ - 1 else b.remainingShips_ := by
  by_cases hin : b.inside x y
  · by_cases h1 : b.cell x y = 1
    · rw [GameBoard.makeShot_hit b x y hin h1]
      simp only [hin, h1, and_self, if_true]
      rw [(GameBoard.revealed_sink b x y hb).1]
      rfl
    · simp only [h1, and_false, if_false]
      by_cases h2 : b.cell x y = 2
      · rw [GameBoard.makeShot_mine b x y hin h2]
      · by_cases h0 : b.cell x y = 0
        · rw [GameBoard.makeShot_empty b x y hin h0]
        · rw [GameBoard.makeShot_other b x y hin h0 h1 h2]
  · rw [GameBoard.makeShot_outside b x y hin]
    simp [hin]

/-- A shot at an intact ship cell leaves it hit. -/
theorem GameBoard.makeShot_hit_cell (b : GameBoard K) (hb : Grid.Square b.size_ b.board_)
    (x y : Int) (hin : b.inside x y) (h1 : b.cell x y = 1) :
    (b.makeShot x y).2.cell x y = 3 := by
  rw [GameBoard.makeShot_hit b x y hin h1]
  have h3 : (b.afterHit x y).cell x y = 3 :=
    Grid.get_set_self 0 b.board_ b.size_ x y 3 hb hin.1 hin.2
  rcases (GameBoard.revealed_sink b x y hb).2.2 x y with h | h
  · simp only; rw [h, h3]
  · rw [h3] at h; exact absurd h.1 (by decide)

/-- The number of intact cells after `makeShot`. -/
theorem GameBoard.makeShot_count (b : GameBoard K) (hb : Grid.Square b.size_ b.board_)
    (x y : Int) :
    ((b.makeShot x y).2.intactCount : Int) =
      if b.inside x y ∧ b.cell x y = 1 then (b.intactCount : Int) - 1 else b.intactCount := by
  have hk := GameBoard.makeShot_keeps b hb x y
  have hcell := GameBoard.makeShot_cell b hb x y
  by_cases hc : b.inside x y ∧ b.cell x y = 1
  · simp only [hc, and_self, if_true]
    have hset : (b.makeShot x y).2.intactCells = b.intactCells.erase (x, y) := by
      ext q
      rw [Finset.mem_erase, GameBoard.mem_intactCells, GameBoard.mem_intactCells]
      unfold GameBoard.inside
      rw [hk.1]
      have := hcell q.1 q.2
      constructor
      · rintro ⟨h1, h2⟩
        refine ⟨?_, h1, by omega⟩
        intro hq
        rw [hq] at h2
        simp only at h2
        rw [GameBoard.makeShot_hit_cell b hb x y hc.1 hc.2] at h2
        exact absurd h2 (by decide)
      · rintro ⟨h1, h2, h3⟩
        refine ⟨h2, ?_⟩
        have hne : ¬ (q.1 = x ∧ q.2 = y) := fun hh => h1 (Prod.ext hh.1 hh.2)
        omega
    have hmem : (x, y) ∈ b.intactCells := (GameBoard.mem_intactCells b (x, y)).mpr hc
    unfold GameBoard.intactCount
    rw [hset, Finset.card_erase_of_mem hmem]
    have hpos : 0 < b.intactCells.card := Finset.card_pos.mpr ⟨(x, y), hmem⟩
    omega
  · simp only [hc, if_false]
    unfold GameBoard.intactCount
    rw [GameBoard.intactCells_congr b _ hk.1]
    intro u v
    have := hcell u v
    constructor
    · intro h1
      omega
    · intro h1
      rcases this with h | h | h | h
      · omega
      · omega
      · exfalso
        apply hc
        obtain ⟨⟨rfl, rfl⟩, h2, _⟩ := h
        exact ⟨GameBoard.cell_inside b hb u v (by rw [h2]; decide), h2⟩
      · omega

end CountLemmas

section ProbLemmas

variable {K : Type}

theorem GameBoard.sameGame_refl (b : GameBoard K) : GameBoard.SameGame b b :=
  ⟨rfl, rfl, rfl, rfl, rfl, rfl, id, id⟩

theorem GameBoard.sameGame_trans (b b1 b2 : GameBoard K) (h1 : GameBoard.SameGame b b1)
    (h2 : GameBoard.SameGame b1 b2) : GameBoard.SameGame b b2 := by
  obtain ⟨a1, a2, a3, a4, a5, a6, a7, a8⟩ := h1
  obtain ⟨c1, c2, c3, c4, c5, c6, c7, c8⟩ := h2
  refine ⟨c1.trans a1, c2.trans a2, c3.trans a3, c4.trans a4, c5.trans a5, c6.trans a6, ?_, ?_⟩
  · intro h
    have := c7 (a1 ▸ a7 h)
    rw [a1] at this
    exact this
  · intro h
    have := c8 (a1 ▸ a8 h)
    rw [a1] at this
    exact this

/-- Writing one entry of each likelihood grid keeps the game. -/
theorem GameBoard.sameGame_write (b : GameBoard K) (gs gm : Grid K)
    (hs : Grid.Square b.size_ b.shipProbabilities_ → Grid.Square b.size_ gs)
    (hm : Grid.Square b.size_ b.mineProbabilities_ → Grid.Square b.size_ gm) :
    GameBoard.SameGame b { b with shipProbabilities_ := gs, mineProbabilities_ := gm } :=
  ⟨rfl, rfl, rfl, rfl, rfl, rfl, hs, hm⟩

theorem GameBoard.sameGame_updateProbabilities [LinearOrderedField K] (F : FloatOps K)
    (b : GameBoard K) (x y : Int) (hitShip hitMine : Bool) (shipFactor mineFactor : K) :
    GameBoard.SameGame b (b.updateProbabilities F x y hitShip hitMine shipFactor mineFactor) := by
  unfold GameBoard.updateProbabilities
  have hpin : GameBoard.SameGame b
      (if hitShip = true then
        { b with shipProbabilities_ := Grid.set b.shipProbabilities_ x y 1
                 mineProbabilities_ := Grid.set b.mineProbabilities_ x y 0 }
      else if hitMine = true then
        { b with shipProbabilities_ := Grid.set b.shipProbabilities_ x y 0
                 mineProbabilities_ := Grid.set b.mineProbabilities_ x y 1 }
      else
        { b with shipProbabilities_ := Grid.set b.shipProbabilities_ x y 0
                 mineProbabilities_ := Grid.set b.mineProbabilities_ x y 0 }) := by
    split
    · exact GameBoard.sameGame_write b _ _ (Grid.square_set _ _ _ _ _) (Grid.square_set _ _ _ _ _)
    · split
      · exact GameBoard.sameGame_write b _ _ (Grid.square_set _ _ _ _ _)
          (Grid.square_set _ _ _ _ _)
      · exact GameBoard.sameGame_write b _ _ (Grid.square_set _ _ _ _ _)
          (Grid.square_set _ _ _ _ _)
  simp only
  split
  · refine foldl_inv (GameBoard.SameGame b) _ _ _ hpin ?_
    intro b2 dx _ h2
    refine foldl_inv (GameBoard.SameGame b) _ _ _ h2 ?_
    intro b3 dy _ h3
    split
    · split
      · refine GameBoard.sameGame_trans b b3 _ h3 ?_
        split
        · split
          · exact GameBoard.sameGame_write _ _ _ (Grid.square_set _ _ _ _ _)
              (Grid.square_set _ _ _ _ _)
          · exact GameBoard.sameGame_write _ _ _ id (Grid.square_set _ _ _ _ _)
        · split
          · exact GameBoard.sameGame_write _ _ _ (Grid.square_set _ _ _ _ _) id
          · exact GameBoard.sameGame_refl b3
      · exact h3
    · exact h3
  · exact hpin

end ProbLemmas

section KillLemmas

variable {K : Type} [LinearOrderedField K]

theorem minElement_le (a : Int) (l : List Int) :
    minElement a l ≤ a ∧ ∀ v ∈ l, minElement a l ≤ v := by
  unfold minElement
  induction l generalizing a with
  | nil => simp
  | cons b l ih =>
    rw [List.foldl_cons]
    have h := ih (min a b)
    refine ⟨le_trans h.1 (min_le_left a b), ?_⟩
    intro v hv
    rcases List.mem_cons.mp hv with h1 | h1
    · rw [h1]; exact le_trans h.1 (min_le_right a b)
    · exact h.2 v h1

theorem minElement_mem (a : Int) (l : List Int) : minElement a l = a ∨ minElement a l ∈ l := by
  unfold minElement
  induction l generalizing a with
  | nil => simp
  | cons b l ih =>
    rw [List.foldl_cons]
    rcases ih (min a b) with h | h
    · rcases min_choice a b with h1 | h1
      · left; rw [h, h1]
      · right; rw [h, h1]; exact List.mem_cons_self _ _
    · right; exact List.mem_cons_of_mem _ h

theorem le_maxElement (a : Int) (l : List Int) :
    a ≤ maxElement a l ∧ ∀ v ∈ l, v ≤ maxElement a l := by
  unfold maxElement
  induction l generalizing a with
  | nil => simp
  | cons b l ih =>
    rw [List.foldl_cons]
    have h := ih (max a b)
    refine ⟨le_trans (le_max_left a b) h.1, ?_⟩
    intro v hv
    rcases List.mem_cons.mp hv with h1 | h1
    · rw [h1]; exact le_trans (le_max_right a b) h.1
    · exact h.2 v h1

theorem maxElement_mem (a : Int) (l : List Int) : maxElement a l = a ∨ maxElement a l ∈ l := by
  unfold maxElement
  induction l generalizing a with
  | nil => simp
  | cons b l ih =>
    rw [List.foldl_cons]
    rcases ih (max a b) with h | h
    · rcases max_choice a b with h1 | h1
      · left; rw [h, h1]
      · right; rw [h, h1]; exact List.mem_cons_self _ _
    · right; exact List.mem_cons_of_mem _ h

/-- The block either keeps the running best or replaces its cell by `(x, y)`. -/
theorem BattleshipAlgorithm.consider_cases (F : FloatOps K) (e : BattleshipAlgorithm K)
    (best : Option K × (Int × Int)) (x y : Int) :
    (BattleshipAlgorithm.consider F e best x y).2 = (x, y) ∨
    BattleshipAlgorithm.consider F e best x y = best := by
  unfold BattleshipAlgorithm.consider
  rcases best with ⟨bu, bm⟩
  cases bu with
  | none => left; rfl
  | some u =>
    simp only
    split
    · left; rfl
    · right; rfl

/-- From the initial value −∞ the block always takes the cell. -/
theorem BattleshipAlgorithm.consider_start (F : FloatOps K) (e : BattleshipAlgorithm K)
    (m : Int × Int) (x y : Int) :
    (BattleshipAlgorithm.consider F e (none, m) x y).2 = (x, y) := rfl

/-- The vertical branch of `findKillMove`, for the extreme rows `lo` and `hi`. -/
theorem BattleshipAlgorithm.kill_line_cases (F : FloatOps K) (e : BattleshipAlgorithm K)
    (a1 a2 : Prop) [Decidable a1] [Decidable a2] (p q : Int × Int) :
    ((if a2 then BattleshipAlgorithm.consider F e
        (if a1 then BattleshipAlgorithm.consider F e (none, (-1, -1)) p.1 p.2
          else (none, (-1, -1))) q.1 q.2
      else (if a1 then BattleshipAlgorithm.consider F e (none, (-1, -1)) p.1 p.2
          else (none, (-1, -1)))).2 = p ∧ a1) ∨
    ((if a2 then BattleshipAlgorithm.consider F e
        (if a1 then BattleshipAlgorithm.consider F e (none, (-1, -1)) p.1 p.2
          else (none, (-1, -1))) q.1 q.2
      else (if a1 then BattleshipAlgorithm.consider F e (none, (-1, -1)) p.1 p.2
          else (none, (-1, -1)))).2 = q ∧ a2) ∨
    ((if a2 then BattleshipAlgorithm.consider F e
        (if a1 then BattleshipAlgorithm.consider F e (none, (-1, -1)) p.1 p.2
          else (none, (-1, -1))) q.1 q.2
      else (if a1 then BattleshipAlgorithm.consider F e (none, (-1, -1)) p.1 p.2
          else (none, (-1, -1)))).2 = (-1, -1) ∧ ¬ a1 ∧ ¬ a2) := by
  by_cases h1 : a1
  · by_cases h2 : a2
    · simp only [h1, h2, if_true]
      rcases BattleshipAlgorithm.consider_cases F e
        (BattleshipAlgorithm.consider F e (none, (-1, -1)) p.1 p.2) q.1 q.2 with h | h
      · right; left; exact ⟨h, trivial⟩
      · left
        rw [h]
        refine ⟨?_, trivial⟩
        rfl
    · simp only [h1, h2, if_true, if_false]
      left; exact ⟨rfl, trivial⟩
  · by_cases h2 : a2
    · simp only [h1, h2, if_true, if_false]
      right; left; exact ⟨rfl, trivial⟩
    · right; right
      simp [h1, h2]

end KillLemmas

section KillLemmas2

variable {K : Type} [LinearOrderedField K]

theorem BattleshipAlgorithm.findKillMove_vertical (F : FloatOps K) (e : BattleshipAlgorithm K)
    (c0 c1 : Int × Int) (rest : List (Int × Int)) (hw : e.woundedCells_ = c0 :: c1 :: rest)
    (hx : ∀ c ∈ e.woundedCells_, c.1 = c0.1) :
    BattleshipAlgorithm.findKillMove F e =
      (if maxElement c0.2 (e.woundedCells_.map (fun cell => cell.2)) + 1 < e.board_.size_ ∧
          Grid.get 0 e.board_.shotsBoard_ c0.1
            (maxElement c0.2 (e.woundedCells_.map (fun cell => cell.2)) + 1) = 0
        then BattleshipAlgorithm.consider F e
          (if minElement c0.2 (e.woundedCells_.map (fun cell => cell.2)) - 1 ≥ 0 ∧
              Grid.get 0 e.board_.shotsBoard_ c0.1
                (minElement c0.2 (e.woundedCells_.map (fun cell => cell.2)) - 1) = 0
            then BattleshipAlgorithm.consider F e (none, (-1, -1))
              (c0.1, minElement c0.2 (e.woundedCells_.map (fun cell => cell.2)) - 1).1
              (c0.1, minElement c0.2 (e.woundedCells_.map (fun cell => cell.2)) - 1).2
            else (none, (-1, -1)))
          (c0.1, maxElement c0.2 (e.woundedCells_.map (fun cell => cell.2)) + 1).1
          (c0.1, maxElement c0.2 (e.woundedCells_.map (fun cell => cell.2)) + 1).2
        else (if minElement c0.2 (e.woundedCells_.map (fun cell => cell.2)) - 1 ≥ 0 ∧
              Grid.get 0 e.board_.shotsBoard_ c0.1
                (minElement c0.2 (e.woundedCells_.map (fun cell => cell.2)) - 1) = 0
            then BattleshipAlgorithm.consider F e (none, (-1, -1))
              (c0.1, minElement c0.2 (e.woundedCells_.map (fun cell => cell.2)) - 1).1
              (c0.1, minElement c0.2 (e.woundedCells_.map (fun cell => cell.2)) - 1).2
            else (none, (-1, -1)))).2 := by
  have hall : (c0 :: c1 :: rest).all (fun cell => cell.1 == c0.1) = true := by
    rw [List.all_eq_true]
    intro c hc
    rw [beq_iff_eq]
    exact hx c (hw ▸ hc)
  unfold BattleshipAlgorithm.findKillMove
  rw [hw]
  simp only [hall, if_true]

theorem BattleshipAlgorithm.findKillMove_horizontal (F : FloatOps K)
    (e : BattleshipAlgorithm K) (c0 c1 : Int × Int) (rest : List (Int × Int))
    (hw : e.woundedCells_ = c0 :: c1 :: rest)
    (hx : ¬ ∀ c ∈ e.woundedCells_, c.1 = c0.1) (hy : ∀ c ∈ e.woundedCells_, c.2 = c0.2) :
    BattleshipAlgorithm.findKillMove F e =
      (if maxElement c0.1 (e.woundedCells_.map (fun cell => cell.1)) + 1 < e.board_.size_ ∧
          Grid.get 0 e.board_.shotsBoard_
            (maxElement c0.1 (e.woundedCells_.map (fun cell => cell.1)) + 1) c0.2 = 0
        then BattleshipAlgorithm.consider F e
          (if minElement c0.1 (e.woundedCells_.map (fun cell => cell.1)) - 1 ≥ 0 ∧
              Grid.get 0 e.board_.shotsBoard_
                (minElement c0.1 (e.woundedCells_.map (fun cell => cell.1)) - 1) c0.2 = 0
            then BattleshipAlgorithm.consider F e (none, (-1, -1))
              (minElement c0.1 (e.woundedCells_.map (fun cell => cell.1)) - 1, c0.2).1
              (minElement c0.1 (e.woundedCells_.map (fun cell => cell.1)) - 1, c0.2).2
            else (none, (-1, -1)))
          (maxElement c0.1 (e.woundedCells_.map (fun cell => cell.1)) + 1, c0.2).1
          (maxElement c0.1 (e.woundedCells_.map (fun cell => cell.1)) + 1, c0.2).2
        else (if minElement c0.1 (e.woundedCells_.map (fun cell => cell.1)) - 1 ≥ 0 ∧
              Grid.get 0 e.board_.shotsBoard_
                (minElement c0.1 (e.woundedCells_.map (fun cell => cell.1)) - 1) c0.2 = 0
            then BattleshipAlgorithm.consider F e (none, (-1, -1))
              (minElement c0.1 (e.woundedCells_.map (fun cell => cell.1)) - 1, c0.2).1
              (minElement c0.1 (e.woundedCells_.map (fun cell => cell.1)) - 1, c0.2).2
            else (none, (-1, -1)))).2 := by
  have hall : (c0 :: c1 :: rest).all (fun cell => cell.2 == c0.2) = true := by
    rw [List.all_eq_true]
    intro c hc
    rw [beq_iff_eq]
    exact hy c (hw ▸ hc)
  have hnot : (c0 :: c1 :: rest).all (fun cell => cell.1 == c0.1) = false := by
    rw [← Bool.not_eq_true, List.all_eq_true]
    intro hh
    apply hx
    intro c hc
    have := hh c (hw ▸ hc)
    rwa [beq_iff_eq] at this
  unfold BattleshipAlgorithm.findKillMove
  rw [hw]
  simp only [hall, hnot, if_true, Bool.false_eq_true, if_false]

end KillLemmas2

section BestLemmas1

variable {K : Type} [LinearOrderedField K]

theorem BattleshipAlgorithm.consider_good (F : FloatOps K) (e : BattleshipAlgorithm K)
    (best : Option K × (Int × Int)) (x y : Int) (hfresh : e.Fresh (x, y))
    (hbest : e.Good best.2) : e.Good (BattleshipAlgorithm.consider F e best x y).2 := by
  rcases BattleshipAlgorithm.consider_cases F e best x y with h | h
  · rw [h]; exact Or.inr hfresh
  · rw [h]; exact hbest

theorem BattleshipAlgorithm.probeNeighbours_good (F : FloatOps K) (e : BattleshipAlgorithm K)
    (best : Option K × (Int × Int)) (x y : Int) (hbest : e.Good best.2) :
    e.Good (BattleshipAlgorithm.probeNeighbours F e best x y).2 := by
  unfold BattleshipAlgorithm.probeNeighbours
  refine foldl_inv (fun (acc : Option K × (Int × Int)) => e.Good acc.2) _ _ _ hbest ?_
  intro acc dir _ hacc
  simp only
  split
  · rename_i hin
    split
    · rename_i hshot
      exact BattleshipAlgorithm.consider_good F e acc _ _
        ⟨⟨⟨hin.1, hin.2.1⟩, ⟨hin.2.2.1, hin.2.2.2⟩⟩, hshot⟩ hacc
    · exact hacc
  · exact hacc

theorem BattleshipAlgorithm.probeAll_good (F : FloatOps K) (e : BattleshipAlgorithm K)
    (cells : List (Int × Int)) (best : Option K × (Int × Int)) (hbest : e.Good best.2) :
    e.Good (cells.foldl (fun acc cell =>
      BattleshipAlgorithm.probeNeighbours F e acc cell.1 cell.2) best).2 :=
  foldl_inv (fun (acc : Option K × (Int × Int)) => e.Good acc.2) _ _ _ hbest
    (fun acc cell _ hacc => BattleshipAlgorithm.probeNeighbours_good F e acc cell.1 cell.2 hacc)

/-- The cell returned by `findKillMove` is the no-move value or a legal target, provided the
wounded cells lie on the board. -/
theorem BattleshipAlgorithm.findKillMove_good (F : FloatOps K) (e : BattleshipAlgorithm K)
    (hin : ∀ c ∈ e.woundedCells_, e.board_.inside c.1 c.2) :
    e.Good (BattleshipAlgorithm.findKillMove F e) := by
  unfold BattleshipAlgorithm.findKillMove
  split
  · rename_i c0 c1 rest hw
    have h0 := hin c0 (by rw [hw]; exact List.mem_cons_self _ _)
    unfold GameBoard.inside at h0
    have hminy := (minElement_le c0.2 ((c0 :: c1 :: rest).map (fun cell => cell.2))).1
    have hmaxy := (le_maxElement c0.2 ((c0 :: c1 :: rest).map (fun cell => cell.2))).1
    have hminx := (minElement_le c0.1 ((c0 :: c1 :: rest).map (fun cell => cell.1))).1
    have hmaxx := (le_maxElement c0.1 ((c0 :: c1 :: rest).map (fun cell => cell.1))).1
    simp only
    split
    · have hr1 : e.Good (if minElement c0.2 ((c0 :: c1 :: rest).map (fun cell => cell.2)) - 1 ≥ 0 ∧
          Grid.get 0 e.board_.shotsBoard_ c0.1
            (minElement c0.2 ((c0 :: c1 :: rest).map (fun cell => cell.2)) - 1) = 0
          then BattleshipAlgorithm.consider F e (none, (-1, -1)) c0.1
            (minElement c0.2 ((c0 :: c1 :: rest).map (fun cell => cell.2)) - 1)
          else (none, (-1, -1))).2 := by
        split
        · rename_i ha
          exact BattleshipAlgorithm.consider_good F e _ _ _
            ⟨⟨h0.1, by simp only; omega, by simp only; omega⟩, ha.2⟩ (Or.inl rfl)
        · exact Or.inl rfl
      split
      · rename_i ha
        exact BattleshipAlgorithm.consider_good F e _ _ _
          ⟨⟨h0.1, by simp only; omega, by simp only; omega⟩, ha.2⟩ hr1
      · exact hr1
    · split
      · have hr1 : e.Good (if minElement c0.1 ((c0 :: c1 :: rest).map (fun cell => cell.1)) - 1 ≥ 0 ∧
            Grid.get 0 e.board_.shotsBoard_
              (minElement c0.1 ((c0 :: c1 :: rest).map (fun cell => cell.1)) - 1) c0.2 = 0
            then BattleshipAlgorithm.consider F e (none, (-1, -1))
              (minElement c0.1 ((c0 :: c1 :: rest).map (fun cell => cell.1)) - 1) c0.2
            else (none, (-1, -1))).2 := by
          split
          · rename_i ha
            exact BattleshipAlgorithm.consider_good F e _ _ _
              ⟨⟨⟨by simp only; omega, by simp only; omega⟩, h0.2⟩, ha.2⟩ (Or.inl rfl)
          · exact Or.inl rfl
        split
        · rename_i ha
          exact BattleshipAlgorithm.consider_good F e _ _ _
            ⟨⟨⟨by simp only; omega, by simp only; omega⟩, h0.2⟩, ha.2⟩ hr1
        · exact hr1
      · exact BattleshipAlgorithm.probeAll_good F e _ _ (Or.inl rfl)
  · exact BattleshipAlgorithm.probeAll_good F e _ _ (Or.inl rfl)

end BestLemmas1

section BestLemmas2

variable {K : Type}

theorem intRange_cons (lo hi : Int) (h : lo ≤ hi) :
    intRange lo hi = lo :: intRange (lo + 1) hi := by
  unfold intRange
  have hn : (hi + 1 - lo).toNat = (hi + 1 - (lo + 1)).toNat + 1 := by omega
  rw [hn, List.range_succ_eq_map, List.map_cons, List.map_map]
  congr 1
  · simp
  · apply List.map_congr_left
    intro k _
    simp only [Function.comp, Nat.succ_eq_add_one]
    push_cast
    omega

theorem intRange_empty (lo hi : Int) (h : hi < lo) : intRange lo hi = [] := by
  unfold intRange
  have hn : (hi + 1 - lo).toNat = 0 := by omega
  rw [hn]
  rfl

/-- Induction along a counting loop, with the loop variable in the invariant. -/
theorem foldl_intRange_inv {β : Type} (I : Int → β → Prop) (f : β → Int → β) (hi : Int)
    (n : Nat) (lo : Int) (hn : n = (hi + 1 - lo).toNat) (hle : lo ≤ hi + 1) (init : β)
    (h0 : I lo init) (hstep : ∀ i b, lo ≤ i → i ≤ hi → I i b → I (i + 1) (f b i)) :
    I (hi + 1) ((intRange lo hi).foldl f init) := by
  induction n generalizing lo init with
  | zero =>
    have : lo = hi + 1 := by omega
    rw [intRange_empty lo hi (by omega)]
    rw [← this]
    exact h0
  | succ n ih =>
    have hlt : lo ≤ hi := by omega
    rw [intRange_cons lo hi hlt, List.foldl_cons]
    exact ih (lo + 1) (by omega) (by omega) (f init lo) (hstep lo init (le_refl lo) hlt h0)
      (fun i b h1 h2 hI => hstep i b (by omega) h2 hI)

/-- Every candidate added by a pass of `scanLine` is the image of an index of the line whose
cell is unshot. -/
theorem scanLine_candidates (P : Int × Int → Prop) (size maxShipLen : Int)
    (cellAt : Int → Int) (mk : Int → Int × Int) (candidates : List (Int × Int))
    (hP : ∀ c, 0 ≤ c → c < size → cellAt c = 0 → P (mk c))
    (hc : ∀ c ∈ candidates, P c) :
    ∀ c ∈ scanLine size maxShipLen cellAt mk candidates, P c := by
  unfold scanLine
  by_cases hsize : 0 ≤ size
  · have := foldl_intRange_inv
      (fun (i : Int) (acc : Int × List (Int × Int)) =>
        (∀ c ∈ acc.2, P c) ∧ 0 ≤ acc.1 ∧ acc.1 ≤ i ∧
          ∀ k, i - acc.1 ≤ k → k < i → cellAt k = 0)
      (fun (acc : Int × List (Int × Int)) i =>
        if (if cellAt i = 0 then acc.1 + 1 else 0) ≥ maxShipLen then
          if i - Int.tdiv maxShipLen 2 ≥ i - (if cellAt i = 0 then acc.1 + 1 else 0) + 1 ∧
              i - Int.tdiv maxShipLen 2 ≤ i
          then ((if cellAt i = 0 then acc.1 + 1 else 0),
            acc.2 ++ [mk (i - Int.tdiv maxShipLen 2)])
          else ((if cellAt i = 0 then acc.1 + 1 else 0), acc.2)
        else ((if cellAt i = 0 then acc.1 + 1 else 0), acc.2))
      (size - 1) _ 0 rfl (by omega) (0, candidates)
      ⟨hc, le_refl _, le_refl _, fun k h1 h2 => by simp only at h1; omega⟩ ?_
    · exact this.1
    · intro i acc h0i hi ⟨hcs, hs0, hsi, hrun⟩
      have hrun2 : ∀ k, i + 1 - (if cellAt i = 0 then acc.1 + 1 else 0) ≤ k → k < i + 1 →
          cellAt k = 0 := by
        intro k h1 h2
        by_cases hz : cellAt i = 0
        · simp only [hz, if_true] at h1
          by_cases hk : k = i
          · rw [hk]; exact hz
          · exact hrun k (by omega) (by omega)
        · simp only [hz, if_false] at h1
          omega
      have hst : 0 ≤ (if cellAt i = 0 then acc.1 + 1 else 0) ∧
          (if cellAt i = 0 then acc.1 + 1 else 0) ≤ i + 1 := by
        split <;> omega
      beta_reduce
      generalize (if cellAt i = 0 then acc.1 + 1 else 0) = s at hrun2 hst ⊢
      split
      · split
        · rename_i hcen
          refine ⟨?_, hst.1, hst.2, hrun2⟩
          intro c hcm
          rcases List.mem_append.mp hcm with h | h
          · exact hcs c h
          · rw [List.mem_singleton] at h
            rw [h]
            exact hP _ (by omega) (by omega) (hrun2 _ (by omega) (by omega))
        · exact ⟨hcs, hst.1, hst.2, hrun2⟩
      · exact ⟨hcs, hst.1, hst.2, hrun2⟩
  · rw [intRange_empty 0 (size - 1) (by omega)]
    exact hc

/-- Every candidate of `findMaxShipCandidates` is a cell of the board that is not marked in
the shot record. -/
theorem findMaxShipCandidates_fresh (board : GameBoard K) (maxShipLen : Int) :
    ∀ c ∈ findMaxShipCandidates board maxShipLen,
      board.inside c.1 c.2 ∧ board.shot c.1 c.2 = 0 := by
  unfold findMaxShipCandidates
  simp only
  refine foldl_inv (fun (cands : List (Int × Int)) =>
    ∀ c ∈ cands, board.inside c.1 c.2 ∧ board.shot c.1 c.2 = 0) _ _ _ ?_ ?_
  · refine foldl_inv (fun (cands : List (Int × Int)) =>
      ∀ c ∈ cands, board.inside c.1 c.2 ∧ board.shot c.1 c.2 = 0) _ _ _ ?_ ?_
    · intro c hc
      cases hc
    · intro cands y hy hcands
      rw [mem_intRange] at hy
      refine scanLine_candidates _ _ _ _ _ _ ?_ hcands
      intro c h0 h1 hz
      exact ⟨⟨⟨h0, h1⟩, ⟨hy.1, by omega⟩⟩, hz⟩
  · intro cands x hx hcands
    rw [mem_intRange] at hx
    refine scanLine_candidates _ _ _ _ _ _ ?_ hcands
    intro c h0 h1 hz
    exact ⟨⟨⟨hx.1, by omega⟩, ⟨h0, h1⟩⟩, hz⟩

end BestLemmas2

section BestLemmas3

variable {K : Type} [LinearOrderedField K]

omit [LinearOrderedField K] in
theorem getMaxAliveShipLength_nonneg (board : GameBoard K) :
    0 ≤ getMaxAliveShipLength board := by
  unfold getMaxAliveShipLength
  refine foldl_inv (fun (m : Int) => 0 ≤ m) _ _ _ (le_refl 0) ?_
  intro m ship _ hm
  simp only
  split
  · split
    · omega
    · exact hm
  · exact hm

/-- When the line loop ends with `valid` still true, each of the `n` cells passed its
test. -/
theorem BattleshipAlgorithm.lineMineSum_valid (e : BattleshipAlgorithm K) (n : Int)
    (cellAt : Int → Int × Int) (along : Int × Int → Int)
    (h : (BattleshipAlgorithm.lineMineSum e n cellAt along).1 = true) (d : Int)
    (h0 : 0 ≤ d) (h1 : d < n) :
    along (cellAt d) < e.board_.size_ ∧ e.board_.shot (cellAt d).1 (cellAt d).2 = 0 := by
  have hd : d ∈ intRange 0 (n - 1) := by
    rw [mem_intRange]; omega
  revert h
  unfold BattleshipAlgorithm.lineMineSum
  refine foldl_establish (fun _ => True)
    (fun (acc : Bool × K) => acc.1 = true →
      along (cellAt d) < e.board_.size_ ∧ e.board_.shot (cellAt d).1 (cellAt d).2 = 0)
    _ _ _ d hd trivial (fun _ _ _ _ => trivial) ?_ ?_
  · intro acc _
    simp only
    split
    · rename_i hacc
      intro hh
      rw [hh] at hacc
      simp at hacc
    · split
      · intro hh
        simp at hh
      · rename_i hok
        intro _
        unfold GameBoard.shot
        constructor
        · by_contra hc
          exact hok (Or.inl (by omega))
        · by_contra hc
          exact hok (Or.inr hc)
  · intro acc x _ _ hJ
    simp only
    split
    · exact hJ
    · rename_i hacc
      split
      · intro hh
        simp at hh
      · intro _
        apply hJ
        simpa using hacc

theorem BattleshipAlgorithm.safestPlacement_good (e : BattleshipAlgorithm K) (n : Int)
    (hn : 0 ≤ n) (candidates : List (Int × Int)) (hc : ∀ c ∈ candidates, e.Fresh c) :
    e.Good (BattleshipAlgorithm.safestPlacement e n candidates).2 := by
  unfold BattleshipAlgorithm.safestPlacement
  refine foldl_inv (fun (acc : K × (Int × Int)) => e.Good acc.2) _ _ _ (Or.inl rfl) ?_
  intro acc c hcm hacc
  have hfresh := hc c hcm
  have hdiv : Int.tdiv n 2 = n / 2 := Int.tdiv_eq_ediv hn (by decide)
  have hacc1 : e.Good
      (if (BattleshipAlgorithm.lineMineSum e n (fun d => (c.1 + d, c.2)) (fun p => p.1)).1 = true ∧
          (BattleshipAlgorithm.lineMineSum e n (fun d => (c.1 + d, c.2)) (fun p => p.1)).2 < acc.1
        then ((BattleshipAlgorithm.lineMineSum e n (fun d => (c.1 + d, c.2)) (fun p => p.1)).2,
          (c.1 + Int.tdiv n 2, c.2))
        else acc).2 := by
    split
    · rename_i hv
      right
      by_cases hn0 : n = 0
      · rw [hn0]
        have : Int.tdiv 0 2 = 0 := by decide
        rw [this, Int.add_zero]
        exact hfresh
      · have := BattleshipAlgorithm.lineMineSum_valid e n _ _ hv.1 (n / 2) (by omega) (by omega)
        simp only at this
        rw [hdiv]
        unfold BattleshipAlgorithm.Fresh GameBoard.inside at hfresh ⊢
        simp only
        exact ⟨⟨⟨by omega, this.1⟩, hfresh.1.2⟩, this.2⟩
    · exact hacc
  simp only
  generalize (if (BattleshipAlgorithm.lineMineSum e n (fun d => (c.1 + d, c.2))
          (fun p => p.1)).1 = true ∧
        (BattleshipAlgorithm.lineMineSum e n (fun d => (c.1 + d, c.2)) (fun p => p.1)).2 < acc.1
      then ((BattleshipAlgorithm.lineMineSum e n (fun d => (c.1 + d, c.2)) (fun p => p.1)).2,
        (c.1 + Int.tdiv n 2, c.2))
      else acc) = acc1 at hacc1 ⊢
  split
  · rename_i hv
    right
    by_cases hn0 : n = 0
    · rw [hn0]
      have : Int.tdiv 0 2 = 0 := by decide
      rw [this, Int.add_zero]
      exact hfresh
    · have := BattleshipAlgorithm.lineMineSum_valid e n _ _ hv.1 (n / 2) (by omega) (by omega)
      simp only at this
      rw [hdiv]
      unfold BattleshipAlgorithm.Fresh GameBoard.inside at hfresh ⊢
      simp only
      exact ⟨⟨hfresh.1.1, ⟨by omega, this.1⟩⟩, this.2⟩
  · exact hacc1

end BestLemmas3

section BestLemmas4

variable {K : Type} [LinearOrderedField K]

theorem getSquarePattern_inside (n x0 y0 size : Int) (hx : 0 ≤ x0) (hy : 0 ≤ y0) :
    ∀ c ∈ getSquarePattern n x0 y0 size, (0 ≤ c.1 ∧ c.1 < size) ∧ (0 ≤ c.2 ∧ c.2 < size) := by
  unfold getSquarePattern
  split
  · rename_i h4
    refine foldl_inv (fun (p : List (Int × Int)) =>
      ∀ c ∈ p, (0 ≤ c.1 ∧ c.1 < size) ∧ (0 ≤ c.2 ∧ c.2 < size)) _ _ _ ?_ ?_
    · intro c hc
      cases hc
    · intro p i hi hp
      rw [mem_intRange] at hi
      have hp1 : ∀ c ∈ (if x0 + i < size ∧ y0 + i < size then p ++ [(x0 + i, y0 + i)] else p),
          (0 ≤ c.1 ∧ c.1 < size) ∧ (0 ≤ c.2 ∧ c.2 < size) := by
        split
        · rename_i hc
          intro c hcm
          rcases List.mem_append.mp hcm with h | h
          · exact hp c h
          · rw [List.mem_singleton] at h
            rw [h]
            exact ⟨⟨by simp only; omega, hc.1⟩, ⟨by simp only; omega, hc.2⟩⟩
        · exact hp
      simp only
      split
      · rename_i hc
        intro c hcm
        rcases List.mem_append.mp hcm with h | h
        · exact hp1 c h
        · rw [List.mem_singleton] at h
          rw [h]
          exact ⟨⟨by simp only; omega, hc.1⟩, ⟨by simp only; omega, hc.2⟩⟩
      · exact hp1
  · split
    · refine foldl_inv (fun (p : List (Int × Int)) =>
        ∀ c ∈ p, (0 ≤ c.1 ∧ c.1 < size) ∧ (0 ≤ c.2 ∧ c.2 < size)) _ _ _ ?_ ?_
      · intro c hc
        cases hc
      · intro p i hi hp
        rw [mem_intRange] at hi
        split
        · rename_i hc
          intro c hcm
          rcases List.mem_append.mp hcm with h | h
          · exact hp c h
          · rw [List.mem_singleton] at h
            rw [h]
            exact ⟨⟨by simp only; omega, hc.1⟩, ⟨by simp only; omega, hc.2⟩⟩
        · exact hp
    · intro c hc
      cases hc

theorem mem_setInsert (c a : Int × Int) (s : List (Int × Int)) (h : c ∈ setInsert a s) :
    c = a ∨ c ∈ s := by
  induction s with
  | nil =>
    unfold setInsert at h
    left
    exact List.mem_singleton.mp h
  | cons d rest ih =>
    unfold setInsert at h
    split at h
    · rcases List.mem_cons.mp h with h1 | h1
      · left; exact h1
      · right; exact h1
    · split at h
      · rcases List.mem_cons.mp h with h1 | h1
        · right; rw [h1]; exact List.mem_cons_self _ _
        · rcases ih h1 with h2 | h2
          · left; exact h2
          · right; exact List.mem_cons_of_mem _ h2
      · right; exact h

theorem strideLoop_nonneg (size n : Int) (origins : List Int)
    (h : strideLoop size n = some origins) : ∀ v ∈ origins, 0 ≤ v := by
  unfold strideLoop at h
  split at h
  · cases h
    intro v hv
    cases hv
  · split at h
    · cases h
    · rename_i hn
      cases h
      intro v hv
      rw [List.mem_filter, List.mem_map] at hv
      obtain ⟨⟨k, _, rfl⟩, _⟩ := hv
      have hk : (0 : Int) ≤ k := Int.natCast_nonneg k
      exact Int.mul_nonneg hk (by omega)

theorem BattleshipAlgorithm.patternCells_inside (n size : Int) (origins : List Int)
    (ho : ∀ v ∈ origins, 0 ≤ v) :
    ∀ c ∈ BattleshipAlgorithm.patternCells n size origins,
      (0 ≤ c.1 ∧ c.1 < size) ∧ (0 ≤ c.2 ∧ c.2 < size) := by
  unfold BattleshipAlgorithm.patternCells
  refine foldl_inv (fun (s : List (Int × Int)) =>
    ∀ c ∈ s, (0 ≤ c.1 ∧ c.1 < size) ∧ (0 ≤ c.2 ∧ c.2 < size)) _ _ _ ?_ ?_
  · intro c hc
    cases hc
  · intro s1 y0 hy0 h1
    refine foldl_inv (fun (s : List (Int × Int)) =>
      ∀ c ∈ s, (0 ≤ c.1 ∧ c.1 < size) ∧ (0 ≤ c.2 ∧ c.2 < size)) _ _ _ h1 ?_
    intro s2 x0 hx0 h2
    refine foldl_inv (fun (s : List (Int × Int)) =>
      ∀ c ∈ s, (0 ≤ c.1 ∧ c.1 < size) ∧ (0 ≤ c.2 ∧ c.2 < size)) _ _ _ h2 ?_
    intro s3 cell hcell h3 c hc
    rcases mem_setInsert c cell s3 hc with h | h
    · rw [h]
      exact getSquarePattern_inside n x0 y0 size (ho x0 hx0) (ho y0 hy0) cell hcell
    · exact h3 c h

theorem BattleshipAlgorithm.fullScan_good (F : FloatOps K) (e : BattleshipAlgorithm K)
    (best : Option K × (Int × Int)) (hbest : e.Good best.2) :
    e.Good (BattleshipAlgorithm.fullScan F e best).2 := by
  unfold BattleshipAlgorithm.fullScan
  refine foldl_inv (fun (acc : Option K × (Int × Int)) => e.Good acc.2) _ _ _ hbest ?_
  intro acc1 i hi h1
  rw [mem_intRange] at hi
  refine foldl_inv (fun (acc : Option K × (Int × Int)) => e.Good acc.2) _ _ _ h1 ?_
  intro acc2 j hj h2
  rw [mem_intRange] at hj
  split
  · rename_i hshot
    exact BattleshipAlgorithm.consider_good F e acc2 j i
      ⟨⟨⟨hj.1, by omega⟩, ⟨hi.1, by omega⟩⟩, hshot⟩ h2
  · exact h2

/-- Whatever `findBestMove` returns is the no-move value or a cell of the board that is not
marked in the shot record, provided the wounded cells lie on the board. -/
theorem BattleshipAlgorithm.findBestMove_good (F : FloatOps K) (e : BattleshipAlgorithm K)
    (hin : ∀ c ∈ e.woundedCells_, e.board_.inside c.1 c.2) (m : Int × Int)
    (h : BattleshipAlgorithm.findBestMove F e = some m) : e.Good m := by
  unfold BattleshipAlgorithm.findBestMove at h
  simp only at h
  split at h
  · cases h
    exact BattleshipAlgorithm.findKillMove_good F e hin
  · have hb1 : e.Good (if e.hasLastHit = true then
        BattleshipAlgorithm.probeNeighbours F e (none, (-1, -1)) e.lastHitX e.lastHitY
        else (none, (-1, -1))).2 := by
      split
      · exact BattleshipAlgorithm.probeNeighbours_good F e _ _ _ (Or.inl rfl)
      · exact Or.inl rfl
    generalize (if e.hasLastHit = true then
        BattleshipAlgorithm.probeNeighbours F e (none, (-1, -1)) e.lastHitX e.lastHitY
        else (none, (-1, -1))) = best1 at hb1 h
    have hsafe := BattleshipAlgorithm.safestPlacement_good e (getMaxAliveShipLength e.board_)
      (getMaxAliveShipLength_nonneg e.board_)
      (findMaxShipCandidates e.board_ (getMaxAliveShipLength e.board_))
      (findMaxShipCandidates_fresh e.board_ (getMaxAliveShipLength e.board_))
    have hb2 : e.Good (if best1.2.1 = -1 then
        if e.currentLives_ ≤ 2 ∧
            (BattleshipAlgorithm.safestPlacement e (getMaxAliveShipLength e.board_)
              (findMaxShipCandidates e.board_ (getMaxAliveShipLength e.board_))).1
              > 0.5 * ((getMaxAliveShipLength e.board_ : Int) : K)
        then best1
        else if (BattleshipAlgorithm.safestPlacement e (getMaxAliveShipLength e.board_)
            (findMaxShipCandidates e.board_ (getMaxAliveShipLength e.board_))).2.1 ≠ -1
          then (best1.1, (BattleshipAlgorithm.safestPlacement e
            (getMaxAliveShipLength e.board_)
            (findMaxShipCandidates e.board_ (getMaxAliveShipLength e.board_))).2)
          else best1
        else best1).2 := by
      split
      · split
        · exact hb1
        · split
          · exact hsafe
          · exact hb1
      · exact hb1
    generalize (if best1.2.1 = -1 then
        if e.currentLives_ ≤ 2 ∧
            (BattleshipAlgorithm.safestPlacement e (getMaxAliveShipLength e.board_)
              (findMaxShipCandidates e.board_ (getMaxAliveShipLength e.board_))).1
              > 0.5 * ((getMaxAliveShipLength e.board_ : Int) : K)
        then best1
        else if (BattleshipAlgorithm.safestPlacement e (getMaxAliveShipLength e.board_)
            (findMaxShipCandidates e.board_ (getMaxAliveShipLength e.board_))).2.1 ≠ -1
          then (best1.1, (BattleshipAlgorithm.safestPlacement e
            (getMaxAliveShipLength e.board_)
            (findMaxShipCandidates e.board_ (getMaxAliveShipLength e.board_))).2)
          else best1
        else best1) = best2 at hb2 h
    split at h
    · split at h
      · cases h
      · rename_i origins horig
        have hpat := BattleshipAlgorithm.patternCells_inside (getMaxAliveShipLength e.board_)
          e.board_.size_ origins (strideLoop_nonneg _ _ origins horig)
        have hb3 : e.Good ((BattleshipAlgorithm.patternCells (getMaxAliveShipLength e.board_)
            e.board_.size_ origins).foldl (fun acc c =>
              if Grid.get 0 e.board_.shotsBoard_ c.1 c.2 = 0
              then BattleshipAlgorithm.consider F e acc c.1 c.2 else acc) best2).2 := by
          refine foldl_inv (fun (acc : Option K × (Int × Int)) => e.Good acc.2) _ _ _ hb2 ?_
          intro acc c hc hacc
          split
          · rename_i hshot
            exact BattleshipAlgorithm.consider_good F e acc c.1 c.2 ⟨hpat c hc, hshot⟩ hacc
          · exact hacc
        simp only [Option.some.injEq] at h
        rw [← h]
        split
        · exact BattleshipAlgorithm.fullScan_good F e _ hb3
        · exact hb3
    · cases h
      exact hb2

end BestLemmas4

section EngineLemmas1

variable {K : Type} [LinearOrderedField K]

/-- The engine's probability update writes likelihoods only. -/
theorem BattleshipAlgorithm.updateProbabilities_board (F : FloatOps K)
    (e : BattleshipAlgorithm K) (x y : Int) (hitShip hitMine : Bool) :
    GameBoard.SameGame e.board_
      (BattleshipAlgorithm.updateProbabilities F e x y hitShip hitMine).board_ := by
  unfold BattleshipAlgorithm.updateProbabilities
  simp only
  refine foldl_inv (GameBoard.SameGame e.board_) _ _ _
    (GameBoard.sameGame_updateProbabilities F e.board_ x y hitShip hitMine 0 0) ?_
  intro b1 dx _ h1
  refine foldl_inv (GameBoard.SameGame e.board_) _ _ _ h1 ?_
  intro b2 dy _ h2
  split
  · split
    · have h3 : GameBoard.SameGame e.board_
          (if hitShip = true ∧ (dx = 0 ∧ dy ≠ 0 ∨ dx ≠ 0 ∧ dy = 0) then
            b2.updateProbabilities F (x + dx) (y + dy) false false
              (F.exp (-F.sqrt (((dx * dx + dy * dy : Int) : K))) * 0.7) 0
          else b2) := by
        split
        · exact GameBoard.sameGame_trans _ b2 _ h2
            (GameBoard.sameGame_updateProbabilities F b2 _ _ _ _ _ _)
        · exact h2
      split
      · exact GameBoard.sameGame_trans _ _ _ h3
          (GameBoard.sameGame_updateProbabilities F _ _ _ _ _ _ _)
      · exact h3
    · exact h2
  · exact h2

/-- The engine's probability update leaves the engine's own fields alone. -/
theorem BattleshipAlgorithm.updateProbabilities_fields (F : FloatOps K)
    (e : BattleshipAlgorithm K) (x y : Int) (hitShip hitMine : Bool) :
    BattleshipAlgorithm.updateProbabilities F e x y hitShip hitMine =
      { e with board_ :=
          (BattleshipAlgorithm.updateProbabilities F e x y hitShip hitMine).board_ } := rfl

omit [LinearOrderedField K] in
theorem GameBoard.sound_of_sameGame (b b2 : GameBoard K) (hs : b.Sound)
    (h : GameBoard.SameGame b b2) : b2.Sound := by
  obtain ⟨hsize, hboard, hshots, hships, _, _, hsp, hmp⟩ := h
  obtain ⟨hwf, hcells, hpair, hmine, htrig⟩ := hs
  unfold GameBoard.Sound GameBoard.WF GameBoard.cell GameBoard.shot
  rw [hsize, hboard, hshots, hships]
  exact ⟨⟨hwf.1, hwf.2.1, hsp hwf.2.2.1, hmp hwf.2.2.2⟩, hcells, hpair, hmine, htrig⟩

/-- Purging the cells of sunk ships only removes entries of the wounded list. -/
theorem BattleshipAlgorithm.purge_subset (ships : List Ship) (board : Grid Int)
    (w0 : List (Int × Int)) :
    ∀ c ∈ ships.foldl (fun w ship =>
        if ship.cells.all (fun cell => Grid.get 0 board cell.1 cell.2 == 3) = true then
          ship.cells.foldl (fun w1 cell => w1.filter (fun c => c != cell)) w
        else w) w0, c ∈ w0 := by
  refine foldl_inv (fun (w : List (Int × Int)) => ∀ c ∈ w, c ∈ w0) _ _ _ (fun c hc => hc) ?_
  intro w ship _ hw
  split
  · refine foldl_inv (fun (w1 : List (Int × Int)) => ∀ c ∈ w1, c ∈ w0) _ _ _ hw ?_
    intro w1 cell _ hw1 c hc
    exact hw1 c (List.mem_filter.mp hc).1
  · exact hw

theorem BattleshipAlgorithm.fireAt_hit (F : FloatOps K) (e : BattleshipAlgorithm K)
    (x y : Int) : (BattleshipAlgorithm.fireAt F e x y).1 = (e.board_.makeShot x y).1 := by
  unfold BattleshipAlgorithm.fireAt
  simp only
  split
  · rfl
  · split <;> rfl

theorem BattleshipAlgorithm.fireAt_board (F : FloatOps K) (e : BattleshipAlgorithm K)
    (x y : Int) :
    GameBoard.SameGame (e.board_.makeShot x y).2 (BattleshipAlgorithm.fireAt F e x y).2.board_ := by
  unfold BattleshipAlgorithm.fireAt
  simp only
  split
  · split
    · exact BattleshipAlgorithm.updateProbabilities_board F _ x y true false
    · exact BattleshipAlgorithm.updateProbabilities_board F _ x y true false
  · split
    · exact BattleshipAlgorithm.updateProbabilities_board F _ x y false true
    · exact BattleshipAlgorithm.updateProbabilities_board F _ x y false false

theorem BattleshipAlgorithm.fireAt_lives (F : FloatOps K) (e : BattleshipAlgorithm K)
    (x y : Int) :
    (BattleshipAlgorithm.fireAt F e x y).2.currentLives_ =
      if (e.board_.makeShot x y).1 = true then e.currentLives_
      else if (e.board_.makeShot x y).2.cell x y = 4 then e.currentLives_ - 1
      else e.currentLives_ := by
  unfold BattleshipAlgorithm.fireAt
  simp only
  split
  · split <;> rfl
  · split
    · rename_i h4
      have : (e.board_.makeShot x y).2.cell x y = 4 := by simpa [GameBoard.cell] using h4
      rw [if_pos this]
      rfl
    · rename_i h4
      have : ¬ (e.board_.makeShot x y).2.cell x y = 4 := by simpa [GameBoard.cell] using h4
      rw [if_neg this]
      rfl

theorem BattleshipAlgorithm.fireAt_wounded (F : FloatOps K) (e : BattleshipAlgorithm K)
    (x y : Int) :
    ∀ c ∈ (BattleshipAlgorithm.fireAt F e x y).2.woundedCells_,
      c ∈ e.woundedCells_ ∨ c = (x, y) := by
  unfold BattleshipAlgorithm.fireAt
  simp only
  split
  · intro c hc
    have := BattleshipAlgorithm.purge_subset _ _ _ c hc
    rw [BattleshipAlgorithm.updateProbabilities_fields] at this
    simp only at this
    split at this
    · rcases List.mem_append.mp this with h | h
      · exact Or.inl h
      · exact Or.inr (List.mem_singleton.mp h)
    · exact Or.inl this
  · split
    · intro c hc
      exact Or.inl hc
    · intro c hc
      exact Or.inl hc

end EngineLemmas1

section EngineLemmas2

variable {K : Type} [LinearOrderedField K]

/-- A move either does not fire and changes nothing, or fires at the cell `findBestMove`
returned. -/
theorem BattleshipAlgorithm.makeMove_cases (F : FloatOps K) (e : BattleshipAlgorithm K)
    (hit : Bool) (e2 : BattleshipAlgorithm K)
    (h : BattleshipAlgorithm.makeMove F e = some (hit, e2)) :
    (BattleshipAlgorithm.firedCell F e = none ∧ hit = false ∧ e2 = e) ∨
    (∃ x y, BattleshipAlgorithm.firedCell F e = some (x, y) ∧
      BattleshipAlgorithm.findBestMove F e = some (x, y) ∧
      BattleshipAlgorithm.fireAt F e x y = (hit, e2)) := by
  unfold BattleshipAlgorithm.makeMove at h
  unfold BattleshipAlgorithm.firedCell
  by_cases hl : e.currentLives_ ≤ 0
  · rw [if_pos hl] at h ⊢
    left
    simp only [Option.some.injEq, Prod.mk.injEq] at h
    exact ⟨rfl, h.1.symm, h.2.symm⟩
  · rw [if_neg hl] at h ⊢
    cases hb : BattleshipAlgorithm.findBestMove F e with
    | none => rw [hb] at h; simp at h
    | some m =>
      obtain ⟨x, y⟩ := m
      rw [hb] at h
      simp only at h ⊢
      by_cases hxy : x = -1 ∨ y = -1
      · rw [if_pos hxy] at h ⊢
        left
        simp only [Option.some.injEq, Prod.mk.injEq] at h
        exact ⟨rfl, h.1.symm, h.2.symm⟩
      · rw [if_neg hxy] at h ⊢
        right
        simp only [Option.some.injEq] at h
        exact ⟨x, y, rfl, rfl, h⟩

/-- The cell a move fires at is a legal target. -/
theorem BattleshipAlgorithm.firedCell_fresh (F : FloatOps K) (e : BattleshipAlgorithm K)
    (hok : e.OK) (x y : Int) (h : BattleshipAlgorithm.firedCell F e = some (x, y)) :
    e.Fresh (x, y) := by
  unfold BattleshipAlgorithm.firedCell at h
  split at h
  · cases h
  · split at h
    · cases h
    · rename_i a b hb
      split at h
      · cases h
      · rename_i hne
        simp only [Option.some.injEq, Prod.mk.injEq] at h
        obtain ⟨rfl, rfl⟩ := h
        rcases BattleshipAlgorithm.findBestMove_good F e hok.2 (a, b) hb with hg | hg
        · simp only [Prod.mk.injEq] at hg
          exact absurd (Or.inl hg.1) hne
        · exact hg

theorem BattleshipAlgorithm.fireAt_ok (F : FloatOps K) (e : BattleshipAlgorithm K)
    (hok : e.OK) (x y : Int) (hfresh : e.Fresh (x, y)) :
    (BattleshipAlgorithm.fireAt F e x y).2.OK := by
  have hsame := BattleshipAlgorithm.fireAt_board F e x y
  have hsound := GameBoard.sound_makeShot e.board_ hok.1 x y
  refine ⟨GameBoard.sound_of_sameGame _ _ hsound hsame, ?_⟩
  intro c hc
  have hsize : (BattleshipAlgorithm.fireAt F e x y).2.board_.size_ = e.board_.size_ := by
    rw [hsame.1, (GameBoard.makeShot_keeps e.board_ hok.1.1.1 x y).1]
  unfold GameBoard.inside
  rw [hsize]
  rcases BattleshipAlgorithm.fireAt_wounded F e x y c hc with h | h
  · exact hok.2 c h
  · rw [h]
    exact hfresh.1

theorem BattleshipAlgorithm.makeMove_ok (F : FloatOps K) (e : BattleshipAlgorithm K)
    (hok : e.OK) (hit : Bool) (e2 : BattleshipAlgorithm K)
    (h : BattleshipAlgorithm.makeMove F e = some (hit, e2)) : e2.OK := by
  rcases BattleshipAlgorithm.makeMove_cases F e hit e2 h with h1 | ⟨x, y, hf, _, hfire⟩
  · rw [h1.2.2]
    exact hok
  · have := BattleshipAlgorithm.fireAt_ok F e hok x y
      (BattleshipAlgorithm.firedCell_fresh F e hok x y hf)
    rw [hfire] at this
    exact this

omit [LinearOrderedField K] in
theorem Grid.square_map_const {α : Type} (n : Int) (g : Grid α) (v : α)
    (h : Grid.Square n g) : Grid.Square n (g.map (fun row => row.map (fun _ => v))) := by
  refine ⟨by rw [List.length_map]; exact h.1, ?_⟩
  intro row hrow
  obtain ⟨r, hr, rfl⟩ := List.mem_map.mp hrow
  rw [List.length_map]
  exact h.2 r hr

theorem BattleshipAlgorithm.new_ok [FloorRing K] (board : GameBoard K) (hs : board.Sound)
    (maxLives : Int) : (BattleshipAlgorithm.new board maxLives).OK := by
  refine ⟨?_, ?_⟩
  · refine GameBoard.sound_of_sameGame board _ hs ?_
    exact ⟨rfl, rfl, rfl, rfl, rfl, rfl,
      fun h => Grid.square_map_const _ _ _ h, fun h => Grid.square_map_const _ _ _ h⟩
  · intro c hc
    cases hc

theorem BattleshipAlgorithm.reachable_ok [FloorRing K] (F : FloatOps K)
    (e : BattleshipAlgorithm K) (h : BattleshipAlgorithm.Reachable F e) : e.OK := by
  induction h with
  | start size ops maxLives =>
    exact BattleshipAlgorithm.new_ok _ (GameBoard.sound_run _ (GameBoard.sound_new size) ops) _
  | move e hit e2 _ hm ih => exact BattleshipAlgorithm.makeMove_ok F e ih hit e2 hm

/-- The shot record after firing at a cell of the board. -/
theorem BattleshipAlgorithm.fireAt_shot (F : FloatOps K) (e : BattleshipAlgorithm K)
    (hok : e.OK) (x y : Int) (hin : e.board_.inside x y) (u v : Int) :
    (BattleshipAlgorithm.fireAt F e x y).2.board_.shot u v =
      if u = x ∧ v = y then 1 else e.board_.shot u v := by
  have hsame := BattleshipAlgorithm.fireAt_board F e x y
  unfold GameBoard.shot
  rw [hsame.2.2.1]
  exact GameBoard.makeShot_shot e.board_ hok.1.1 x y hin u v

/-- The board after firing reads as the board after `makeShot`. -/
theorem BattleshipAlgorithm.fireAt_cell (F : FloatOps K) (e : BattleshipAlgorithm K)
    (x y u v : Int) :
    (BattleshipAlgorithm.fireAt F e x y).2.board_.cell u v
      = (e.board_.makeShot x y).2.cell u v := by
  unfold GameBoard.cell
  rw [(BattleshipAlgorithm.fireAt_board F e x y).2.1]

end EngineLemmas2

section ReturnLemmas

variable {K : Type} [LinearOrderedField K]

omit [LinearOrderedField K] in
theorem scanLine_mono (size maxShipLen : Int) (cellAt : Int → Int) (mk : Int → Int × Int)
    (candidates : List (Int × Int)) (c : Int × Int) (hc : c ∈ candidates) :
    c ∈ scanLine size maxShipLen cellAt mk candidates := by
  unfold scanLine
  refine foldl_inv (fun (acc : Int × List (Int × Int)) => c ∈ acc.2) _ _ _ hc ?_
  intro acc i _ hacc
  dsimp only
  generalize (if cellAt i = 0 then acc.1 + 1 else 0) = s
  split
  · split
    · exact List.mem_append_left _ hacc
    · exact hacc
  · exact hacc

omit [LinearOrderedField K] in
/-- With a longest ship of length 0, a pass of `scanLine` lists every unshot cell of the
line. -/
theorem scanLine_zero_mem (size : Int) (cellAt : Int → Int) (mk : Int → Int × Int)
    (candidates : List (Int × Int)) (i : Int) (h0 : 0 ≤ i) (h1 : i < size)
    (hz : cellAt i = 0) : mk i ∈ scanLine size 0 cellAt mk candidates := by
  unfold scanLine
  have hi : i ∈ intRange 0 (size - 1) := by
    rw [mem_intRange]; omega
  refine foldl_establish (fun (acc : Int × List (Int × Int)) => 0 ≤ acc.1)
    (fun (acc : Int × List (Int × Int)) => mk i ∈ acc.2) _ _ _ i hi (le_refl 0) ?_ ?_ ?_
  · intro acc j _ hacc
    dsimp only
    have hs : 0 ≤ (if cellAt j = 0 then acc.1 + 1 else 0) := by
      split <;> omega
    generalize (if cellAt j = 0 then acc.1 + 1 else 0) = s at hs ⊢
    split_ifs <;> exact hs
  · intro acc hacc
    dsimp only
    rw [if_pos hz]
    have hdiv : Int.tdiv 0 2 = 0 := by decide
    rw [hdiv, if_pos (by omega), if_pos (by omega)]
    simp
  · intro acc j _ _ hJ
    dsimp only
    generalize (if cellAt j = 0 then acc.1 + 1 else 0) = s
    split
    · split
      · exact List.mem_append_left _ hJ
      · exact hJ
    · exact hJ

omit [LinearOrderedField K] in
theorem findMaxShipCandidates_zero_mem (board : GameBoard K) (x y : Int)
    (hin : board.inside x y) (hshot : board.shot x y = 0) :
    (x, y) ∈ findMaxShipCandidates board 0 := by
  unfold findMaxShipCandidates
  simp only
  refine foldl_inv (fun (cands : List (Int × Int)) => (x, y) ∈ cands) _ _ _ ?_ ?_
  · have hy : y ∈ intRange 0 (board.size_ - 1) := by
      rw [mem_intRange]
      have := hin.2
      omega
    refine foldl_establish (fun _ => True) (fun (cands : List (Int × Int)) => (x, y) ∈ cands)
      _ _ _ y hy trivial (fun _ _ _ _ => trivial) ?_ ?_
    · intro cands _
      exact scanLine_zero_mem board.size_ (fun x => Grid.get 0 board.shotsBoard_ x y)
        (fun center => (center, y)) cands x hin.1.1 hin.1.2 hshot
    · intro cands j _ _ hJ
      exact scanLine_mono _ _ _ _ _ _ hJ
  · intro cands j _ hJ
    exact scanLine_mono _ _ _ _ _ _ hJ

theorem BattleshipAlgorithm.lineMineSum_zero (e : BattleshipAlgorithm K)
    (cellAt : Int → Int × Int) (along : Int × Int → Int) :
    BattleshipAlgorithm.lineMineSum e 0 cellAt along = (true, 0) := by
  unfold BattleshipAlgorithm.lineMineSum
  rw [intRange_empty 0 (0 - 1) (by omega)]
  rfl

/-- With a longest ship of length 0 the safest placement is the first candidate, at mine sum
0. -/
theorem BattleshipAlgorithm.safestPlacement_zero (e : BattleshipAlgorithm K)
    (c : Int × Int) (rest : List (Int × Int)) :
    BattleshipAlgorithm.safestPlacement e 0 (c :: rest) = (0, c) := by
  unfold BattleshipAlgorithm.safestPlacement
  have hdiv : Int.tdiv 0 2 = 0 := by decide
  rw [List.foldl_cons]
  simp only [BattleshipAlgorithm.lineMineSum_zero, hdiv, Int.add_zero, true_and]
  have hpos : (0 : K) < 1000000000 := by norm_num
  rw [if_pos hpos]
  simp only [lt_self_iff_false, if_false]
  refine foldl_inv (fun (acc : K × (Int × Int)) => acc = (0, c)) _ _ _ rfl ?_
  intro acc d _ hacc
  rw [hacc]
  simp

/-- The function `findBestMove` returns whenever an unsunk ship is left or a cell of the
board is not yet marked in the shot record. -/
theorem BattleshipAlgorithm.findBestMove_returns (F : FloatOps K) (e : BattleshipAlgorithm K)
    (h : 1 ≤ getMaxAliveShipLength e.board_ ∨
      ∃ x y, e.board_.inside x y ∧ e.board_.shot x y = 0) :
    (BattleshipAlgorithm.findBestMove F e).isSome = true := by
  unfold BattleshipAlgorithm.findBestMove
  simp only
  by_cases hk : (!e.woundedCells_.isEmpty) = true ∧ (BattleshipAlgorithm.findKillMove F e).1 ≠ -1
  · rw [if_pos hk]
    rfl
  · rw [if_neg hk]
    generalize (if e.hasLastHit = true then
      BattleshipAlgorithm.probeNeighbours F e (none, (-1, -1)) e.lastHitX e.lastHitY
      else (none, (-1, -1))) = best1
    by_cases hn : 1 ≤ getMaxAliveShipLength e.board_
    · have hstride : ∃ origins, strideLoop e.board_.size_ (getMaxAliveShipLength e.board_)
          = some origins := by
        unfold strideLoop
        split
        · exact ⟨_, rfl⟩
        · rw [if_neg (by omega)]
          exact ⟨_, rfl⟩
      obtain ⟨origins, ho⟩ := hstride
      rw [ho]
      simp only
      generalize (if best1.2.1 = -1 then
        if e.currentLives_ ≤ 2 ∧
            (BattleshipAlgorithm.safestPlacement e (getMaxAliveShipLength e.board_)
              (findMaxShipCandidates e.board_ (getMaxAliveShipLength e.board_))).1
              > 0.5 * ((getMaxAliveShipLength e.board_ : Int) : K)
        then best1
        else if (BattleshipAlgorithm.safestPlacement e (getMaxAliveShipLength e.board_)
            (findMaxShipCandidates e.board_ (getMaxAliveShipLength e.board_))).2.1 ≠ -1
          then (best1.1, (BattleshipAlgorithm.safestPlacement e
            (getMaxAliveShipLength e.board_)
            (findMaxShipCandidates e.board_ (getMaxAliveShipLength e.board_))).2)
          else best1
        else best1) = best2
      by_cases h2 : best2.2.1 = -1
      · rw [if_pos h2]
        rfl
      · rw [if_neg h2]
        rfl
    · have hn0 : getMaxAliveShipLength e.board_ = 0 := by
        have := getMaxAliveShipLength_nonneg e.board_
        omega
      obtain ⟨x, y, hin, hshot⟩ := h.resolve_left hn
      have hmem := findMaxShipCandidates_zero_mem e.board_ x y hin hshot
      rw [hn0]
      obtain ⟨c, rest, hcands⟩ := List.exists_cons_of_ne_nil (List.ne_nil_of_mem hmem)
      have hfresh := findMaxShipCandidates_fresh e.board_ 0 c (by rw [hcands]; exact List.mem_cons_self _ _)
      rw [hcands, BattleshipAlgorithm.safestPlacement_zero]
      have hc1 : c.1 ≠ -1 := by
        have := hfresh.1.1.1
        omega
      have hnot : ¬ (e.currentLives_ ≤ 2 ∧ (0 : K) > 0.5 * ((0 : Int) : K)) := by
        rintro ⟨_, h2⟩
        simp at h2
      simp only [hnot, if_false, hc1, ne_eq, not_false_eq_true, if_true]
      by_cases hb : best1.2.1 = -1
      · simp only [hb, if_true]
        rw [if_neg hc1]
        rfl
      · simp only [hb, if_false]
        rfl

end ReturnLemmas

section EngineLemmas3

variable {K : Type} [LinearOrderedField K]

/-- A move that fires is the shot at the fired cell with its bookkeeping. -/
theorem BattleshipAlgorithm.makeMove_of_firedCell (F : FloatOps K) (e : BattleshipAlgorithm K)
    (x y : Int) (h : BattleshipAlgorithm.firedCell F e = some (x, y)) :
    BattleshipAlgorithm.makeMove F e = some (BattleshipAlgorithm.fireAt F e x y) := by
  unfold BattleshipAlgorithm.firedCell at h
  unfold BattleshipAlgorithm.makeMove
  split at h
  · cases h
  · rename_i hl
    rw [if_neg hl]
    split at h
    · cases h
    · rename_i a b hb
      split at h
      · cases h
      · rename_i hne
        rw [if_neg hne]
        simp only [Option.some.injEq, Prod.mk.injEq] at h
        rw [h.1, h.2]

end EngineLemmas3

section SettledLemmas

variable {K : Type}

theorem list_set_same {α : Type} (l : List α) (i : Nat) (h : i < l.length) :
    l.set i (l.get ⟨i, h⟩) = l := by
  apply List.ext_getElem (by simp)
  intro n h1 h2
  rw [List.getElem_set]
  by_cases hin : i = n
  · subst hin
    simp
  · simp [hin]

theorem Grid.set_same {α : Type} (d : α) (g : Grid α) (n x y : Int) (v : α)
    (hg : Grid.Square n g) (hx : 0 ≤ x ∧ x < n) (hy : 0 ≤ y ∧ y < n)
    (h : Grid.get d g x y = v) : Grid.set g x y v = g := by
  unfold Grid.get at h
  unfold Grid.set
  rw [if_pos ⟨hx.1, hy.1⟩] at h ⊢
  have hylt : y.toNat < g.length := by
    rw [hg.1]
    omega
  have hrow : g.getD y.toNat [] = g[y.toNat] := by
    rw [List.getD_eq_getElem?_getD, List.getElem?_eq_getElem hylt]
    rfl
  rw [hrow] at h ⊢
  have hxlt : x.toNat < (g[y.toNat]).length := by
    rw [hg.2 _ (List.getElem_mem hylt)]
    omega
  have hcell : (g[y.toNat]).getD x.toNat d = (g[y.toNat])[x.toNat] := by
    rw [List.getD_eq_getElem?_getD, List.getElem?_eq_getElem hxlt]
    rfl
  rw [hcell] at h
  rw [← h]
  have h1 := list_set_same (g[y.toNat]) x.toNat hxlt
  simp only [List.get_eq_getElem] at h1
  rw [h1]
  have h2 := list_set_same g y.toNat hylt
  simp only [List.get_eq_getElem] at h2
  exact h2

theorem GameBoard.settled_new [LinearOrderedField K] (size : Int) :
    (GameBoard.new size : GameBoard K).Settled := by
  intro x y h
  exfalso
  apply h
  by_cases hin : (0 ≤ x ∧ x < size) ∧ (0 ≤ y ∧ y < size)
  · exact Grid.get_fill 0 size 0 x y hin.1 hin.2
  · exact Grid.get_outside 0 _ size x y (Grid.square_fill size 0) hin

theorem GameBoard.settled_placeShip (b : GameBoard K) (hwf : b.WF) (hs : b.Settled)
    (x y length : Int) (horizontal : Bool) : (b.placeShip x y length horizontal).2.Settled := by
  by_cases h : b.canPlaceShip x y length horizontal = true
  · intro u v huv
    have hk := GameBoard.placeShip_keeps b x y length horizontal h
    have hshot : (b.placeShip x y length horizontal).2.shot u v = b.shot u v := by
      unfold GameBoard.shot
      rw [hk.2.1]
    rw [hshot] at huv ⊢
    obtain ⟨h1, h0, h1', h2⟩ := hs u v huv
    rw [GameBoard.placeShip_cell b hwf.1 x y length horizontal h u v]
    by_cases hmem : (u, v) ∈ shipCells x y length horizontal
    · exfalso
      exact h0 (GameBoard.canPlaceShip_clear b x y length horizontal h (u, v) hmem u v
        (touches_self (u, v)) (GameBoard.canPlaceShip_inside b x y length horizontal h _ hmem))
    · rw [if_neg hmem]
      exact ⟨h1, h0, h1', h2⟩
  · rw [GameBoard.placeShip_reject b x y length horizontal (by simpa using h)]
    exact hs

theorem GameBoard.settled_placeMine (b : GameBoard K) (hwf : b.WF) (hs : b.Settled)
    (x y : Int) : (b.placeMine x y).2.Settled := by
  by_cases h : b.canPlaceMine x y = true
  · intro u v huv
    have hk := GameBoard.placeMine_keeps b x y h
    have hshot : (b.placeMine x y).2.shot u v = b.shot u v := by
      unfold GameBoard.shot
      rw [hk.2.1]
    rw [hshot] at huv ⊢
    obtain ⟨h1, h0, h1', h2⟩ := hs u v huv
    rw [GameBoard.placeMine_cell b hwf.1 x y h u v]
    obtain ⟨_, hempty, _⟩ := (GameBoard.canPlaceMine_iff b x y).mp h
    by_cases hxy : u = x ∧ v = y
    · exfalso
      obtain ⟨rfl, rfl⟩ := hxy
      exact h0 hempty
    · rw [if_neg hxy]
      exact ⟨h1, h0, h1', h2⟩
  · rw [GameBoard.placeMine_reject b x y (by simpa using h)]
    exact hs

theorem GameBoard.settled_makeShot (b : GameBoard K) (hwf : b.WF) (hs : b.Settled)
    (x y : Int) : (b.makeShot x y).2.Settled := by
  by_cases hin : b.inside x y
  · intro u v huv
    rw [GameBoard.makeShot_shot b hwf x y hin u v] at huv ⊢
    have hc := GameBoard.makeShot_cell b hwf.1 x y u v
    by_cases hxy : u = x ∧ v = y
    · rw [if_pos hxy]
      refine ⟨rfl, ?_⟩
      obtain ⟨rfl, rfl⟩ := hxy
      by_cases h1 : b.cell u v = 1
      · have := GameBoard.makeShot_hit_cell b hwf.1 u v hin h1
        omega
      · by_cases h2 : b.cell u v = 2
        · rw [GameBoard.makeShot_mine b u v hin h2]
          have h4 : Grid.get 0 (Grid.set b.board_ u v 4) u v = 4 :=
            Grid.get_set_self 0 b.board_ b.size_ u v 4 hwf.1 hin.1 hin.2
          show Grid.get 0 (Grid.set b.board_ u v 4) u v ≠ 0 ∧
            Grid.get 0 (Grid.set b.board_ u v 4) u v ≠ 1 ∧
            Grid.get 0 (Grid.set b.board_ u v 4) u v ≠ 2
          omega
        · by_cases h0 : b.cell u v = 0
          · rw [GameBoard.makeShot_empty b u v hin h0]
            have h5 : Grid.get 0 (Grid.set b.board_ u v 5) u v = 5 :=
              Grid.get_set_self 0 b.board_ b.size_ u v 5 hwf.1 hin.1 hin.2
            show Grid.get 0 (Grid.set b.board_ u v 5) u v ≠ 0 ∧
              Grid.get 0 (Grid.set b.board_ u v 5) u v ≠ 1 ∧
              Grid.get 0 (Grid.set b.board_ u v 5) u v ≠ 2
            omega
          · rw [GameBoard.makeShot_other b u v hin h0 h1 h2]
            exact ⟨h0, h1, h2⟩
    · rw [if_neg hxy] at huv ⊢
      obtain ⟨h1, h0, h1', h2⟩ := hs u v huv
      refine ⟨h1, ?_⟩
      rcases hc with hc | hc | hc | hc
      · rw [hc]
        exact ⟨h0, h1', h2⟩
      · omega
      · exact absurd hc.1 hxy
      · exact absurd hc.1 hxy
  · rw [GameBoard.makeShot_outside b x y hin]
    exact hs

theorem GameBoard.settled_apply [LinearOrderedField K] (b : GameBoard K) (hwf : b.WF)
    (hs : b.Settled) (op : BoardOp) : (b.apply op).Settled := by
  cases op with
  | placeShip x y length horizontal =>
    exact GameBoard.settled_placeShip b hwf hs x y length horizontal
  | placeMine x y => exact GameBoard.settled_placeMine b hwf hs x y
  | makeShot x y => exact GameBoard.settled_makeShot b hwf hs x y

theorem GameBoard.settled_run [LinearOrderedField K] (size : Int) (ops : List BoardOp) :
    ((GameBoard.new size : GameBoard K).run ops).Sound ∧
    ((GameBoard.new size : GameBoard K).run ops).Settled :=
  foldl_inv (fun (b : GameBoard K) => b.Sound ∧ b.Settled) _ _ _
    ⟨GameBoard.sound_new size, GameBoard.settled_new size⟩
    (fun b op _ hb => ⟨GameBoard.sound_apply b hb.1 op, GameBoard.settled_apply b hb.1.1 hb.2 op⟩)

end SettledLemmas

section UnitLemmas

variable {K : Type} [LinearOrderedField K]

omit [LinearOrderedField K] in
theorem list_getD_cases {α : Type} (l : List α) (i : Nat) (d : α) :
    l.getD i d ∈ l ∨ l.getD i d = d := by
  rw [List.getD_eq_getElem?_getD]
  by_cases h : i < l.length
  · left
    rw [List.getElem?_eq_getElem h]
    exact List.getElem_mem h
  · right
    rw [List.getElem?_eq_none (by omega)]
    rfl

theorem Grid.unit_set (g : Grid K) (x y : Int) (v : K) (hg : Grid.Unit g)
    (hv : 0 ≤ v ∧ v ≤ 1) : Grid.Unit (Grid.set g x y v) := by
  unfold Grid.set
  split
  · intro row hrow p hp
    rcases List.mem_or_eq_of_mem_set hrow with h | h
    · exact hg row h p hp
    · subst h
      rcases List.mem_or_eq_of_mem_set hp with h2 | h2
      · rcases list_getD_cases g y.toNat [] with hmem | hnil
        · exact hg _ hmem p h2
        · rw [hnil] at h2
          cases h2
      · subst h2
        exact hv
  · exact hg

theorem Grid.unit_get (g : Grid K) (x y : Int) (hg : Grid.Unit g) :
    0 ≤ Grid.get 0 g x y ∧ Grid.get 0 g x y ≤ 1 := by
  unfold Grid.get
  split
  · rcases list_getD_cases g y.toNat [] with hmem | hnil
    · rcases list_getD_cases (g.getD y.toNat []) x.toNat 0 with hp | hp
      · exact hg _ hmem _ hp
      · rw [hp]
        exact ⟨le_refl 0, zero_le_one⟩
    · rw [hnil]
      exact ⟨le_refl 0, zero_le_one⟩
  · exact ⟨le_refl 0, zero_le_one⟩

theorem Grid.unit_map_const (g : Grid K) (v : K) (hv : 0 ≤ v ∧ v ≤ 1) :
    Grid.Unit (g.map (fun row => row.map (fun _ => v))) := by
  intro row hrow p hp
  obtain ⟨r, _, rfl⟩ := List.mem_map.mp hrow
  obtain ⟨_, _, rfl⟩ := List.mem_map.mp hp
  exact hv

theorem clamp_unit (v : K) : 0 ≤ max 0 (min 1 v) ∧ max 0 (min 1 v) ≤ 1 :=
  ⟨le_max_left 0 _, max_le zero_le_one (min_le_left 1 v)⟩

theorem GameBoard.unit_updateProbabilities (F : FloatOps K) (b : GameBoard K) (x y : Int)
    (hitShip hitMine : Bool) (shipFactor mineFactor : K) (h : b.UnitGrids) :
    (b.updateProbabilities F x y hitShip hitMine shipFactor mineFactor).UnitGrids := by
  have h01 : (0 : K) ≤ 0 ∧ (0 : K) ≤ 1 := ⟨le_refl 0, zero_le_one⟩
  have h11 : (0 : K) ≤ 1 ∧ (1 : K) ≤ 1 := ⟨zero_le_one, le_refl 1⟩
  unfold GameBoard.updateProbabilities
  dsimp only
  have hb1 : GameBoard.UnitGrids
      (if hitShip = true then
        { b with shipProbabilities_ := Grid.set b.shipProbabilities_ x y 1
                 mineProbabilities_ := Grid.set b.mineProbabilities_ x y 0 }
      else if hitMine = true then
        { b with shipProbabilities_ := Grid.set b.shipProbabilities_ x y 0
                 mineProbabilities_ := Grid.set b.mineProbabilities_ x y 1 }
      else
        { b with shipProbabilities_ := Grid.set b.shipProbabilities_ x y 0
                 mineProbabilities_ := Grid.set b.mineProbabilities_ x y 0 }) := by
    split
    · exact ⟨Grid.unit_set _ x y 1 h.1 h11, Grid.unit_set _ x y 0 h.2 h01⟩
    · split
      · exact ⟨Grid.unit_set _ x y 0 h.1 h01, Grid.unit_set _ x y 1 h.2 h11⟩
      · exact ⟨Grid.unit_set _ x y 0 h.1 h01, Grid.unit_set _ x y 0 h.2 h01⟩
  generalize (if hitShip = true then
        ({ b with shipProbabilities_ := Grid.set b.shipProbabilities_ x y 1
                  mineProbabilities_ := Grid.set b.mineProbabilities_ x y 0 } : GameBoard K)
      else if hitMine = true then
        { b with shipProbabilities_ := Grid.set b.shipProbabilities_ x y 0
                 mineProbabilities_ := Grid.set b.mineProbabilities_ x y 1 }
      else
        { b with shipProbabilities_ := Grid.set b.shipProbabilities_ x y 0
                 mineProbabilities_ := Grid.set b.mineProbabilities_ x y 0 }) = b1 at hb1 ⊢
  split
  · refine foldl_inv GameBoard.UnitGrids _ _ _ hb1 ?_
    intro b2 dx _ h2
    refine foldl_inv GameBoard.UnitGrids _ _ _ h2 ?_
    intro b3 dy _ h3
    split
    · split
      · have h4 : GameBoard.UnitGrids
            (if shipFactor ≠ 0 then
              { b3 with shipProbabilities_ := (Grid.set b3.shipProbabilities_ (x + dx) (y + dy)
                  (max 0 (min 1 (Grid.get 0 b3.shipProbabilities_ (x + dx) (y + dy)
                    + shipFactor * F.exp (-F.sqrt (((dx * dx + dy * dy : Int) : K))))))) }
            else b3) := by
          split
          · exact ⟨Grid.unit_set _ _ _ _ h3.1 (clamp_unit _), h3.2⟩
          · exact h3
        generalize (if shipFactor ≠ 0 then
              ({ b3 with shipProbabilities_ := (Grid.set b3.shipProbabilities_ (x + dx) (y + dy)
                  (max 0 (min 1 (Grid.get 0 b3.shipProbabilities_ (x + dx) (y + dy)
                    + shipFactor * F.exp (-F.sqrt (((dx * dx + dy * dy : Int) : K))))))) }
                : GameBoard K)
            else b3) = b4 at h4 ⊢
        split
        · exact ⟨h4.1, Grid.unit_set _ _ _ _ h4.2 (clamp_unit _)⟩
        · exact h4
      · exact h3
    · exact h3
  · exact hb1

theorem BattleshipAlgorithm.unit_engineUpdate (F : FloatOps K)
    (e : BattleshipAlgorithm K) (x y : Int) (hitShip hitMine : Bool)
    (h : e.board_.UnitGrids) :
    (BattleshipAlgorithm.updateProbabilities F e x y hitShip hitMine).board_.UnitGrids := by
  unfold BattleshipAlgorithm.updateProbabilities
  simp only
  refine foldl_inv GameBoard.UnitGrids _ _ _
    (GameBoard.unit_updateProbabilities F e.board_ x y hitShip hitMine 0 0 h) ?_
  intro b1 dx _ h1
  refine foldl_inv GameBoard.UnitGrids _ _ _ h1 ?_
  intro b2 dy _ h2
  split
  · split
    · have h3 : GameBoard.UnitGrids
          (if hitShip = true ∧ (dx = 0 ∧ dy ≠ 0 ∨ dx ≠ 0 ∧ dy = 0) then
            b2.updateProbabilities F (x + dx) (y + dy) false false
              (F.exp (-F.sqrt (((dx * dx + dy * dy : Int) : K))) * 0.7) 0
          else b2) := by
        split
        · exact GameBoard.unit_updateProbabilities F b2 _ _ _ _ _ _ h2
        · exact h2
      split
      · exact GameBoard.unit_updateProbabilities F _ _ _ _ _ _ _ h3
      · exact h3
    · exact h2
  · exact h2

theorem BattleshipAlgorithm.fireAt_unit (F : FloatOps K) (e : BattleshipAlgorithm K)
    (hb : Grid.Square e.board_.size_ e.board_.board_) (x y : Int) (h : e.board_.UnitGrids) :
    (BattleshipAlgorithm.fireAt F e x y).2.board_.UnitGrids := by
  have hk := GameBoard.makeShot_keeps e.board_ hb x y
  have hshot : (e.board_.makeShot x y).2.UnitGrids := by
    unfold GameBoard.UnitGrids
    rw [hk.2.2.2.1, hk.2.2.2.2]
    exact h
  unfold BattleshipAlgorithm.fireAt
  simp only
  split
  · split
    · exact BattleshipAlgorithm.unit_engineUpdate F _ x y true false hshot
    · exact BattleshipAlgorithm.unit_engineUpdate F _ x y true false hshot
  · split
    · exact BattleshipAlgorithm.unit_engineUpdate F _ x y false true hshot
    · exact BattleshipAlgorithm.unit_engineUpdate F _ x y false false hshot

theorem initial_prob_unit [FloorRing K] (c : K) (hc0 : 0 ≤ c) (hc1 : c ≤ 1) (s : Int)
    (hs : s ≠ 0) :
    0 ≤ ((⌊c * (s : K) * (s : K)⌋ : Int) : K) / ((s * s : Int) : K) ∧
    ((⌊c * (s : K) * (s : K)⌋ : Int) : K) / ((s * s : Int) : K) ≤ 1 := by
  have hss : (0 : K) < ((s * s : Int) : K) := by
    have : 0 < s * s := mul_self_pos.mpr hs
    exact_mod_cast this
  have hcast : ((s * s : Int) : K) = (s : K) * (s : K) := by push_cast; ring
  have hnn : 0 ≤ c * (s : K) * (s : K) := by
    rw [mul_assoc, ← hcast]
    exact mul_nonneg hc0 hss.le
  have hfl0 : (0 : Int) ≤ ⌊c * (s : K) * (s : K)⌋ := Int.floor_nonneg.mpr hnn
  have hfl1 : ((⌊c * (s : K) * (s : K)⌋ : Int) : K) ≤ c * (s : K) * (s : K) := Int.floor_le _
  refine ⟨div_nonneg (by exact_mod_cast hfl0) hss.le, ?_⟩
  rw [div_le_one hss]
  calc ((⌊c * (s : K) * (s : K)⌋ : Int) : K) ≤ c * (s : K) * (s : K) := hfl1
    _ = c * ((s * s : Int) : K) := by rw [hcast]; ring
    _ ≤ 1 * ((s * s : Int) : K) := mul_le_mul_of_nonneg_right hc1 hss.le
    _ = ((s * s : Int) : K) := one_mul _

theorem BattleshipAlgorithm.new_unit [FloorRing K] (board : GameBoard K) (maxLives : Int)
    (hs : board.size_ ≠ 0) : (BattleshipAlgorithm.new board maxLives).board_.UnitGrids := by
  unfold BattleshipAlgorithm.new BattleshipAlgorithm.initializeProbabilities
    GameBoard.setInitialMineProbability GameBoard.setInitialShipProbability
  refine ⟨Grid.unit_map_const _ _ ?_, Grid.unit_map_const _ _ ?_⟩
  · exact initial_prob_unit 0.2 (by norm_num) (by norm_num) board.size_ hs
  · exact initial_prob_unit 0.03 (by norm_num) (by norm_num) board.size_ hs

theorem BattleshipAlgorithm.new_unit_empty [FloorRing K] (board : GameBoard K) (maxLives : Int)
    (hwf : board.WF) (hs : board.size_ = 0) :
    (BattleshipAlgorithm.new board maxLives).board_.UnitGrids := by
  have h1 : board.shipProbabilities_ = [] := by
    have := hwf.2.2.1.1
    rw [hs] at this
    exact List.length_eq_zero.mp this
  have h2 : board.mineProbabilities_ = [] := by
    have := hwf.2.2.2.1
    rw [hs] at this
    exact List.length_eq_zero.mp this
  unfold BattleshipAlgorithm.new BattleshipAlgorithm.initializeProbabilities
    GameBoard.setInitialMineProbability GameBoard.setInitialShipProbability
  unfold GameBoard.UnitGrids
  simp only [h1, h2, List.map_nil]
  exact ⟨fun row hrow => (nomatch hrow), fun row hrow => (nomatch hrow)⟩

theorem BattleshipAlgorithm.reachable_unit [FloorRing K] (F : FloatOps K)
    (e : BattleshipAlgorithm K) (h : BattleshipAlgorithm.Reachable F e) :
    e.board_.UnitGrids := by
  induction h with
  | start size ops maxLives =>
    by_cases hs : ((GameBoard.new size : GameBoard K).run ops).size_ = 0
    · exact BattleshipAlgorithm.new_unit_empty _ _
        (GameBoard.sound_run _ (GameBoard.sound_new size) ops).1 hs
    · exact BattleshipAlgorithm.new_unit _ _ hs
  | move e hit e2 hr hm ih =>
    rcases BattleshipAlgorithm.makeMove_cases F e hit e2 hm with h1 | ⟨x, y, _, _, h1⟩
    · rw [h1.2.2]
      exact ih
    · have hfire := BattleshipAlgorithm.fireAt_unit F e
        (BattleshipAlgorithm.reachable_ok F e hr).1.1.1 x y ih
      rw [h1] at hfire
      exact hfire

end UnitLemmas

section FullBoardLemmas

variable {K : Type} [LinearOrderedField K]

omit [LinearOrderedField K] in
theorem GameBoard.settled_of_sameGame (b b2 : GameBoard K) (hs : b.Settled)
    (h : GameBoard.SameGame b b2) : b2.Settled := by
  obtain ⟨_, hboard, hshots, _⟩ := h
  unfold GameBoard.Settled GameBoard.cell GameBoard.shot
  rw [hboard, hshots]
  exact hs

theorem BattleshipAlgorithm.reachable_settled [FloorRing K] (F : FloatOps K)
    (e : BattleshipAlgorithm K) (h : BattleshipAlgorithm.Reachable F e) :
    e.board_.Settled := by
  induction h with
  | start size ops maxLives =>
    refine GameBoard.settled_of_sameGame _ _ (GameBoard.settled_run size ops).2 ?_
    exact ⟨rfl, rfl, rfl, rfl, rfl, rfl,
      fun h => Grid.square_map_const _ _ _ h, fun h => Grid.square_map_const _ _ _ h⟩
  | move e hit e2 hr hm ih =>
    rcases BattleshipAlgorithm.makeMove_cases F e hit e2 hm with h1 | ⟨x, y, _, _, h1⟩
    · rw [h1.2.2]
      exact ih
    · have hwf := (BattleshipAlgorithm.reachable_ok F e hr).1.1
      have hshot := GameBoard.settled_makeShot e.board_ hwf ih x y
      have hsame := BattleshipAlgorithm.fireAt_board F e x y
      rw [h1] at hsame
      exact GameBoard.settled_of_sameGame _ _ hshot hsame

omit [LinearOrderedField K] in
/-- On a sound board whose shot cells are settled and whose cells are all shot, every ship is
sunk and `getMaxAliveShipLength` is 0. -/
theorem getMaxAliveShipLength_full (b : GameBoard K) (hs : b.Sound) (hset : b.Settled)
    (hall : ∀ x y, b.inside x y → b.shot x y ≠ 0) : getMaxAliveShipLength b = 0 := by
  unfold getMaxAliveShipLength
  refine foldl_inv (fun (m : Int) => m = 0) _ _ _ rfl ?_
  intro m ship hship hm
  have hsunk : ship.isSunk b.board_ = true := by
    unfold Ship.isSunk
    rw [List.all_eq_true]
    intro c hc
    have h13 := hs.2.1 ship hship c hc
    have hin : b.inside c.1 c.2 := GameBoard.cell_inside b hs.1.1 c.1 c.2 (by omega)
    have h1 := (hset c.1 c.2 (hall c.1 c.2 hin)).2.2.1
    have h3 : b.cell c.1 c.2 = 3 := by omega
    unfold GameBoard.cell at h3
    simp [h3]
  simp only [hsunk, Bool.not_true, Bool.false_eq_true, if_false]
  exact hm

theorem strideLoop_zero (size : Int) (h : 1 ≤ size) : strideLoop size 0 = none := by
  unfold strideLoop
  rw [if_neg (by omega), if_pos (le_refl 0)]

/-- With no legal target left, a board of size at least 1 and no unsunk ship, the pattern
loops of `findBestMove` step by 0 and never end. -/
theorem BattleshipAlgorithm.findBestMove_full (F : FloatOps K) (e : BattleshipAlgorithm K)
    (hin : ∀ c ∈ e.woundedCells_, e.board_.inside c.1 c.2)
    (hall : ∀ x y, e.board_.inside x y → e.board_.shot x y ≠ 0)
    (hsize : 1 ≤ e.board_.size_) (hn : getMaxAliveShipLength e.board_ = 0) :
    BattleshipAlgorithm.findBestMove F e = none := by
  have hgood : ∀ m, e.Good m → m = (-1, -1) := by
    intro m hm
    rcases hm with h | h
    · exact h
    · exact absurd h.2 (hall m.1 m.2 h.1)
  unfold BattleshipAlgorithm.findBestMove
  simp only
  have hk : ¬ ((!e.woundedCells_.isEmpty) = true ∧ (BattleshipAlgorithm.findKillMove F e).1 ≠ -1) := by
    rintro ⟨_, h2⟩
    apply h2
    rw [hgood _ (BattleshipAlgorithm.findKillMove_good F e hin)]
  rw [if_neg hk]
  have hb1 : (if e.hasLastHit = true then
      BattleshipAlgorithm.probeNeighbours F e (none, (-1, -1)) e.lastHitX e.lastHitY
      else (none, (-1, -1))).2 = (-1, -1) := by
    split
    · exact hgood _ (BattleshipAlgorithm.probeNeighbours_good F e _ _ _ (Or.inl rfl))
    · rfl
  generalize (if e.hasLastHit = true then
      BattleshipAlgorithm.probeNeighbours F e (none, (-1, -1)) e.lastHitX e.lastHitY
      else (none, (-1, -1))) = best1 at hb1
  rw [hn]
  have hsafe : (BattleshipAlgorithm.safestPlacement e 0 (findMaxShipCandidates e.board_ 0)).2
      = (-1, -1) :=
    hgood _ (BattleshipAlgorithm.safestPlacement_good e 0 (le_refl 0) _
      (fun c hc => findMaxShipCandidates_fresh e.board_ 0 c hc))
  have h1 : best1.2.1 = -1 := by rw [hb1]
  rw [hsafe]
  simp only [h1, if_true, ne_eq, not_true_eq_false, if_false, ite_self]
  rw [strideLoop_zero _ hsize]

theorem BattleshipAlgorithm.makeMove_full (F : FloatOps K) (e : BattleshipAlgorithm K)
    (hl : 0 < e.currentLives_) (h : BattleshipAlgorithm.findBestMove F e = none) :
    BattleshipAlgorithm.makeMove F e = none := by
  unfold BattleshipAlgorithm.makeMove
  rw [if_neg (by omega), h]

end FullBoardLemmas

section UtilityLemmas

variable {K : Type} [LinearOrderedField K]

theorem foldl_penalty {α : Type} (l : List α) (p q : α → Prop) [DecidablePred p]
    [DecidablePred q] (c init : K) :
    l.foldl (fun acc a => if p a then (if q a then acc + c else acc) else acc) init
      = init + c * ((l.countP (fun a => decide (p a ∧ q a)) : Nat) : K) := by
  induction l generalizing init with
  | nil => simp
  | cons a l ih =>
    rw [List.foldl_cons, ih, List.countP_cons]
    by_cases hp : p a
    · by_cases hq : q a
      · simp only [hp, hq, if_true, and_self, decide_True]
        push_cast
        ring
      · simp [hp, hq]
    · simp [hp]

theorem foldl_weighted {α : Type} (l : List α) (n : α → Nat) (c init : K) :
    l.foldl (fun acc a => acc + c * ((n a : Nat) : K)) init
      = init + c * (((l.map n).sum : Nat) : K) := by
  induction l generalizing init with
  | nil => simp
  | cons a l ih =>
    rw [List.foldl_cons, ih, List.map_cons, List.sum_cons]
    push_cast
    ring

/-- The value computed by `calculateUtility`: the penalty is 0.1 for every cell of the window
on the board whose state is not `Empty`. -/
theorem BattleshipAlgorithm.calculateUtility_eq (F : FloatOps K) (e : BattleshipAlgorithm K)
    (x y : Int) :
    BattleshipAlgorithm.calculateUtility F e x y
      = Grid.get 0 e.board_.shipProbabilities_ x y
        - BattleshipAlgorithm.calculateRiskCoefficient F e
          * Grid.get 0 e.board_.mineProbabilities_ x y
        - 0.1 * ((e.occupiedNeighbours x y : Nat) : K) := by
  unfold BattleshipAlgorithm.calculateUtility BattleshipAlgorithm.occupiedNeighbours
  simp only
  congr 1
  have hinner : (fun (p1 : K) (dx : Int) =>
      (intRange (-1) 1).foldl (fun p2 dy =>
        if x + dx ≥ 0 ∧ x + dx < e.board_.size_ ∧ y + dy ≥ 0 ∧ y + dy < e.board_.size_ then
          if Grid.get 0 e.board_.board_ (x + dx) (y + dy) ≠ 0 then p2 + 0.1 else p2
        else p2) p1)
      = (fun (p1 : K) (dx : Int) => p1 + 0.1 * (((intRange (-1) 1).countP (fun dy =>
        decide ((x + dx ≥ 0 ∧ x + dx < e.board_.size_ ∧ y + dy ≥ 0 ∧ y + dy < e.board_.size_) ∧
          Grid.get 0 e.board_.board_ (x + dx) (y + dy) ≠ 0)) : Nat) : K)) := by
    funext p1 dx
    exact foldl_penalty (intRange (-1) 1)
      (fun dy => x + dx ≥ 0 ∧ x + dx < e.board_.size_ ∧ y + dy ≥ 0 ∧ y + dy < e.board_.size_)
      (fun dy => Grid.get 0 e.board_.board_ (x + dx) (y + dy) ≠ 0) 0.1 p1
  rw [hinner, foldl_weighted (intRange (-1) 1) (fun dx => (intRange (-1) 1).countP (fun dy =>
        decide ((x + dx ≥ 0 ∧ x + dx < e.board_.size_ ∧ y + dy ≥ 0 ∧ y + dy < e.board_.size_) ∧
          Grid.get 0 e.board_.board_ (x + dx) (y + dy) ≠ 0))) 0.1 0]
  rw [zero_add]

end UtilityLemmas

section ViewLemmas

variable {K : Type} [LinearOrderedField K]

theorem GameBoard.noMine_get (b : GameBoard K) (h : b.NoMineLikelihood) (x y : Int) :
    Grid.get 0 b.mineProbabilities_ x y = 0 := by
  unfold Grid.get
  split
  · rcases list_getD_cases b.mineProbabilities_ y.toNat [] with hmem | hnil
    · rcases list_getD_cases (b.mineProbabilities_.getD y.toNat []) x.toNat 0 with hp | hp
      · exact h _ hmem _ hp
      · exact hp
    · rw [hnil]
      rfl
  · rfl

/-- With a mine-likelihood grid of zeros no value of `exp` enters the utility. -/
theorem BattleshipAlgorithm.consider_noMine (F G : FloatOps K) (e : BattleshipAlgorithm K)
    (h : e.board_.NoMineLikelihood) :
    BattleshipAlgorithm.consider F e = BattleshipAlgorithm.consider G e := by
  funext best x y
  unfold BattleshipAlgorithm.consider
  rw [BattleshipAlgorithm.calculateUtility_eq F, BattleshipAlgorithm.calculateUtility_eq G,
    GameBoard.noMine_get e.board_ h x y, mul_zero, mul_zero]

theorem BattleshipAlgorithm.findBestMove_noMine (F G : FloatOps K)
    (e : BattleshipAlgorithm K) (h : e.board_.NoMineLikelihood) :
    BattleshipAlgorithm.findBestMove F e = BattleshipAlgorithm.findBestMove G e := by
  have hc := BattleshipAlgorithm.consider_noMine F G e h
  have hp : BattleshipAlgorithm.probeNeighbours F e = BattleshipAlgorithm.probeNeighbours G e := by
    funext best x y
    unfold BattleshipAlgorithm.probeNeighbours
    rw [hc]
  have hk : BattleshipAlgorithm.findKillMove F e = BattleshipAlgorithm.findKillMove G e := by
    unfold BattleshipAlgorithm.findKillMove
    rw [hc, hp]
  have hf : BattleshipAlgorithm.fullScan F e = BattleshipAlgorithm.fullScan G e := by
    funext best
    unfold BattleshipAlgorithm.fullScan
    rw [hc]
  unfold BattleshipAlgorithm.findBestMove
  rw [hc, hp, hk, hf]

theorem BattleshipAlgorithm.firedCell_noMine (F G : FloatOps K)
    (e : BattleshipAlgorithm K) (h : e.board_.NoMineLikelihood) :
    BattleshipAlgorithm.firedCell F e = BattleshipAlgorithm.firedCell G e := by
  unfold BattleshipAlgorithm.firedCell
  rw [BattleshipAlgorithm.findBestMove_noMine F G e h]

omit [LinearOrderedField K] in
theorem foldl_fixed {α β : Type} (f : β → α → β) (l : List α) (init : β)
    (h : ∀ b a, f b a = b) : l.foldl f init = init := by
  induction l with
  | nil => rfl
  | cons a l ih => rw [List.foldl_cons, h, ih]

/-- After a shot that hit neither a ship nor a mine the likelihood update zeroes the cell and
does nothing else, whatever `exp` and `sqrt` are. -/
theorem BattleshipAlgorithm.updateProbabilities_quiet (F G : FloatOps K)
    (e : BattleshipAlgorithm K) (x y : Int) :
    BattleshipAlgorithm.updateProbabilities F e x y false false
      = BattleshipAlgorithm.updateProbabilities G e x y false false := by
  have hb : ∀ H : FloatOps K, e.board_.updateProbabilities H x y false false 0 0
      = { e.board_ with
          shipProbabilities_ := Grid.set e.board_.shipProbabilities_ x y 0
          mineProbabilities_ := Grid.set e.board_.mineProbabilities_ x y 0 } := by
    intro H
    unfold GameBoard.updateProbabilities
    simp
  have hq : ∀ H : FloatOps K, BattleshipAlgorithm.updateProbabilities H e x y false false
      = { e with board_ := { e.board_ with
          shipProbabilities_ := Grid.set e.board_.shipProbabilities_ x y 0
          mineProbabilities_ := Grid.set e.board_.mineProbabilities_ x y 0 } } := by
    intro H
    unfold BattleshipAlgorithm.updateProbabilities
    simp only [hb H]
    congr 1
    apply foldl_fixed
    intro b1 dx
    apply foldl_fixed
    intro b2 dy
    simp
  rw [hq F, hq G]

theorem BattleshipAlgorithm.fireAt_quiet (F G : FloatOps K) (e : BattleshipAlgorithm K)
    (x y : Int) (h1 : (e.board_.makeShot x y).1 = false)
    (h4 : (e.board_.makeShot x y).2.cell x y ≠ 4) :
    BattleshipAlgorithm.fireAt F e x y = BattleshipAlgorithm.fireAt G e x y := by
  unfold GameBoard.cell at h4
  unfold BattleshipAlgorithm.fireAt
  simp only [h1, Bool.false_eq_true, if_false, beq_iff_eq, h4]
  rw [BattleshipAlgorithm.updateProbabilities_quiet F G]

end ViewLemmas

section ProbeLemmas

variable {K : Type} [LinearOrderedField K]

omit [LinearOrderedField K] in
theorem foldl_map_filter {α β γ : Type} (l : List α) (g : α → β) (p : β → Bool)
    (f : γ → β → γ) (init : γ) :
    ((l.map g).filter p).foldl f init
      = l.foldl (fun acc a => if p (g a) = true then f acc (g a) else acc) init := by
  induction l generalizing init with
  | nil => rfl
  | cons a l ih =>
    rw [List.map_cons, List.filter_cons, List.foldl_cons]
    by_cases hp : p (g a) = true
    · rw [if_pos hp, if_pos hp, List.foldl_cons, ih]
    · rw [if_neg hp, if_neg hp, ih]

/-- The probe of the neighbours of `(x, y)` considers the fresh neighbours in order. -/
theorem BattleshipAlgorithm.probeNeighbours_eq (F : FloatOps K) (e : BattleshipAlgorithm K)
    (best : Option K × (Int × Int)) (x y : Int) :
    BattleshipAlgorithm.probeNeighbours F e best x y
      = (e.freshNeighbours x y).foldl
          (fun acc c => BattleshipAlgorithm.consider F e acc c.1 c.2) best := by
  unfold BattleshipAlgorithm.probeNeighbours BattleshipAlgorithm.freshNeighbours
  rw [foldl_map_filter]
  congr 1
  funext acc dir
  by_cases hin : x + dir.1 ≥ 0 ∧ x + dir.1 < e.board_.size_ ∧ y + dir.2 ≥ 0 ∧
      y + dir.2 < e.board_.size_
  · by_cases hs : Grid.get 0 e.board_.shotsBoard_ (x + dir.1) (y + dir.2) = 0
    · simp [hin, hs]
    · simp [hin, hs]
  · simp [hin]

/-- The repeated comparison `if (utility > bestUtility)` from −∞ ends on the first cell of
greatest utility. -/
theorem BattleshipAlgorithm.consider_argmax (F : FloatOps K) (e : BattleshipAlgorithm K)
    (l : List (Int × Int)) (m0 : Int × Int) (hne : l ≠ []) :
    ∃ pre m post, l = pre ++ m :: post ∧
      l.foldl (fun acc c => BattleshipAlgorithm.consider F e acc c.1 c.2) (none, m0)
        = (some (BattleshipAlgorithm.calculateUtility F e m.1 m.2), m) ∧
      (∀ c ∈ pre, BattleshipAlgorithm.calculateUtility F e c.1 c.2
        < BattleshipAlgorithm.calculateUtility F e m.1 m.2) ∧
      (∀ c ∈ post, BattleshipAlgorithm.calculateUtility F e c.1 c.2
        ≤ BattleshipAlgorithm.calculateUtility F e m.1 m.2) := by
  induction l using List.reverseRecOn with
  | nil => exact absurd rfl hne
  | append_singleton l a ih =>
    by_cases hl : l = []
    · subst hl
      exact ⟨[], a, [], rfl, rfl, fun c hc => (nomatch hc), fun c hc => (nomatch hc)⟩
    · obtain ⟨pre, m, post, hsplit, hfold, hpre, hpost⟩ := ih hl
      rw [List.foldl_append, hfold]
      simp only [List.foldl_cons, List.foldl_nil]
      unfold BattleshipAlgorithm.consider
      simp only
      by_cases hgt : BattleshipAlgorithm.calculateUtility F e a.1 a.2
          > BattleshipAlgorithm.calculateUtility F e m.1 m.2
      · rw [if_pos hgt]
        refine ⟨l, a, [], rfl, rfl, ?_, fun c hc => (nomatch hc)⟩
        intro c hc
        rw [hsplit] at hc
        rcases List.mem_append.mp hc with h | h
        · exact lt_trans (hpre c h) hgt
        · rcases List.mem_cons.mp h with h | h
          · rw [h]
            exact hgt
          · exact lt_of_le_of_lt (hpost c h) hgt
      · rw [if_neg hgt]
        refine ⟨pre, m, post ++ [a], by rw [hsplit]; simp, rfl, hpre, ?_⟩
        intro c hc
        rcases List.mem_append.mp hc with h | h
        · exact hpost c h
        · rw [List.mem_singleton.mp h]
          exact not_lt.mp hgt

omit [LinearOrderedField K] in
theorem BattleshipAlgorithm.mem_freshNeighbours (e : BattleshipAlgorithm K) (x y : Int)
    (c : Int × Int) :
    c ∈ e.freshNeighbours x y ↔
      (c = (x - 1, y) ∨ c = (x + 1, y) ∨ c = (x, y - 1) ∨ c = (x, y + 1)) ∧
      e.board_.inside c.1 c.2 ∧ e.board_.shot c.1 c.2 = 0 := by
  unfold BattleshipAlgorithm.freshNeighbours directions GameBoard.inside GameBoard.shot
  simp only [List.map_cons, List.map_nil, List.mem_filter, List.mem_cons, List.mem_singleton,
    decide_eq_true_eq, List.not_mem_nil, or_false]
  constructor
  · rintro ⟨h1, h2, h3⟩
    refine ⟨?_, ⟨⟨h2.1, h2.2.1⟩, ⟨h2.2.2.1, h2.2.2.2⟩⟩, h3⟩
    rcases h1 with h | h | h | h
    · left; rw [h, Prod.mk.injEq]; constructor <;> omega
    · right; left; rw [h, Prod.mk.injEq]; constructor <;> omega
    · right; right; left; rw [h, Prod.mk.injEq]; constructor <;> omega
    · right; right; right; rw [h, Prod.mk.injEq]; constructor <;> omega
  · rintro ⟨h1, h2, h3⟩
    refine ⟨?_, ⟨h2.1.1, h2.1.2, h2.2.1, h2.2.2⟩, h3⟩
    rcases h1 with h | h | h | h
    · left; rw [h, Prod.mk.injEq]; constructor <;> omega
    · right; left; rw [h, Prod.mk.injEq]; constructor <;> omega
    · right; right; left; rw [h, Prod.mk.injEq]; constructor <;> omega
    · right; right; right; rw [h, Prod.mk.injEq]; constructor <;> omega

end ProbeLemmas

section BoostLemmas

variable {K : Type} [LinearOrderedField K]

omit [LinearOrderedField K] in
theorem foldl_track {α β : Type} (I J : β → Prop) (f : β → α → β) (l1 l2 : List α) (a0 : α)
    (init : β) (h0 : I init) (hpre : ∀ b x, x ∈ l1 → I b → I (f b x))
    (hmid : ∀ b, I b → J (f b a0)) (hpost : ∀ b x, x ∈ l2 → J b → J (f b x)) :
    J ((l1 ++ a0 :: l2).foldl f init) := by
  rw [List.foldl_append, List.foldl_cons]
  exact foldl_inv J f l2 _ (hmid _ (foldl_inv I f l1 init h0 hpre)) hpost

theorem intRange_two : intRange (-2) 2 = [-2, -1] ++ 0 :: [1, 2] := by decide

theorem GameBoard.updateProbabilities_boost (F : FloatOps K) (b : GameBoard K) (x y : Int)
    (hitShip hitMine : Bool) (shipFactor mineFactor : K) :
    b.updateProbabilities F x y hitShip hitMine shipFactor mineFactor =
      if shipFactor ≠ 0 ∨ mineFactor ≠ 0 then
        (intRange (-2) 2).foldl (fun b2 dx =>
          (intRange (-2) 2).foldl (fun b3 dy =>
            GameBoard.boostCell F shipFactor mineFactor x y b3 dx dy) b2)
          (b.updateProbabilities F x y hitShip hitMine 0 0)
      else b.updateProbabilities F x y hitShip hitMine 0 0 := by
  have h0 : ¬ ((0 : K) ≠ 0 ∨ (0 : K) ≠ 0) := by simp
  unfold GameBoard.updateProbabilities
  simp only [h0, if_false]
  rfl

theorem BattleshipAlgorithm.updateProbabilities_spread (F : FloatOps K)
    (e : BattleshipAlgorithm K) (x y : Int) (hitShip hitMine : Bool) :
    (BattleshipAlgorithm.updateProbabilities F e x y hitShip hitMine).board_ =
      (intRange (-2) 2).foldl (fun b1 dx =>
        (intRange (-2) 2).foldl (fun b2 dy =>
          BattleshipAlgorithm.spreadCell F e.board_.size_ x y hitShip hitMine b2 dx dy) b1)
        (e.board_.updateProbabilities F x y hitShip hitMine 0 0) := rfl

end BoostLemmas

section BoostLemmas2

variable {K : Type} [LinearOrderedField K]

theorem GameBoard.boostCell_same (F : FloatOps K) (shipFactor mineFactor : K) (x y : Int)
    (b3 : GameBoard K) (dx dy : Int) :
    GameBoard.SameGame b3 (GameBoard.boostCell F shipFactor mineFactor x y b3 dx dy) := by
  unfold GameBoard.boostCell
  simp only
  split
  · split
    · split
      · split
        · exact GameBoard.sameGame_write _ _ _ (Grid.square_set _ _ _ _ _)
            (Grid.square_set _ _ _ _ _)
        · exact GameBoard.sameGame_write _ _ _ id (Grid.square_set _ _ _ _ _)
      · split
        · exact GameBoard.sameGame_write _ _ _ (Grid.square_set _ _ _ _ _) id
        · exact GameBoard.sameGame_refl b3
    · exact GameBoard.sameGame_refl b3
  · exact GameBoard.sameGame_refl b3

/-- The ship likelihood of a cell `(a, c)` after one pass of the loop body. -/
theorem GameBoard.boostCell_ship (F : FloatOps K) (shipFactor mineFactor : K) (x y : Int)
    (b3 : GameBoard K) (dx dy : Int) (hsq : Grid.Square b3.size_ b3.shipProbabilities_)
    (a c : Int) :
    Grid.get 0 (GameBoard.boostCell F shipFactor mineFactor x y b3 dx dy).shipProbabilities_ a c
      = if (a = x + dx ∧ c = y + dy) ∧ b3.inside a c ∧
            F.sqrt (((dx * dx + dy * dy : Int) : K)) ≤ 2 ∧ shipFactor ≠ 0
        then max 0 (min 1 (Grid.get 0 b3.shipProbabilities_ a c
          + shipFactor * F.exp (-F.sqrt (((dx * dx + dy * dy : Int) : K)))))
        else Grid.get 0 b3.shipProbabilities_ a c := by
  unfold GameBoard.boostCell
  simp only
  by_cases hv : b3.isValidPosition (x + dx) (y + dy) = true
  · have hin := (GameBoard.isValidPosition_iff b3 (x + dx) (y + dy)).mp hv
    rw [if_pos hv]
    by_cases hd : F.sqrt (((dx * dx + dy * dy : Int) : K)) ≤ 2
    · rw [if_pos hd]
      by_cases hs : shipFactor ≠ 0
      · rw [if_pos hs]
        have hship : ∀ g : Grid K, Grid.get 0
            (if mineFactor ≠ 0 then
              ({ b3 with
                  shipProbabilities_ := (Grid.set b3.shipProbabilities_ (x + dx) (y + dy)
                    (max 0 (min 1 (Grid.get 0 b3.shipProbabilities_ (x + dx) (y + dy)
                      + shipFactor * F.exp (-F.sqrt (((dx * dx + dy * dy : Int) : K)))))))
                  mineProbabilities_ := g } : GameBoard K)
            else { b3 with
                  shipProbabilities_ := (Grid.set b3.shipProbabilities_ (x + dx) (y + dy)
                    (max 0 (min 1 (Grid.get 0 b3.shipProbabilities_ (x + dx) (y + dy)
                      + shipFactor * F.exp (-F.sqrt (((dx * dx + dy * dy : Int) : K))))))) }
            ).shipProbabilities_ a c
            = Grid.get 0 (Grid.set b3.shipProbabilities_ (x + dx) (y + dy)
                (max 0 (min 1 (Grid.get 0 b3.shipProbabilities_ (x + dx) (y + dy)
                  + shipFactor * F.exp (-F.sqrt (((dx * dx + dy * dy : Int) : K))))))) a c := by
          intro g
          split <;> rfl
        rw [hship]
        by_cases hac : a = x + dx ∧ c = y + dy
        · obtain ⟨rfl, rfl⟩ := hac
          rw [if_pos ⟨⟨rfl, rfl⟩, hin, hd, hs⟩]
          exact Grid.get_set_self 0 _ b3.size_ _ _ _ hsq hin.1 hin.2
        · rw [if_neg (fun h => hac h.1)]
          exact Grid.get_set_ne 0 _ _ _ _ _ _ hac
      · have hcond : ¬ ((a = x + dx ∧ c = y + dy) ∧ b3.inside a c ∧
            F.sqrt (((dx * dx + dy * dy : Int) : K)) ≤ 2 ∧ shipFactor ≠ 0) :=
          fun h => hs h.2.2.2
        rw [if_neg hcond, if_neg hs]
        split <;> rfl
    · have hcond : ¬ ((a = x + dx ∧ c = y + dy) ∧ b3.inside a c ∧
          F.sqrt (((dx * dx + dy * dy : Int) : K)) ≤ 2 ∧ shipFactor ≠ 0) :=
        fun h => hd h.2.2.1
      rw [if_neg hd, if_neg hcond]
  · rw [if_neg hv]
    have : ¬ ((a = x + dx ∧ c = y + dy) ∧ b3.inside a c ∧
        F.sqrt (((dx * dx + dy * dy : Int) : K)) ≤ 2 ∧ shipFactor ≠ 0) := by
      rintro ⟨⟨rfl, rfl⟩, hin, _⟩
      exact hv ((GameBoard.isValidPosition_iff b3 _ _).mpr hin)
    rw [if_neg this]

/-- The mine likelihood of a cell `(a, c)` after one pass of the loop body. -/
theorem GameBoard.boostCell_mine (F : FloatOps K) (shipFactor mineFactor : K) (x y : Int)
    (b3 : GameBoard K) (dx dy : Int) (hsq : Grid.Square b3.size_ b3.mineProbabilities_)
    (a c : Int) :
    Grid.get 0 (GameBoard.boostCell F shipFactor mineFactor x y b3 dx dy).mineProbabilities_ a c
      = if (a = x + dx ∧ c = y + dy) ∧ b3.inside a c ∧
            F.sqrt (((dx * dx + dy * dy : Int) : K)) ≤ 2 ∧ mineFactor ≠ 0
        then max 0 (min 1 (Grid.get 0 b3.mineProbabilities_ a c
          + mineFactor * F.exp (-F.sqrt (((dx * dx + dy * dy : Int) : K)))))
        else Grid.get 0 b3.mineProbabilities_ a c := by
  unfold GameBoard.boostCell
  simp only
  by_cases hv : b3.isValidPosition (x + dx) (y + dy) = true
  · have hin := (GameBoard.isValidPosition_iff b3 (x + dx) (y + dy)).mp hv
    rw [if_pos hv]
    by_cases hd : F.sqrt (((dx * dx + dy * dy : Int) : K)) ≤ 2
    · rw [if_pos hd]
      have hb4 : (if shipFactor ≠ 0 then
            ({ b3 with
                shipProbabilities_ := (Grid.set b3.shipProbabilities_ (x + dx) (y + dy)
                  (max 0 (min 1 (Grid.get 0 b3.shipProbabilities_ (x + dx) (y + dy)
                    + shipFactor * F.exp (-F.sqrt (((dx * dx + dy * dy : Int) : K))))))) }
              : GameBoard K)
          else b3).mineProbabilities_ = b3.mineProbabilities_ := by
        split <;> rfl
      by_cases hm : mineFactor ≠ 0
      · rw [if_pos hm]
        simp only [hb4]
        by_cases hac : a = x + dx ∧ c = y + dy
        · obtain ⟨rfl, rfl⟩ := hac
          rw [if_pos ⟨⟨rfl, rfl⟩, hin, hd, hm⟩]
          exact Grid.get_set_self 0 _ b3.size_ _ _ _ hsq hin.1 hin.2
        · rw [if_neg (fun h => hac h.1)]
          exact Grid.get_set_ne 0 _ _ _ _ _ _ hac
      · have hcond : ¬ ((a = x + dx ∧ c = y + dy) ∧ b3.inside a c ∧
            F.sqrt (((dx * dx + dy * dy : Int) : K)) ≤ 2 ∧ mineFactor ≠ 0) :=
          fun h => hm h.2.2.2
        rw [if_neg hcond, if_neg hm, hb4]
    · have hcond : ¬ ((a = x + dx ∧ c = y + dy) ∧ b3.inside a c ∧
          F.sqrt (((dx * dx + dy * dy : Int) : K)) ≤ 2 ∧ mineFactor ≠ 0) :=
        fun h => hd h.2.2.1
      rw [if_neg hd, if_neg hcond]
  · rw [if_neg hv]
    have : ¬ ((a = x + dx ∧ c = y + dy) ∧ b3.inside a c ∧
        F.sqrt (((dx * dx + dy * dy : Int) : K)) ≤ 2 ∧ mineFactor ≠ 0) := by
      rintro ⟨⟨rfl, rfl⟩, hin, _⟩
      exact hv ((GameBoard.isValidPosition_iff b3 _ _).mpr hin)
    rw [if_neg this]

end BoostLemmas2

section BoostLemmas3

variable {K : Type} [LinearOrderedField K]

theorem GameBoard.updateProbabilities_pin (F : FloatOps K) (b : GameBoard K) (x y : Int) :
    b.updateProbabilities F x y false false 0 0
      = { b with shipProbabilities_ := Grid.set b.shipProbabilities_ x y 0
                 mineProbabilities_ := Grid.set b.mineProbabilities_ x y 0 } := by
  unfold GameBoard.updateProbabilities
  simp

/-- The loops of `GameBoard::updateProbabilities` keep every property of the ship likelihood
of a cell that one clamped addition keeps. -/
theorem GameBoard.boostFold_ship (F : FloatOps K) (shipFactor mineFactor : K) (x y : Int)
    (n : Int) (a c : Int) (Q : K → Prop)
    (hQ : ∀ v d, Q v → Q (max 0 (min 1 (v + shipFactor * F.exp (-F.sqrt d)))))
    (b1 : GameBoard K) (hsize : b1.size_ = n) (hsq : Grid.Square n b1.shipProbabilities_)
    (h : Q (Grid.get 0 b1.shipProbabilities_ a c)) :
    ((intRange (-2) 2).foldl (fun b2 dx =>
      (intRange (-2) 2).foldl (fun b3 dy =>
        GameBoard.boostCell F shipFactor mineFactor x y b3 dx dy) b2) b1).size_ = n ∧
    Grid.Square n ((intRange (-2) 2).foldl (fun b2 dx =>
      (intRange (-2) 2).foldl (fun b3 dy =>
        GameBoard.boostCell F shipFactor mineFactor x y b3 dx dy) b2) b1).shipProbabilities_ ∧
    Q (Grid.get 0 ((intRange (-2) 2).foldl (fun b2 dx =>
      (intRange (-2) 2).foldl (fun b3 dy =>
        GameBoard.boostCell F shipFactor mineFactor x y b3 dx dy) b2) b1).shipProbabilities_
      a c) := by
  refine foldl_inv (fun (b : GameBoard K) => b.size_ = n ∧
    Grid.Square n b.shipProbabilities_ ∧ Q (Grid.get 0 b.shipProbabilities_ a c)) _ _ _
    ⟨hsize, hsq, h⟩ ?_
  intro b2 dx _ h2
  refine foldl_inv (fun (b : GameBoard K) => b.size_ = n ∧
    Grid.Square n b.shipProbabilities_ ∧ Q (Grid.get 0 b.shipProbabilities_ a c)) _ _ _ h2 ?_
  intro b3 dy _ h3
  obtain ⟨hs3, hq3, hv3⟩ := h3
  have hsame := GameBoard.boostCell_same F shipFactor mineFactor x y b3 dx dy
  refine ⟨by rw [hsame.1, hs3], ?_, ?_⟩
  · have := hsame.2.2.2.2.2.2.1 (by rw [hs3]; exact hq3)
    rw [hs3] at this
    exact this
  · rw [GameBoard.boostCell_ship F shipFactor mineFactor x y b3 dx dy (by rw [hs3]; exact hq3)]
    split
    · exact hQ _ _ hv3
    · exact hv3

/-- The same for the mine likelihood. -/
theorem GameBoard.boostFold_mine (F : FloatOps K) (shipFactor mineFactor : K) (x y : Int)
    (n : Int) (a c : Int) (Q : K → Prop)
    (hQ : ∀ v d, Q v → Q (max 0 (min 1 (v + mineFactor * F.exp (-F.sqrt d)))))
    (b1 : GameBoard K) (hsize : b1.size_ = n) (hsq : Grid.Square n b1.mineProbabilities_)
    (h : Q (Grid.get 0 b1.mineProbabilities_ a c)) :
    ((intRange (-2) 2).foldl (fun b2 dx =>
      (intRange (-2) 2).foldl (fun b3 dy =>
        GameBoard.boostCell F shipFactor mineFactor x y b3 dx dy) b2) b1).size_ = n ∧
    Grid.Square n ((intRange (-2) 2).foldl (fun b2 dx =>
      (intRange (-2) 2).foldl (fun b3 dy =>
        GameBoard.boostCell F shipFactor mineFactor x y b3 dx dy) b2) b1).mineProbabilities_ ∧
    Q (Grid.get 0 ((intRange (-2) 2).foldl (fun b2 dx =>
      (intRange (-2) 2).foldl (fun b3 dy =>
        GameBoard.boostCell F shipFactor mineFactor x y b3 dx dy) b2) b1).mineProbabilities_
      a c) := by
  refine foldl_inv (fun (b : GameBoard K) => b.size_ = n ∧
    Grid.Square n b.mineProbabilities_ ∧ Q (Grid.get 0 b.mineProbabilities_ a c)) _ _ _
    ⟨hsize, hsq, h⟩ ?_
  intro b2 dx _ h2
  refine foldl_inv (fun (b : GameBoard K) => b.size_ = n ∧
    Grid.Square n b.mineProbabilities_ ∧ Q (Grid.get 0 b.mineProbabilities_ a c)) _ _ _ h2 ?_
  intro b3 dy _ h3
  obtain ⟨hs3, hq3, hv3⟩ := h3
  have hsame := GameBoard.boostCell_same F shipFactor mineFactor x y b3 dx dy
  refine ⟨by rw [hsame.1, hs3], ?_, ?_⟩
  · have := hsame.2.2.2.2.2.2.2 (by rw [hs3]; exact hq3)
    rw [hs3] at this
    exact this
  · rw [GameBoard.boostCell_mine F shipFactor mineFactor x y b3 dx dy (by rw [hs3]; exact hq3)]
    split
    · exact hQ _ _ hv3
    · exact hv3

/-- The loops of `GameBoard::updateProbabilities` around `(x, y)` write the centre once: its
ship likelihood `p` becomes `max 0 (min 1 (p + shipFactor * exp (-sqrt 0)))`. -/
theorem GameBoard.boostFold_centre_ship (F : FloatOps K) (shipFactor mineFactor : K)
    (x y : Int) (n : Int) (p : K) (hs : shipFactor ≠ 0) (h0 : F.sqrt 0 ≤ 2)
    (hx : 0 ≤ x ∧ x < n) (hy : 0 ≤ y ∧ y < n)
    (b1 : GameBoard K) (hsize : b1.size_ = n) (hsq : Grid.Square n b1.shipProbabilities_)
    (h : Grid.get 0 b1.shipProbabilities_ x y = p) :
    Grid.get 0 ((intRange (-2) 2).foldl (fun b2 dx =>
      (intRange (-2) 2).foldl (fun b3 dy =>
        GameBoard.boostCell F shipFactor mineFactor x y b3 dx dy) b2) b1).shipProbabilities_
      x y = max 0 (min 1 (p + shipFactor * F.exp (-F.sqrt 0))) := by
  have hoff : ∀ (q : K) (b3 : GameBoard K) (dx dy : Int), ¬ (dx = 0 ∧ dy = 0) →
      (b3.size_ = n ∧ Grid.Square n b3.shipProbabilities_ ∧
        Grid.get 0 b3.shipProbabilities_ x y = q) →
      ((GameBoard.boostCell F shipFactor mineFactor x y b3 dx dy).size_ = n ∧
        Grid.Square n (GameBoard.boostCell F shipFactor mineFactor x y b3 dx dy).shipProbabilities_ ∧
        Grid.get 0 (GameBoard.boostCell F shipFactor mineFactor x y b3 dx dy).shipProbabilities_
          x y = q) := by
    intro q b3 dx dy hne ⟨hs3, hq3, hv3⟩
    have hsame := GameBoard.boostCell_same F shipFactor mineFactor x y b3 dx dy
    refine ⟨by rw [hsame.1, hs3], ?_, ?_⟩
    · have := hsame.2.2.2.2.2.2.1 (by rw [hs3]; exact hq3)
      rw [hs3] at this
      exact this
    · rw [GameBoard.boostCell_ship F shipFactor mineFactor x y b3 dx dy
        (by rw [hs3]; exact hq3)]
      have hcond : ¬ ((x = x + dx ∧ y = y + dy) ∧ b3.inside x y ∧
          F.sqrt (((dx * dx + dy * dy : Int) : K)) ≤ 2 ∧ shipFactor ≠ 0) := by
        rintro ⟨⟨h1, h2⟩, _⟩
        exact hne ⟨by omega, by omega⟩
      rw [if_neg hcond]
      exact hv3
  have hrow : ∀ (q : K) (b2 : GameBoard K) (dx : Int), dx ≠ 0 →
      (b2.size_ = n ∧ Grid.Square n b2.shipProbabilities_ ∧
        Grid.get 0 b2.shipProbabilities_ x y = q) →
      (fun (b : GameBoard K) => b.size_ = n ∧ Grid.Square n b.shipProbabilities_ ∧
        Grid.get 0 b.shipProbabilities_ x y = q)
        ((intRange (-2) 2).foldl (fun b3 dy =>
          GameBoard.boostCell F shipFactor mineFactor x y b3 dx dy) b2) := by
    intro q b2 dx hdx h2
    refine foldl_inv (fun (b : GameBoard K) => b.size_ = n ∧
      Grid.Square n b.shipProbabilities_ ∧ Grid.get 0 b.shipProbabilities_ x y = q) _ _ _ h2 ?_
    intro b3 dy _ h3
    exact hoff q b3 dx dy (fun hh => hdx hh.1) h3
  have hmem12 : ∀ d : Int, d ∈ [(1 : Int), 2] → d ≠ 0 := by
    intro d hd
    simp at hd
    omega
  have hmemm : ∀ d : Int, d ∈ [(-2 : Int), -1] → d ≠ 0 := by
    intro d hd
    simp at hd
    omega
  rw [intRange_two]
  have hfinal := foldl_track
    (fun (b : GameBoard K) => b.size_ = n ∧ Grid.Square n b.shipProbabilities_ ∧
      Grid.get 0 b.shipProbabilities_ x y = p)
    (fun (b : GameBoard K) => b.size_ = n ∧ Grid.Square n b.shipProbabilities_ ∧
      Grid.get 0 b.shipProbabilities_ x y
        = max 0 (min 1 (p + shipFactor * F.exp (-F.sqrt 0))))
    (fun b2 dx => ([-2, -1] ++ 0 :: [1, 2]).foldl (fun b3 dy =>
      GameBoard.boostCell F shipFactor mineFactor x y b3 dx dy) b2)
    [-2, -1] [1, 2] 0 b1 ⟨hsize, hsq, h⟩ ?_ ?_ ?_
  · exact hfinal.2.2
  · intro b2 dx hdx h2
    have := hrow p b2 dx (hmemm dx hdx) h2
    rw [intRange_two] at this
    exact this
  · intro b2 h2
    refine foldl_track
      (fun (b : GameBoard K) => b.size_ = n ∧ Grid.Square n b.shipProbabilities_ ∧
        Grid.get 0 b.shipProbabilities_ x y = p)
      (fun (b : GameBoard K) => b.size_ = n ∧ Grid.Square n b.shipProbabilities_ ∧
        Grid.get 0 b.shipProbabilities_ x y
          = max 0 (min 1 (p + shipFactor * F.exp (-F.sqrt 0))))
      (fun b3 dy => GameBoard.boostCell F shipFactor mineFactor x y b3 0 dy)
      [-2, -1] [1, 2] 0 b2 h2 ?_ ?_ ?_
    · intro b3 dy hdy h3
      exact hoff p b3 0 dy (fun hh => hmemm dy hdy hh.2) h3
    · intro b3 ⟨hs3, hq3, hv3⟩
      have hsame := GameBoard.boostCell_same F shipFactor mineFactor x y b3 0 0
      refine ⟨by rw [hsame.1, hs3], ?_, ?_⟩
      · have := hsame.2.2.2.2.2.2.1 (by rw [hs3]; exact hq3)
        rw [hs3] at this
        exact this
      · rw [GameBoard.boostCell_ship F shipFactor mineFactor x y b3 0 0
          (by rw [hs3]; exact hq3)]
        have hz : (((0 * 0 + 0 * 0 : Int)) : K) = 0 := by norm_num
        have hcond : (x = x + 0 ∧ y = y + 0) ∧ b3.inside x y ∧
            F.sqrt (((0 * 0 + 0 * 0 : Int) : K)) ≤ 2 ∧ shipFactor ≠ 0 := by
          refine ⟨⟨by omega, by omega⟩, ?_, by rw [hz]; exact h0, hs⟩
          unfold GameBoard.inside
          rw [hs3]
          exact ⟨hx, hy⟩
        rw [if_pos hcond, hv3, hz]
    · intro b3 dy hdy h3
      exact hoff _ b3 0 dy (fun hh => hmem12 dy hdy hh.2) h3
  · intro b2 dx hdx h2
    have := hrow _ b2 dx (hmem12 dx hdx) h2
    rw [intRange_two] at this
    exact this

/-- The loops of `GameBoard::updateProbabilities` around `(x, y)` write the centre once: its
mine likelihood `p` becomes `max 0 (min 1 (p + mineFactor * exp (-sqrt 0)))`. -/
theorem GameBoard.boostFold_centre_mine (F : FloatOps K) (shipFactor mineFactor : K)
    (x y : Int) (n : Int) (p : K) (hs : mineFactor ≠ 0) (h0 : F.sqrt 0 ≤ 2)
    (hx : 0 ≤ x ∧ x < n) (hy : 0 ≤ y ∧ y < n)
    (b1 : GameBoard K) (hsize : b1.size_ = n) (hsq : Grid.Square n b1.mineProbabilities_)
    (h : Grid.get 0 b1.mineProbabilities_ x y = p) :
    Grid.get 0 ((intRange (-2) 2).foldl (fun b2 dx =>
      (intRange (-2) 2).foldl (fun b3 dy =>
        GameBoard.boostCell F shipFactor mineFactor x y b3 dx dy) b2) b1).mineProbabilities_
      x y = max 0 (min 1 (p + mineFactor * F.exp (-F.sqrt 0))) := by
  have hoff : ∀ (q : K) (b3 : GameBoard K) (dx dy : Int), ¬ (dx = 0 ∧ dy = 0) →
      (b3.size_ = n ∧ Grid.Square n b3.mineProbabilities_ ∧
        Grid.get 0 b3.mineProbabilities_ x y = q) →
      ((GameBoard.boostCell F shipFactor mineFactor x y b3 dx dy).size_ = n ∧
        Grid.Square n (GameBoard.boostCell F shipFactor mineFactor x y b3 dx dy).mineProbabilities_ ∧
        Grid.get 0 (GameBoard.boostCell F shipFactor mineFactor x y b3 dx dy).mineProbabilities_
          x y = q) := by
    intro q b3 dx dy hne ⟨hs3, hq3, hv3⟩
    have hsame := GameBoard.boostCell_same F shipFactor mineFactor x y b3 dx dy
    refine ⟨by rw [hsame.1, hs3], ?_, ?_⟩
    · have := hsame.2.2.2.2.2.2.2 (by rw [hs3]; exact hq3)
      rw [hs3] at this
      exact this
    · rw [GameBoard.boostCell_mine F shipFactor mineFactor x y b3 dx dy
        (by rw [hs3]; exact hq3)]
      have hcond : ¬ ((x = x + dx ∧ y = y + dy) ∧ b3.inside x y ∧
          F.sqrt (((dx * dx + dy * dy : Int) : K)) ≤ 2 ∧ mineFactor ≠ 0) := by
        rintro ⟨⟨h1, h2⟩, _⟩
        exact hne ⟨by omega, by omega⟩
      rw [if_neg hcond]
      exact hv3
  have hrow : ∀ (q : K) (b2 : GameBoard K) (dx : Int), dx ≠ 0 →
      (b2.size_ = n ∧ Grid.Square n b2.mineProbabilities_ ∧
        Grid.get 0 b2.mineProbabilities_ x y = q) →
      (fun (b : GameBoard K) => b.size_ = n ∧ Grid.Square n b.mineProbabilities_ ∧
        Grid.get 0 b.mineProbabilities_ x y = q)
        ((intRange (-2) 2).foldl (fun b3 dy =>
          GameBoard.boostCell F shipFactor mineFactor x y b3 dx dy) b2) := by
    intro q b2 dx hdx h2
    refine foldl_inv (fun (b : GameBoard K) => b.size_ = n ∧
      Grid.Square n b.mineProbabilities_ ∧ Grid.get 0 b.mineProbabilities_ x y = q) _ _ _ h2 ?_
    intro b3 dy _ h3
    exact hoff q b3 dx dy (fun hh => hdx hh.1) h3
  have hmem12 : ∀ d : Int, d ∈ [(1 : Int), 2] → d ≠ 0 := by
    intro d hd
    simp at hd
    omega
  have hmemm : ∀ d : Int, d ∈ [(-2 : Int), -1] → d ≠ 0 := by
    intro d hd
    simp at hd
    omega
  rw [intRange_two]
  have hfinal := foldl_track
    (fun (b : GameBoard K) => b.size_ = n ∧ Grid.Square n b.mineProbabilities_ ∧
      Grid.get 0 b.mineProbabilities_ x y = p)
    (fun (b : GameBoard K) => b.size_ = n ∧ Grid.Square n b.mineProbabilities_ ∧
      Grid.get 0 b.mineProbabilities_ x y
        = max 0 (min 1 (p + mineFactor * F.exp (-F.sqrt 0))))
    (fun b2 dx => ([-2, -1] ++ 0 :: [1, 2]).foldl (fun b3 dy =>
      GameBoard.boostCell F shipFactor mineFactor x y b3 dx dy) b2)
    [-2, -1] [1, 2] 0 b1 ⟨hsize, hsq, h⟩ ?_ ?_ ?_
  · exact hfinal.2.2
  · intro b2 dx hdx h2
    have := hrow p b2 dx (hmemm dx hdx) h2
    rw [intRange_two] at this
    exact this
  · intro b2 h2
    refine foldl_track
      (fun (b : GameBoard K) => b.size_ = n ∧ Grid.Square n b.mineProbabilities_ ∧
        Grid.get 0 b.mineProbabilities_ x y = p)
      (fun (b : GameBoard K) => b.size_ = n ∧ Grid.Square n b.mineProbabilities_ ∧
        Grid.get 0 b.mineProbabilities_ x y
          = max 0 (min 1 (p + mineFactor * F.exp (-F.sqrt 0))))
      (fun b3 dy => GameBoard.boostCell F shipFactor mineFactor x y b3 0 dy)
      [-2, -1] [1, 2] 0 b2 h2 ?_ ?_ ?_
    · intro b3 dy hdy h3
      exact hoff p b3 0 dy (fun hh => hmemm dy hdy hh.2) h3
    · intro b3 ⟨hs3, hq3, hv3⟩
      have hsame := GameBoard.boostCell_same F shipFactor mineFactor x y b3 0 0
      refine ⟨by rw [hsame.1, hs3], ?_, ?_⟩
      · have := hsame.2.2.2.2.2.2.2 (by rw [hs3]; exact hq3)
        rw [hs3] at this
        exact this
      · rw [GameBoard.boostCell_mine F shipFactor mineFactor x y b3 0 0
          (by rw [hs3]; exact hq3)]
        have hz : (((0 * 0 + 0 * 0 : Int)) : K) = 0 := by norm_num
        have hcond : (x = x + 0 ∧ y = y + 0) ∧ b3.inside x y ∧
            F.sqrt (((0 * 0 + 0 * 0 : Int) : K)) ≤ 2 ∧ mineFactor ≠ 0 := by
          refine ⟨⟨by omega, by omega⟩, ?_, by rw [hz]; exact h0, hs⟩
          unfold GameBoard.inside
          rw [hs3]
          exact ⟨hx, hy⟩
        rw [if_pos hcond, hv3, hz]
    · intro b3 dy hdy h3
      exact hoff _ b3 0 dy (fun hh => hmem12 dy hdy hh.2) h3
  · intro b2 dx hdx h2
    have := hrow _ b2 dx (hmem12 dx hdx) h2
    rw [intRange_two] at this
    exact this


theorem GameBoard.update_centre_ship (F : FloatOps K) (b : GameBoard K) (x y : Int)
    (shipFactor : K) (hsq : Grid.Square b.size_ b.shipProbabilities_) (hin : b.inside x y)
    (h0 : F.sqrt 0 ≤ 2) :
    Grid.get 0 (b.updateProbabilities F x y false false shipFactor 0).shipProbabilities_ x y
      = max 0 (min 1 (0 + shipFactor * F.exp (-F.sqrt 0))) := by
  have hpin : Grid.get 0 (b.updateProbabilities F x y false false 0 0).shipProbabilities_ x y
      = 0 := by
    rw [GameBoard.updateProbabilities_pin]
    exact Grid.get_set_self 0 _ b.size_ x y 0 hsq hin.1 hin.2
  rw [GameBoard.updateProbabilities_boost]
  by_cases hs : shipFactor ≠ 0
  · rw [if_pos (Or.inl hs)]
    refine GameBoard.boostFold_centre_ship F shipFactor 0 x y b.size_ 0 hs h0 hin.1 hin.2 _
      ?_ ?_ hpin
    · rw [GameBoard.updateProbabilities_pin]
    · rw [GameBoard.updateProbabilities_pin]
      exact Grid.square_set _ _ _ _ _ hsq
  · have hs0 : shipFactor = 0 := not_not.mp hs
    have hno : ¬ (shipFactor ≠ 0 ∨ (0 : K) ≠ 0) := by simp [hs0]
    rw [if_neg hno, hpin, hs0]
    simp

theorem GameBoard.update_centre_mine (F : FloatOps K) (b : GameBoard K) (x y : Int)
    (mineFactor : K) (hsq : Grid.Square b.size_ b.mineProbabilities_) (hin : b.inside x y)
    (h0 : F.sqrt 0 ≤ 2) :
    Grid.get 0 (b.updateProbabilities F x y false false 0 mineFactor).mineProbabilities_ x y
      = max 0 (min 1 (0 + mineFactor * F.exp (-F.sqrt 0))) := by
  have hpin : Grid.get 0 (b.updateProbabilities F x y false false 0 0).mineProbabilities_ x y
      = 0 := by
    rw [GameBoard.updateProbabilities_pin]
    exact Grid.get_set_self 0 _ b.size_ x y 0 hsq hin.1 hin.2
  rw [GameBoard.updateProbabilities_boost]
  by_cases hs : mineFactor ≠ 0
  · rw [if_pos (Or.inr hs)]
    refine GameBoard.boostFold_centre_mine F 0 mineFactor x y b.size_ 0 hs h0 hin.1 hin.2 _
      ?_ ?_ hpin
    · rw [GameBoard.updateProbabilities_pin]
    · rw [GameBoard.updateProbabilities_pin]
      exact Grid.square_set _ _ _ _ _ hsq
  · have hs0 : mineFactor = 0 := not_not.mp hs
    have hno : ¬ ((0 : K) ≠ 0 ∨ mineFactor ≠ 0) := by simp [hs0]
    rw [if_neg hno, hpin, hs0]
    simp

end BoostLemmas3

section BoostLemmas4

variable {K : Type} [LinearOrderedField K]

theorem intRange_two_last : intRange (-2) 2 = [-2, -1, 0, 1] ++ 2 :: [] := by decide

theorem BattleshipAlgorithm.spreadCell_same (F : FloatOps K) (size x y : Int)
    (hitShip hitMine : Bool) (b2 : GameBoard K) (dx dy : Int) :
    GameBoard.SameGame b2
      (BattleshipAlgorithm.spreadCell F size x y hitShip hitMine b2 dx dy) := by
  unfold BattleshipAlgorithm.spreadCell
  simp only
  split
  · split
    · have h3 : GameBoard.SameGame b2
          (if hitShip = true ∧ (dx = 0 ∧ dy ≠ 0 ∨ dx ≠ 0 ∧ dy = 0) then
            b2.updateProbabilities F (x + dx) (y + dy) false false
              (F.exp (-F.sqrt (((dx * dx + dy * dy : Int) : K))) * 0.7) 0
          else b2) := by
        split
        · exact GameBoard.sameGame_updateProbabilities F b2 _ _ _ _ _ _
        · exact GameBoard.sameGame_refl b2
      split
      · exact GameBoard.sameGame_trans _ _ _ h3
          (GameBoard.sameGame_updateProbabilities F _ _ _ _ _ _ _)
      · exact h3
    · exact GameBoard.sameGame_refl b2
  · exact GameBoard.sameGame_refl b2

omit [LinearOrderedField K] in
/-- What `SameGame` keeps of the shape of a board of size `n`. -/
theorem GameBoard.shape_of_sameGame (b b2 : GameBoard K) (n : Int)
    (h : GameBoard.SameGame b b2)
    (hb : b.size_ = n ∧ Grid.Square n b.shipProbabilities_ ∧
      Grid.Square n b.mineProbabilities_) :
    b2.size_ = n ∧ Grid.Square n b2.shipProbabilities_ ∧
      Grid.Square n b2.mineProbabilities_ := by
  obtain ⟨h1, h2, h3⟩ := hb
  refine ⟨by rw [h.1, h1], ?_, ?_⟩
  · have := h.2.2.2.2.2.2.1 (by rw [h1]; exact h2)
    rw [h1] at this
    exact this
  · have := h.2.2.2.2.2.2.2 (by rw [h1]; exact h3)
    rw [h1] at this
    exact this

/-- The last write of the ship-hit update to the cell two columns to the right of the hit
zeroes it and adds `exp (-sqrt 4) * 0.7 * exp (-sqrt 0)`, clamped. -/
theorem BattleshipAlgorithm.hit_update_far_cell (F : FloatOps K) (e : BattleshipAlgorithm K)
    (x y : Int) (hwf : e.board_.WF) (hin : e.board_.inside (x + 2) y)
    (h0 : F.sqrt 0 ≤ 2) (h4 : F.sqrt 4 ≤ 2) (h5 : 2 < F.sqrt 5) (h8 : 2 < F.sqrt 8) :
    Grid.get 0 (BattleshipAlgorithm.updateProbabilities F e x y true false).board_.shipProbabilities_
        (x + 2) y
      = max 0 (min 1 (0 + F.exp (-F.sqrt 4) * 0.7 * F.exp (-F.sqrt 0))) := by
  rw [BattleshipAlgorithm.updateProbabilities_spread, intRange_two_last]
  have hshape : ∀ (b2 : GameBoard K) (dx dy : Int),
      (b2.size_ = e.board_.size_ ∧ Grid.Square e.board_.size_ b2.shipProbabilities_ ∧
        Grid.Square e.board_.size_ b2.mineProbabilities_) →
      ((BattleshipAlgorithm.spreadCell F e.board_.size_ x y true false b2 dx dy).size_
          = e.board_.size_ ∧
        Grid.Square e.board_.size_
          (BattleshipAlgorithm.spreadCell F e.board_.size_ x y true false b2 dx
            dy).shipProbabilities_ ∧
        Grid.Square e.board_.size_
          (BattleshipAlgorithm.spreadCell F e.board_.size_ x y true false b2 dx
            dy).mineProbabilities_) :=
    fun b2 dx dy h2 => GameBoard.shape_of_sameGame b2 _ _
      (BattleshipAlgorithm.spreadCell_same F _ x y true false b2 dx dy) h2
  have hfinal := foldl_track
    (fun (b : GameBoard K) => b.size_ = e.board_.size_ ∧
      Grid.Square e.board_.size_ b.shipProbabilities_ ∧
      Grid.Square e.board_.size_ b.mineProbabilities_)
    (fun (b : GameBoard K) => Grid.get 0 b.shipProbabilities_ (x + 2) y
      = max 0 (min 1 (0 + F.exp (-F.sqrt 4) * 0.7 * F.exp (-F.sqrt 0))))
    (fun b1 dx => ([-2, -1, 0, 1] ++ 2 :: []).foldl (fun b2 dy =>
      BattleshipAlgorithm.spreadCell F e.board_.size_ x y true false b2 dx dy) b1)
    [-2, -1, 0, 1] [] 2 (e.board_.updateProbabilities F x y true false 0 0)
    (GameBoard.shape_of_sameGame e.board_ _ _
      (GameBoard.sameGame_updateProbabilities F e.board_ x y true false 0 0)
      ⟨rfl, hwf.2.2.1, hwf.2.2.2⟩) ?_ ?_ ?_
  · exact hfinal
  · intro b1 dx _ h1
    exact foldl_inv (fun (b : GameBoard K) => b.size_ = e.board_.size_ ∧
      Grid.Square e.board_.size_ b.shipProbabilities_ ∧
      Grid.Square e.board_.size_ b.mineProbabilities_) _ _ _ h1
      (fun b2 dy _ h2 => hshape b2 dx dy h2)
  · intro b1 h1
    have hsplit : ([-2, -1, 0, 1] ++ 2 :: [] : List Int) = [-2, -1] ++ 0 :: [1, 2] := by decide
    rw [hsplit]
    refine foldl_track
      (fun (b : GameBoard K) => b.size_ = e.board_.size_ ∧
        Grid.Square e.board_.size_ b.shipProbabilities_ ∧
        Grid.Square e.board_.size_ b.mineProbabilities_)
      (fun (b : GameBoard K) => Grid.get 0 b.shipProbabilities_ (x + 2) y
        = max 0 (min 1 (0 + F.exp (-F.sqrt 4) * 0.7 * F.exp (-F.sqrt 0))))
      (fun b2 dy => BattleshipAlgorithm.spreadCell F e.board_.size_ x y true false b2 2 dy)
      [-2, -1] [1, 2] 0 b1 h1 (fun b2 dy _ h2 => hshape b2 2 dy h2) ?_ ?_
    · intro b2 h2
      have hz : (((2 * 2 + 0 * 0 : Int)) : K) = 4 := by norm_num
      have hx1 : 0 ≤ x + 2 := hin.1.1
      have hx2 : x + 2 < e.board_.size_ := hin.1.2
      have hy1 : 0 ≤ y := hin.2.1
      have hy2 : y < e.board_.size_ := hin.2.2
      unfold BattleshipAlgorithm.spreadCell
      simp only [ge_iff_le, hx1, hx2, hy1, hy2, hz, h4, and_self, if_true, ne_eq,
        not_true_eq_false, and_false, OfNat.ofNat_ne_zero, not_false_eq_true, or_true,
        Bool.false_eq_true, if_false, add_zero, true_and]
      refine GameBoard.update_centre_ship F b2 (x + 2) y _ (by rw [h2.1]; exact h2.2.1) ?_ h0
      unfold GameBoard.inside
      rw [h2.1]
      exact hin
    · intro b2 dy hdy h2
      have hbig : ¬ F.sqrt (((2 * 2 + dy * dy : Int)) : K) ≤ 2 := by
        simp only [List.mem_cons, List.mem_singleton, List.not_mem_nil, or_false] at hdy
        rcases hdy with rfl | rfl
        · have hz : (((2 * 2 + 1 * 1 : Int)) : K) = 5 := by norm_num
          rw [hz]
          exact not_le.mpr h5
        · have hz : (((2 * 2 + 2 * 2 : Int)) : K) = 8 := by norm_num
          rw [hz]
          exact not_le.mpr h8
      unfold BattleshipAlgorithm.spreadCell
      simp only [hbig, if_false, ite_self]
      exact h2
  · intro b1 dx hdx _
    cases hdx

end BoostLemmas4

section ShotTheorems

variable {K : Type}

/-- C1. For a cell `(x, y)` on a board with well-formed grids, `makeShot x y` marks the cell
in the shot record and resolves it by its prior state: `ShipIntact` becomes `ShipHit`, the
remaining-ship-cell counter drops by exactly 1 and the call returns true; `Mine` becomes
`MineTriggered` and `Empty` becomes `Miss`, both returning false with the counter unchanged;
and unless a ship through `(x, y)` is sunk after the call, no other cell changes state. (This
holds whether or not the cell was already marked in the shot record.) -/
theorem makeShot_resolves_cell (b : GameBoard K) (x y : Int) (hwf : b.WF)
    (hin : b.inside x y) :
    (b.makeShot x y).2.shot x y = 1 ∧
    (b.cell x y = ShipIntact →
      (b.makeShot x y).2.cell x y = ShipHit ∧
      (b.makeShot x y).2.remainingShips_ = b.remainingShips_ - 1 ∧
      (b.makeShot x y).1 = true) ∧
    (b.cell x y = Mine →
      (b.makeShot x y).2.cell x y = MineTriggered ∧
      (b.makeShot x y).2.remainingShips_ = b.remainingShips_ ∧
      (b.makeShot x y).1 = false) ∧
    (b.cell x y = Empty →
      (b.makeShot x y).2.cell x y = Miss ∧
      (b.makeShot x y).2.remainingShips_ = b.remainingShips_ ∧
      (b.makeShot x y).1 = false) ∧
    ((∀ s ∈ b.ships_, (x, y) ∈ s.cells → s.isSunk (b.makeShot x y).2.board_ = false) →
      ∀ u v, ¬ (u = x ∧ v = y) → (b.makeShot x y).2.cell u v = b.cell u v) := by
  obtain ⟨hb, hs, _, _⟩ := hwf
  refine ⟨?_, ?_, ?_, ?_, ?_⟩
  · rw [GameBoard.makeShot_frame b x y hin hb]
    exact Grid.get_set_self 0 b.shotsBoard_ b.size_ x y 1 hs hin.1 hin.2
  · intro h1
    rw [GameBoard.makeShot_hit b x y hin h1]
    have hrev := GameBoard.revealed_sink b x y hb
    have h3 : (b.afterHit x y).cell x y = 3 :=
      Grid.get_set_self 0 b.board_ b.size_ x y 3 hb hin.1 hin.2
    refine ⟨?_, ?_, rfl⟩
    · rcases hrev.2.2 x y with h | h
      · simp only; rw [h, h3]
      · rw [h3] at h; exact absurd h.1 (by decide)
    · simp only
      rw [hrev.1]
      rfl
  · intro h2
    rw [GameBoard.makeShot_mine b x y hin h2]
    exact ⟨Grid.get_set_self 0 b.board_ b.size_ x y 4 hb hin.1 hin.2, rfl, rfl⟩
  · intro h0
    rw [GameBoard.makeShot_empty b x y hin h0]
    exact ⟨Grid.get_set_self 0 b.board_ b.size_ x y 5 hb hin.1 hin.2, rfl, rfl⟩
  · intro hns u v huv
    by_cases h1 : b.cell x y = 1
    · have hrev := GameBoard.revealed_sink b x y hb
      rw [GameBoard.makeShot_hit b x y hin h1] at hns ⊢
      simp only at hns ⊢
      have hns2 : ∀ s ∈ b.ships_, (x, y) ∈ s.cells →
          s.isSunk (b.afterHit x y).board_ = false := by
        intro s hs1 hs2
        rw [← GameBoard.revealed_isSunk_eq _ _ hrev s]
        exact hns s hs1 hs2
      rw [GameBoard.sink_none b x y hns2]
      exact Grid.get_set_ne 0 b.board_ x y u v 3 huv
    · by_cases h2 : b.cell x y = 2
      · rw [GameBoard.makeShot_mine b x y hin h2]
        exact Grid.get_set_ne 0 b.board_ x y u v 4 huv
      · by_cases h0 : b.cell x y = 0
        · rw [GameBoard.makeShot_empty b x y hin h0]
          exact Grid.get_set_ne 0 b.board_ x y u v 5 huv
        · rw [GameBoard.makeShot_other b x y hin h0 h1 h2]
          rfl

/-- C2. When `makeShot` hits the last `ShipIntact` cell of a registered ship, afterwards every
cell on the board that touches a cell of that ship and was `Empty` before the call reads
`Miss`, while the shot record changed at the shot cell only. -/
theorem makeShot_reveals_perimeter (b : GameBoard K) (x y : Int) (hwf : b.WF)
    (hin : b.inside x y) (s : Ship) (hs : s ∈ b.ships_) (hxy : (x, y) ∈ s.cells)
    (h1 : b.cell x y = ShipIntact)
    (hrest : ∀ c ∈ s.cells, c ≠ (x, y) → b.cell c.1 c.2 = ShipHit) :
    (∀ c ∈ s.cells, ∀ u v, touches (u, v) c → b.inside u v → b.cell u v = Empty →
      (b.makeShot x y).2.cell u v = Miss) ∧
    (∀ u v, ¬ (u = x ∧ v = y) → (b.makeShot x y).2.shot u v = b.shot u v) := by
  obtain ⟨hb, _, _, _⟩ := hwf
  constructor
  · intro c hc u v ht hinuv h0
    have hne : ¬ (u = x ∧ v = y) := by
      rintro ⟨rfl, rfl⟩
      rw [h1] at h0
      exact absurd h0 (by decide)
    have hsunk : s.isSunk (b.afterHit x y).board_ = true := by
      unfold Ship.isSunk
      rw [List.all_eq_true]
      intro d hd
      rw [beq_iff_eq]
      by_cases hdx : d = (x, y)
      · subst hdx
        exact Grid.get_set_self 0 b.board_ b.size_ x y 3 hb hin.1 hin.2
      · have hd2 : ¬ (d.1 = x ∧ d.2 = y) := fun hh => hdx (Prod.ext hh.1 hh.2)
        have := Grid.get_set_ne 0 b.board_ x y d.1 d.2 3 hd2
        show Grid.get 0 (Grid.set b.board_ x y 3) d.1 d.2 = 3
        rw [this]
        exact hrest d hd hdx
    rw [GameBoard.makeShot_hit b x y hin h1]
    have hnz := GameBoard.sink_reveals b x y hb s hs hxy hsunk c hc u v ht hinuv
    have hrev := (GameBoard.revealed_sink b x y hb).2.2 u v
    have hsame : (b.afterHit x y).cell u v = b.cell u v :=
      Grid.get_set_ne 0 b.board_ x y u v 3 hne
    rcases hrev with h | h
    · rw [h, hsame] at hnz
      exact absurd h0 hnz
    · exact h.2
  · intro u v hne
    rw [GameBoard.makeShot_frame b x y hin hb]
    exact Grid.get_set_ne 0 b.shotsBoard_ x y u v 1 hne

end ShotTheorems

theorem makeShot_resolves_cell_witness :
    demoBoard.WF ∧ demoBoard.inside 2 5 ∧ demoBoard.cell 2 5 = ShipIntact ∧
    (demoBoard.makeShot 2 5).2.cell 2 5 = ShipHit ∧
    (demoBoard.makeShot 2 5).2.remainingShips_ = demoBoard.remainingShips_ - 1 ∧
    (demoBoard.makeShot 2 5).1 = true :=
  ⟨by decide, by decide, by decide,
    ((makeShot_resolves_cell demoBoard 2 5 (by decide) (by decide)).2.1 (by decide))⟩

theorem makeShot_reveals_perimeter_witness :
    demoBoard3.cell 5 5 = ShipIntact ∧ demoBoard3.cell 6 4 = Empty ∧
    (demoBoard3.makeShot 5 5).2.cell 6 4 = Miss :=
  ⟨by decide, by decide,
    (makeShot_reveals_perimeter demoBoard3 5 5 (by decide) (by decide)
      ⟨[(2, 5), (3, 5), (4, 5), (5, 5)]⟩ (by decide) (by decide) (by decide) (by decide)).1
      (5, 5) (by decide) 6 4 (by decide) (by decide) (by decide)⟩

section PlacementTheorems

variable {K : Type} [LinearOrderedField K]

theorem separated_symm (s t : Ship) (h : separated s t) : separated t s :=
  fun c hc d hd ht => h d hd c hc (touches_symm c d ht)

theorem pairwise_separated_index (l : List Ship) (h : l.Pairwise separated) (i j : Nat)
    (s t : Ship) (hij : i ≠ j) (hi : l[i]? = some s) (hj : l[j]? = some t) :
    separated s t := by
  rw [List.pairwise_iff_getElem] at h
  obtain ⟨hi1, hi2⟩ := List.getElem?_eq_some_iff.mp hi
  obtain ⟨hj1, hj2⟩ := List.getElem?_eq_some_iff.mp hj
  rcases Nat.lt_or_gt_of_ne hij with hlt | hgt
  · have := h i j hi1 hj1 hlt
    rw [hi2, hj2] at this
    exact this
  · have := h j i hj1 hi1 hgt
    rw [hi2, hj2] at this
    exact separated_symm t s this

/-- C3. On every board reached from an empty board of any size by any sequence of calls
(placements, accepted or not, and also shots), two registered ships at different positions of
the ship list share no cell, and no cell of one is among the eight neighbours of a cell of
the other. -/
theorem ships_never_touch (size : Int) (ops : List BoardOp) (i j : Nat) (s t : Ship)
    (c d : Int × Int) :
    i ≠ j → ((GameBoard.new size : GameBoard K).run ops).ships_[i]? = some s →
    ((GameBoard.new size : GameBoard K).run ops).ships_[j]? = some t →
    c ∈ s.cells → d ∈ t.cells → ¬ touches c d := by
  intro hij hi hj hc hd
  have hsound := GameBoard.sound_run (GameBoard.new size : GameBoard K)
    (GameBoard.sound_new size) ops
  exact pairwise_separated_index _ hsound.2.2.1 i j s t hij hi hj c hc d hd

/-- C4. On every board reached from an empty board of any size by any sequence of calls, in
whatever order ships and mines were placed, no cell in state `Mine` is a cell in state
`ShipIntact` or one of its eight neighbours. -/
theorem mines_never_touch_ships (size : Int) (ops : List BoardOp) (m s : Int × Int) :
    ((GameBoard.new size : GameBoard K).run ops).cell m.1 m.2 = Mine →
    ((GameBoard.new size : GameBoard K).run ops).cell s.1 s.2 = ShipIntact →
    ¬ touches m s := by
  intro hm hs
  have hsound := GameBoard.sound_run (GameBoard.new size : GameBoard K)
    (GameBoard.sound_new size) ops
  exact hsound.2.2.2.1 m s hm hs

/-- The invariant behind C5: the board is sound and the counter is the number of intact
cells. -/
theorem GameBoard.counted_run (size : Int) (ops : List BoardOp)
    (hops : ∀ op ∈ ops, op.lengthOk = true) :
    ((GameBoard.new size : GameBoard K).run ops).Sound ∧
    ((GameBoard.new size : GameBoard K).run ops).remainingShips_
      = (((GameBoard.new size : GameBoard K).run ops).intactCount : Int) := by
  unfold GameBoard.run
  refine foldl_inv (fun (b : GameBoard K) => b.Sound ∧ b.remainingShips_ = (b.intactCount : Int))
    _ _ _ ⟨GameBoard.sound_new size, ?_⟩ ?_
  · have hempty : (GameBoard.new size : GameBoard K).intactCells = ∅ := by
      ext q
      rw [GameBoard.mem_intactCells, GameBoard.new_cell]
      simp
    unfold GameBoard.intactCount
    rw [hempty]
    rfl
  · intro b op hop ⟨hs, hcount⟩
    refine ⟨GameBoard.sound_apply b hs op, ?_⟩
    have hb := hs.1.1
    cases op with
    | placeShip x y length horizontal =>
      have hlen : 1 ≤ length := by
        have := hops _ hop
        simpa [BoardOp.lengthOk] using this
      show (b.placeShip x y length horizontal).2.remainingShips_
        = ((b.placeShip x y length horizontal).2.intactCount : Int)
      by_cases h : b.canPlaceShip x y length horizontal = true
      · rw [(GameBoard.placeShip_keeps b x y length horizontal h).2.2.2.2.2.2,
          GameBoard.placeShip_count b hb x y length horizontal (by omega) h, hcount]
      · rw [GameBoard.placeShip_reject b x y length horizontal (by simpa using h)]
        exact hcount
    | placeMine x y =>
      show (b.placeMine x y).2.remainingShips_ = ((b.placeMine x y).2.intactCount : Int)
      rw [GameBoard.placeMine_count b hb x y, ← hcount]
      by_cases h : b.canPlaceMine x y = true
      · exact (GameBoard.placeMine_keeps b x y h).2.2.2.2.2.2
      · rw [GameBoard.placeMine_reject b x y (by simpa using h)]
    | makeShot x y =>
      show (b.makeShot x y).2.remainingShips_ = ((b.makeShot x y).2.intactCount : Int)
      rw [GameBoard.makeShot_remaining b hb x y, GameBoard.makeShot_count b hb x y, hcount]

/-- C5. On every board reached from an empty board by `placeShip` calls of length at least 1,
`placeMine` calls and `makeShot` calls, the remaining-ship-cell counter is the number of cells
in state `ShipIntact`; so `isGameOver` and `isVictory` hold exactly when no cell is
`ShipIntact`, and `makeShot` never raises the counter. -/
theorem counter_counts_intact_cells (size : Int) (ops : List BoardOp)
    (hops : ∀ op ∈ ops, op.lengthOk = true) :
    ((GameBoard.new size : GameBoard K).run ops).remainingShips_
      = (((GameBoard.new size : GameBoard K).run ops).intactCount : Int) ∧
    (((GameBoard.new size : GameBoard K).run ops).isGameOver = true ↔
      ∀ x y, ((GameBoard.new size : GameBoard K).run ops).cell x y ≠ ShipIntact) ∧
    (((GameBoard.new size : GameBoard K).run ops).isVictory = true ↔
      ∀ x y, ((GameBoard.new size : GameBoard K).run ops).cell x y ≠ ShipIntact) ∧
    ∀ x y, (((GameBoard.new size : GameBoard K).run ops).makeShot x y).2.remainingShips_
      ≤ ((GameBoard.new size : GameBoard K).run ops).remainingShips_ := by
  obtain ⟨hs, hcount⟩ := GameBoard.counted_run (K := K) size ops hops
  generalize (GameBoard.new size : GameBoard K).run ops = b at hs hcount
  have hb := hs.1.1
  have hzero : b.remainingShips_ = 0 ↔ ∀ x y, b.cell x y ≠ ShipIntact := by
    rw [hcount]
    unfold GameBoard.intactCount
    rw [Int.natCast_eq_zero, Finset.card_eq_zero, Finset.eq_empty_iff_forall_not_mem]
    constructor
    · intro h x y hc
      exact h (x, y) ((GameBoard.mem_intactCells_wf b hb (x, y)).mpr hc)
    · intro h q hq
      exact h q.1 q.2 ((GameBoard.mem_intactCells_wf b hb q).mp hq)
  refine ⟨hcount, ?_, ?_, ?_⟩
  · unfold GameBoard.isGameOver
    rw [beq_iff_eq]
    exact hzero
  · unfold GameBoard.isVictory
    rw [beq_iff_eq]
    exact hzero
  · intro x y
    rw [GameBoard.makeShot_remaining b hb x y]
    split <;> omega

end PlacementTheorems

section SingleShip

variable {K : Type}

theorem GameBoard.singleShip_step (b : GameBoard K) (cells : List (Int × Int))
    (c : Int × Int) (todo : List (Int × Int)) (h : b.SingleShip cells (c :: todo)) :
    (b.makeShot c.1 c.2).1 = true ∧ (b.makeShot c.1 c.2).2.SingleShip cells todo := by
  obtain ⟨hwf, hships, hnodup, hsub, hcells, hrem⟩ := h
  have hc := hcells c (hsub c (List.mem_cons_self _ _))
  have hin := hc.1
  have h1 := hc.2.1 (List.mem_cons_self _ _)
  have hk := GameBoard.makeShot_keeps b hwf.1 c.1 c.2
  rw [List.nodup_cons] at hnodup
  refine ⟨?_, GameBoard.makeShot_wf b hwf c.1 c.2, ?_, hnodup.2, ?_, ?_, ?_⟩
  · rw [GameBoard.makeShot_hit b c.1 c.2 hin h1]
  · rw [hk.2.1, hships]
  · intro d hd
    exact hsub d (List.mem_cons_of_mem _ hd)
  · intro d hd
    have hold := hcells d hd
    unfold GameBoard.inside
    rw [hk.1]
    refine ⟨hold.1, ?_, ?_⟩
    · intro hdt
      have hne : d ≠ c := fun hh => hnodup.1 (hh ▸ hdt)
      have hne2 : ¬ (d.1 = c.1 ∧ d.2 = c.2) := fun hh => hne (Prod.ext hh.1 hh.2)
      have h1d := hold.2.1 (List.mem_cons_of_mem _ hdt)
      have := GameBoard.makeShot_cell b hwf.1 c.1 c.2 d.1 d.2
      omega
    · intro hdt
      by_cases hdc : d = c
      · subst hdc
        exact GameBoard.makeShot_hit_cell b hwf.1 d.1 d.2 hin h1
      · have hne2 : ¬ (d.1 = c.1 ∧ d.2 = c.2) := fun hh => hdc (Prod.ext hh.1 hh.2)
        have h3d := hold.2.2 (fun hh => by
          rcases List.mem_cons.mp hh with h | h
          · exact hdc h
          · exact hdt h)
        have := GameBoard.makeShot_cell b hwf.1 c.1 c.2 d.1 d.2
        omega
  · rw [GameBoard.makeShot_remaining b hwf.1 c.1 c.2]
    simp only [hin, h1, and_self, if_true, hrem, List.length_cons]
    push_cast
    omega

theorem GameBoard.singleShip_status (b : GameBoard K) (cells todo : List (Int × Int))
    (h : b.SingleShip cells todo) :
    (todo ≠ [] → b.isVictory = false ∧ Ship.isSunk { cells := cells } b.board_ = false) ∧
    (todo = [] → b.isVictory = true ∧ Ship.isSunk { cells := cells } b.board_ = true) := by
  obtain ⟨_, _, _, hsub, hcells, hrem⟩ := h
  constructor
  · intro hne
    obtain ⟨c, rest, rfl⟩ := List.exists_cons_of_ne_nil hne
    constructor
    · unfold GameBoard.isVictory
      rw [hrem]
      simp only [List.length_cons, beq_eq_false_iff_ne, ne_eq]
      push_cast
      omega
    · have hc := hcells c (hsub c (List.mem_cons_self _ _))
      have h1 := hc.2.1 (List.mem_cons_self _ _)
      unfold Ship.isSunk
      rw [List.all_eq_false]
      refine ⟨c, hsub c (List.mem_cons_self _ _), ?_⟩
      unfold GameBoard.cell at h1
      simp [h1]
  · intro hnil
    subst hnil
    constructor
    · unfold GameBoard.isVictory
      rw [hrem]
      rfl
    · unfold Ship.isSunk
      rw [List.all_eq_true]
      intro c hc
      have := (hcells c hc).2.2 (List.not_mem_nil c)
      unfold GameBoard.cell at this
      simp [this]

theorem GameBoard.singleShip_run (b : GameBoard K) (cells : List (Int × Int))
    (shots : List (Int × Int)) (h : b.SingleShip cells shots) (k : Nat) :
    (b.run (shotsAt (shots.take k))).SingleShip cells (shots.drop k) := by
  induction k generalizing b shots with
  | zero => simpa [shotsAt, GameBoard.run] using h
  | succ k ih =>
    cases shots with
    | nil => simpa [shotsAt, GameBoard.run] using h
    | cons c rest =>
      have hstep := (GameBoard.singleShip_step b cells c rest h).2
      have := ih (b.makeShot c.1 c.2).2 rest hstep
      simpa [shotsAt, GameBoard.run, GameBoard.apply] using this

/-- An accepted `placeShip` of length at least 1 on an empty board leaves a board whose only
ship is intact. -/
theorem GameBoard.singleShip_placed [LinearOrderedField K] (size x y length : Int) (horizontal : Bool)
    (hlen : 1 ≤ length)
    (hplace : ((GameBoard.new size : GameBoard K).placeShip x y length horizontal).1 = true)
    (shots : List (Int × Int)) (hperm : shots.Perm (shipCells x y length horizontal)) :
    ((GameBoard.new size : GameBoard K).placeShip x y length horizontal).2.SingleShip
      (shipCells x y length horizontal) shots := by
  have hcan : (GameBoard.new size : GameBoard K).canPlaceShip x y length horizontal = true := by
    by_contra hc
    rw [GameBoard.placeShip_reject _ x y length horizontal (by simpa using hc)] at hplace
    simp at hplace
  have hsound := GameBoard.sound_placeShip _ (GameBoard.sound_new (K := K) size) x y length
    horizontal
  have hk := GameBoard.placeShip_keeps _ x y length horizontal hcan
  have hcell := GameBoard.placeShip_cell _ (GameBoard.new_wf (K := K) size).1 x y length
    horizontal hcan
  refine ⟨hsound.1, ?_, ?_, ?_, ?_, ?_⟩
  · rw [hk.2.2.2.2.2.1]
    rfl
  · exact hperm.nodup_iff.mpr (shipCells_nodup x y length horizontal)
  · intro c hc
    exact hperm.mem_iff.mp hc
  · intro c hc
    refine ⟨?_, ?_, ?_⟩
    · have := GameBoard.canPlaceShip_inside _ x y length horizontal hcan c hc
      unfold GameBoard.inside at this ⊢
      rw [hk.1]
      exact this
    · intro _
      rw [hcell]
      simp [hc]
    · intro hnot
      exact absurd (hperm.mem_iff.mpr hc) hnot
  · rw [hk.2.2.2.2.2.2, hperm.length_eq, shipCells_length]
    show (0 : Int) + length = _
    omega

/-- C6. On the board obtained from an empty one by a single accepted `placeShip` of length at
least 1 (so: one ship, no mines), let `shots` list the cells of the ship in any order. Then
the `k`-th of these shots, fired after the first `k`, returns true; as long as a shot is still
to come the ship is not sunk and `isVictory` is false; and once all are fired the ship is sunk
and `isVictory` is true. -/
theorem single_ship_sinks_on_last_shot [LinearOrderedField K] (size x y length : Int) (horizontal : Bool)
    (hlen : 1 ≤ length)
    (hplace : ((GameBoard.new size : GameBoard K).placeShip x y length horizontal).1 = true)
    (shots : List (Int × Int)) (hperm : shots.Perm (shipCells x y length horizontal))
    (k : Nat) :
    (∀ c, shots[k]? = some c →
      ((((GameBoard.new size : GameBoard K).placeShip x y length horizontal).2.run
        (shotsAt (shots.take k))).makeShot c.1 c.2).1 = true) ∧
    (k < shots.length →
      (((GameBoard.new size : GameBoard K).placeShip x y length horizontal).2.run
        (shotsAt (shots.take k))).isVictory = false ∧
      Ship.isSunk { cells := shipCells x y length horizontal }
        (((GameBoard.new size : GameBoard K).placeShip x y length horizontal).2.run
          (shotsAt (shots.take k))).board_ = false) ∧
    (k = shots.length →
      (((GameBoard.new size : GameBoard K).placeShip x y length horizontal).2.run
        (shotsAt (shots.take k))).isVictory = true ∧
      Ship.isSunk { cells := shipCells x y length horizontal }
        (((GameBoard.new size : GameBoard K).placeShip x y length horizontal).2.run
          (shotsAt (shots.take k))).board_ = true) := by
  have h0 := GameBoard.singleShip_placed (K := K) size x y length horizontal hlen hplace shots
    hperm
  have hk := GameBoard.singleShip_run _ _ shots h0 k
  have hstatus := GameBoard.singleShip_status _ _ _ hk
  refine ⟨?_, ?_, ?_⟩
  · intro c hc
    obtain ⟨hlt, hget⟩ := List.getElem?_eq_some_iff.mp hc
    have hdrop : shots.drop k = c :: shots.drop (k + 1) := by
      rw [← hget]
      exact List.drop_eq_getElem_cons hlt
    rw [hdrop] at hk
    exact (GameBoard.singleShip_step _ _ c _ hk).1
  · intro hlt
    apply hstatus.1
    intro hnil
    have := congrArg List.length hnil
    simp at this
    omega
  · intro heq
    apply hstatus.2
    rw [heq]
    exact List.drop_length shots

end SingleShip

section ForwardTheorem

variable {K : Type}

/-- C7. On a board with well-formed grids, each Board operation moves the state of any cell
`(u, v)` forward only: `placeShip` keeps it or turns `Empty` into `ShipIntact`, `placeMine`
keeps it or turns `Empty` into `Mine`, `makeShot` keeps it or takes one of the steps
`ShipIntact → ShipHit`, `Mine → MineTriggered`, `Empty → Miss`, and `updateProbabilities`
keeps it. So a cell in state `ShipHit`, `MineTriggered` or `Miss` keeps its state under all
four operations, and no operation produces `Empty`, `ShipIntact` or `Mine` from a state
other than itself or `Empty`. -/
theorem cell_states_move_forward [LinearOrderedField K] (F : FloatOps K) (b : GameBoard K)
    (hwf : b.WF) (u v : Int) :
    (∀ x y length horizontal,
      (b.placeShip x y length horizontal).2.cell u v = b.cell u v ∨
      (b.cell u v = Empty ∧ (b.placeShip x y length horizontal).2.cell u v = ShipIntact)) ∧
    (∀ x y,
      (b.placeMine x y).2.cell u v = b.cell u v ∨
      (b.cell u v = Empty ∧ (b.placeMine x y).2.cell u v = Mine)) ∧
    (∀ x y,
      (b.makeShot x y).2.cell u v = b.cell u v ∨
      (b.cell u v = ShipIntact ∧ (b.makeShot x y).2.cell u v = ShipHit) ∨
      (b.cell u v = Mine ∧ (b.makeShot x y).2.cell u v = MineTriggered) ∨
      (b.cell u v = Empty ∧ (b.makeShot x y).2.cell u v = Miss)) ∧
    (∀ x y hitShip hitMine shipFactor mineFactor,
      (b.updateProbabilities F x y hitShip hitMine shipFactor mineFactor).cell u v
        = b.cell u v) ∧
    ((b.cell u v = ShipHit ∨ b.cell u v = MineTriggered ∨ b.cell u v = Miss) →
      (∀ x y length horizontal, (b.placeShip x y length horizontal).2.cell u v = b.cell u v) ∧
      (∀ x y, (b.placeMine x y).2.cell u v = b.cell u v) ∧
      (∀ x y, (b.makeShot x y).2.cell u v = b.cell u v)) := by
  have hb := hwf.1
  have hship : ∀ x y length horizontal,
      (b.placeShip x y length horizontal).2.cell u v = b.cell u v ∨
      (b.cell u v = 0 ∧ (b.placeShip x y length horizontal).2.cell u v = 1) := by
    intro x y length horizontal
    by_cases h : b.canPlaceShip x y length horizontal = true
    · rw [GameBoard.placeShip_cell b hb x y length horizontal h]
      by_cases hmem : (u, v) ∈ shipCells x y length horizontal
      · right
        simp only [hmem, if_true, and_true]
        exact GameBoard.canPlaceShip_clear b x y length horizontal h (u, v) hmem u v
          (touches_self (u, v)) (GameBoard.canPlaceShip_inside b x y length horizontal h _ hmem)
      · left
        simp [hmem]
    · rw [GameBoard.placeShip_reject b x y length horizontal (by simpa using h)]
      left; rfl
  have hmine : ∀ x y,
      (b.placeMine x y).2.cell u v = b.cell u v ∨
      (b.cell u v = 0 ∧ (b.placeMine x y).2.cell u v = 2) := by
    intro x y
    by_cases h : b.canPlaceMine x y = true
    · rw [GameBoard.placeMine_cell b hb x y h]
      obtain ⟨_, h0, _⟩ := (GameBoard.canPlaceMine_iff b x y).mp h
      by_cases huv : u = x ∧ v = y
      · right
        obtain ⟨rfl, rfl⟩ := huv
        simp [h0]
      · left
        simp [huv]
    · rw [GameBoard.placeMine_reject b x y (by simpa using h)]
      left; rfl
  have hshot : ∀ x y,
      (b.makeShot x y).2.cell u v = b.cell u v ∨
      (b.cell u v = 1 ∧ (b.makeShot x y).2.cell u v = 3) ∨
      (b.cell u v = 2 ∧ (b.makeShot x y).2.cell u v = 4) ∨
      (b.cell u v = 0 ∧ (b.makeShot x y).2.cell u v = 5) := by
    intro x y
    rcases GameBoard.makeShot_cell b hb x y u v with h | h | h | h
    · exact Or.inl h
    · exact Or.inr (Or.inr (Or.inr h))
    · exact Or.inr (Or.inl h.2)
    · exact Or.inr (Or.inr (Or.inl h.2))
  refine ⟨hship, hmine, hshot, ?_, ?_⟩
  · intro x y hitShip hitMine shipFactor mineFactor
    unfold GameBoard.cell
    rw [(GameBoard.sameGame_updateProbabilities F b x y hitShip hitMine shipFactor
      mineFactor).2.1]
  · intro hsettled
    have hs2 : b.cell u v = 3 ∨ b.cell u v = 4 ∨ b.cell u v = 5 := hsettled
    refine ⟨?_, ?_, ?_⟩
    · intro x y length horizontal
      have := hship x y length horizontal
      omega
    · intro x y
      have := hmine x y
      omega
    · intro x y
      have := hshot x y
      omega

end ForwardTheorem

theorem ships_never_touch_witness :
    ((GameBoard.new 10 : GameBoard ℚ).run demoTwoShips).ships_[0]?
      = some { cells := [(2, 5), (3, 5), (4, 5), (5, 5)] } ∧
    ((GameBoard.new 10 : GameBoard ℚ).run demoTwoShips).ships_[1]?
      = some { cells := [(0, 0), (0, 1)] } ∧
    ¬ touches ((2 : Int), (5 : Int)) ((0 : Int), (1 : Int)) :=
  ⟨by decide, by decide,
    ships_never_touch (K := ℚ) 10 demoTwoShips 0 1 { cells := [(2, 5), (3, 5), (4, 5), (5, 5)] }
      { cells := [(0, 0), (0, 1)] } (2, 5) (0, 1) (by decide) (by decide) (by decide)
      (by decide) (by decide)⟩

theorem mines_never_touch_ships_witness :
    ((GameBoard.new 10 : GameBoard ℚ).run demoGame).cell 0 0 = Mine ∧
    ((GameBoard.new 10 : GameBoard ℚ).run demoGame).cell 3 5 = ShipIntact ∧
    ¬ touches ((0 : Int), (0 : Int)) ((3 : Int), (5 : Int)) :=
  ⟨by decide, by decide,
    mines_never_touch_ships (K := ℚ) 10 demoGame (0, 0) (3, 5) (by decide) (by decide)⟩

theorem counter_counts_intact_cells_witness :
    (∀ op ∈ demoGame, op.lengthOk = true) ∧
    ((GameBoard.new 10 : GameBoard ℚ).run demoGame).remainingShips_ = 3 ∧
    ((GameBoard.new 10 : GameBoard ℚ).run demoGame).remainingShips_
      = (((GameBoard.new 10 : GameBoard ℚ).run demoGame).intactCount : Int) :=
  ⟨by decide, by decide,
    (counter_counts_intact_cells (K := ℚ) 10 demoGame (by decide)).1⟩

theorem single_ship_sinks_on_last_shot_witness :
    ((GameBoard.new 10 : GameBoard ℚ).placeShip 2 5 4 true).1 = true ∧
    demoShots.Perm (shipCells 2 5 4 true) ∧
    ((demoBoard.run (shotsAt (demoShots.take 0))).makeShot 2 5).1 = true ∧
    ((demoBoard.run (shotsAt (demoShots.take 1))).makeShot 3 5).1 = true ∧
    ((demoBoard.run (shotsAt (demoShots.take 2))).makeShot 4 5).1 = true ∧
    ((demoBoard.run (shotsAt (demoShots.take 3))).makeShot 5 5).1 = true ∧
    ((demoBoard.run (shotsAt (demoShots.take 3))).isVictory = false ∧
      Ship.isSunk { cells := shipCells 2 5 4 true }
        (demoBoard.run (shotsAt (demoShots.take 3))).board_ = false) ∧
    ((demoBoard.run (shotsAt (demoShots.take 4))).isVictory = true ∧
      Ship.isSunk { cells := shipCells 2 5 4 true }
        (demoBoard.run (shotsAt (demoShots.take 4))).board_ = true) :=
  ⟨by decide, by decide,
    (single_ship_sinks_on_last_shot (K := ℚ) 10 2 5 4 true (by decide) (by decide) demoShots
      (by decide) 0).1 (2, 5) (by decide),
    (single_ship_sinks_on_last_shot (K := ℚ) 10 2 5 4 true (by decide) (by decide) demoShots
      (by decide) 1).1 (3, 5) (by decide),
    (single_ship_sinks_on_last_shot (K := ℚ) 10 2 5 4 true (by decide) (by decide) demoShots
      (by decide) 2).1 (4, 5) (by decide),
    (single_ship_sinks_on_last_shot (K := ℚ) 10 2 5 4 true (by decide) (by decide) demoShots
      (by decide) 3).1 (5, 5) (by decide),
    (single_ship_sinks_on_last_shot (K := ℚ) 10 2 5 4 true (by decide) (by decide) demoShots
      (by decide) 3).2.1 (by decide),
    (single_ship_sinks_on_last_shot (K := ℚ) 10 2 5 4 true (by decide) (by decide) demoShots
      (by decide) 4).2.2 (by decide)⟩

theorem cell_states_move_forward_witness :
    demoBoard.WF ∧ demoBoard.cell 2 5 = ShipIntact ∧
    (demoBoard.makeShot 2 5).2.cell 2 5 = ShipHit ∧
    ((demoBoard.makeShot 2 5).2.cell 2 5 = demoBoard.cell 2 5 ∨
      (demoBoard.cell 2 5 = ShipIntact ∧ (demoBoard.makeShot 2 5).2.cell 2 5 = ShipHit) ∨
      (demoBoard.cell 2 5 = Mine ∧ (demoBoard.makeShot 2 5).2.cell 2 5 = MineTriggered) ∨
      (demoBoard.cell 2 5 = Empty ∧ (demoBoard.makeShot 2 5).2.cell 2 5 = Miss)) :=
  ⟨by decide, by decide, by decide,
    (cell_states_move_forward ratOps demoBoard (by decide) 2 5).2.2.1 2 5⟩

section KillTheorem

variable {K : Type} [LinearOrderedField K]

/-- C9. Let the wounded-cell list hold two or more cells, without repetition, all on the
board. If all its cells share the same `x`, `findKillMove` returns `(x, minY - 1)` or
`(x, maxY + 1)`, each only when that cell is on the board and unshot, or `(-1, -1)` when
neither is; here `minY` and `maxY` are the least and greatest `y` of the list. Symmetrically,
if all cells share the same `y` it returns `(minX - 1, y)`, `(maxX + 1, y)` or `(-1, -1)`. -/
theorem findKillMove_extends_line (F : FloatOps K) (e : BattleshipAlgorithm K)
    (hlen : 2 ≤ e.woundedCells_.length) (hnodup : e.woundedCells_.Nodup)
    (hin : ∀ c ∈ e.woundedCells_, e.board_.inside c.1 c.2) :
    (∀ x, (∀ c ∈ e.woundedCells_, c.1 = x) →
      ∃ minY maxY, (x, minY) ∈ e.woundedCells_ ∧ (x, maxY) ∈ e.woundedCells_ ∧
        (∀ c ∈ e.woundedCells_, minY ≤ c.2 ∧ c.2 ≤ maxY) ∧
        ((BattleshipAlgorithm.findKillMove F e = (x, minY - 1) ∧
            e.board_.inside x (minY - 1) ∧ e.board_.shot x (minY - 1) = 0) ∨
         (BattleshipAlgorithm.findKillMove F e = (x, maxY + 1) ∧
            e.board_.inside x (maxY + 1) ∧ e.board_.shot x (maxY + 1) = 0) ∨
         (BattleshipAlgorithm.findKillMove F e = (-1, -1) ∧
            ¬ (e.board_.inside x (minY - 1) ∧ e.board_.shot x (minY - 1) = 0) ∧
            ¬ (e.board_.inside x (maxY + 1) ∧ e.board_.shot x (maxY + 1) = 0)))) ∧
    (∀ y, (∀ c ∈ e.woundedCells_, c.2 = y) →
      ∃ minX maxX, (minX, y) ∈ e.woundedCells_ ∧ (maxX, y) ∈ e.woundedCells_ ∧
        (∀ c ∈ e.woundedCells_, minX ≤ c.1 ∧ c.1 ≤ maxX) ∧
        ((BattleshipAlgorithm.findKillMove F e = (minX - 1, y) ∧
            e.board_.inside (minX - 1) y ∧ e.board_.shot (minX - 1) y = 0) ∨
         (BattleshipAlgorithm.findKillMove F e = (maxX + 1, y) ∧
            e.board_.inside (maxX + 1) y ∧ e.board_.shot (maxX + 1) y = 0) ∨
         (BattleshipAlgorithm.findKillMove F e = (-1, -1) ∧
            ¬ (e.board_.inside (minX - 1) y ∧ e.board_.shot (minX - 1) y = 0) ∧
            ¬ (e.board_.inside (maxX + 1) y ∧ e.board_.shot (maxX + 1) y = 0)))) := by
  obtain ⟨c0, c1, rest, hw⟩ : ∃ c0 c1 rest, e.woundedCells_ = c0 :: c1 :: rest := by
    match hm : e.woundedCells_ with
    | [] => rw [hm] at hlen; simp at hlen
    | [_] => rw [hm] at hlen; simp at hlen
    | c0 :: c1 :: rest => exact ⟨c0, c1, rest, rfl⟩
  have h0mem : c0 ∈ e.woundedCells_ := by rw [hw]; exact List.mem_cons_self _ _
  have h1mem : c1 ∈ e.woundedCells_ := by
    rw [hw]; exact List.mem_cons_of_mem _ (List.mem_cons_self _ _)
  have h0in := hin c0 h0mem
  constructor
  · intro x hx
    have hx0 : c0.1 = x := hx c0 h0mem
    have hxs : ∀ c ∈ e.woundedCells_, c.1 = c0.1 := fun c hc => (hx c hc).trans hx0.symm
    have hkill := BattleshipAlgorithm.findKillMove_vertical F e c0 c1 rest hw hxs
    have hmin := minElement_le c0.2 (e.woundedCells_.map (fun cell => cell.2))
    have hmax := le_maxElement c0.2 (e.woundedCells_.map (fun cell => cell.2))
    have hminm := minElement_mem c0.2 (e.woundedCells_.map (fun cell => cell.2))
    have hmaxm := maxElement_mem c0.2 (e.woundedCells_.map (fun cell => cell.2))
    generalize minElement c0.2 (e.woundedCells_.map (fun cell => cell.2)) = minY at *
    generalize maxElement c0.2 (e.woundedCells_.map (fun cell => cell.2)) = maxY at *
    have hmem : ∀ v, (v = c0.2 ∨ v ∈ e.woundedCells_.map (fun cell => cell.2)) →
        (x, v) ∈ e.woundedCells_ := by
      intro v hv
      rcases hv with h | h
      · have : (x, v) = c0 := Prod.ext hx0.symm h
        rw [this]; exact h0mem
      · obtain ⟨c, hc, hcv⟩ := List.mem_map.mp h
        have : (x, v) = c := Prod.ext (hx c hc).symm hcv.symm
        rw [this]; exact hc
    have hbound : ∀ c ∈ e.woundedCells_, minY ≤ c.2 ∧ c.2 ≤ maxY := by
      intro c hc
      have hm : c.2 ∈ e.woundedCells_.map (fun cell => cell.2) := List.mem_map.mpr ⟨c, hc, rfl⟩
      exact ⟨hmin.2 _ hm, hmax.2 _ hm⟩
    have hminin := hin _ (hmem minY hminm)
    have hmaxin := hin _ (hmem maxY hmaxm)
    refine ⟨minY, maxY, hmem minY hminm, hmem maxY hmaxm, hbound, ?_⟩
    rw [hkill, hx0]
    unfold GameBoard.inside at hminin hmaxin ⊢
    unfold GameBoard.shot
    simp only at hminin hmaxin
    rcases BattleshipAlgorithm.kill_line_cases F e
      (minY - 1 ≥ 0 ∧ Grid.get 0 e.board_.shotsBoard_ x (minY - 1) = 0)
      (maxY + 1 < e.board_.size_ ∧ Grid.get 0 e.board_.shotsBoard_ x (maxY + 1) = 0)
      (x, minY - 1) (x, maxY + 1) with h | h | h
    · left
      exact ⟨h.1, ⟨hminin.1, by omega, by omega⟩, h.2.2⟩
    · right; left
      exact ⟨h.1, ⟨hmaxin.1, by omega, by omega⟩, h.2.2⟩
    · right; right
      refine ⟨h.1, ?_, ?_⟩
      · intro hh
        exact h.2.1 ⟨by omega, hh.2⟩
      · intro hh
        exact h.2.2 ⟨by omega, hh.2⟩
  · intro y hy
    have hy0 : c0.2 = y := hy c0 h0mem
    have hys : ∀ c ∈ e.woundedCells_, c.2 = c0.2 := fun c hc => (hy c hc).trans hy0.symm
    have hnx : ¬ ∀ c ∈ e.woundedCells_, c.1 = c0.1 := by
      intro hh
      have h01 : c0 ≠ c1 := by
        rw [hw] at hnodup
        intro heq
        exact (List.nodup_cons.mp hnodup).1 (heq ▸ List.mem_cons_self _ _)
      exact h01 (Prod.ext (hh c1 h1mem).symm ((hys c1 h1mem).symm))
    have hkill := BattleshipAlgorithm.findKillMove_horizontal F e c0 c1 rest hw hnx hys
    have hmin := minElement_le c0.1 (e.woundedCells_.map (fun cell => cell.1))
    have hmax := le_maxElement c0.1 (e.woundedCells_.map (fun cell => cell.1))
    have hminm := minElement_mem c0.1 (e.woundedCells_.map (fun cell => cell.1))
    have hmaxm := maxElement_mem c0.1 (e.woundedCells_.map (fun cell => cell.1))
    generalize minElement c0.1 (e.woundedCells_.map (fun cell => cell.1)) = minX at *
    generalize maxElement c0.1 (e.woundedCells_.map (fun cell => cell.1)) = maxX at *
    have hmem : ∀ v, (v = c0.1 ∨ v ∈ e.woundedCells_.map (fun cell => cell.1)) →
        (v, y) ∈ e.woundedCells_ := by
      intro v hv
      rcases hv with h | h
      · have : (v, y) = c0 := Prod.ext h hy0.symm
        rw [this]; exact h0mem
      · obtain ⟨c, hc, hcv⟩ := List.mem_map.mp h
        have : (v, y) = c := Prod.ext hcv.symm (hy c hc).symm
        rw [this]; exact hc
    have hbound : ∀ c ∈ e.woundedCells_, minX ≤ c.1 ∧ c.1 ≤ maxX := by
      intro c hc
      have hm : c.1 ∈ e.woundedCells_.map (fun cell => cell.1) := List.mem_map.mpr ⟨c, hc, rfl⟩
      exact ⟨hmin.2 _ hm, hmax.2 _ hm⟩
    have hminin := hin _ (hmem minX hminm)
    have hmaxin := hin _ (hmem maxX hmaxm)
    refine ⟨minX, maxX, hmem minX hminm, hmem maxX hmaxm, hbound, ?_⟩
    rw [hkill, hy0]
    unfold GameBoard.inside at hminin hmaxin ⊢
    unfold GameBoard.shot
    simp only at hminin hmaxin
    rcases BattleshipAlgorithm.kill_line_cases F e
      (minX - 1 ≥ 0 ∧ Grid.get 0 e.board_.shotsBoard_ (minX - 1) y = 0)
      (maxX + 1 < e.board_.size_ ∧ Grid.get 0 e.board_.shotsBoard_ (maxX + 1) y = 0)
      (minX - 1, y) (maxX + 1, y) with h | h | h
    · left
      exact ⟨h.1, ⟨⟨by omega, by omega⟩, hminin.2⟩, h.2.2⟩
    · right; left
      exact ⟨h.1, ⟨⟨by omega, by omega⟩, hmaxin.2⟩, h.2.2⟩
    · right; right
      refine ⟨h.1, ?_, ?_⟩
      · intro hh
        exact h.2.1 ⟨by omega, hh.2⟩
      · intro hh
        exact h.2.2 ⟨by omega, hh.2⟩

end KillTheorem

section EngineTheorems

variable {K : Type} [LinearOrderedField K] [FloorRing K]

/-- C8. In every engine state of a game, whatever `findBestMove` returns is the no-move value
`(-1, -1)` or a cell of the board that is not marked in the shot record, and it does return
as long as an unsunk ship or an unmarked cell is left. So a `makeMove` that fires marks
exactly one cell, which was unmarked, and leaves all other marks as they were; a `makeMove`
that does not fire leaves the state alone; and no mark is ever removed. -/
theorem engine_never_shoots_twice (F : FloatOps K) (e : BattleshipAlgorithm K)
    (hr : BattleshipAlgorithm.Reachable F e) :
    (∀ m, BattleshipAlgorithm.findBestMove F e = some m →
      m = (-1, -1) ∨ (e.board_.inside m.1 m.2 ∧ e.board_.shot m.1 m.2 = 0)) ∧
    ((1 ≤ getMaxAliveShipLength e.board_ ∨
        ∃ x y, e.board_.inside x y ∧ e.board_.shot x y = 0) →
      (BattleshipAlgorithm.findBestMove F e).isSome = true) ∧
    (∀ hit e2, BattleshipAlgorithm.makeMove F e = some (hit, e2) →
      (∀ x y, BattleshipAlgorithm.firedCell F e = some (x, y) →
        e.board_.inside x y ∧ e.board_.shot x y = 0 ∧ e2.board_.shot x y = 1 ∧
        ∀ u v, ¬ (u = x ∧ v = y) → e2.board_.shot u v = e.board_.shot u v) ∧
      (BattleshipAlgorithm.firedCell F e = none → e2 = e) ∧
      (∀ u v, e.board_.shot u v ≠ 0 → e2.board_.shot u v = e.board_.shot u v)) := by
  have hok := BattleshipAlgorithm.reachable_ok F e hr
  refine ⟨?_, ?_, ?_⟩
  · intro m hm
    exact BattleshipAlgorithm.findBestMove_good F e hok.2 m hm
  · exact BattleshipAlgorithm.findBestMove_returns F e
  · intro hit e2 hm
    rcases BattleshipAlgorithm.makeMove_cases F e hit e2 hm with h1 | ⟨x, y, hf, _, hfire⟩
    · refine ⟨?_, fun _ => h1.2.2, ?_⟩
      · intro x y hxy
        rw [h1.1] at hxy
        cases hxy
      · intro u v _
        rw [h1.2.2]
    · have hfresh := BattleshipAlgorithm.firedCell_fresh F e hok x y hf
      have hshot := BattleshipAlgorithm.fireAt_shot F e hok x y hfresh.1
      rw [hfire] at hshot
      refine ⟨?_, ?_, ?_⟩
      · intro a b hab
        rw [hf] at hab
        simp only [Option.some.injEq, Prod.mk.injEq] at hab
        obtain ⟨rfl, rfl⟩ := hab
        refine ⟨hfresh.1, hfresh.2, ?_, ?_⟩
        · rw [hshot]
          simp
        · intro u v huv
          rw [hshot]
          simp [huv]
      · intro hnone
        rw [hf] at hnone
        cases hnone
      · intro u v hne
        rw [hshot]
        by_cases huv : u = x ∧ v = y
        · exfalso
          apply hne
          rw [huv.1, huv.2]
          exact hfresh.2
        · simp [huv]

/-- C10. In every engine state of a game, a `makeMove` that fires at a cell in state `Mine`
returns false, leaves that cell `MineTriggered` and lowers `currentLives` by exactly 1; every
other `makeMove` leaves `currentLives` as it was; so `currentLives` never grows. -/
theorem mine_costs_one_life (F : FloatOps K) (e : BattleshipAlgorithm K)
    (hr : BattleshipAlgorithm.Reachable F e) (hit : Bool) (e2 : BattleshipAlgorithm K)
    (hm : BattleshipAlgorithm.makeMove F e = some (hit, e2)) :
    (∀ x y, BattleshipAlgorithm.firedCell F e = some (x, y) → e.board_.cell x y = Mine →
      hit = false ∧ e2.board_.cell x y = MineTriggered ∧
      e2.currentLives_ = e.currentLives_ - 1) ∧
    ((∀ x y, BattleshipAlgorithm.firedCell F e = some (x, y) → e.board_.cell x y ≠ Mine) →
      e2.currentLives_ = e.currentLives_) ∧
    e2.currentLives_ ≤ e.currentLives_ := by
  have hok := BattleshipAlgorithm.reachable_ok F e hr
  have hb := hok.1.1.1
  rcases BattleshipAlgorithm.makeMove_cases F e hit e2 hm with h1 | ⟨x, y, hf, _, hfire⟩
  · refine ⟨?_, fun _ => by rw [h1.2.2], by rw [h1.2.2]⟩
    intro x y hxy
    rw [h1.1] at hxy
    cases hxy
  · have hfresh := BattleshipAlgorithm.firedCell_fresh F e hok x y hf
    have hlives := BattleshipAlgorithm.fireAt_lives F e x y
    have hhit := BattleshipAlgorithm.fireAt_hit F e x y
    have hcell := BattleshipAlgorithm.fireAt_cell F e x y x y
    rw [hfire] at hlives hhit hcell
    simp only at hlives hhit hcell
    have hmine : e.board_.cell x y = 2 →
        hit = false ∧ e2.board_.cell x y = 4 ∧ e2.currentLives_ = e.currentLives_ - 1 := by
      intro h2
      have hshot := GameBoard.makeShot_mine e.board_ x y hfresh.1 h2
      have h4 : (e.board_.makeShot x y).2.cell x y = 4 := by
        rw [hshot]
        exact Grid.get_set_self 0 e.board_.board_ e.board_.size_ x y 4 hb hfresh.1.1 hfresh.1.2
      have hfalse : (e.board_.makeShot x y).1 = false := by rw [hshot]
      refine ⟨hhit.trans hfalse, hcell.trans h4, ?_⟩
      rw [hlives, hfalse, if_neg (by decide), if_pos h4]
    have hother : e.board_.cell x y ≠ 2 → e2.currentLives_ = e.currentLives_ := by
      intro hne
      rw [hlives]
      split
      · rfl
      · rw [if_neg]
        intro h4
        have htrans := GameBoard.makeShot_cell e.board_ hb x y x y
        have h4old : e.board_.cell x y = 4 := by omega
        have := hok.1.2.2.2.2 x y h4old
        rw [hfresh.2] at this
        exact absurd this (by decide)
    refine ⟨?_, ?_, ?_⟩
    · intro a b hab h2
      rw [hf] at hab
      simp only [Option.some.injEq, Prod.mk.injEq] at hab
      obtain ⟨rfl, rfl⟩ := hab
      exact hmine h2
    · intro hall
      exact hother (hall x y hf)
    · by_cases h2 : e.board_.cell x y = 2
      · rw [(hmine h2).2.2]
        omega
      · rw [hother h2]

end EngineTheorems

set_option maxRecDepth 8000 in
theorem engine_never_shoots_twice_witness :
    BattleshipAlgorithm.Reachable ratOps demoMineEngine ∧
    BattleshipAlgorithm.firedCell ratOps demoMineEngine = some (0, 0) ∧
    (demoMineEngine.board_.inside 0 0 ∧ demoMineEngine.board_.shot 0 0 = 0 ∧
      (BattleshipAlgorithm.fireAt ratOps demoMineEngine 0 0).2.board_.shot 0 0 = 1 ∧
      ∀ u v, ¬ (u = 0 ∧ v = 0) →
        (BattleshipAlgorithm.fireAt ratOps demoMineEngine 0 0).2.board_.shot u v
          = demoMineEngine.board_.shot u v) :=
  ⟨BattleshipAlgorithm.Reachable.start 3 [BoardOp.placeMine 0 0] 3, by decide,
    ((engine_never_shoots_twice ratOps demoMineEngine
      (BattleshipAlgorithm.Reachable.start 3 [BoardOp.placeMine 0 0] 3)).2.2
      (BattleshipAlgorithm.fireAt ratOps demoMineEngine 0 0).1
      (BattleshipAlgorithm.fireAt ratOps demoMineEngine 0 0).2
      (BattleshipAlgorithm.makeMove_of_firedCell ratOps demoMineEngine 0 0 (by decide))).1 0 0
      (by decide)⟩

set_option maxRecDepth 8000 in
theorem mine_costs_one_life_witness :
    BattleshipAlgorithm.Reachable ratOps demoMineEngine ∧
    BattleshipAlgorithm.firedCell ratOps demoMineEngine = some (0, 0) ∧
    demoMineEngine.board_.cell 0 0 = Mine ∧ demoMineEngine.currentLives_ = 3 ∧
    (BattleshipAlgorithm.fireAt ratOps demoMineEngine 0 0).2.currentLives_ = 2 ∧
    ((BattleshipAlgorithm.fireAt ratOps demoMineEngine 0 0).1 = false ∧
      (BattleshipAlgorithm.fireAt ratOps demoMineEngine 0 0).2.board_.cell 0 0
        = MineTriggered ∧
      (BattleshipAlgorithm.fireAt ratOps demoMineEngine 0 0).2.currentLives_
        = demoMineEngine.currentLives_ - 1) :=
  ⟨BattleshipAlgorithm.Reachable.start 3 [BoardOp.placeMine 0 0] 3, by decide, by decide,
    by decide, by decide,
    (mine_costs_one_life ratOps demoMineEngine
      (BattleshipAlgorithm.Reachable.start 3 [BoardOp.placeMine 0 0] 3)
      (BattleshipAlgorithm.fireAt ratOps demoMineEngine 0 0).1
      (BattleshipAlgorithm.fireAt ratOps demoMineEngine 0 0).2
      (BattleshipAlgorithm.makeMove_of_firedCell ratOps demoMineEngine 0 0 (by decide))).1 0 0
      (by decide) (by decide)⟩

theorem findKillMove_extends_line_witness :
    2 ≤ demoKill.woundedCells_.length ∧ demoKill.woundedCells_.Nodup ∧
    (∀ c ∈ demoKill.woundedCells_, demoKill.board_.inside c.1 c.2) ∧
    (∀ c ∈ demoKill.woundedCells_, c.1 = 3) ∧
    (BattleshipAlgorithm.findKillMove ratOps demoKill = (3, 1) ∨
      BattleshipAlgorithm.findKillMove ratOps demoKill = (3, 4)) := by
  refine ⟨by decide, by decide, by decide, by decide, ?_⟩
  obtain ⟨minY, maxY, hmin, hmax, hb, hres⟩ :=
    (findKillMove_extends_line ratOps demoKill (by decide) (by decide) (by decide)).1 3
      (by decide)
  have h2 := hb (3, 2) (by decide)
  have h3 := hb (3, 3) (by decide)
  have hminY : minY = 2 := by
    have : (3, minY) = ((3 : Int), (2 : Int)) ∨ (3, minY) = ((3 : Int), (3 : Int)) := by
      simpa [demoKill] using hmin
    simp only [Prod.mk.injEq, true_and] at this
    simp only at h2
    omega
  have hmaxY : maxY = 3 := by
    have : (3, maxY) = ((3 : Int), (2 : Int)) ∨ (3, maxY) = ((3 : Int), (3 : Int)) := by
      simpa [demoKill] using hmax
    simp only [Prod.mk.injEq, true_and] at this
    simp only at h3
    omega
  subst hminY hmaxY
  rcases hres with h | h | h
  · left; exact h.1
  · right; exact h.1
  · exact absurd ⟨by decide, by decide⟩ h.2.1

section PlacementFrame

variable {K : Type}

theorem shipCells_getElem (x y length : Int) (horizontal : Bool) (i : Nat)
    (hi : (i : Int) < length) :
    (shipCells x y length horizontal)[i]? = some (shipCell x y horizontal i) := by
  unfold shipCells intRange
  rw [List.map_map, List.getElem?_map, List.getElem?_range (by omega)]
  simp

theorem GameBoard.placeShip_true (b : GameBoard K) (x y length : Int) (horizontal : Bool)
    (h : (b.placeShip x y length horizontal).1 = true) :
    b.canPlaceShip x y length horizontal = true := by
  by_contra hc
  rw [GameBoard.placeShip_reject b x y length horizontal (by simpa using hc)] at h
  simp at h

/-- C17. When `placeShip x y length horizontal` returns true on a board with well-formed
grids: the cells `(x+i, y)` (horizontal) or `(x, y+i)` (vertical), `0 ≤ i < length`, were
`Empty` and are now `ShipIntact`, and no other cell changed; one ship holding exactly these
cells in this order was appended to the ship list; the remaining-ship-cell counter grew by
`length`; and the size, the shot record, the mine counter and both likelihood grids are as
before. -/
theorem placeShip_changes_only_its_cells (b : GameBoard K) (hwf : b.WF) (x y length : Int)
    (horizontal : Bool) (h : (b.placeShip x y length horizontal).1 = true) :
    (∀ c, c ∈ shipCells x y length horizontal ↔
      ∃ i, 0 ≤ i ∧ i < length ∧ c = (if horizontal then (x + i, y) else (x, y + i))) ∧
    (∀ i : Nat, (i : Int) < length → (shipCells x y length horizontal)[i]?
      = some (if horizontal then (x + i, y) else (x, y + i))) ∧
    (∀ u v, (u, v) ∈ shipCells x y length horizontal →
      b.cell u v = Empty ∧ (b.placeShip x y length horizontal).2.cell u v = ShipIntact) ∧
    (∀ u v, (u, v) ∉ shipCells x y length horizontal →
      (b.placeShip x y length horizontal).2.cell u v = b.cell u v) ∧
    (b.placeShip x y length horizontal).2.ships_
      = b.ships_ ++ [{ cells := shipCells x y length horizontal }] ∧
    (b.placeShip x y length horizontal).2.remainingShips_ = b.remainingShips_ + length ∧
    (b.placeShip x y length horizontal).2.size_ = b.size_ ∧
    (b.placeShip x y length horizontal).2.shotsBoard_ = b.shotsBoard_ ∧
    (b.placeShip x y length horizontal).2.remainingMines_ = b.remainingMines_ ∧
    (b.placeShip x y length horizontal).2.shipProbabilities_ = b.shipProbabilities_ ∧
    (b.placeShip x y length horizontal).2.mineProbabilities_ = b.mineProbabilities_ := by
  have hcan := GameBoard.placeShip_true b x y length horizontal h
  have hk := GameBoard.placeShip_keeps b x y length horizontal hcan
  have hcell := GameBoard.placeShip_cell b hwf.1 x y length horizontal hcan
  have hform : ∀ i : Int, shipCell x y horizontal i
      = (if horizontal then (x + i, y) else (x, y + i)) := by
    intro i
    unfold shipCell
    cases horizontal <;> rfl
  refine ⟨?_, ?_, ?_, ?_, hk.2.2.2.2.2.1, hk.2.2.2.2.2.2, hk.1, hk.2.1, hk.2.2.2.2.1,
    hk.2.2.1, hk.2.2.2.1⟩
  · intro c
    rw [mem_shipCells]
    constructor
    · rintro ⟨i, h0, h1, rfl⟩
      exact ⟨i, h0, h1, hform i⟩
    · rintro ⟨i, h0, h1, rfl⟩
      exact ⟨i, h0, h1, (hform i).symm⟩
  · intro i hi
    rw [shipCells_getElem x y length horizontal i hi, hform]
  · intro u v hmem
    refine ⟨?_, ?_⟩
    · exact GameBoard.canPlaceShip_clear b x y length horizontal hcan (u, v) hmem u v
        (touches_self (u, v)) (GameBoard.canPlaceShip_inside b x y length horizontal hcan _ hmem)
    · rw [hcell]
      simp [hmem]
  · intro u v hmem
    rw [hcell]
    simp [hmem]

/-- C18. The call `placeMine x y` returns true exactly when `(x, y)` is on the board, the cell
is `Empty` and no cell of the board among its eight neighbours is `ShipIntact`; and when it
returns true on a board with well-formed grids, the cell `(x, y)` becomes `Mine`, no other
cell changes, the mine counter grows by 1 and every other field is as before. -/
theorem placeMine_accepts_iff (b : GameBoard K) (hwf : b.WF) (x y : Int) :
    ((b.placeMine x y).1 = true ↔
      b.inside x y ∧ b.cell x y = Empty ∧
      ∀ u v, touches (u, v) (x, y) → ¬ (u = x ∧ v = y) → b.inside u v →
        b.cell u v ≠ ShipIntact) ∧
    ((b.placeMine x y).1 = true →
      (b.placeMine x y).2.cell x y = Mine ∧
      (∀ u v, ¬ (u = x ∧ v = y) → (b.placeMine x y).2.cell u v = b.cell u v) ∧
      (b.placeMine x y).2.remainingMines_ = b.remainingMines_ + 1 ∧
      (b.placeMine x y).2 = { b with board_ := (b.placeMine x y).2.board_
                                     remainingMines_ := b.remainingMines_ + 1 }) := by
  have htrue : (b.placeMine x y).1 = true ↔ b.canPlaceMine x y = true := by
    constructor
    · intro h
      by_contra hc
      rw [GameBoard.placeMine_reject b x y (by simpa using hc)] at h
      simp at h
    · intro h
      rw [GameBoard.placeMine_accept b x y h]
  constructor
  · rw [htrue, GameBoard.canPlaceMine_iff]
    constructor
    · rintro ⟨hin, h0, hscan⟩
      refine ⟨hin, h0, ?_⟩
      intro u v ht _ hinuv
      unfold touches at ht
      simp only at ht
      have := hscan (u - x) (by omega) (v - y) (by omega)
      have e1 : x + (u - x) = u := by omega
      have e2 : y + (v - y) = v := by omega
      rw [e1, e2] at this
      exact this hinuv
    · rintro ⟨hin, h0, hscan⟩
      refine ⟨hin, h0, ?_⟩
      intro dx hdx dy hdy hinn
      by_cases hself : x + dx = x ∧ y + dy = y
      · rw [hself.1, hself.2]
        have h00 : b.cell x y = 0 := h0
        rw [h00]
        decide
      · exact hscan (x + dx) (y + dy) (by unfold touches; simp only; omega) hself hinn
  · intro h
    have hcan := htrue.mp h
    have hcell := GameBoard.placeMine_cell b hwf.1 x y hcan
    refine ⟨?_, ?_, (GameBoard.placeMine_keeps b x y hcan).2.2.2.2.1, ?_⟩
    · rw [hcell]
      simp
    · intro u v huv
      rw [hcell]
      simp [huv]
    · rw [GameBoard.placeMine_accept b x y hcan]

end PlacementFrame

section ShipShape

variable {K : Type}

/-- C20, as the code has it. A `placeShip` call of length at least 1 that returns true on a
board of size `N` appends one ship to the ship list; it has exactly `length` cells, between 1
and `N`, all on the board, and they run along one row (`(x+i, y)`) or along one column
(`(x, y+i)`) without a gap. -/
theorem placeShip_registers_line (b : GameBoard K) (x y length : Int) (horizontal : Bool)
    (hlen : 1 ≤ length) (h : (b.placeShip x y length horizontal).1 = true) :
    (b.placeShip x y length horizontal).2.ships_
      = b.ships_ ++ [{ cells := shipCells x y length horizontal }] ∧
    ((shipCells x y length horizontal).length : Int) = length ∧
    1 ≤ (shipCells x y length horizontal).length ∧
    ((shipCells x y length horizontal).length : Int) ≤ b.size_ ∧
    (∀ c ∈ shipCells x y length horizontal, b.inside c.1 c.2) ∧
    (∀ i : Nat, (i : Int) < length → (shipCells x y length horizontal)[i]?
      = some (if horizontal then (x + i, y) else (x, y + i))) := by
  have hcan := GameBoard.placeShip_true b x y length horizontal h
  have hk := GameBoard.placeShip_keeps b x y length horizontal hcan
  obtain ⟨hin, hh, hv, _⟩ := (GameBoard.canPlaceShip_iff b x y length horizontal).mp hcan
  have hlength : ((shipCells x y length horizontal).length : Int) = length := by
    rw [shipCells_length]
    omega
  refine ⟨hk.2.2.2.2.2.1, hlength, by omega, ?_, ?_, ?_⟩
  · rw [hlength]
    unfold GameBoard.inside at hin
    cases horizontal
    · have := hv rfl
      omega
    · have := hh rfl
      omega
  · exact GameBoard.canPlaceShip_inside b x y length horizontal hcan
  · intro i hi
    rw [shipCells_getElem x y length horizontal i hi]
    unfold shipCell
    cases horizontal <;> rfl

/-- A `placeShip` call of length 0 on an empty 3×3 board returns true and registers a ship
without cells. -/
theorem placeShip_accepts_length_zero :
    ((GameBoard.new 3 : GameBoard ℚ).placeShip 0 0 0 true).1 = true ∧
    ((GameBoard.new 3 : GameBoard ℚ).placeShip 0 0 0 true).2.ships_ = [{ cells := [] }] ∧
    ¬ (1 ≤ ({ cells := [] } : Ship).cells.length) := by
  decide

theorem placeShip_registers_line_witness :
    (1 : Int) ≤ 4 ∧ ((GameBoard.new 10 : GameBoard ℚ).placeShip 2 5 4 true).1 = true ∧
    ((GameBoard.new 10 : GameBoard ℚ).placeShip 2 5 4 true).2.ships_
      = (GameBoard.new 10 : GameBoard ℚ).ships_ ++ [{ cells := shipCells 2 5 4 true }] ∧
    ((shipCells 2 5 4 true).length : Int) = 4 :=
  ⟨by decide, by decide,
    (placeShip_registers_line (GameBoard.new 10 : GameBoard ℚ) 2 5 4 true (by decide)
      (by decide)).1,
    (placeShip_registers_line (GameBoard.new 10 : GameBoard ℚ) 2 5 4 true (by decide)
      (by decide)).2.1⟩

theorem placeShip_changes_only_its_cells_witness :
    (GameBoard.new 10 : GameBoard ℚ).WF ∧
    ((GameBoard.new 10 : GameBoard ℚ).placeShip 2 5 4 true).1 = true ∧
    ((GameBoard.new 10 : GameBoard ℚ).cell 3 5 = Empty ∧
      ((GameBoard.new 10 : GameBoard ℚ).placeShip 2 5 4 true).2.cell 3 5 = ShipIntact) ∧
    ((GameBoard.new 10 : GameBoard ℚ).placeShip 2 5 4 true).2.remainingShips_
      = (GameBoard.new 10 : GameBoard ℚ).remainingShips_ + 4 :=
  ⟨by decide, by decide,
    (placeShip_changes_only_its_cells (GameBoard.new 10 : GameBoard ℚ) (by decide) 2 5 4 true
      (by decide)).2.2.1 3 5 (by decide),
    (placeShip_changes_only_its_cells (GameBoard.new 10 : GameBoard ℚ) (by decide) 2 5 4 true
      (by decide)).2.2.2.2.2.1⟩

theorem placeMine_accepts_iff_witness :
    demoBoard.WF ∧ (demoBoard.placeMine 0 0).1 = true ∧
    (demoBoard.placeMine 0 0).2.cell 0 0 = Mine ∧
    (demoBoard.placeMine 0 0).2.remainingMines_ = demoBoard.remainingMines_ + 1 ∧
    (demoBoard.placeMine 1 6).1 = false :=
  ⟨by decide, by decide,
    ((placeMine_accepts_iff demoBoard (by decide) 0 0).2 (by decide)).1,
    ((placeMine_accepts_iff demoBoard (by decide) 0 0).2 (by decide)).2.2.1,
    by decide⟩

end ShipShape

section Rejections

variable {K : Type} [LinearOrderedField K]

/-- C19. On every board reached from the empty board by placements and shots, a rejected call
returns false and gives back the board it was given, with every data member as it was: a
`placeShip` or `placeMine` call that returns false, a `makeShot` call outside the board, and
a `makeShot` call on a cell that the shot record already marks. -/
theorem rejected_calls_mutate_nothing (size : Int) (ops : List BoardOp) (b : GameBoard K)
    (hb : b = (GameBoard.new size).run ops) :
    (∀ x y length horizontal, (b.placeShip x y length horizontal).1 = false →
      b.placeShip x y length horizontal = (false, b)) ∧
    (∀ x y, (b.placeMine x y).1 = false → b.placeMine x y = (false, b)) ∧
    (∀ x y, ¬ b.inside x y → b.makeShot x y = (false, b)) ∧
    (∀ x y, b.inside x y → b.shot x y ≠ 0 → b.makeShot x y = (false, b)) := by
  have hrun := GameBoard.settled_run (K := K) size ops
  rw [← hb] at hrun
  obtain ⟨hsound, hsettled⟩ := hrun
  have hwf := hsound.1
  refine ⟨?_, ?_, ?_, ?_⟩
  · intro x y length horizontal h
    by_cases hcan : b.canPlaceShip x y length horizontal = true
    · rw [GameBoard.placeShip_accept b x y length horizontal hcan] at h
      simp at h
    · exact GameBoard.placeShip_reject b x y length horizontal (by simpa using hcan)
  · intro x y h
    by_cases hcan : b.canPlaceMine x y = true
    · rw [GameBoard.placeMine_accept b x y hcan] at h
      simp at h
    · exact GameBoard.placeMine_reject b x y (by simpa using hcan)
  · intro x y hout
    exact GameBoard.makeShot_outside b x y hout
  · intro x y hin hshot
    obtain ⟨h1, h0, h1', h2⟩ := hsettled x y hshot
    rw [GameBoard.makeShot_other b x y hin h0 h1' h2,
      Grid.set_same 0 b.shotsBoard_ b.size_ x y 1 hwf.2.1 hin.1 hin.2 h1]

theorem rejected_calls_mutate_nothing_witness :
    (((GameBoard.new 10 : GameBoard ℚ).run demoGame).placeShip 3 6 2 true
      = (false, (GameBoard.new 10 : GameBoard ℚ).run demoGame)) ∧
    (((GameBoard.new 10 : GameBoard ℚ).run demoGame).makeShot 2 5
      = (false, (GameBoard.new 10 : GameBoard ℚ).run demoGame)) ∧
    (((GameBoard.new 10 : GameBoard ℚ).run demoGame).makeShot 10 0
      = (false, (GameBoard.new 10 : GameBoard ℚ).run demoGame)) :=
  ⟨(rejected_calls_mutate_nothing 10 demoGame _ rfl).1 3 6 2 true (by decide),
    (rejected_calls_mutate_nothing 10 demoGame _ rfl).2.2.2 2 5 (by decide) (by decide),
    (rejected_calls_mutate_nothing 10 demoGame _ rfl).2.2.1 10 0 (by decide)⟩

end Rejections

section Likelihoods

variable {K : Type} [LinearOrderedField K]

/-- C15. Over the reals, with `exp` the real exponential, the value `λ` returned by
`calculateRiskCoefficient` is `2 * exp (-3 * currentLives / maxLives)`; for a fixed
`maxLives > 0` it is strictly smaller for the engine state with more lives, it is 2 when no
life is left, and it is positive for every state. -/
theorem risk_coefficient_decreases_with_lives (F : FloatOps ℝ) (hF : F.exp = Real.exp) :
    (∀ e : BattleshipAlgorithm ℝ, BattleshipAlgorithm.calculateRiskCoefficient F e
      = 2 * Real.exp (-3 * ((e.currentLives_ : ℝ) / (e.maxLives_ : ℝ)))) ∧
    (∀ e1 e2 : BattleshipAlgorithm ℝ, 0 < e1.maxLives_ → e2.maxLives_ = e1.maxLives_ →
      e1.currentLives_ < e2.currentLives_ →
      BattleshipAlgorithm.calculateRiskCoefficient F e2
        < BattleshipAlgorithm.calculateRiskCoefficient F e1) ∧
    (∀ e : BattleshipAlgorithm ℝ, 0 < e.maxLives_ → e.currentLives_ = 0 →
      BattleshipAlgorithm.calculateRiskCoefficient F e = 2) ∧
    (∀ e : BattleshipAlgorithm ℝ, 0 < BattleshipAlgorithm.calculateRiskCoefficient F e) := by
  have hval : ∀ e : BattleshipAlgorithm ℝ, BattleshipAlgorithm.calculateRiskCoefficient F e
      = 2 * Real.exp (-3 * ((e.currentLives_ : ℝ) / (e.maxLives_ : ℝ))) := by
    intro e
    unfold BattleshipAlgorithm.calculateRiskCoefficient
    rw [hF]
  refine ⟨hval, ?_, ?_, ?_⟩
  · intro e1 e2 hm heq hlt
    rw [hval e1, hval e2, heq]
    have hm2 : (0 : ℝ) < (e1.maxLives_ : ℝ) := by exact_mod_cast hm
    have hc : (e1.currentLives_ : ℝ) < (e2.currentLives_ : ℝ) := by exact_mod_cast hlt
    have hdiv : (e1.currentLives_ : ℝ) / (e1.maxLives_ : ℝ)
        < (e2.currentLives_ : ℝ) / (e1.maxLives_ : ℝ) := div_lt_div_of_pos_right hc hm2
    have hexp : Real.exp (-3 * ((e2.currentLives_ : ℝ) / (e1.maxLives_ : ℝ)))
        < Real.exp (-3 * ((e1.currentLives_ : ℝ) / (e1.maxLives_ : ℝ))) :=
      Real.exp_lt_exp.mpr (by linarith)
    linarith
  · intro e _ h0
    rw [hval e, h0]
    simp
  · intro e
    rw [hval e]
    exact mul_pos two_pos (Real.exp_pos _)

theorem risk_coefficient_decreases_with_lives_witness :
    BattleshipAlgorithm.calculateRiskCoefficient { exp := Real.exp, sqrt := Real.sqrt }
        (demoLives ℝ 3 2)
      < BattleshipAlgorithm.calculateRiskCoefficient { exp := Real.exp, sqrt := Real.sqrt }
        (demoLives ℝ 3 1) ∧
    BattleshipAlgorithm.calculateRiskCoefficient { exp := Real.exp, sqrt := Real.sqrt }
        (demoLives ℝ 3 0) = 2 :=
  ⟨(risk_coefficient_decreases_with_lives { exp := Real.exp, sqrt := Real.sqrt } rfl).2.1
      (demoLives ℝ 3 1) (demoLives ℝ 3 2) (by decide) rfl (by decide),
    (risk_coefficient_decreases_with_lives { exp := Real.exp, sqrt := Real.sqrt } rfl).2.2.1
      (demoLives ℝ 3 0) (by decide) rfl⟩

/-- C16. Over any ordered field with a floor, the reals among them: the likelihood grids the
constructor sets on a board of size at least 1 have all entries in [0, 1];
`GameBoard::updateProbabilities` maps grids with all entries in [0, 1] to such grids, for
every cell, flags and factors; and both grids of every engine state reached by `makeMove`
calls have all entries in [0, 1]. -/
theorem likelihoods_stay_in_unit_interval [FloorRing K] :
    (∀ (board : GameBoard K) (maxLives : Int), 1 ≤ board.size_ →
      (BattleshipAlgorithm.new board maxLives).board_.UnitGrids) ∧
    (∀ (F : FloatOps K) (b : GameBoard K) (x y : Int) (hitShip hitMine : Bool)
      (shipFactor mineFactor : K), b.inside x y → b.UnitGrids →
      (b.updateProbabilities F x y hitShip hitMine shipFactor mineFactor).UnitGrids) ∧
    (∀ (F : FloatOps K) (e : BattleshipAlgorithm K), BattleshipAlgorithm.Reachable F e →
      e.board_.UnitGrids) := by
  refine ⟨?_, ?_, ?_⟩
  · intro board maxLives hs
    exact BattleshipAlgorithm.new_unit board maxLives (by omega)
  · intro F b x y hitShip hitMine shipFactor mineFactor _ h
    exact GameBoard.unit_updateProbabilities F b x y hitShip hitMine shipFactor mineFactor h
  · intro F e h
    exact BattleshipAlgorithm.reachable_unit F e h

theorem likelihoods_stay_in_unit_interval_witness :
    (1 : Int) ≤ (GameBoard.new 10 : GameBoard ℝ).size_ ∧
    (BattleshipAlgorithm.new (GameBoard.new 10 : GameBoard ℝ) 3).board_.UnitGrids :=
  ⟨by decide, (likelihoods_stay_in_unit_interval (K := ℝ)).1 _ 3 (by decide)⟩

end Likelihoods

section FullBoard

variable {K : Type} [LinearOrderedField K]

/-- C14, as the code has it. In every engine state of a game with at least one life left, on
a board of size at least 1 in which every cell is marked in the shot record, no ship is
unsunk, so the stride of the pattern loops is 0: `findBestMove` does not return, and neither
does `makeMove`. -/
theorem full_board_move_never_returns [FloorRing K] (F : FloatOps K)
    (e : BattleshipAlgorithm K) (hr : BattleshipAlgorithm.Reachable F e)
    (hsize : 1 ≤ e.board_.size_)
    (hall : ∀ x y, e.board_.inside x y → e.board_.shot x y ≠ 0)
    (hl : 0 < e.currentLives_) :
    getMaxAliveShipLength e.board_ = 0 ∧
    strideLoop e.board_.size_ (getMaxAliveShipLength e.board_) = none ∧
    BattleshipAlgorithm.findBestMove F e = none ∧
    BattleshipAlgorithm.makeMove F e = none := by
  have hok := BattleshipAlgorithm.reachable_ok F e hr
  have hn := getMaxAliveShipLength_full e.board_ hok.1
    (BattleshipAlgorithm.reachable_settled F e hr) hall
  have hfind := BattleshipAlgorithm.findBestMove_full F e hok.2 hall hsize hn
  refine ⟨hn, ?_, hfind, BattleshipAlgorithm.makeMove_full F e hl hfind⟩
  rw [hn]
  exact strideLoop_zero _ hsize

theorem full_board_move_never_returns_witness :
    (1 : Int) ≤ demoFullEngine.board_.size_ ∧ demoFullEngine.board_.shot 0 0 ≠ 0 ∧
    (0 : Int) < demoFullEngine.currentLives_ ∧
    BattleshipAlgorithm.findBestMove ratOps demoFullEngine = none ∧
    BattleshipAlgorithm.makeMove ratOps demoFullEngine = none :=
  ⟨by decide, by decide, by decide,
    (full_board_move_never_returns ratOps demoFullEngine
      (BattleshipAlgorithm.Reachable.start 1 [BoardOp.makeShot 0 0] 3) (by decide)
      (fun x y h => by
        have hs : demoFullEngine.board_.size_ = 1 := rfl
        unfold GameBoard.inside at h
        rw [hs] at h
        have hx : x = 0 := by omega
        have hy : y = 0 := by omega
        subst hx
        subst hy
        decide)
      (by decide)).2.2⟩

end FullBoard

section WoundedLemmas1

variable {K : Type}

theorem purge_cells_mem (cells : List (Int × Int)) (w : List (Int × Int)) (c : Int × Int) :
    c ∈ cells.foldl (fun w1 cell => w1.filter (fun c => c != cell)) w ↔ c ∈ w ∧ c ∉ cells := by
  induction cells generalizing w with
  | nil => simp
  | cons d cells ih =>
    rw [List.foldl_cons, ih, List.mem_filter]
    simp only [bne_iff_ne, ne_eq, List.mem_cons, not_or]
    tauto

theorem purge_mem (ships : List Ship) (board : Grid Int) (w0 : List (Int × Int))
    (c : Int × Int) :
    c ∈ ships.foldl (fun w ship =>
        if ship.cells.all (fun cell => Grid.get 0 board cell.1 cell.2 == 3) = true then
          ship.cells.foldl (fun w1 cell => w1.filter (fun c => c != cell)) w
        else w) w0 ↔
      c ∈ w0 ∧ ∀ s ∈ ships, s.isSunk board = true → c ∉ s.cells := by
  induction ships generalizing w0 with
  | nil => simp
  | cons s ships ih =>
    rw [List.foldl_cons, ih]
    by_cases hs : s.cells.all (fun cell => Grid.get 0 board cell.1 cell.2 == 3) = true
    · rw [if_pos hs, purge_cells_mem]
      constructor
      · rintro ⟨⟨h1, h2⟩, h3⟩
        refine ⟨h1, ?_⟩
        intro t ht
        rcases List.mem_cons.mp ht with h | h
        · subst h
          exact fun _ => h2
        · exact h3 t h
      · rintro ⟨h1, h2⟩
        exact ⟨⟨h1, h2 s (List.mem_cons_self _ _) hs⟩,
          fun t ht => h2 t (List.mem_cons_of_mem _ ht)⟩
    · rw [if_neg hs]
      constructor
      · rintro ⟨h1, h3⟩
        refine ⟨h1, ?_⟩
        intro t ht
        rcases List.mem_cons.mp ht with h | h
        · subst h
          intro hsunk
          exact absurd hsunk hs
        · exact h3 t h
      · rintro ⟨h1, h2⟩
        exact ⟨h1, fun t ht => h2 t (List.mem_cons_of_mem _ ht)⟩

theorem purge_nodup (ships : List Ship) (board : Grid Int) (w0 : List (Int × Int))
    (h : w0.Nodup) :
    (ships.foldl (fun w ship =>
        if ship.cells.all (fun cell => Grid.get 0 board cell.1 cell.2 == 3) = true then
          ship.cells.foldl (fun w1 cell => w1.filter (fun c => c != cell)) w
        else w) w0).Nodup := by
  refine foldl_inv (fun (w : List (Int × Int)) => w.Nodup) _ _ _ h ?_
  intro w ship _ hw
  split
  · refine foldl_inv (fun (w1 : List (Int × Int)) => w1.Nodup) _ _ _ hw ?_
    intro w1 cell _ hw1
    exact hw1.filter _
  · exact hw

theorem GameBoard.makeShot_true_iff (b : GameBoard K) (x y : Int) :
    (b.makeShot x y).1 = true ↔ b.inside x y ∧ b.cell x y = 1 := by
  by_cases hin : b.inside x y
  · by_cases h1 : b.cell x y = 1
    · rw [GameBoard.makeShot_hit b x y hin h1]
      simp [hin, h1]
    · by_cases h2 : b.cell x y = 2
      · rw [GameBoard.makeShot_mine b x y hin h2]
        simp [h1]
      · by_cases h0 : b.cell x y = 0
        · rw [GameBoard.makeShot_empty b x y hin h0]
          simp [h1]
        · rw [GameBoard.makeShot_other b x y hin h0 h1 h2]
          simp [h1]
  · rw [GameBoard.makeShot_outside b x y hin]
    simp [hin]

/-- The cells in state `ShipHit` after a shot: those before, and the shot cell if it held an
intact ship. -/
theorem GameBoard.makeShot_hit_iff (b : GameBoard K) (hb : Grid.Square b.size_ b.board_)
    (x y u v : Int) :
    (b.makeShot x y).2.cell u v = 3 ↔
      b.cell u v = 3 ∨ ((u = x ∧ v = y) ∧ b.inside x y ∧ b.cell x y = 1) := by
  have hc := GameBoard.makeShot_cell b hb x y u v
  constructor
  · intro h3
    rcases hc with hc | hc | hc | hc
    · left
      rw [← hc]
      exact h3
    · omega
    · right
      obtain ⟨⟨rfl, rfl⟩, h1, _⟩ := hc
      exact ⟨⟨rfl, rfl⟩, GameBoard.cell_inside b hb u v (by omega), h1⟩
    · omega
  · rintro (h3 | ⟨⟨rfl, rfl⟩, hin, h1⟩)
    · rcases hc with hc | hc | hc | hc
      · rw [hc]
        exact h3
      · omega
      · omega
      · omega
    · exact GameBoard.makeShot_hit_cell b hb u v hin h1

theorem ship_unique (ships : List Ship) (h : ships.Pairwise separated) (s t : Ship)
    (hs : s ∈ ships) (ht : t ∈ ships) (c : Int × Int) (hcs : c ∈ s.cells)
    (hct : c ∈ t.cells) : s = t := by
  by_contra hne
  have hsym : Symmetric separated := fun a b hab => separated_symm a b hab
  exact h.forall hsym hs ht hne c hcs c hct (touches_self c)

end WoundedLemmas1

section WoundedLemmas2

variable {K : Type} [LinearOrderedField K]

theorem BattleshipAlgorithm.fireAt_wounded_miss (F : FloatOps K) (e : BattleshipAlgorithm K)
    (x y : Int) (h : (e.board_.makeShot x y).1 = false) :
    (BattleshipAlgorithm.fireAt F e x y).2.woundedCells_ = e.woundedCells_ := by
  unfold BattleshipAlgorithm.fireAt
  simp only [h, Bool.false_eq_true, if_false]
  split <;> rfl

theorem BattleshipAlgorithm.fireAt_wounded_hit (F : FloatOps K) (e : BattleshipAlgorithm K)
    (x y : Int) (h : (e.board_.makeShot x y).1 = true) :
    (BattleshipAlgorithm.fireAt F e x y).2.woundedCells_ =
      (e.board_.makeShot x y).2.ships_.foldl (fun w ship =>
        if ship.cells.all (fun cell =>
            Grid.get 0 (e.board_.makeShot x y).2.board_ cell.1 cell.2 == 3) = true then
          ship.cells.foldl (fun w1 cell => w1.filter (fun c => c != cell)) w
        else w)
        (if e.woundedCells_.any (fun cell => cell.1 == x && cell.2 == y) = true
          then e.woundedCells_ else e.woundedCells_ ++ [(x, y)]) := by
  unfold BattleshipAlgorithm.fireAt
  simp only [h, if_true]
  by_cases hany : e.woundedCells_.any (fun cell => cell.1 == x && cell.2 == y) = true
  · simp only [hany, Bool.not_true, Bool.false_eq_true, if_false, if_true]
    have hsame := BattleshipAlgorithm.updateProbabilities_board F
      { e with board_ := (e.board_.makeShot x y).2, hasLastHit := true, lastHitX := x,
               lastHitY := y } x y true false
    rw [BattleshipAlgorithm.updateProbabilities_fields]
    simp only at hsame ⊢
    rw [hsame.2.1, hsame.2.2.2.1]
  · simp only [hany, Bool.not_false, if_true, Bool.false_eq_true, if_false]
    have hsame := BattleshipAlgorithm.updateProbabilities_board F
      { e with board_ := (e.board_.makeShot x y).2, hasLastHit := true, lastHitX := x,
               lastHitY := y, woundedCells_ := e.woundedCells_ ++ [(x, y)] } x y true false
    rw [BattleshipAlgorithm.updateProbabilities_fields]
    simp only at hsame ⊢
    rw [hsame.2.1, hsame.2.2.2.1]

end WoundedLemmas2

section WoundedLemmas3

variable {K : Type} [LinearOrderedField K]

omit [LinearOrderedField K] in
theorem Ship.isSunk_iff (s : Ship) (b : GameBoard K) :
    s.isSunk b.board_ = true ↔ ∀ c ∈ s.cells, b.cell c.1 c.2 = 3 := by
  unfold Ship.isSunk GameBoard.cell
  simp only [List.all_eq_true, beq_iff_eq]

omit [LinearOrderedField K] in
theorem GameBoard.manned_of_sameGame (b b2 : GameBoard K) (hm : b.Manned)
    (h : GameBoard.SameGame b b2) : b2.Manned := by
  obtain ⟨_, hboard, _, hships, _⟩ := h
  unfold GameBoard.Manned GameBoard.cell
  rw [hboard, hships]
  exact hm

omit [LinearOrderedField K] in
theorem GameBoard.manned_makeShot (b : GameBoard K) (hwf : b.WF) (hm : b.Manned) (x y : Int) :
    (b.makeShot x y).2.Manned := by
  intro u v h
  rw [(GameBoard.makeShot_keeps b hwf.1 x y).2.1]
  apply hm u v
  rcases GameBoard.makeShot_cell b hwf.1 x y u v with hc | hc | hc | hc
  · rw [← hc]
    exact h
  · omega
  · exact Or.inl hc.2.1
  · omega

/-- One shot of the engine keeps the wounded list exact. -/
theorem BattleshipAlgorithm.woundedExact_fireAt (F : FloatOps K) (e : BattleshipAlgorithm K)
    (hok : e.OK) (hman : e.board_.Manned) (hw : e.WoundedExact) (x y : Int) :
    (BattleshipAlgorithm.fireAt F e x y).2.WoundedExact := by
  have hwf := hok.1.1
  have hsame := BattleshipAlgorithm.fireAt_board F e x y
  have hkeep := GameBoard.makeShot_keeps e.board_ hwf.1 x y
  have hcell3 := GameBoard.makeShot_hit_iff e.board_ hwf.1 x y
  have hmono : ∀ s : Ship, s.isSunk e.board_.board_ = true →
      s.isSunk (e.board_.makeShot x y).2.board_ = true := by
    intro s hs
    rw [Ship.isSunk_iff] at hs ⊢
    intro c hc
    exact (hcell3 c.1 c.2).mpr (Or.inl (hs c hc))
  obtain ⟨hnodup, hmem⟩ := hw
  unfold BattleshipAlgorithm.WoundedExact GameBoard.cell
  rw [hsame.2.1, hsame.2.2.2.1, hkeep.2.1]
  show (BattleshipAlgorithm.fireAt F e x y).2.woundedCells_.Nodup ∧
    ∀ c : Int × Int, c ∈ (BattleshipAlgorithm.fireAt F e x y).2.woundedCells_ ↔
      ((e.board_.makeShot x y).2.cell c.1 c.2 = 3 ∧
        ∃ s ∈ e.board_.ships_, c ∈ s.cells ∧
          s.isSunk (e.board_.makeShot x y).2.board_ = false)
  by_cases hhit : (e.board_.makeShot x y).1 = true
  · obtain ⟨hin, h1⟩ := (GameBoard.makeShot_true_iff e.board_ x y).mp hhit
    have hw1 : ∀ c : Int × Int,
        c ∈ (if e.woundedCells_.any (fun cell => cell.1 == x && cell.2 == y) = true
          then e.woundedCells_ else e.woundedCells_ ++ [(x, y)]) ↔
        c ∈ e.woundedCells_ ∨ c = (x, y) := by
      intro c
      split
      · rename_i hany
        rw [List.any_eq_true] at hany
        obtain ⟨d, hd, hdxy⟩ := hany
        simp only [Bool.and_eq_true, beq_iff_eq] at hdxy
        have hdeq : d = (x, y) := Prod.ext hdxy.1 hdxy.2
        constructor
        · exact fun h => Or.inl h
        · rintro (h | h)
          · exact h
          · rw [h, ← hdeq]
            exact hd
      · rw [List.mem_append, List.mem_singleton]
    have hw1nodup : (if e.woundedCells_.any (fun cell => cell.1 == x && cell.2 == y) = true
          then e.woundedCells_ else e.woundedCells_ ++ [(x, y)]).Nodup := by
      split
      · exact hnodup
      · rename_i hany
        refine List.Nodup.append hnodup (List.nodup_singleton _) ?_
        intro c hc1 hc2
        rw [List.mem_singleton] at hc2
        subst hc2
        apply hany
        rw [List.any_eq_true]
        exact ⟨(x, y), hc1, by simp⟩
    rw [BattleshipAlgorithm.fireAt_wounded_hit F e x y hhit, hkeep.2.1]
    refine ⟨purge_nodup _ _ _ hw1nodup, ?_⟩
    intro c
    rw [purge_mem, hw1]
    constructor
    · rintro ⟨hc, hpurge⟩
      have hship : ∃ s ∈ e.board_.ships_, c ∈ s.cells := by
        rcases hc with hc | hc
        · obtain ⟨_, s, hs, hcs, _⟩ := (hmem c).mp hc
          exact ⟨s, hs, hcs⟩
        · subst hc
          exact hman x y (Or.inl h1)
      obtain ⟨s, hs, hcs⟩ := hship
      refine ⟨?_, s, hs, hcs, ?_⟩
      · rw [hcell3]
        rcases hc with hc | hc
        · exact Or.inl ((hmem c).mp hc).1
        · subst hc
          exact Or.inr ⟨⟨rfl, rfl⟩, hin, h1⟩
      · cases hsunk : s.isSunk (e.board_.makeShot x y).2.board_ with
        | false => rfl
        | true => exact absurd hcs (hpurge s hs hsunk)
    · rintro ⟨hc3, s, hs, hcs, hsunk⟩
      refine ⟨?_, ?_⟩
      · rcases (hcell3 c.1 c.2).mp hc3 with h3 | ⟨⟨hx, hy⟩, _, _⟩
        · left
          refine (hmem c).mpr ⟨h3, s, hs, hcs, ?_⟩
          cases hbefore : s.isSunk e.board_.board_ with
          | false => rfl
          | true =>
            rw [hmono s hbefore] at hsunk
            cases hsunk
        · right
          exact Prod.ext hx hy
      · intro t ht htsunk hct
        have := ship_unique _ hok.1.2.2.1 s t hs ht c hcs hct
        subst this
        rw [htsunk] at hsunk
        cases hsunk
  · have hmiss : (e.board_.makeShot x y).1 = false := by simpa using hhit
    have hno : ¬ (e.board_.inside x y ∧ e.board_.cell x y = 1) :=
      fun h => hhit ((GameBoard.makeShot_true_iff e.board_ x y).mpr h)
    have hcell3b : ∀ u v, (e.board_.makeShot x y).2.cell u v = 3 ↔ e.board_.cell u v = 3 := by
      intro u v
      rw [hcell3]
      constructor
      · rintro (h | ⟨_, h⟩)
        · exact h
        · exact absurd h hno
      · exact fun h => Or.inl h
    have hsunkeq : ∀ s : Ship, s.isSunk (e.board_.makeShot x y).2.board_
        = s.isSunk e.board_.board_ := by
      intro s
      apply Ship.isSunk_congr
      intro c _
      exact hcell3b c.1 c.2
    rw [BattleshipAlgorithm.fireAt_wounded_miss F e x y hmiss]
    refine ⟨hnodup, ?_⟩
    intro c
    rw [hmem c, hcell3b]
    constructor
    · rintro ⟨h3, s, hs, hcs, hsunk⟩
      exact ⟨h3, s, hs, hcs, by rw [hsunkeq]; exact hsunk⟩
    · rintro ⟨h3, s, hs, hcs, hsunk⟩
      exact ⟨h3, s, hs, hcs, by rw [← hsunkeq]; exact hsunk⟩

end WoundedLemmas3

section WoundedLemmas4

variable {K : Type} [LinearOrderedField K]

omit [LinearOrderedField K] in
theorem GameBoard.manned_placeShip (b : GameBoard K) (hwf : b.WF) (hm : b.Manned)
    (x y length : Int) (horizontal : Bool) : (b.placeShip x y length horizontal).2.Manned := by
  by_cases h : b.canPlaceShip x y length horizontal = true
  · intro u v huv
    rw [(GameBoard.placeShip_keeps b x y length horizontal h).2.2.2.2.2.1]
    rw [GameBoard.placeShip_cell b hwf.1 x y length horizontal h u v] at huv
    by_cases hmem : (u, v) ∈ shipCells x y length horizontal
    · exact ⟨_, List.mem_append_right _ (List.mem_singleton_self _), hmem⟩
    · rw [if_neg hmem] at huv
      obtain ⟨s, hs, hcs⟩ := hm u v huv
      exact ⟨s, List.mem_append_left _ hs, hcs⟩
  · rw [GameBoard.placeShip_reject b x y length horizontal (by simpa using h)]
    exact hm

omit [LinearOrderedField K] in
theorem GameBoard.manned_placeMine (b : GameBoard K) (hwf : b.WF) (hm : b.Manned)
    (x y : Int) : (b.placeMine x y).2.Manned := by
  by_cases h : b.canPlaceMine x y = true
  · intro u v huv
    rw [(GameBoard.placeMine_keeps b x y h).2.2.2.2.2.1]
    rw [GameBoard.placeMine_cell b hwf.1 x y h u v] at huv
    by_cases hxy : u = x ∧ v = y
    · rw [if_pos hxy] at huv
      omega
    · rw [if_neg hxy] at huv
      exact hm u v huv
  · rw [GameBoard.placeMine_reject b x y (by simpa using h)]
    exact hm

/-- A board built from the empty board is sound and manned; when only placements were made,
no cell is in state `ShipHit`. -/
theorem GameBoard.manned_run (size : Int) (ops : List BoardOp) :
    ((GameBoard.new size : GameBoard K).run ops).Sound ∧
    ((GameBoard.new size : GameBoard K).run ops).Manned := by
  refine foldl_inv (fun (b : GameBoard K) => b.Sound ∧ b.Manned) _ _ _
    ⟨GameBoard.sound_new size, ?_⟩ ?_
  · intro x y h
    rw [GameBoard.new_cell] at h
    omega
  · intro b op _ hb
    refine ⟨GameBoard.sound_apply b hb.1 op, ?_⟩
    cases op with
    | placeShip x y length horizontal =>
      exact GameBoard.manned_placeShip b hb.1.1 hb.2 x y length horizontal
    | placeMine x y => exact GameBoard.manned_placeMine b hb.1.1 hb.2 x y
    | makeShot x y => exact GameBoard.manned_makeShot b hb.1.1 hb.2 x y

theorem GameBoard.placement_run_no_hit (size : Int) (ops : List BoardOp)
    (hops : ∀ op ∈ ops, op.isPlacement = true) :
    ∀ x y, ((GameBoard.new size : GameBoard K).run ops).cell x y ≠ 3 := by
  have h := foldl_inv (fun (b : GameBoard K) => b.Sound ∧ ∀ x y, b.cell x y ≠ 3)
    GameBoard.apply ops (GameBoard.new size)
    ⟨GameBoard.sound_new size, fun x y => by rw [GameBoard.new_cell]; omega⟩ ?_
  · exact h.2
  · intro b op hop hb
    refine ⟨GameBoard.sound_apply b hb.1 op, ?_⟩
    have hplace := hops op hop
    cases op with
    | placeShip x y length horizontal =>
      intro u v
      show (b.placeShip x y length horizontal).2.cell u v ≠ 3
      by_cases h : b.canPlaceShip x y length horizontal = true
      · rw [GameBoard.placeShip_cell b hb.1.1.1 x y length horizontal h u v]
        have := hb.2 u v
        split <;> omega
      · rw [GameBoard.placeShip_reject b x y length horizontal (by simpa using h)]
        exact hb.2 u v
    | placeMine x y =>
      intro u v
      show (b.placeMine x y).2.cell u v ≠ 3
      by_cases h : b.canPlaceMine x y = true
      · rw [GameBoard.placeMine_cell b hb.1.1.1 x y h u v]
        have := hb.2 u v
        split <;> omega
      · rw [GameBoard.placeMine_reject b x y (by simpa using h)]
        exact hb.2 u v
    | makeShot x y => simp [BoardOp.isPlacement] at hplace

/-- The invariant behind C11. -/
theorem BattleshipAlgorithm.plays_woundedExact [FloorRing K] (F : FloatOps K) (size : Int)
    (ops : List BoardOp) (maxLives : Int) (hops : ∀ op ∈ ops, op.isPlacement = true)
    (e : BattleshipAlgorithm K)
    (hplay : BattleshipAlgorithm.Plays F
      (BattleshipAlgorithm.new ((GameBoard.new size : GameBoard K).run ops) maxLives) e) :
    e.OK ∧ e.board_.Manned ∧ e.WoundedExact := by
  induction hplay with
  | start =>
    have hrun := GameBoard.manned_run (K := K) size ops
    have hsame : GameBoard.SameGame ((GameBoard.new size : GameBoard K).run ops)
        (BattleshipAlgorithm.new ((GameBoard.new size : GameBoard K).run ops) maxLives).board_ :=
      ⟨rfl, rfl, rfl, rfl, rfl, rfl,
        fun h => Grid.square_map_const _ _ _ h, fun h => Grid.square_map_const _ _ _ h⟩
    refine ⟨BattleshipAlgorithm.new_ok _ hrun.1 _,
      GameBoard.manned_of_sameGame _ _ hrun.2 hsame, List.nodup_nil, ?_⟩
    intro c
    constructor
    · intro h
      cases h
    · rintro ⟨h3, _⟩
      exact absurd h3 (GameBoard.placement_run_no_hit size ops hops c.1 c.2)
  | move e hit e2 _ hm ih =>
    rcases BattleshipAlgorithm.makeMove_cases F e hit e2 hm with h1 | ⟨x, y, hf, _, hfire⟩
    · rw [h1.2.2]
      exact ih
    · obtain ⟨hok, hman, hw⟩ := ih
      have h1 := BattleshipAlgorithm.fireAt_ok F e hok x y
        (BattleshipAlgorithm.firedCell_fresh F e hok x y hf)
      have h2 := GameBoard.manned_of_sameGame _ _
        (GameBoard.manned_makeShot e.board_ hok.1.1 hman x y)
        (BattleshipAlgorithm.fireAt_board F e x y)
      have h3 := BattleshipAlgorithm.woundedExact_fireAt F e hok hman hw x y
      rw [hfire] at h1 h2 h3
      exact ⟨h1, h2, h3⟩

end WoundedLemmas4

section Wounded

variable {K : Type} [LinearOrderedField K]

/-- C11. For an engine constructed on a board built from the empty board by `placeShip` and
`placeMine` calls only, after any number of `makeMove` calls the wounded list has no
duplicates and holds exactly the cells in state `ShipHit` of registered ships that are not
sunk; so no cell of a sunk ship is in the list once the move that sank it has returned. -/
theorem wounded_list_is_exact [FloorRing K] (F : FloatOps K) (size : Int)
    (ops : List BoardOp) (maxLives : Int) (hops : ∀ op ∈ ops, op.isPlacement = true)
    (e : BattleshipAlgorithm K)
    (hplay : BattleshipAlgorithm.Plays F
      (BattleshipAlgorithm.new ((GameBoard.new size : GameBoard K).run ops) maxLives) e) :
    e.woundedCells_.Nodup ∧
    (∀ c : Int × Int, c ∈ e.woundedCells_ ↔
      (e.board_.cell c.1 c.2 = ShipHit ∧
        ∃ s ∈ e.board_.ships_, c ∈ s.cells ∧ s.isSunk e.board_.board_ = false)) ∧
    (∀ s ∈ e.board_.ships_, s.isSunk e.board_.board_ = true →
      ∀ c ∈ s.cells, c ∉ e.woundedCells_) := by
  obtain ⟨hok, _, hnodup, hmem⟩ :=
    BattleshipAlgorithm.plays_woundedExact F size ops maxLives hops e hplay
  refine ⟨hnodup, hmem, ?_⟩
  intro s hs hsunk c hcs hcw
  obtain ⟨_, t, ht, hct, htsunk⟩ := (hmem c).mp hcw
  have := ship_unique _ hok.1.2.2.1 s t hs ht c hcs hct
  subst this
  rw [hsunk] at htsunk
  cases htsunk

set_option maxRecDepth 8000 in
theorem wounded_list_is_exact_witness :
    (∀ op ∈ demoRowOps, op.isPlacement = true) ∧
    BattleshipAlgorithm.makeMove ratOps demoRowEngine
      = some (BattleshipAlgorithm.fireAt ratOps demoRowEngine 2 0) ∧
    (BattleshipAlgorithm.fireAt ratOps demoRowEngine 2 0).2.woundedCells_ = [(2, 0)] ∧
    ((2, 0) ∈ (BattleshipAlgorithm.fireAt ratOps demoRowEngine 2 0).2.woundedCells_ ↔
      ((BattleshipAlgorithm.fireAt ratOps demoRowEngine 2 0).2.board_.cell 2 0 = ShipHit ∧
        ∃ s ∈ (BattleshipAlgorithm.fireAt ratOps demoRowEngine 2 0).2.board_.ships_,
          ((2, 0) : Int × Int) ∈ s.cells ∧
          s.isSunk (BattleshipAlgorithm.fireAt ratOps demoRowEngine 2 0).2.board_.board_
            = false)) :=
  ⟨by decide,
    BattleshipAlgorithm.makeMove_of_firedCell ratOps demoRowEngine 2 0 (by decide!),
    by decide!,
    (wounded_list_is_exact ratOps 5 demoRowOps 3 (by decide)
      (BattleshipAlgorithm.fireAt ratOps demoRowEngine 2 0).2
      (BattleshipAlgorithm.Plays.move demoRowEngine
        (BattleshipAlgorithm.fireAt ratOps demoRowEngine 2 0).1
        (BattleshipAlgorithm.fireAt ratOps demoRowEngine 2 0).2
        BattleshipAlgorithm.Plays.start
        (BattleshipAlgorithm.makeMove_of_firedCell ratOps demoRowEngine 2 0
          (by decide!)))).2.1 (2, 0)⟩

end Wounded

section Utility

/-- C13, as the code has it. `calculateUtility(x, y)` is
`shipLikelihood(x,y) − λ·mineLikelihood(x,y) − 0.1·k` with `k` the number of cells of the 3×3
window on the board whose state is not `Empty`, shot or not. On the unshot 5×5 board with one
ship on (1,0), (2,0), (3,0), no cell of the window of (2,1) has been shot and three of them
hold the ship: the utility of (2,1) is 1/5 − 3/10 = −1/10, whatever `exp` is, where the count
of shot cells gives 1/5. -/
theorem utility_penalty_counts_occupied_cells :
    (∀ (K : Type) [LinearOrderedField K] (F : FloatOps K) (e : BattleshipAlgorithm K)
      (x y : Int),
      BattleshipAlgorithm.calculateUtility F e x y
        = Grid.get 0 e.board_.shipProbabilities_ x y
          - BattleshipAlgorithm.calculateRiskCoefficient F e
            * Grid.get 0 e.board_.mineProbabilities_ x y
          - 0.1 * ((e.occupiedNeighbours x y : Nat) : K)) ∧
    demoRowEngine.board_.inside 2 1 ∧
    demoRowEngine.shotNeighbours 2 1 = 0 ∧
    demoRowEngine.occupiedNeighbours 2 1 = 3 ∧
    (∀ F : FloatOps ℚ,
      BattleshipAlgorithm.calculateUtility F demoRowEngine 2 1 = -1 / 10 ∧
      Grid.get 0 demoRowEngine.board_.shipProbabilities_ 2 1
        - BattleshipAlgorithm.calculateRiskCoefficient F demoRowEngine
          * Grid.get 0 demoRowEngine.board_.mineProbabilities_ 2 1
        - 0.1 * ((demoRowEngine.shotNeighbours 2 1 : Nat) : ℚ) = 1 / 5) := by
  have hs : Grid.get 0 demoRowEngine.board_.shipProbabilities_ 2 1 = 1 / 5 := by decide!
  have hm : Grid.get 0 demoRowEngine.board_.mineProbabilities_ 2 1 = 0 := by decide!
  have hk : demoRowEngine.occupiedNeighbours 2 1 = 3 := by decide
  have hk0 : demoRowEngine.shotNeighbours 2 1 = 0 := by decide
  refine ⟨fun K _ F e x y => BattleshipAlgorithm.calculateUtility_eq F e x y, by decide,
    hk0, hk, ?_⟩
  intro F
  rw [BattleshipAlgorithm.calculateUtility_eq, hs, hm, hk, hk0]
  constructor <;> norm_num

end Utility

section HiddenLayout

/-- C12, as the code has it. Two 3×3 boards carry one ship of length 3, on the row `y = 0` and
on the row `y = 2`; an engine with three lives is constructed on each. The first move of both
is the shot at (1,1), a miss. After it the two states show the same to an observer (shot
record, resolved cells, unsunk ship lengths, likelihood grids, lives, last hit, wounded list),
yet `findBestMove` returns (2,2) on the first board and (0,0) on the second, whatever `exp`
and `sqrt` are: the penalty of `calculateUtility` reads the unshot `ShipIntact` cells. -/
theorem hidden_layout_changes_the_move (F : FloatOps ℚ) :
    demoTopEngine.SameView demoBottomEngine ∧
    BattleshipAlgorithm.makeMove F demoTopEngine = some (false, demoTopAfter) ∧
    BattleshipAlgorithm.makeMove F demoBottomEngine = some (false, demoBottomAfter) ∧
    demoTopAfter.SameView demoBottomAfter ∧
    BattleshipAlgorithm.findBestMove F demoTopAfter = some (2, 2) ∧
    BattleshipAlgorithm.findBestMove F demoBottomAfter = some (0, 0) := by
  have hmove : ∀ e : BattleshipAlgorithm ℚ, e.board_.NoMineLikelihood →
      BattleshipAlgorithm.firedCell ratOps e = some (1, 1) →
      (e.board_.makeShot 1 1).1 = false → (e.board_.makeShot 1 1).2.cell 1 1 ≠ 4 →
      BattleshipAlgorithm.makeMove F e
        = some (false, (BattleshipAlgorithm.fireAt ratOps e 1 1).2) := by
    intro e hno hfired h1 h4
    rw [BattleshipAlgorithm.makeMove_of_firedCell F e 1 1
      (by rw [BattleshipAlgorithm.firedCell_noMine F ratOps e hno]; exact hfired),
      BattleshipAlgorithm.fireAt_quiet F ratOps e 1 1 h1 h4]
    have hhit := BattleshipAlgorithm.fireAt_hit ratOps e 1 1
    rw [h1] at hhit
    rw [← hhit]
  refine ⟨by decide!, ?_, ?_, by decide!, ?_, ?_⟩
  · exact hmove demoTopEngine (by decide!) (by decide!) (by decide!) (by decide!)
  · exact hmove demoBottomEngine (by decide!) (by decide!) (by decide!) (by decide!)
  · rw [BattleshipAlgorithm.findBestMove_noMine F ratOps demoTopAfter (by decide!)]
    decide!
  · rw [BattleshipAlgorithm.findBestMove_noMine F ratOps demoBottomAfter (by decide!)]
    decide!

end HiddenLayout

section PlacementRule

variable {K : Type}

/-- C29. For a length of at least 1, `canPlaceShip(x, y, length, horizontal)` is true, and
`placeShip` returns true, exactly when `(x, y)` is on the board, every cell of the ship is on
the board, and every cell on the board that is a ship cell or one of the eight neighbours of
a ship cell is `Empty`. So one cell of that region in any other state (`ShipIntact`, `Mine`,
`ShipHit`, `MineTriggered`, `Miss`) makes the call return false. -/
theorem canPlaceShip_accepts_iff (b : GameBoard K) (x y length : Int) (horizontal : Bool)
    (hlen : 1 ≤ length) :
    (b.canPlaceShip x y length horizontal = true ↔
      b.inside x y ∧ (∀ c ∈ shipCells x y length horizontal, b.inside c.1 c.2) ∧
      ∀ u v, b.inside u v → (∃ c ∈ shipCells x y length horizontal, touches (u, v) c) →
        b.cell u v = Empty) ∧
    (b.placeShip x y length horizontal).1 = b.canPlaceShip x y length horizontal ∧
    (∀ u v, b.inside u v → (∃ c ∈ shipCells x y length horizontal, touches (u, v) c) →
      b.cell u v ≠ Empty → (b.placeShip x y length horizontal).1 = false) := by
  have hiff : b.canPlaceShip x y length horizontal = true ↔
      b.inside x y ∧ (∀ c ∈ shipCells x y length horizontal, b.inside c.1 c.2) ∧
      ∀ u v, b.inside u v → (∃ c ∈ shipCells x y length horizontal, touches (u, v) c) →
        b.cell u v = Empty := by
    constructor
    · intro h
      refine ⟨((GameBoard.canPlaceShip_iff b x y length horizontal).mp h).1,
        GameBoard.canPlaceShip_inside b x y length horizontal h, ?_⟩
      rintro u v hin ⟨c, hc, ht⟩
      exact GameBoard.canPlaceShip_clear b x y length horizontal h c hc u v ht hin
    · rintro ⟨hin, hfit, hclear⟩
      rw [GameBoard.canPlaceShip_iff]
      have hlast : shipCell x y horizontal (length - 1) ∈ shipCells x y length horizontal :=
        (mem_shipCells x y length horizontal _).mpr ⟨length - 1, by omega, by omega, rfl⟩
      have hlastin := hfit _ hlast
      unfold GameBoard.inside shipCell at hlastin
      refine ⟨hin, ?_, ?_, ?_⟩
      · intro hh
        rw [hh] at hlastin
        simp only [if_true] at hlastin
        omega
      · intro hh
        rw [hh] at hlastin
        simp only [Bool.false_eq_true, if_false] at hlastin
        omega
      · intro i hi j hj hcin
        refine hclear _ _ hcin
          ⟨shipCell x y horizontal (max 0 (min (length - 1) i)),
            (mem_shipCells x y length horizontal _).mpr
              ⟨max 0 (min (length - 1) i), by omega, by omega, rfl⟩, ?_⟩
        unfold touches shipCell
        cases horizontal
        · simp only [Bool.false_eq_true, if_false]
          omega
        · simp only [if_true]
          omega
  have hret : (b.placeShip x y length horizontal).1 = b.canPlaceShip x y length horizontal := by
    cases hcan : b.canPlaceShip x y length horizontal with
    | true => rw [GameBoard.placeShip_accept b x y length horizontal hcan]
    | false => rw [GameBoard.placeShip_reject b x y length horizontal hcan]
  refine ⟨hiff, hret, ?_⟩
  intro u v hin hreg hne
  rw [hret]
  cases hcan : b.canPlaceShip x y length horizontal with
  | false => rfl
  | true => exact absurd ((hiff.mp hcan).2.2 u v hin hreg) hne

theorem canPlaceShip_accepts_iff_witness :
    (1 : Int) ≤ 2 ∧
    ((GameBoard.new 10 : GameBoard ℚ).run demoGame).cell 0 0 = Mine ∧
    (((GameBoard.new 10 : GameBoard ℚ).run demoGame).placeShip 1 1 2 true).1 = false :=
  ⟨by decide, by decide,
    (canPlaceShip_accepts_iff ((GameBoard.new 10 : GameBoard ℚ).run demoGame) 1 1 2 true
      (by decide)).2.2 0 0 (by decide) ⟨(1, 1), by decide, by decide⟩ (by decide)⟩

end PlacementRule

section KillPriority

variable {K : Type} [LinearOrderedField K]

/-- C28. When the wounded list is not empty and `findKillMove` yields a cell (its result is
not the no-move value), `findBestMove` returns exactly that cell. When the list is not empty
and `findKillMove` yields `(-1, -1)`, `findBestMove` returns what it returns in the same
state with an empty wounded list, where only the hunt tiers run; and with an empty list the
kill step is skipped. -/
theorem kill_mode_has_priority (F : FloatOps K) (e : BattleshipAlgorithm K)
    (hin : ∀ c ∈ e.woundedCells_, e.board_.inside c.1 c.2) :
    (e.woundedCells_ ≠ [] → BattleshipAlgorithm.findKillMove F e ≠ (-1, -1) →
      BattleshipAlgorithm.findBestMove F e = some (BattleshipAlgorithm.findKillMove F e)) ∧
    (e.woundedCells_ ≠ [] → BattleshipAlgorithm.findKillMove F e = (-1, -1) →
      BattleshipAlgorithm.findBestMove F e
        = BattleshipAlgorithm.findBestMove F { e with woundedCells_ := [] }) ∧
    BattleshipAlgorithm.findKillMove F { e with woundedCells_ := [] } = (-1, -1) := by
  refine ⟨?_, ?_, rfl⟩
  · intro hne hkill
    have h1 : (BattleshipAlgorithm.findKillMove F e).1 ≠ -1 := by
      rcases BattleshipAlgorithm.findKillMove_good F e hin with hg | hg
      · exact absurd hg hkill
      · have := hg.1.1.1
        omega
    have hempty : (!e.woundedCells_.isEmpty) = true := by
      cases hw : e.woundedCells_ with
      | nil => exact absurd hw hne
      | cons a l => rfl
    unfold BattleshipAlgorithm.findBestMove
    simp only
    rw [if_pos ⟨hempty, h1⟩]
  · intro _ hkill
    have hno : ¬ ((!e.woundedCells_.isEmpty) = true ∧
        (BattleshipAlgorithm.findKillMove F e).1 ≠ -1) := by
      rintro ⟨_, h⟩
      rw [hkill] at h
      exact h rfl
    have hno2 : ¬ ((!([] : List (Int × Int)).isEmpty) = true ∧
        (BattleshipAlgorithm.findKillMove F { e with woundedCells_ := [] }).1 ≠ -1) := by
      rintro ⟨h, _⟩
      simp at h
    unfold BattleshipAlgorithm.findBestMove
    simp only
    rw [if_neg hno, if_neg hno2]
    rfl

set_option maxRecDepth 8000 in
theorem kill_mode_has_priority_witness :
    demoKill.woundedCells_ ≠ [] ∧
    BattleshipAlgorithm.findKillMove ratOps demoKill ≠ (-1, -1) ∧
    BattleshipAlgorithm.findBestMove ratOps demoKill
      = some (BattleshipAlgorithm.findKillMove ratOps demoKill) :=
  ⟨by decide, by decide!,
    (kill_mode_has_priority ratOps demoKill (by decide)).1 (by decide) (by decide!)⟩

end KillPriority

section SingleWounded

variable {K : Type} [LinearOrderedField K]

/-- C22. With exactly one wounded cell `w`, `findKillMove` returns `(-1, -1)` exactly when `w`
has no orthogonal neighbour that is on the board and unshot. Otherwise it returns such a
neighbour whose utility is at least that of every other one, and strictly greater than that
of each one before it in the order left, right, up, down. -/
theorem single_wounded_picks_best_neighbour (F : FloatOps K) (e : BattleshipAlgorithm K)
    (w : Int × Int) (hw : e.woundedCells_ = [w]) :
    (∀ c, c ∈ e.freshNeighbours w.1 w.2 ↔
      (c = (w.1 - 1, w.2) ∨ c = (w.1 + 1, w.2) ∨ c = (w.1, w.2 - 1) ∨ c = (w.1, w.2 + 1)) ∧
      e.board_.inside c.1 c.2 ∧ e.board_.shot c.1 c.2 = 0) ∧
    (e.freshNeighbours w.1 w.2).Sublist
      [(w.1 - 1, w.2), (w.1 + 1, w.2), (w.1, w.2 - 1), (w.1, w.2 + 1)] ∧
    (BattleshipAlgorithm.findKillMove F e = (-1, -1) ↔ e.freshNeighbours w.1 w.2 = []) ∧
    (e.freshNeighbours w.1 w.2 ≠ [] →
      ∃ pre post,
        e.freshNeighbours w.1 w.2 = pre ++ BattleshipAlgorithm.findKillMove F e :: post ∧
        (∀ c ∈ pre, BattleshipAlgorithm.calculateUtility F e c.1 c.2
          < BattleshipAlgorithm.calculateUtility F e
              (BattleshipAlgorithm.findKillMove F e).1
              (BattleshipAlgorithm.findKillMove F e).2) ∧
        (∀ c ∈ post, BattleshipAlgorithm.calculateUtility F e c.1 c.2
          ≤ BattleshipAlgorithm.calculateUtility F e
              (BattleshipAlgorithm.findKillMove F e).1
              (BattleshipAlgorithm.findKillMove F e).2)) := by
  have hkill : BattleshipAlgorithm.findKillMove F e
      = ((e.freshNeighbours w.1 w.2).foldl
          (fun acc c => BattleshipAlgorithm.consider F e acc c.1 c.2) (none, (-1, -1))).2 := by
    unfold BattleshipAlgorithm.findKillMove
    rw [hw]
    simp only [List.foldl_cons, List.foldl_nil]
    rw [BattleshipAlgorithm.probeNeighbours_eq]
  have hsub : (e.freshNeighbours w.1 w.2).Sublist
      [(w.1 - 1, w.2), (w.1 + 1, w.2), (w.1, w.2 - 1), (w.1, w.2 + 1)] := by
    have h4 : directions.map (fun dir => (w.1 + dir.1, w.2 + dir.2))
        = [(w.1 - 1, w.2), (w.1 + 1, w.2), (w.1, w.2 - 1), (w.1, w.2 + 1)] := by
      unfold directions
      simp only [List.map_cons, List.map_nil, add_zero]
      rfl
    unfold BattleshipAlgorithm.freshNeighbours
    rw [h4]
    exact List.filter_sublist _
  refine ⟨BattleshipAlgorithm.mem_freshNeighbours e w.1 w.2, hsub, ?_, ?_⟩
  · constructor
    · intro h
      by_contra hne
      obtain ⟨pre, m, post, hsplit, hfold, _, _⟩ :=
        BattleshipAlgorithm.consider_argmax F e _ (-1, -1) hne
      rw [hkill, hfold] at h
      have hm : m ∈ e.freshNeighbours w.1 w.2 := by
        rw [hsplit]
        exact List.mem_append_right _ (List.mem_cons_self _ _)
      have hin := ((BattleshipAlgorithm.mem_freshNeighbours e w.1 w.2 m).mp hm).2.1.1.1
      simp only at h
      rw [h] at hin
      omega
    · intro h
      rw [hkill, h]
      rfl
  · intro hne
    obtain ⟨pre, m, post, hsplit, hfold, hpre, hpost⟩ :=
      BattleshipAlgorithm.consider_argmax F e _ (-1, -1) hne
    have hm : BattleshipAlgorithm.findKillMove F e = m := by rw [hkill, hfold]
    rw [hm]
    exact ⟨pre, post, hsplit, hpre, hpost⟩

set_option maxRecDepth 8000 in
theorem single_wounded_picks_best_neighbour_witness :
    demoOneWounded.woundedCells_ = [(0, 2)] ∧
    demoOneWounded.freshNeighbours 0 2 = [(1, 2), (0, 1), (0, 3)] ∧
    (BattleshipAlgorithm.findKillMove ratOps demoOneWounded = (-1, -1) ↔
      demoOneWounded.freshNeighbours 0 2 = []) :=
  ⟨rfl, by decide,
    (single_wounded_picks_best_neighbour ratOps demoOneWounded (0, 2) rfl).2.2.1⟩

end SingleWounded

section Fleet

/-- C21, as the code has it. For every board size from 10 to 100 the fleet returned by
`calculateFleet(size)` has `⌊0.2 × size² + 0.5⌋` ship cells in total, 20% of the area
rounded to the nearest integer. `calculateShipCount(size)` is `⌊0.2 × size²⌋`, the numerator
of the engine's initial ship density; the fleet has that many cells when `size mod 5` is 0, 1
or 4 and one more when it is 2 or 3. -/
theorem fleet_cells_are_rounded_fifth (size : Int) (h10 : 10 ≤ size) (h100 : size ≤ 100) :
    fleetCells (calculateFleet ℚ size) = ⌊(0.2 : ℚ) * ((size * size : Int) : ℚ) + 0.5⌋ ∧
    calculateShipCount ℚ size = ⌊(0.2 : ℚ) * (size : ℚ) * (size : ℚ)⌋ ∧
    (BattleshipAlgorithm.new (GameBoard.new size : GameBoard ℚ) 0).board_.initialShipProb_
      = ((calculateShipCount ℚ size : Int) : ℚ) / ((size * size : Int) : ℚ) ∧
    fleetCells (calculateFleet ℚ size)
      = calculateShipCount ℚ size + (if size % 5 = 2 ∨ size % 5 = 3 then 1 else 0) := by
  have hall : ∀ s ∈ intRange 10 100,
      fleetCells (calculateFleet ℚ s) = ⌊(0.2 : ℚ) * ((s * s : Int) : ℚ) + 0.5⌋ ∧
      calculateShipCount ℚ s = ⌊(0.2 : ℚ) * (s : ℚ) * (s : ℚ)⌋ ∧
      fleetCells (calculateFleet ℚ s)
        = calculateShipCount ℚ s + (if s % 5 = 2 ∨ s % 5 = 3 then 1 else 0) := by
    decide!
  obtain ⟨h1, h2, h3⟩ := hall size ((mem_intRange 10 100 size).mpr ⟨h10, h100⟩)
  refine ⟨h1, h2, ?_, h3⟩
  rw [h2]
  rfl

/-- For the board size 12 the fleet of `calculateFleet` has 29 ship cells, while
`calculateShipCount` and `⌊0.2 × 12²⌋` are 28. -/
theorem fleet_of_size_twelve_has_extra_cell :
    fleetCells (calculateFleet ℚ 12) = 29 ∧ calculateShipCount ℚ 12 = 28 ∧
    ⌊(0.2 : ℚ) * ((12 : Int) : ℚ) * ((12 : Int) : ℚ)⌋ = 28 ∧
    fleetCells (calculateFleet ℚ 12) ≠ ⌊(0.2 : ℚ) * ((12 : Int) : ℚ) * ((12 : Int) : ℚ)⌋ := by
  decide!

theorem fleet_cells_are_rounded_fifth_witness :
    (10 : Int) ≤ 10 ∧ (10 : Int) ≤ 100 ∧ fleetCells (calculateFleet ℚ 10) = 20 ∧
    calculateFleet ℚ 10 = [⟨4, 1⟩, ⟨3, 2⟩, ⟨2, 3⟩, ⟨1, 4⟩] :=
  ⟨by decide, by decide,
    (fleet_cells_are_rounded_fifth 10 (by decide) (by decide)).1.trans (by decide!),
    by decide!⟩

end Fleet

section HitUpdate

theorem Grid.get_map_const {α : Type} (d : α) (g : Grid α) (n : Int) (v : α) (x y : Int)
    (hg : Grid.Square n g) (hx : 0 ≤ x ∧ x < n) (hy : 0 ≤ y ∧ y < n) :
    Grid.get d (g.map (fun row => row.map (fun _ => v))) x y = v := by
  have hylt : y.toNat < g.length := by
    rw [hg.1]
    omega
  have hxlt : x.toNat < (g[y.toNat]).length := by
    rw [hg.2 _ (List.getElem_mem hylt)]
    omega
  unfold Grid.get
  rw [if_pos ⟨hx.1, hy.1⟩]
  simp [List.getD_eq_getElem?_getD, List.getElem?_map, List.getElem?_eq_getElem hylt,
    List.getElem?_eq_getElem hxlt, List.getElem?_replicate, hxlt]

theorem real_hit_constants :
    Real.sqrt 0 ≤ 2 ∧ Real.sqrt 4 = 2 ∧ 2 < Real.sqrt 5 ∧ 2 < Real.sqrt 8 ∧
    (0 : ℝ) < Real.exp (-2) ∧ Real.exp (-2) < 1 / 7 := by
  have h4 : Real.sqrt 4 = 2 := by
    rw [show (4 : ℝ) = 2 ^ 2 by norm_num, Real.sqrt_sq (by norm_num)]
  have h5 : 2 < Real.sqrt 5 := by
    rw [Real.lt_sqrt (by norm_num)]
    norm_num
  have h8 : 2 < Real.sqrt 8 := by
    rw [Real.lt_sqrt (by norm_num)]
    norm_num
  have he1 : (2.7 : ℝ) < Real.exp 1 := lt_trans (by norm_num) Real.exp_one_gt_d9
  have he2 : (7 : ℝ) < Real.exp 2 := by
    have : Real.exp 2 = Real.exp 1 * Real.exp 1 := by
      rw [← Real.exp_add]
      norm_num
    rw [this]
    nlinarith
  refine ⟨by rw [Real.sqrt_zero]; norm_num, h4, h5, h8, Real.exp_pos _, ?_⟩
  rw [Real.exp_neg, inv_eq_one_div]
  exact one_div_lt_one_div_of_lt (by norm_num) he2

/-- C27, as the code has it. Over the reals, the ship-hit update of the engine at `(x, y)`
leaves the cell `(x + 2, y)`, when it is on the board, with the ship likelihood
`0.7 · exp(−2)`, whatever it was before: the call made for that cell first sets its
likelihoods to 0 and then adds the boost. This is less than 1/10, so a likelihood of 1/10 or
more is lowered by the update. -/
theorem ship_hit_update_resets_neighbour (F : FloatOps ℝ) (hexp : F.exp = Real.exp)
    (hsqrt : F.sqrt = Real.sqrt) (e : BattleshipAlgorithm ℝ) (x y : Int) (hwf : e.board_.WF)
    (hin : e.board_.inside (x + 2) y) :
    Grid.get 0
        (BattleshipAlgorithm.updateProbabilities F e x y true false).board_.shipProbabilities_
        (x + 2) y = 0.7 * Real.exp (-2) ∧
    0.7 * Real.exp (-2) < 1 / 10 ∧
    (1 / 10 ≤ Grid.get 0 e.board_.shipProbabilities_ (x + 2) y →
      Grid.get 0
        (BattleshipAlgorithm.updateProbabilities F e x y true false).board_.shipProbabilities_
        (x + 2) y < Grid.get 0 e.board_.shipProbabilities_ (x + 2) y) := by
  obtain ⟨h0, h4, h5, h8, hpos, hlt⟩ := real_hit_constants
  have hval := BattleshipAlgorithm.hit_update_far_cell F e x y hwf hin
    (by rw [hsqrt]; exact h0) (by rw [hsqrt, h4]) (by rw [hsqrt]; exact h5)
    (by rw [hsqrt]; exact h8)
  rw [hexp, hsqrt, h4, Real.sqrt_zero, neg_zero, Real.exp_zero] at hval
  have hsmall : 0.7 * Real.exp (-2) < 1 / 10 := by nlinarith
  have hclamp : max 0 (min 1 (0 + Real.exp (-2) * 0.7 * 1)) = 0.7 * Real.exp (-2) := by
    rw [zero_add, mul_one, min_eq_right (by nlinarith), max_eq_right (by nlinarith)]
    ring
  rw [hclamp] at hval
  refine ⟨hval, hsmall, ?_⟩
  intro hold
  rw [hval]
  linarith

theorem ship_hit_update_resets_neighbour_witness :
    Grid.get 0 (BattleshipAlgorithm.new (GameBoard.new 10 : GameBoard ℝ) 3).board_.shipProbabilities_
      2 0 = 1 / 5 ∧
    Grid.get 0 (BattleshipAlgorithm.updateProbabilities { exp := Real.exp, sqrt := Real.sqrt }
      (BattleshipAlgorithm.new (GameBoard.new 10 : GameBoard ℝ) 3) 0 0 true
      false).board_.shipProbabilities_ (0 + 2) 0 < 1 / 10 := by
  have hwf : (BattleshipAlgorithm.new (GameBoard.new 10 : GameBoard ℝ) 3).board_.WF :=
    (BattleshipAlgorithm.new_ok _ (GameBoard.sound_new 10) 3).1.1
  have hthm := ship_hit_update_resets_neighbour { exp := Real.exp, sqrt := Real.sqrt } rfl rfl
    (BattleshipAlgorithm.new (GameBoard.new 10 : GameBoard ℝ) 3) 0 0 hwf (by decide)
  refine ⟨?_, by rw [hthm.1]; exact hthm.2.1⟩
  have hget : Grid.get 0
      (BattleshipAlgorithm.new (GameBoard.new 10 : GameBoard ℝ) 3).board_.shipProbabilities_ 2 0
      = ((⌊(0.2 : ℝ) * ((10 : Int) : ℝ) * ((10 : Int) : ℝ)⌋ : Int) : ℝ)
        / (((10 : Int) * (10 : Int) : Int) : ℝ) :=
    Grid.get_map_const (0 : ℝ) (GameBoard.new 10 : GameBoard ℝ).shipProbabilities_ 10 _ 2 0
      (GameBoard.new_wf 10).2.2.1 (by decide) (by decide)
  have hfloor : ⌊(0.2 : ℝ) * ((10 : Int) : ℝ) * ((10 : Int) : ℝ)⌋ = 20 := by
    rw [Int.floor_eq_iff]
    norm_num
  rw [hget, hfloor]
  norm_num

end HitUpdate

section Pins

variable {K : Type} [LinearOrderedField K]

theorem GameBoard.updateProbabilities_pin_hit (F : FloatOps K) (b : GameBoard K) (x y : Int) :
    b.updateProbabilities F x y true false 0 0
      = { b with shipProbabilities_ := Grid.set b.shipProbabilities_ x y 1
                 mineProbabilities_ := Grid.set b.mineProbabilities_ x y 0 } := by
  unfold GameBoard.updateProbabilities
  simp

theorem GameBoard.updateProbabilities_pin_mine (F : FloatOps K) (b : GameBoard K) (x y : Int) :
    b.updateProbabilities F x y false true 0 0
      = { b with shipProbabilities_ := Grid.set b.shipProbabilities_ x y 0
                 mineProbabilities_ := Grid.set b.mineProbabilities_ x y 1 } := by
  unfold GameBoard.updateProbabilities
  simp

/-- A call `updateProbabilities(nx, ny, false, false, shipFactor, 0)` with a non-negative
boost keeps a ship likelihood of 1 and a mine likelihood of 0 at any other cell. -/
theorem GameBoard.update_keeps_pin (F : FloatOps K) (hexp : ∀ t, 0 ≤ F.exp t)
    (b : GameBoard K) (n : Int) (nx ny x y : Int) (shipFactor : K) (hsf : 0 ≤ shipFactor)
    (hne : ¬ (x = nx ∧ y = ny))
    (hb : b.size_ = n ∧ Grid.Square n b.shipProbabilities_ ∧
      Grid.Square n b.mineProbabilities_)
    (h1 : Grid.get 0 b.shipProbabilities_ x y = 1)
    (h0 : Grid.get 0 b.mineProbabilities_ x y = 0) :
    Grid.get 0 (b.updateProbabilities F nx ny false false shipFactor 0).shipProbabilities_ x y
      = 1 ∧
    Grid.get 0 (b.updateProbabilities F nx ny false false shipFactor 0).mineProbabilities_ x y
      = 0 := by
  have hp1 : Grid.get 0 (b.updateProbabilities F nx ny false false 0 0).shipProbabilities_ x y
      = 1 := by
    rw [GameBoard.updateProbabilities_pin]
    exact (Grid.get_set_ne 0 _ nx ny x y 0 hne).trans h1
  have hp0 : Grid.get 0 (b.updateProbabilities F nx ny false false 0 0).mineProbabilities_ x y
      = 0 := by
    rw [GameBoard.updateProbabilities_pin]
    exact (Grid.get_set_ne 0 _ nx ny x y 0 hne).trans h0
  have hshape := GameBoard.shape_of_sameGame b _ n
    (GameBoard.sameGame_updateProbabilities F b nx ny false false 0 0) hb
  rw [GameBoard.updateProbabilities_boost]
  split
  · refine ⟨(GameBoard.boostFold_ship F shipFactor 0 nx ny n x y (fun v => v = 1) ?_ _
      hshape.1 hshape.2.1 hp1).2.2,
      (GameBoard.boostFold_mine F shipFactor 0 nx ny n x y (fun v => v = 0) ?_ _
      hshape.1 hshape.2.2 hp0).2.2⟩
    · intro v d hv
      rw [hv, min_eq_left (by nlinarith [mul_nonneg hsf (hexp (-F.sqrt d))]),
        max_eq_right zero_le_one]
    · intro v d hv
      rw [hv]
      simp
  · exact ⟨hp1, hp0⟩

/-- After the engine's update for a ship hit at `(x, y)` the cell has ship likelihood 1 and
mine likelihood 0, when `exp` is never negative. -/
theorem BattleshipAlgorithm.hit_update_pins (F : FloatOps K) (hexp : ∀ t, 0 ≤ F.exp t)
    (e : BattleshipAlgorithm K) (x y : Int) (hwf : e.board_.WF) (hin : e.board_.inside x y) :
    Grid.get 0 (BattleshipAlgorithm.updateProbabilities F e x y true false).board_.shipProbabilities_
      x y = 1 ∧
    Grid.get 0 (BattleshipAlgorithm.updateProbabilities F e x y true false).board_.mineProbabilities_
      x y = 0 := by
  rw [BattleshipAlgorithm.updateProbabilities_spread]
  have hbase : (fun (b : GameBoard K) =>
      (b.size_ = e.board_.size_ ∧ Grid.Square e.board_.size_ b.shipProbabilities_ ∧
        Grid.Square e.board_.size_ b.mineProbabilities_) ∧
      Grid.get 0 b.shipProbabilities_ x y = 1 ∧ Grid.get 0 b.mineProbabilities_ x y = 0)
      (e.board_.updateProbabilities F x y true false 0 0) := by
    refine ⟨GameBoard.shape_of_sameGame e.board_ _ _
      (GameBoard.sameGame_updateProbabilities F e.board_ x y true false 0 0)
      ⟨rfl, hwf.2.2.1, hwf.2.2.2⟩, ?_, ?_⟩
    · rw [GameBoard.updateProbabilities_pin_hit]
      exact Grid.get_set_self 0 _ e.board_.size_ x y 1 hwf.2.2.1 hin.1 hin.2
    · rw [GameBoard.updateProbabilities_pin_hit]
      exact Grid.get_set_self 0 _ e.board_.size_ x y 0 hwf.2.2.2 hin.1 hin.2
  have hfold := foldl_inv (fun (b : GameBoard K) =>
      (b.size_ = e.board_.size_ ∧ Grid.Square e.board_.size_ b.shipProbabilities_ ∧
        Grid.Square e.board_.size_ b.mineProbabilities_) ∧
      Grid.get 0 b.shipProbabilities_ x y = 1 ∧ Grid.get 0 b.mineProbabilities_ x y = 0)
    (fun b1 dx => (intRange (-2) 2).foldl (fun b2 dy =>
      BattleshipAlgorithm.spreadCell F e.board_.size_ x y true false b2 dx dy) b1)
    (intRange (-2) 2) _ hbase ?_
  · exact hfold.2
  · intro b1 dx _ hb1
    refine foldl_inv (fun (b : GameBoard K) =>
      (b.size_ = e.board_.size_ ∧ Grid.Square e.board_.size_ b.shipProbabilities_ ∧
        Grid.Square e.board_.size_ b.mineProbabilities_) ∧
      Grid.get 0 b.shipProbabilities_ x y = 1 ∧ Grid.get 0 b.mineProbabilities_ x y = 0)
      _ _ _ hb1 ?_
    intro b2 dy _ hb2
    refine ⟨GameBoard.shape_of_sameGame b2 _ _
      (BattleshipAlgorithm.spreadCell_same F _ x y true false b2 dx dy) hb2.1, ?_⟩
    unfold BattleshipAlgorithm.spreadCell
    simp only [Bool.false_eq_true, if_false, true_and]
    split
    · split
      · split
        · rename_i horth
          refine GameBoard.update_keeps_pin F hexp b2 e.board_.size_ (x + dx) (y + dy) x y _
            (mul_nonneg (hexp _) (by norm_num)) ?_ hb2.1 hb2.2.1 hb2.2.2
          rintro ⟨h1, h2⟩
          omega
        · exact hb2.2
      · exact hb2.2
    · exact hb2.2

/-- After the engine's update for a plain miss at `(x, y)` both likelihoods of the cell
are 0. -/
theorem BattleshipAlgorithm.miss_update_pins (F : FloatOps K) (e : BattleshipAlgorithm K)
    (x y : Int) (hwf : e.board_.WF) (hin : e.board_.inside x y) :
    Grid.get 0 (BattleshipAlgorithm.updateProbabilities F e x y false false).board_.shipProbabilities_
      x y = 0 ∧
    Grid.get 0 (BattleshipAlgorithm.updateProbabilities F e x y false false).board_.mineProbabilities_
      x y = 0 := by
  have hq : (BattleshipAlgorithm.updateProbabilities F e x y false false).board_
      = e.board_.updateProbabilities F x y false false 0 0 := by
    rw [BattleshipAlgorithm.updateProbabilities_spread]
    apply foldl_fixed
    intro b1 dx
    apply foldl_fixed
    intro b2 dy
    unfold BattleshipAlgorithm.spreadCell
    simp
  rw [hq, GameBoard.updateProbabilities_pin]
  exact ⟨Grid.get_set_self 0 _ e.board_.size_ x y 0 hwf.2.2.1 hin.1 hin.2,
    Grid.get_set_self 0 _ e.board_.size_ x y 0 hwf.2.2.2 hin.1 hin.2⟩

/-- On a board of size 1 the engine's update for a triggered mine ends with the mine
likelihood `exp (-sqrt 0) * 0.3 * exp (-sqrt 0)`, clamped, at the cell. -/
theorem BattleshipAlgorithm.mine_update_unit_board (F : FloatOps K)
    (e : BattleshipAlgorithm K) (hwf : e.board_.WF) (hsize : e.board_.size_ = 1)
    (h0 : F.sqrt 0 ≤ 2) :
    Grid.get 0 (BattleshipAlgorithm.updateProbabilities F e 0 0 false true).board_.mineProbabilities_
      0 0 = max 0 (min 1 (0 + F.exp (-F.sqrt 0) * 0.3 * F.exp (-F.sqrt 0))) := by
  rw [BattleshipAlgorithm.updateProbabilities_spread, intRange_two, hsize]
  have hout : ∀ (b2 : GameBoard K) (dx dy : Int), ¬ (dx = 0 ∧ dy = 0) →
      BattleshipAlgorithm.spreadCell F 1 0 0 false true b2 dx dy = b2 := by
    intro b2 dx dy hne
    unfold BattleshipAlgorithm.spreadCell
    have hno : ¬ (0 + dx ≥ 0 ∧ 0 + dx < 1 ∧ 0 + dy ≥ 0 ∧ 0 + dy < 1) := by
      intro h
      exact hne ⟨by omega, by omega⟩
    simp only [hno, if_false]
  have hmem12 : ∀ d : Int, d ∈ [(1 : Int), 2] → d ≠ 0 := by
    intro d hd
    simp at hd
    omega
  have hmemm : ∀ d : Int, d ∈ [(-2 : Int), -1] → d ≠ 0 := by
    intro d hd
    simp at hd
    omega
  have hbase : (fun (b : GameBoard K) => b.size_ = 1 ∧ Grid.Square 1 b.shipProbabilities_ ∧
      Grid.Square 1 b.mineProbabilities_) (e.board_.updateProbabilities F 0 0 false true 0 0) :=
    GameBoard.shape_of_sameGame e.board_ _ 1
      (GameBoard.sameGame_updateProbabilities F e.board_ 0 0 false true 0 0)
      ⟨hsize, by rw [← hsize]; exact hwf.2.2.1, by rw [← hsize]; exact hwf.2.2.2⟩
  refine foldl_track
    (fun (b : GameBoard K) => b.size_ = 1 ∧ Grid.Square 1 b.shipProbabilities_ ∧
      Grid.Square 1 b.mineProbabilities_)
    (fun (b : GameBoard K) => Grid.get 0 b.mineProbabilities_ 0 0
      = max 0 (min 1 (0 + F.exp (-F.sqrt 0) * 0.3 * F.exp (-F.sqrt 0))))
    (fun b1 dx => ([-2, -1] ++ 0 :: [1, 2]).foldl (fun b2 dy =>
      BattleshipAlgorithm.spreadCell F 1 0 0 false true b2 dx dy) b1)
    [-2, -1] [1, 2] 0 _ hbase ?_ ?_ ?_
  · intro b1 dx hdx h1
    have : ([-2, -1] ++ 0 :: [1, 2]).foldl (fun b2 dy =>
        BattleshipAlgorithm.spreadCell F 1 0 0 false true b2 dx dy) b1 = b1 :=
      foldl_fixed _ _ _ (fun b2 dy => hout b2 dx dy (fun h => hmemm dx hdx h.1))
    dsimp only
    rw [this]
    exact h1
  · intro b1 h1
    refine foldl_track
      (fun (b : GameBoard K) => b.size_ = 1 ∧ Grid.Square 1 b.shipProbabilities_ ∧
        Grid.Square 1 b.mineProbabilities_)
      (fun (b : GameBoard K) => Grid.get 0 b.mineProbabilities_ 0 0
        = max 0 (min 1 (0 + F.exp (-F.sqrt 0) * 0.3 * F.exp (-F.sqrt 0))))
      (fun b2 dy => BattleshipAlgorithm.spreadCell F 1 0 0 false true b2 0 dy)
      [-2, -1] [1, 2] 0 b1 h1 ?_ ?_ ?_
    · intro b2 dy hdy h2
      dsimp only
      rw [hout b2 0 dy (fun h => hmemm dy hdy h.2)]
      exact h2
    · intro b2 h2
      have hz : (((0 * 0 + 0 * 0 : Int)) : K) = 0 := by norm_num
      unfold BattleshipAlgorithm.spreadCell
      simp only [hz, h0, add_zero, ge_iff_le, le_refl, zero_lt_one, and_self, if_true,
        Bool.false_eq_true, false_and, if_false]
      refine GameBoard.update_centre_mine F b2 0 0 _ (by rw [h2.1]; exact h2.2.2) ?_ h0
      unfold GameBoard.inside
      rw [h2.1]
      decide
    · intro b2 dy hdy h2
      dsimp only
      rw [hout b2 0 dy (fun h => hmem12 dy hdy h.2)]
      exact h2
  · intro b1 dx hdx h1
    have : ([-2, -1] ++ 0 :: [1, 2]).foldl (fun b2 dy =>
        BattleshipAlgorithm.spreadCell F 1 0 0 false true b2 dx dy) b1 = b1 :=
      foldl_fixed _ _ _ (fun b2 dy => hout b2 dx dy (fun h => hmem12 dx hdx h.1))
    dsimp only
    rw [this]
    exact h1

end Pins

section FiredCell

variable {K : Type} [LinearOrderedField K]

/-- C26, as the code has it. After `makeMove` has fired at the cell `(x, y)` of the board:
after a plain miss both likelihoods of the cell are 0; after a ship hit its ship likelihood
is 1 and its mine likelihood 0 (for an `exp` that is never negative); but after a mine
trigger the mine likelihood is not 1: the loop over the neighbourhood also visits the cell
itself, resets it to 0 and adds the boost, which leaves 3/10 on a board of size 1. -/
theorem fired_cell_likelihoods (F : FloatOps K) (e : BattleshipAlgorithm K) (x y : Int)
    (hwf : e.board_.WF) (hin : e.board_.inside x y) :
    ((e.board_.makeShot x y).1 = false → (e.board_.makeShot x y).2.cell x y ≠ MineTriggered →
      Grid.get 0 (BattleshipAlgorithm.fireAt F e x y).2.board_.shipProbabilities_ x y = 0 ∧
      Grid.get 0 (BattleshipAlgorithm.fireAt F e x y).2.board_.mineProbabilities_ x y = 0) ∧
    ((∀ t, 0 ≤ F.exp t) → (e.board_.makeShot x y).1 = true →
      Grid.get 0 (BattleshipAlgorithm.fireAt F e x y).2.board_.shipProbabilities_ x y = 1 ∧
      Grid.get 0 (BattleshipAlgorithm.fireAt F e x y).2.board_.mineProbabilities_ x y = 0) ∧
    (F.sqrt 0 = 0 → F.exp 0 = 1 → e.board_.size_ = 1 →
      (e.board_.makeShot x y).1 = false →
      (e.board_.makeShot x y).2.cell x y = MineTriggered →
      Grid.get 0 (BattleshipAlgorithm.fireAt F e x y).2.board_.mineProbabilities_ x y
        = 3 / 10) := by
  have hwf2 := GameBoard.makeShot_wf e.board_ hwf x y
  have hsize2 := (GameBoard.makeShot_keeps e.board_ hwf.1 x y).1
  have hin2 : (e.board_.makeShot x y).2.inside x y := by
    unfold GameBoard.inside
    rw [hsize2]
    exact hin
  refine ⟨?_, ?_, ?_⟩
  · intro h1 h4
    have h4b : ¬ Grid.get 0 (e.board_.makeShot x y).2.board_ x y = 4 := h4
    unfold BattleshipAlgorithm.fireAt
    simp only [h1, Bool.false_eq_true, if_false, beq_iff_eq, h4b]
    exact BattleshipAlgorithm.miss_update_pins F _ x y hwf2 hin2
  · intro hexp h1
    unfold BattleshipAlgorithm.fireAt
    simp only [h1, if_true]
    split
    · exact BattleshipAlgorithm.hit_update_pins F hexp _ x y hwf2 hin2
    · exact BattleshipAlgorithm.hit_update_pins F hexp _ x y hwf2 hin2
  · intro hs he hsize h1 h4
    have h4b : Grid.get 0 (e.board_.makeShot x y).2.board_ x y = 4 := h4
    have hx : x = 0 := by
      unfold GameBoard.inside at hin
      omega
    have hy : y = 0 := by
      unfold GameBoard.inside at hin
      omega
    subst hx
    subst hy
    unfold BattleshipAlgorithm.fireAt
    simp only [h1, Bool.false_eq_true, if_false, beq_iff_eq, h4b, if_true]
    rw [BattleshipAlgorithm.mine_update_unit_board F _ hwf2 (by rw [← hsize]; exact hsize2)
      (by rw [hs]; norm_num), hs, neg_zero, he]
    norm_num

set_option maxRecDepth 8000 in
theorem fired_cell_likelihoods_witness :
    BattleshipAlgorithm.makeMove ratOps demoOneMine
      = some (BattleshipAlgorithm.fireAt ratOps demoOneMine 0 0) ∧
    (BattleshipAlgorithm.fireAt ratOps demoOneMine 0 0).2.board_.cell 0 0 = MineTriggered ∧
    Grid.get 0 (BattleshipAlgorithm.fireAt ratOps demoOneMine 0 0).2.board_.mineProbabilities_
      0 0 = 3 / 10 :=
  ⟨BattleshipAlgorithm.makeMove_of_firedCell ratOps demoOneMine 0 0 (by decide!),
    by decide!,
    (fired_cell_likelihoods ratOps demoOneMine 0 0 (by decide) (by decide)).2.2
      (by decide!) (by decide!) (by decide) (by decide) (by decide)⟩

end FiredCell

section StaleHit

variable {K : Type} [LinearOrderedField K]

/-- In a state with an empty wounded list, a set last-hit flag and a fresh neighbour of the
last-hit cell, `findBestMove` returns the result of the probe of these neighbours. -/
theorem BattleshipAlgorithm.findBestMove_probe (F : FloatOps K) (e : BattleshipAlgorithm K)
    (hw : e.woundedCells_ = []) (hl : e.hasLastHit = true)
    (hn : e.freshNeighbours e.lastHitX e.lastHitY ≠ []) :
    ∃ pre m post, e.freshNeighbours e.lastHitX e.lastHitY = pre ++ m :: post ∧
      BattleshipAlgorithm.findBestMove F e = some m ∧
      (∀ c ∈ pre, BattleshipAlgorithm.calculateUtility F e c.1 c.2
        < BattleshipAlgorithm.calculateUtility F e m.1 m.2) ∧
      (∀ c ∈ post, BattleshipAlgorithm.calculateUtility F e c.1 c.2
        ≤ BattleshipAlgorithm.calculateUtility F e m.1 m.2) := by
  obtain ⟨pre, m, post, hsplit, hfold, hpre, hpost⟩ :=
    BattleshipAlgorithm.consider_argmax F e _ (-1, -1) hn
  refine ⟨pre, m, post, hsplit, ?_, hpre, hpost⟩
  have hm : m ∈ e.freshNeighbours e.lastHitX e.lastHitY := by
    rw [hsplit]
    exact List.mem_append_right _ (List.mem_cons_self _ _)
  have hm1 : m.1 ≠ -1 := by
    have := ((BattleshipAlgorithm.mem_freshNeighbours e _ _ m).mp hm).2.1.1.1
    omega
  have hk : ¬ ((!e.woundedCells_.isEmpty) = true ∧
      (BattleshipAlgorithm.findKillMove F e).1 ≠ -1) := by
    rw [hw]
    rintro ⟨h, _⟩
    simp at h
  unfold BattleshipAlgorithm.findBestMove
  simp only
  rw [if_neg hk, hl]
  simp only [if_true]
  rw [BattleshipAlgorithm.probeNeighbours_eq, hfold]
  simp only [hm1, if_false]

/-- C24, as the code has it. `makeMove` sets the last-hit flag on a ship hit and never clears
it: a shot that is a miss or a mine trigger leaves the flag, the last-hit cell and the
wounded list as they were. So in hunt mode, after a miss, `findBestMove` still returns the
best fresh neighbour of the cell of the last hit, as long as there is one, whatever the hunt
tiers would select. -/
theorem stale_last_hit_is_probed (F : FloatOps K) (e : BattleshipAlgorithm K) :
    (∀ x y, (e.board_.makeShot x y).1 = false →
      (BattleshipAlgorithm.fireAt F e x y).2.hasLastHit = e.hasLastHit ∧
      (BattleshipAlgorithm.fireAt F e x y).2.lastHitX = e.lastHitX ∧
      (BattleshipAlgorithm.fireAt F e x y).2.lastHitY = e.lastHitY ∧
      (BattleshipAlgorithm.fireAt F e x y).2.woundedCells_ = e.woundedCells_) ∧
    (e.woundedCells_ = [] → e.hasLastHit = true →
      e.freshNeighbours e.lastHitX e.lastHitY ≠ [] →
      ∃ m, BattleshipAlgorithm.findBestMove F e = some m ∧
        m ∈ e.freshNeighbours e.lastHitX e.lastHitY ∧
        ∀ c ∈ e.freshNeighbours e.lastHitX e.lastHitY,
          BattleshipAlgorithm.calculateUtility F e c.1 c.2
            ≤ BattleshipAlgorithm.calculateUtility F e m.1 m.2) := by
  constructor
  · intro x y h
    unfold BattleshipAlgorithm.fireAt
    simp only [h, Bool.false_eq_true, if_false]
    split
    · exact ⟨rfl, rfl, rfl, rfl⟩
    · exact ⟨rfl, rfl, rfl, rfl⟩
  · intro hw hl hn
    obtain ⟨pre, m, post, hsplit, hfind, hpre, hpost⟩ :=
      BattleshipAlgorithm.findBestMove_probe F e hw hl hn
    refine ⟨m, hfind, by rw [hsplit]; exact List.mem_append_right _ (List.mem_cons_self _ _),
      ?_⟩
    intro c hc
    rw [hsplit] at hc
    rcases List.mem_append.mp hc with h | h
    · exact le_of_lt (hpre c h)
    · rcases List.mem_cons.mp h with h | h
      · rw [h]
      · exact hpost c h

set_option maxRecDepth 8000 in
theorem stale_last_hit_is_probed_witness :
    BattleshipAlgorithm.makeMove ratOps demoStaleStart
      = some (true, demoStaleHit) ∧
    BattleshipAlgorithm.makeMove ratOps demoStaleHit = some (false, demoStaleMiss) ∧
    demoStaleMiss.woundedCells_ = [] ∧ demoStaleMiss.hasLastHit = true ∧
    demoStaleMiss.freshNeighbours demoStaleMiss.lastHitX demoStaleMiss.lastHitY
      = [(3, 0), (2, 1)] ∧
    BattleshipAlgorithm.findBestMove ratOps demoStaleMiss = some (3, 0) ∧
    BattleshipAlgorithm.findBestMove ratOps { demoStaleMiss with hasLastHit := false }
      = some (2, 1) ∧
    (∃ m, BattleshipAlgorithm.findBestMove ratOps demoStaleMiss = some m ∧
      m ∈ demoStaleMiss.freshNeighbours demoStaleMiss.lastHitX demoStaleMiss.lastHitY ∧
      ∀ c ∈ demoStaleMiss.freshNeighbours demoStaleMiss.lastHitX demoStaleMiss.lastHitY,
        BattleshipAlgorithm.calculateUtility ratOps demoStaleMiss c.1 c.2
          ≤ BattleshipAlgorithm.calculateUtility ratOps demoStaleMiss m.1 m.2) := by
  have h1 : BattleshipAlgorithm.makeMove ratOps demoStaleStart = some (true, demoStaleHit) := by
    rw [BattleshipAlgorithm.makeMove_of_firedCell ratOps demoStaleStart 2 0 (by decide!)]
    have : (BattleshipAlgorithm.fireAt ratOps demoStaleStart 2 0).1 = true := by decide!
    rw [← this]
    rfl
  have h2 : BattleshipAlgorithm.makeMove ratOps demoStaleHit = some (false, demoStaleMiss) := by
    rw [BattleshipAlgorithm.makeMove_of_firedCell ratOps demoStaleHit 1 0 (by decide!)]
    have : (BattleshipAlgorithm.fireAt ratOps demoStaleHit 1 0).1 = false := by decide!
    rw [← this]
    rfl
  exact ⟨h1, h2, by decide!, by decide!, by decide!, by decide!, by decide!,
    (stale_last_hit_is_probed ratOps demoStaleMiss).2 (by decide!) (by decide!) (by decide!)⟩

end StaleHit

section LongestShipTier

/-- C23, as the code has it. In the state of `demoTopEngine` after its first move the engine
is in hunt mode with three lives, the longest unsunk ship has length 3, and the row `y = 0`
is a line of three consecutive unshot cells of mine likelihood 0. The centres returned by
`findMaxShipCandidates` are (1,0), (1,2), (0,1), (2,1); the loop over them tests the three
cells starting at each centre, to the right and downwards, finds none of these placements on
the board and unshot, and leaves `safestCell` at `(-1, -1)`: the longest-ship tier selects no
cell, and `findBestMove` returns (2,2) from the pattern tier, whatever `exp` and `sqrt`
are. -/
theorem longest_ship_tier_skips_runs (F : FloatOps ℚ) :
    demoTopAfter.woundedCells_ = [] ∧ demoTopAfter.hasLastHit = false ∧
    demoTopAfter.currentLives_ = 3 ∧
    getMaxAliveShipLength demoTopAfter.board_ = 3 ∧
    (∀ d ∈ intRange 0 2, demoTopAfter.board_.inside d 0 ∧ demoTopAfter.board_.shot d 0 = 0 ∧
      Grid.get 0 demoTopAfter.board_.mineProbabilities_ d 0 = 0) ∧
    findMaxShipCandidates demoTopAfter.board_ 3 = [(1, 0), (1, 2), (0, 1), (2, 1)] ∧
    BattleshipAlgorithm.safestPlacement demoTopAfter 3
      (findMaxShipCandidates demoTopAfter.board_ 3) = (1000000000, (-1, -1)) ∧
    BattleshipAlgorithm.findBestMove F demoTopAfter = some (2, 2) := by
  refine ⟨by decide!, by decide!, by decide!, by decide!, by decide!, by decide!, by decide!,
    ?_⟩
  rw [BattleshipAlgorithm.findBestMove_noMine F ratOps demoTopAfter (by decide!)]
  decide!

end LongestShipTier

section SegmentLemmas1

variable {K : Type}

theorem shipCell_inj (x y : Int) (horizontal : Bool) (i j : Int)
    (h : shipCell x y horizontal i = shipCell x y horizontal j) : i = j := by
  unfold shipCell at h
  cases horizontal
  · simp only [Bool.false_eq_true, if_false, Prod.mk.injEq] at h
    omega
  · simp only [if_true, Prod.mk.injEq] at h
    omega

theorem orthogonal_touches (m w : Int × Int) (h : orthogonal m w) : touches m w := by
  unfold orthogonal at h
  unfold touches
  rcases h with h | h | h | h <;> rw [h] <;> simp <;> omega

/-- Two cells of one line that are orthogonal neighbours are consecutive on the line. -/
theorem orthogonal_shipCell (x y : Int) (horizontal : Bool) (i j : Int)
    (h : orthogonal (shipCell x y horizontal j) (shipCell x y horizontal i)) :
    j = i - 1 ∨ j = i + 1 := by
  unfold orthogonal shipCell at h
  cases horizontal
  · simp only [Bool.false_eq_true, if_false, Prod.mk.injEq] at h
    omega
  · simp only [if_true, Prod.mk.injEq] at h
    omega

theorem shipCell_orthogonal (x y : Int) (horizontal : Bool) (i j : Int)
    (h : j = i - 1 ∨ j = i + 1) :
    orthogonal (shipCell x y horizontal j) (shipCell x y horizontal i) := by
  unfold orthogonal shipCell
  cases horizontal
  · simp only [Bool.false_eq_true, if_false, Prod.mk.injEq, true_and, and_true]
    omega
  · simp only [if_true, Prod.mk.injEq, true_and, and_true]
    omega

theorem GameBoard.lined_of_sameGame (b b2 : GameBoard K) (h : b.Lined)
    (hs : GameBoard.SameGame b b2) : b2.Lined := by
  unfold GameBoard.Lined
  rw [hs.2.2.2.1]
  exact h

theorem GameBoard.lined_run [LinearOrderedField K] (size : Int) (ops : List BoardOp) :
    ((GameBoard.new size : GameBoard K).run ops).Sound ∧
    ((GameBoard.new size : GameBoard K).run ops).Lined := by
  refine foldl_inv (fun (b : GameBoard K) => b.Sound ∧ b.Lined) _ _ _
    ⟨GameBoard.sound_new size, fun s hs => (nomatch hs)⟩ ?_
  intro b op _ hb
  refine ⟨GameBoard.sound_apply b hb.1 op, ?_⟩
  cases op with
  | placeShip x y length horizontal =>
    show (b.placeShip x y length horizontal).2.Lined
    by_cases h : b.canPlaceShip x y length horizontal = true
    · intro s hs
      rw [(GameBoard.placeShip_keeps b x y length horizontal h).2.2.2.2.2.1] at hs
      rcases List.mem_append.mp hs with h1 | h1
      · exact hb.2 s h1
      · rw [List.mem_singleton.mp h1]
        exact ⟨x, y, length, horizontal, rfl⟩
    · rw [GameBoard.placeShip_reject b x y length horizontal (by simpa using h)]
      exact hb.2
  | placeMine x y =>
    show (b.placeMine x y).2.Lined
    by_cases h : b.canPlaceMine x y = true
    · intro s hs
      rw [(GameBoard.placeMine_keeps b x y h).2.2.2.2.2.1] at hs
      exact hb.2 s hs
    · rw [GameBoard.placeMine_reject b x y (by simpa using h)]
      exact hb.2
  | makeShot x y =>
    show (b.makeShot x y).2.Lined
    intro s hs
    rw [(GameBoard.makeShot_keeps b hb.1.1.1 x y).2.1] at hs
    exact hb.2 s hs

/-- What a segment says about the cells of its ship: the ship is not sunk, its cells on the
segment read `ShipHit`, and its other cells are intact, on the board and unshot. -/
theorem BattleshipAlgorithm.segment_facts (e : BattleshipAlgorithm K) (hok : e.OK)
    (hset : e.board_.Settled) (hw : e.WoundedExact) (s : Ship) (x y length : Int)
    (horizontal : Bool) (lo hi : Int) (hseg : e.SegmentOf s x y length horizontal lo hi) :
    s.isSunk e.board_.board_ = false ∧
    (∀ i, 0 ≤ i → i < length →
      (e.board_.cell (shipCell x y horizontal i).1 (shipCell x y horizontal i).2 = 3 ↔
        lo ≤ i ∧ i ≤ hi)) ∧
    (∀ i, 0 ≤ i → i < length → ¬ (lo ≤ i ∧ i ≤ hi) →
      e.board_.cell (shipCell x y horizontal i).1 (shipCell x y horizontal i).2 = 1 ∧
      e.board_.inside (shipCell x y horizontal i).1 (shipCell x y horizontal i).2 ∧
      e.board_.shot (shipCell x y horizontal i).1 (shipCell x y horizontal i).2 = 0) ∧
    (1 ≤ lo ∨ hi + 1 < length) := by
  obtain ⟨hs, hcells, hlo, hlohi, hhi, hmem⟩ := hseg
  have hcellmem : ∀ i, 0 ≤ i → i < length → shipCell x y horizontal i ∈ s.cells := by
    intro i h0 h1
    rw [hcells]
    exact (mem_shipCells x y length horizontal _).mpr ⟨i, h0, h1, rfl⟩
  have hunsunk : s.isSunk e.board_.board_ = false := by
    have hwlo : shipCell x y horizontal lo ∈ e.woundedCells_ :=
      (hmem _).mpr ⟨lo, le_refl lo, hlohi, rfl⟩
    obtain ⟨_, t, ht, hct, htsunk⟩ := (hw.2 _).mp hwlo
    have := ship_unique _ hok.1.2.2.1 s t hs ht _ (hcellmem lo hlo (by omega)) hct
    rw [this]
    exact htsunk
  have h3 : ∀ i, 0 ≤ i → i < length →
      (e.board_.cell (shipCell x y horizontal i).1 (shipCell x y horizontal i).2 = 3 ↔
        lo ≤ i ∧ i ≤ hi) := by
    intro i h0 h1
    constructor
    · intro hc
      have hwi : shipCell x y horizontal i ∈ e.woundedCells_ :=
        (hw.2 _).mpr ⟨hc, s, hs, hcellmem i h0 h1, hunsunk⟩
      obtain ⟨j, hj1, hj2, hj⟩ := (hmem _).mp hwi
      have := shipCell_inj x y horizontal i j hj
      omega
    · intro hi2
      exact ((hw.2 _).mp ((hmem _).mpr ⟨i, hi2.1, hi2.2, rfl⟩)).1
  have hrest : ∀ i, 0 ≤ i → i < length → ¬ (lo ≤ i ∧ i ≤ hi) →
      e.board_.cell (shipCell x y horizontal i).1 (shipCell x y horizontal i).2 = 1 ∧
      e.board_.inside (shipCell x y horizontal i).1 (shipCell x y horizontal i).2 ∧
      e.board_.shot (shipCell x y horizontal i).1 (shipCell x y horizontal i).2 = 0 := by
    intro i h0 h1 hout
    have h13 := hok.1.2.1 s hs _ (hcellmem i h0 h1)
    have hn3 : ¬ e.board_.cell (shipCell x y horizontal i).1 (shipCell x y horizontal i).2 = 3 :=
      fun h => hout ((h3 i h0 h1).mp h)
    have hc1 : e.board_.cell (shipCell x y horizontal i).1 (shipCell x y horizontal i).2 = 1 := by
      omega
    refine ⟨hc1, GameBoard.cell_inside e.board_ hok.1.1.1 _ _ (by omega), ?_⟩
    by_contra hshot
    exact (hset _ _ hshot).2.2.1 hc1
  refine ⟨hunsunk, h3, hrest, ?_⟩
  by_contra hno
  have hall : s.isSunk e.board_.board_ = true := by
    rw [Ship.isSunk_iff]
    intro c hc
    rw [hcells] at hc
    obtain ⟨i, h0, h1, rfl⟩ := (mem_shipCells x y length horizontal c).mp hc
    exact (h3 i h0 h1).mpr ⟨by omega, by omega⟩
  rw [hall] at hunsunk
  cases hunsunk

end SegmentLemmas1

section SegmentLemmas2

variable {K : Type} [LinearOrderedField K]

omit [LinearOrderedField K] in
/-- Next to a segment, on the line of its ship, lies an intact cell of the ship: a legal
target. -/
theorem BattleshipAlgorithm.segment_end (e : BattleshipAlgorithm K) (hok : e.OK)
    (hset : e.board_.Settled) (hw : e.WoundedExact) (s : Ship) (x y length : Int)
    (horizontal : Bool) (lo hi : Int) (hseg : e.SegmentOf s x y length horizontal lo hi) :
    (1 ≤ lo ∧ e.Fresh (shipCell x y horizontal (lo - 1))) ∨
    (hi + 1 < length ∧ e.Fresh (shipCell x y horizontal (hi + 1))) := by
  obtain ⟨_, _, hrest, hends⟩ :=
    BattleshipAlgorithm.segment_facts e hok hset hw s x y length horizontal lo hi hseg
  have hlo := hseg.2.2.1
  have hlohi := hseg.2.2.2.1
  have hhi := hseg.2.2.2.2.1
  rcases hends with h | h
  · left
    have := hrest (lo - 1) (by omega) (by omega) (by omega)
    exact ⟨h, this.2.1, this.2.2⟩
  · right
    have := hrest (hi + 1) (by omega) (by omega) (by omega)
    exact ⟨h, this.2.1, this.2.2⟩

/-- With one wounded cell that has a fresh neighbour, `findKillMove` returns a fresh
neighbour of it. -/
theorem BattleshipAlgorithm.kill_single (F : FloatOps K) (e : BattleshipAlgorithm K)
    (w : Int × Int) (hwd : e.woundedCells_ = [w]) (c : Int × Int)
    (hc : c ∈ e.freshNeighbours w.1 w.2) :
    BattleshipAlgorithm.findKillMove F e ∈ e.freshNeighbours w.1 w.2 := by
  have hkill : BattleshipAlgorithm.findKillMove F e
      = ((e.freshNeighbours w.1 w.2).foldl
          (fun acc c => BattleshipAlgorithm.consider F e acc c.1 c.2) (none, (-1, -1))).2 := by
    unfold BattleshipAlgorithm.findKillMove
    rw [hwd]
    simp only [List.foldl_cons, List.foldl_nil]
    rw [BattleshipAlgorithm.probeNeighbours_eq]
  obtain ⟨pre, m, post, hsplit, hfold, _, _⟩ :=
    BattleshipAlgorithm.consider_argmax F e _ (-1, -1) (List.ne_nil_of_mem hc)
  have hm : BattleshipAlgorithm.findKillMove F e = m := by rw [hkill, hfold]
  rw [hm, hsplit]
  exact List.mem_append_right _ (List.mem_cons_self _ _)

/-- With two or more wounded cells on one column, `findKillMove` returns the fresh cell
above or below them, and `(-1, -1)` only when neither is fresh. -/
theorem BattleshipAlgorithm.kill_vertical (F : FloatOps K) (e : BattleshipAlgorithm K)
    (c0 c1 : Int × Int) (rest : List (Int × Int)) (hw : e.woundedCells_ = c0 :: c1 :: rest)
    (hin : ∀ c ∈ e.woundedCells_, e.board_.inside c.1 c.2)
    (x : Int) (hx : ∀ c ∈ e.woundedCells_, c.1 = x) :
    ∃ minY maxY, (x, minY) ∈ e.woundedCells_ ∧ (x, maxY) ∈ e.woundedCells_ ∧
      (∀ c ∈ e.woundedCells_, minY ≤ c.2 ∧ c.2 ≤ maxY) ∧
      ((BattleshipAlgorithm.findKillMove F e = (x, minY - 1) ∧ e.Fresh (x, minY - 1)) ∨
       (BattleshipAlgorithm.findKillMove F e = (x, maxY + 1) ∧ e.Fresh (x, maxY + 1)) ∨
       (BattleshipAlgorithm.findKillMove F e = (-1, -1) ∧
          ¬ e.Fresh (x, minY - 1) ∧ ¬ e.Fresh (x, maxY + 1))) := by
  have h0mem : c0 ∈ e.woundedCells_ := by rw [hw]; exact List.mem_cons_self _ _
  have hx0 : c0.1 = x := hx c0 h0mem
  have hxs : ∀ c ∈ e.woundedCells_, c.1 = c0.1 := fun c hc => (hx c hc).trans hx0.symm
  have hkill := BattleshipAlgorithm.findKillMove_vertical F e c0 c1 rest hw hxs
  have hmin := minElement_le c0.2 (e.woundedCells_.map (fun cell => cell.2))
  have hmax := le_maxElement c0.2 (e.woundedCells_.map (fun cell => cell.2))
  have hminm := minElement_mem c0.2 (e.woundedCells_.map (fun cell => cell.2))
  have hmaxm := maxElement_mem c0.2 (e.woundedCells_.map (fun cell => cell.2))
  generalize minElement c0.2 (e.woundedCells_.map (fun cell => cell.2)) = minY at *
  generalize maxElement c0.2 (e.woundedCells_.map (fun cell => cell.2)) = maxY at *
  have hmem : ∀ v, (v = c0.2 ∨ v ∈ e.woundedCells_.map (fun cell => cell.2)) →
      (x, v) ∈ e.woundedCells_ := by
    intro v hv
    rcases hv with h | h
    · have : (x, v) = c0 := Prod.ext hx0.symm h
      rw [this]; exact h0mem
    · obtain ⟨c, hc, hcv⟩ := List.mem_map.mp h
      have : (x, v) = c := Prod.ext (hx c hc).symm hcv.symm
      rw [this]; exact hc
  have hbound : ∀ c ∈ e.woundedCells_, minY ≤ c.2 ∧ c.2 ≤ maxY := by
    intro c hc
    have hm : c.2 ∈ e.woundedCells_.map (fun cell => cell.2) := List.mem_map.mpr ⟨c, hc, rfl⟩
    exact ⟨hmin.2 _ hm, hmax.2 _ hm⟩
  have hminin := hin _ (hmem minY hminm)
  have hmaxin := hin _ (hmem maxY hmaxm)
  refine ⟨minY, maxY, hmem minY hminm, hmem maxY hmaxm, hbound, ?_⟩
  rw [hkill, hx0]
  unfold BattleshipAlgorithm.Fresh
  unfold GameBoard.inside at hminin hmaxin ⊢
  unfold GameBoard.shot
  simp only at hminin hmaxin ⊢
  rcases BattleshipAlgorithm.kill_line_cases F e
    (minY - 1 ≥ 0 ∧ Grid.get 0 e.board_.shotsBoard_ x (minY - 1) = 0)
    (maxY + 1 < e.board_.size_ ∧ Grid.get 0 e.board_.shotsBoard_ x (maxY + 1) = 0)
    (x, minY - 1) (x, maxY + 1) with h | h | h
  · left
    exact ⟨h.1, ⟨hminin.1, by omega, by omega⟩, h.2.2⟩
  · right; left
    exact ⟨h.1, ⟨hmaxin.1, by omega, by omega⟩, h.2.2⟩
  · right; right
    refine ⟨h.1, ?_, ?_⟩
    · intro hh
      exact h.2.1 ⟨by omega, hh.2⟩
    · intro hh
      exact h.2.2 ⟨by omega, hh.2⟩

/-- With two or more distinct wounded cells on one row, `findKillMove` returns the fresh cell
left or right of them, and `(-1, -1)` only when neither is fresh. -/
theorem BattleshipAlgorithm.kill_horizontal (F : FloatOps K) (e : BattleshipAlgorithm K)
    (c0 c1 : Int × Int) (rest : List (Int × Int)) (hw : e.woundedCells_ = c0 :: c1 :: rest)
    (hnodup : e.woundedCells_.Nodup)
    (hin : ∀ c ∈ e.woundedCells_, e.board_.inside c.1 c.2)
    (y : Int) (hy : ∀ c ∈ e.woundedCells_, c.2 = y) :
    ∃ minX maxX, (minX, y) ∈ e.woundedCells_ ∧ (maxX, y) ∈ e.woundedCells_ ∧
      (∀ c ∈ e.woundedCells_, minX ≤ c.1 ∧ c.1 ≤ maxX) ∧
      ((BattleshipAlgorithm.findKillMove F e = (minX - 1, y) ∧ e.Fresh (minX - 1, y)) ∨
       (BattleshipAlgorithm.findKillMove F e = (maxX + 1, y) ∧ e.Fresh (maxX + 1, y)) ∨
       (BattleshipAlgorithm.findKillMove F e = (-1, -1) ∧
          ¬ e.Fresh (minX - 1, y) ∧ ¬ e.Fresh (maxX + 1, y))) := by
  have h0mem : c0 ∈ e.woundedCells_ := by rw [hw]; exact List.mem_cons_self _ _
  have h1mem : c1 ∈ e.woundedCells_ := by
    rw [hw]; exact List.mem_cons_of_mem _ (List.mem_cons_self _ _)
  have hy0 : c0.2 = y := hy c0 h0mem
  have hys : ∀ c ∈ e.woundedCells_, c.2 = c0.2 := fun c hc => (hy c hc).trans hy0.symm
  have hnx : ¬ ∀ c ∈ e.woundedCells_, c.1 = c0.1 := by
    intro hh
    have h01 : c0 ≠ c1 := by
      rw [hw] at hnodup
      intro heq
      exact (List.nodup_cons.mp hnodup).1 (heq ▸ List.mem_cons_self _ _)
    exact h01 (Prod.ext (hh c1 h1mem).symm ((hys c1 h1mem).symm))
  have hkill := BattleshipAlgorithm.findKillMove_horizontal F e c0 c1 rest hw hnx hys
  have hmin := minElement_le c0.1 (e.woundedCells_.map (fun cell => cell.1))
  have hmax := le_maxElement c0.1 (e.woundedCells_.map (fun cell => cell.1))
  have hminm := minElement_mem c0.1 (e.woundedCells_.map (fun cell => cell.1))
  have hmaxm := maxElement_mem c0.1 (e.woundedCells_.map (fun cell => cell.1))
  generalize minElement c0.1 (e.woundedCells_.map (fun cell => cell.1)) = minX at *
  generalize maxElement c0.1 (e.woundedCells_.map (fun cell => cell.1)) = maxX at *
  have hmem : ∀ v, (v = c0.1 ∨ v ∈ e.woundedCells_.map (fun cell => cell.1)) →
      (v, y) ∈ e.woundedCells_ := by
    intro v hv
    rcases hv with h | h
    · have : (v, y) = c0 := Prod.ext h hy0.symm
      rw [this]; exact h0mem
    · obtain ⟨c, hc, hcv⟩ := List.mem_map.mp h
      have : (v, y) = c := Prod.ext hcv.symm (hy c hc).symm
      rw [this]; exact hc
  have hbound : ∀ c ∈ e.woundedCells_, minX ≤ c.1 ∧ c.1 ≤ maxX := by
    intro c hc
    have hm : c.1 ∈ e.woundedCells_.map (fun cell => cell.1) := List.mem_map.mpr ⟨c, hc, rfl⟩
    exact ⟨hmin.2 _ hm, hmax.2 _ hm⟩
  have hminin := hin _ (hmem minX hminm)
  have hmaxin := hin _ (hmem maxX hmaxm)
  refine ⟨minX, maxX, hmem minX hminm, hmem maxX hmaxm, hbound, ?_⟩
  rw [hkill, hy0]
  unfold BattleshipAlgorithm.Fresh
  unfold GameBoard.inside at hminin hmaxin ⊢
  unfold GameBoard.shot
  simp only at hminin hmaxin ⊢
  rcases BattleshipAlgorithm.kill_line_cases F e
    (minX - 1 ≥ 0 ∧ Grid.get 0 e.board_.shotsBoard_ (minX - 1) y = 0)
    (maxX + 1 < e.board_.size_ ∧ Grid.get 0 e.board_.shotsBoard_ (maxX + 1) y = 0)
    (minX - 1, y) (maxX + 1, y) with h | h | h
  · left
    exact ⟨h.1, ⟨⟨by omega, by omega⟩, hminin.2⟩, h.2.2⟩
  · right; left
    exact ⟨h.1, ⟨⟨by omega, by omega⟩, hmaxin.2⟩, h.2.2⟩
  · right; right
    refine ⟨h.1, ?_, ?_⟩
    · intro hh
      exact h.2.1 ⟨by omega, hh.2⟩
    · intro hh
      exact h.2.2 ⟨by omega, hh.2⟩

end SegmentLemmas2

section SegmentLemmas3

variable {K : Type} [LinearOrderedField K]

theorem shipCell_true (x y i : Int) : shipCell x y true i = (x + i, y) := rfl

theorem shipCell_false (x y i : Int) : shipCell x y false i = (x, y + i) := rfl

theorem list_shape {α : Type} (l : List α) :
    l = [] ∨ (∃ w, l = [w]) ∨ ∃ c0 c1 rest, l = c0 :: c1 :: rest := by
  match l with
  | [] => exact Or.inl rfl
  | [w] => exact Or.inr (Or.inl ⟨w, rfl⟩)
  | c0 :: c1 :: rest => exact Or.inr (Or.inr ⟨c0, c1, rest, rfl⟩)

/-- When the wounded cells are a segment of an unsunk ship, `findKillMove` returns a legal
target that is an orthogonal neighbour of a wounded cell. -/
theorem BattleshipAlgorithm.kill_tracked (F : FloatOps K) (e : BattleshipAlgorithm K)
    (hok : e.OK) (hset : e.board_.Settled) (hw : e.WoundedExact) (s : Ship) (x y length : Int)
    (horizontal : Bool) (lo hi : Int) (hseg : e.SegmentOf s x y length horizontal lo hi) :
    e.Fresh (BattleshipAlgorithm.findKillMove F e) ∧
    ∃ w ∈ e.woundedCells_, orthogonal (BattleshipAlgorithm.findKillMove F e) w := by
  have hend := BattleshipAlgorithm.segment_end e hok hset hw s x y length horizontal lo hi hseg
  obtain ⟨hs, hcells, hlo, hlohi, hhi, hmem⟩ := hseg
  have hlomem : shipCell x y horizontal lo ∈ e.woundedCells_ :=
    (hmem _).mpr ⟨lo, le_refl _, hlohi, rfl⟩
  have hhimem : shipCell x y horizontal hi ∈ e.woundedCells_ :=
    (hmem _).mpr ⟨hi, hlohi, le_refl _, rfl⟩
  rcases list_shape e.woundedCells_ with hm | ⟨w, hm⟩ | ⟨c0, c1, rest, hm⟩
  · rw [hm] at hlomem
    cases hlomem
  · have h1 : shipCell x y horizontal lo = w := by
      rw [hm] at hlomem
      exact List.mem_singleton.mp hlomem
    have h2 : shipCell x y horizontal hi = w := by
      rw [hm] at hhimem
      exact List.mem_singleton.mp hhimem
    have hc : ∃ c, c ∈ e.freshNeighbours w.1 w.2 := by
      rcases hend with ⟨_, hf⟩ | ⟨_, hf⟩
      · refine ⟨_, (BattleshipAlgorithm.mem_freshNeighbours e w.1 w.2 _).mpr
          ⟨?_, hf.1, hf.2⟩⟩
        rw [← h1]
        exact shipCell_orthogonal x y horizontal lo (lo - 1) (Or.inl rfl)
      · refine ⟨_, (BattleshipAlgorithm.mem_freshNeighbours e w.1 w.2 _).mpr
          ⟨?_, hf.1, hf.2⟩⟩
        rw [← h2]
        exact shipCell_orthogonal x y horizontal hi (hi + 1) (Or.inr rfl)
    obtain ⟨c, hc⟩ := hc
    have hk := (BattleshipAlgorithm.mem_freshNeighbours e w.1 w.2 _).mp
      (BattleshipAlgorithm.kill_single F e w hm c hc)
    refine ⟨⟨hk.2.1, hk.2.2⟩, w, ?_, hk.1⟩
    rw [hm]
    exact List.mem_singleton_self w
  · cases horizontal with
    | false =>
      have hxs : ∀ c ∈ e.woundedCells_, c.1 = x := by
        intro c hc
        obtain ⟨i, _, _, hi2⟩ := (hmem c).mp hc
        rw [hi2]
        rfl
      obtain ⟨minY, maxY, hminmem, hmaxmem, hbound, hcases⟩ :=
        BattleshipAlgorithm.kill_vertical F e c0 c1 rest hm hok.2 x hxs
      have hminY : minY = y + lo := by
        obtain ⟨i, hi1, _, hi2⟩ := (hmem _).mp hminmem
        rw [shipCell_false, Prod.mk.injEq] at hi2
        have := (hbound _ hlomem).1
        rw [shipCell_false] at this
        simp only at this
        omega
      have hmaxY : maxY = y + hi := by
        obtain ⟨i, _, hi1, hi2⟩ := (hmem _).mp hmaxmem
        rw [shipCell_false, Prod.mk.injEq] at hi2
        have := (hbound _ hhimem).2
        rw [shipCell_false] at this
        simp only at this
        omega
      rcases hcases with ⟨hk, hf⟩ | ⟨hk, hf⟩ | ⟨hk, hn1, hn2⟩
      · rw [hk]
        exact ⟨hf, (x, minY), hminmem, Or.inr (Or.inr (Or.inl rfl))⟩
      · rw [hk]
        exact ⟨hf, (x, maxY), hmaxmem, Or.inr (Or.inr (Or.inr rfl))⟩
      · exfalso
        rcases hend with ⟨_, hf⟩ | ⟨_, hf⟩
        · apply hn1
          have : shipCell x y false (lo - 1) = (x, minY - 1) := by
            rw [shipCell_false, hminY, Prod.mk.injEq]
            constructor <;> omega
          rw [← this]
          exact hf
        · apply hn2
          have : shipCell x y false (hi + 1) = (x, maxY + 1) := by
            rw [shipCell_false, hmaxY, Prod.mk.injEq]
            constructor <;> omega
          rw [← this]
          exact hf
    | true =>
      have hys : ∀ c ∈ e.woundedCells_, c.2 = y := by
        intro c hc
        obtain ⟨i, _, _, hi2⟩ := (hmem c).mp hc
        rw [hi2]
        rfl
      obtain ⟨minX, maxX, hminmem, hmaxmem, hbound, hcases⟩ :=
        BattleshipAlgorithm.kill_horizontal F e c0 c1 rest hm hw.1 hok.2 y hys
      have hminX : minX = x + lo := by
        obtain ⟨i, hi1, _, hi2⟩ := (hmem _).mp hminmem
        rw [shipCell_true, Prod.mk.injEq] at hi2
        have := (hbound _ hlomem).1
        rw [shipCell_true] at this
        simp only at this
        omega
      have hmaxX : maxX = x + hi := by
        obtain ⟨i, _, hi1, hi2⟩ := (hmem _).mp hmaxmem
        rw [shipCell_true, Prod.mk.injEq] at hi2
        have := (hbound _ hhimem).2
        rw [shipCell_true] at this
        simp only at this
        omega
      rcases hcases with ⟨hk, hf⟩ | ⟨hk, hf⟩ | ⟨hk, hn1, hn2⟩
      · rw [hk]
        exact ⟨hf, (minX, y), hminmem, Or.inl rfl⟩
      · rw [hk]
        exact ⟨hf, (maxX, y), hmaxmem, Or.inr (Or.inl rfl)⟩
      · exfalso
        rcases hend with ⟨_, hf⟩ | ⟨_, hf⟩
        · apply hn1
          have : shipCell x y true (lo - 1) = (minX - 1, y) := by
            rw [shipCell_true, hminX, Prod.mk.injEq]
            constructor <;> omega
          rw [← this]
          exact hf
        · apply hn2
          have : shipCell x y true (hi + 1) = (maxX + 1, y) := by
            rw [shipCell_true, hmaxX, Prod.mk.injEq]
            constructor <;> omega
          rw [← this]
          exact hf

/-- In kill mode with a legal kill move, `findBestMove` returns the kill move. -/
theorem BattleshipAlgorithm.findBestMove_of_kill (F : FloatOps K) (e : BattleshipAlgorithm K)
    (hne : e.woundedCells_ ≠ [])
    (hf : e.Fresh (BattleshipAlgorithm.findKillMove F e)) :
    BattleshipAlgorithm.findBestMove F e = some (BattleshipAlgorithm.findKillMove F e) := by
  have h1 : (BattleshipAlgorithm.findKillMove F e).1 ≠ -1 := by
    have := hf.1.1.1
    omega
  have h2 : (!e.woundedCells_.isEmpty) = true := by
    cases hl : e.woundedCells_ with
    | nil => exact absurd hl hne
    | cons a l => rfl
  unfold BattleshipAlgorithm.findBestMove
  simp only
  rw [if_pos ⟨h2, h1⟩]

end SegmentLemmas3

section SegmentLemmas4

variable {K : Type} [LinearOrderedField K]

omit [LinearOrderedField K] in
/-- A run of cells in state `ShipHit` of one ship that covers the wounded list is a segment,
when the wounded list is exact. -/
theorem BattleshipAlgorithm.segment_of_exact (e : BattleshipAlgorithm K) (hok : e.OK)
    (hw : e.WoundedExact) (s : Ship) (x y length : Int) (horizontal : Bool) (lo hi : Int)
    (hs : s ∈ e.board_.ships_) (hcells : s.cells = shipCells x y length horizontal)
    (hlo : 0 ≤ lo) (hlohi : lo ≤ hi) (hhi : hi < length)
    (hA : ∀ i, lo ≤ i → i ≤ hi →
      e.board_.cell (shipCell x y horizontal i).1 (shipCell x y horizontal i).2 = 3)
    (hB : ∀ c ∈ e.woundedCells_, ∃ i, lo ≤ i ∧ i ≤ hi ∧ c = shipCell x y horizontal i) :
    e.Segment := by
  by_cases hne : e.woundedCells_ = []
  · exact Or.inl hne
  · right
    obtain ⟨c0, hc0⟩ := List.exists_mem_of_ne_nil _ hne
    obtain ⟨i0, h1, h2, h3⟩ := hB c0 hc0
    obtain ⟨_, t, ht, hct, htsunk⟩ := (hw.2 c0).mp hc0
    have hin : ∀ i, lo ≤ i → i ≤ hi → shipCell x y horizontal i ∈ s.cells := by
      intro i hi1 hi2
      rw [hcells]
      exact (mem_shipCells x y length horizontal _).mpr ⟨i, by omega, by omega, rfl⟩
    have hc0s : c0 ∈ s.cells := by
      rw [h3]
      exact hin i0 h1 h2
    have hst := ship_unique _ hok.1.2.2.1 s t hs ht c0 hc0s hct
    refine ⟨s, x, y, length, horizontal, lo, hi, hs, hcells, hlo, hlohi, hhi, ?_⟩
    intro c
    constructor
    · exact hB c
    · rintro ⟨i, hi1, hi2, rfl⟩
      refine (hw.2 _).mpr ⟨hA i hi1 hi2, s, hs, hin i hi1 hi2, ?_⟩
      rw [hst]
      exact htsunk

/-- A cell wounded after a shot was wounded before it, or is the shot cell, which held an
intact ship cell. -/
theorem BattleshipAlgorithm.wounded_after_shot (F : FloatOps K) (e : BattleshipAlgorithm K)
    (hok : e.OK) (hman : e.board_.Manned) (hw : e.WoundedExact) (x y : Int) (c : Int × Int)
    (hc : c ∈ (BattleshipAlgorithm.fireAt F e x y).2.woundedCells_) :
    c ∈ e.woundedCells_ ∨ (c = (x, y) ∧ e.board_.inside x y ∧ e.board_.cell x y = 1) := by
  have hw2 := BattleshipAlgorithm.woundedExact_fireAt F e hok hman hw x y
  have hsame := BattleshipAlgorithm.fireAt_board F e x y
  have hkeep := GameBoard.makeShot_keeps e.board_ hok.1.1.1 x y
  obtain ⟨h3, t, ht, hct, htsunk⟩ := (hw2.2 c).mp hc
  rw [hsame.2.2.2.1, hkeep.2.1] at ht
  rw [hsame.2.1] at htsunk
  have h3b : (e.board_.makeShot x y).2.cell c.1 c.2 = 3 := by
    rw [← BattleshipAlgorithm.fireAt_cell F e x y c.1 c.2]
    exact h3
  rcases (GameBoard.makeShot_hit_iff e.board_ hok.1.1.1 x y c.1 c.2).mp h3b with h | h
  · left
    refine (hw.2 c).mpr ⟨h, t, ht, hct, ?_⟩
    by_contra hsunk
    have hsunk2 : t.isSunk e.board_.board_ = true := by simpa using hsunk
    have : t.isSunk (e.board_.makeShot x y).2.board_ = true := by
      rw [Ship.isSunk_iff] at hsunk2 ⊢
      intro d hd
      exact (GameBoard.makeShot_hit_iff e.board_ hok.1.1.1 x y d.1 d.2).mpr
        (Or.inl (hsunk2 d hd))
    rw [this] at htsunk
    cases htsunk
  · right
    exact ⟨Prod.ext h.1.1 h.1.2, h.2.1, h.2.2⟩

/-- One shot keeps the wounded list a segment, when the shot is a legal target and, in kill
mode, an orthogonal neighbour of a wounded cell. -/
theorem BattleshipAlgorithm.segment_fireAt (F : FloatOps K) (e : BattleshipAlgorithm K)
    (hok : e.OK) (hman : e.board_.Manned) (hset : e.board_.Settled) (hlined : e.board_.Lined)
    (hw : e.WoundedExact) (hseg : e.Segment) (x y : Int) (hfresh : e.Fresh (x, y))
    (hkill : e.woundedCells_ ≠ [] → ∃ w ∈ e.woundedCells_, orthogonal (x, y) w) :
    (BattleshipAlgorithm.fireAt F e x y).2.Segment := by
  have hok2 := BattleshipAlgorithm.fireAt_ok F e hok x y hfresh
  have hw2 := BattleshipAlgorithm.woundedExact_fireAt F e hok hman hw x y
  have hsame := BattleshipAlgorithm.fireAt_board F e x y
  have hkeep := GameBoard.makeShot_keeps e.board_ hok.1.1.1 x y
  have hships : (BattleshipAlgorithm.fireAt F e x y).2.board_.ships_ = e.board_.ships_ :=
    hsame.2.2.2.1.trans hkeep.2.1
  have hB0 := BattleshipAlgorithm.wounded_after_shot F e hok hman hw x y
  by_cases hhit : (e.board_.makeShot x y).1 = true
  · obtain ⟨hin, h1⟩ := (GameBoard.makeShot_true_iff e.board_ x y).mp hhit
    have hcell2 : ∀ u v, (e.board_.cell u v = 3 ∨ (u = x ∧ v = y)) →
        (BattleshipAlgorithm.fireAt F e x y).2.board_.cell u v = 3 := by
      intro u v h
      rw [BattleshipAlgorithm.fireAt_cell F e x y u v]
      refine (GameBoard.makeShot_hit_iff e.board_ hok.1.1.1 x y u v).mpr ?_
      rcases h with h | h
      · exact Or.inl h
      · exact Or.inr ⟨h, hin, h1⟩
    rcases hseg with hnil | ⟨s, sx, sy, slen, shz, lo, hi, hsegof⟩
    · obtain ⟨t, ht, hmt⟩ := hman x y (Or.inl h1)
      obtain ⟨tx, ty, tlen, thz, htcells⟩ := hlined t ht
      rw [htcells] at hmt
      obtain ⟨j, hj0, hj1, hj⟩ := (mem_shipCells tx ty tlen thz _).mp hmt
      refine BattleshipAlgorithm.segment_of_exact _ hok2 hw2 t tx ty tlen thz j j
        (by rw [hships]; exact ht) htcells hj0 (le_refl j) hj1 ?_ ?_
      · intro i hi1 hi2
        have hij : i = j := by omega
        rw [hij, ← hj]
        exact hcell2 x y (Or.inr ⟨rfl, rfl⟩)
      · intro c hc
        rcases hB0 c hc with h | h
        · rw [hnil] at h
          cases h
        · exact ⟨j, le_refl j, le_refl j, h.1.trans hj⟩
    · have hfacts := BattleshipAlgorithm.segment_facts e hok hset hw s sx sy slen shz lo hi hsegof
      obtain ⟨hs, hscells, hlo, hlohi, hhi, hmem⟩ := hsegof
      have hne : e.woundedCells_ ≠ [] :=
        List.ne_nil_of_mem ((hmem _).mpr ⟨lo, le_refl lo, hlohi, rfl⟩)
      obtain ⟨w, hwmem, horth⟩ := hkill hne
      obtain ⟨i, hi1, hi2, hwi⟩ := (hmem w).mp hwmem
      have hws : w ∈ s.cells := by
        rw [hscells, hwi]
        exact (mem_shipCells sx sy slen shz _).mpr ⟨i, by omega, by omega, rfl⟩
      obtain ⟨t, ht, hmt⟩ := hman x y (Or.inl h1)
      have hts : t = s := by
        by_contra hneq
        have hsym : Symmetric separated := fun a b hab => separated_symm a b hab
        exact hok.1.2.2.1.forall hsym ht hs hneq (x, y) hmt w hws
          (orthogonal_touches (x, y) w horth)
      rw [hts, hscells] at hmt
      obtain ⟨j, hj0, hj1, hj⟩ := (mem_shipCells sx sy slen shz _).mp hmt
      rw [hj, hwi] at horth
      have hadj := orthogonal_shipCell sx sy shz i j horth
      have hout : ¬ (lo ≤ j ∧ j ≤ hi) := by
        intro hjin
        have h3 := (hfacts.2.1 j hj0 hj1).mpr hjin
        rw [← hj] at h3
        simp only at h3
        omega
      have key : ∀ lo2 hi2 : Int, 0 ≤ lo2 → hi2 < slen → lo2 ≤ j → j ≤ hi2 →
          lo2 ≤ lo → hi ≤ hi2 →
          (∀ k, lo2 ≤ k → k ≤ hi2 → k = j ∨ (lo ≤ k ∧ k ≤ hi)) →
          (BattleshipAlgorithm.fireAt F e x y).2.Segment := by
        intro lo2 hi2 h0 hlen hj2 hj3 hlo2 hhi2 hcover
        refine BattleshipAlgorithm.segment_of_exact _ hok2 hw2 s sx sy slen shz lo2 hi2
          (by rw [hships]; exact hs) hscells h0 (by omega) hlen ?_ ?_
        · intro k hk1 hk2
          rcases hcover k hk1 hk2 with h | h
          · rw [h, ← hj]
            exact hcell2 x y (Or.inr ⟨rfl, rfl⟩)
          · exact hcell2 _ _ (Or.inl ((hfacts.2.1 k (by omega) (by omega)).mpr h))
        · intro c hc
          rcases hB0 c hc with h | h
          · obtain ⟨k, hk1, hk2, hk⟩ := (hmem c).mp h
            exact ⟨k, by omega, by omega, hk⟩
          · exact ⟨j, hj2, hj3, h.1.trans hj⟩
      have hcase : j = lo - 1 ∨ j = hi + 1 := by omega
      rcases hcase with hjl | hjh
      · exact key (lo - 1) hi (by omega) hhi (by omega) (by omega) (by omega) (le_refl hi)
          (fun k hk1 hk2 => by omega)
      · exact key lo (hi + 1) hlo (by omega) (by omega) (by omega) (le_refl lo) (by omega)
          (fun k hk1 hk2 => by omega)
  · have hmiss : (e.board_.makeShot x y).1 = false := by simpa using hhit
    have hsamew := BattleshipAlgorithm.fireAt_wounded_miss F e x y hmiss
    rcases hseg with hnil | ⟨s, sx, sy, slen, shz, lo, hi, hs, hscells, hlo, hlohi, hhi, hmem⟩
    · left
      rw [hsamew]
      exact hnil
    · right
      refine ⟨s, sx, sy, slen, shz, lo, hi, by rw [hships]; exact hs, hscells, hlo, hlohi, hhi,
        ?_⟩
      intro c
      rw [hsamew]
      exact hmem c

end SegmentLemmas4

section SegmentLemmas5

variable {K : Type} [LinearOrderedField K]

/-- The invariant behind C25. -/
theorem BattleshipAlgorithm.plays_segment [FloorRing K] (F : FloatOps K) (size : Int)
    (ops : List BoardOp) (maxLives : Int) (hops : ∀ op ∈ ops, op.isPlacement = true)
    (e : BattleshipAlgorithm K)
    (hplay : BattleshipAlgorithm.Plays F
      (BattleshipAlgorithm.new ((GameBoard.new size : GameBoard K).run ops) maxLives) e) :
    e.board_.Settled ∧ e.board_.Lined ∧ e.Segment := by
  induction hplay with
  | start =>
    have hsame : GameBoard.SameGame ((GameBoard.new size : GameBoard K).run ops)
        (BattleshipAlgorithm.new ((GameBoard.new size : GameBoard K).run ops) maxLives).board_ :=
      ⟨rfl, rfl, rfl, rfl, rfl, rfl,
        fun h => Grid.square_map_const _ _ _ h, fun h => Grid.square_map_const _ _ _ h⟩
    exact ⟨GameBoard.settled_of_sameGame _ _ (GameBoard.settled_run size ops).2 hsame,
      GameBoard.lined_of_sameGame _ _ (GameBoard.lined_run size ops).2 hsame, Or.inl rfl⟩
  | move e hit e2 hp hm ih =>
    obtain ⟨hok, hman, hw⟩ :=
      BattleshipAlgorithm.plays_woundedExact F size ops maxLives hops e hp
    rcases BattleshipAlgorithm.makeMove_cases F e hit e2 hm with h1 | ⟨x, y, hf, hbest, hfire⟩
    · rw [h1.2.2]
      exact ih
    · obtain ⟨hset, hlined, hseg⟩ := ih
      have hfresh := BattleshipAlgorithm.firedCell_fresh F e hok x y hf
      have hsame := BattleshipAlgorithm.fireAt_board F e x y
      have hshot := GameBoard.settled_makeShot e.board_ hok.1.1 hset x y
      have hlined2 : (e.board_.makeShot x y).2.Lined := by
        intro s hs
        rw [(GameBoard.makeShot_keeps e.board_ hok.1.1.1 x y).2.1] at hs
        exact hlined s hs
      have hkill : e.woundedCells_ ≠ [] → ∃ w ∈ e.woundedCells_, orthogonal (x, y) w := by
        intro hne
        rcases hseg with hnil | ⟨s, sx, sy, slen, shz, lo, hi, hsegof⟩
        · exact absurd hnil hne
        · obtain ⟨hkf, w, hwm, horth⟩ :=
            BattleshipAlgorithm.kill_tracked F e hok hset hw s sx sy slen shz lo hi hsegof
          have hb := BattleshipAlgorithm.findBestMove_of_kill F e hne hkf
          rw [hbest] at hb
          have hxy : (x, y) = BattleshipAlgorithm.findKillMove F e := Option.some.inj hb
          rw [hxy]
          exact ⟨w, hwm, horth⟩
      have hseg2 := BattleshipAlgorithm.segment_fireAt F e hok hman hset hlined hw hseg x y
        hfresh hkill
      rw [hfire] at hsame hseg2
      exact ⟨GameBoard.settled_of_sameGame _ _ hshot hsame,
        GameBoard.lined_of_sameGame _ _ hlined2 hsame, hseg2⟩

end SegmentLemmas5

section OneShip

variable {K : Type} [LinearOrderedField K]

/-- C25. For an engine constructed on a board built from the empty board by `placeShip` and
`placeMine` calls only, in every state reached by `makeMove` calls the wounded cells are cells
of one registered ship, they all share the same `x` or all share the same `y`, and whenever
the list holds two or more cells one of the two tests `isVertical`, `isHorizontal` of
`findKillMove` succeeds, so that its fallback branch is not entered. -/
theorem wounded_cells_lie_on_one_ship [FloorRing K] (F : FloatOps K) (size : Int)
    (ops : List BoardOp) (maxLives : Int) (hops : ∀ op ∈ ops, op.isPlacement = true)
    (e : BattleshipAlgorithm K)
    (hplay : BattleshipAlgorithm.Plays F
      (BattleshipAlgorithm.new ((GameBoard.new size : GameBoard K).run ops) maxLives) e) :
    (e.woundedCells_ = [] ∨ ∃ s ∈ e.board_.ships_, ∀ c ∈ e.woundedCells_, c ∈ s.cells) ∧
    ((∀ c ∈ e.woundedCells_, ∀ d ∈ e.woundedCells_, c.1 = d.1) ∨
      (∀ c ∈ e.woundedCells_, ∀ d ∈ e.woundedCells_, c.2 = d.2)) ∧
    (∀ c0 c1 rest, e.woundedCells_ = c0 :: c1 :: rest →
      (c0 :: c1 :: rest).all (fun cell => cell.1 == c0.1) = true ∨
      (c0 :: c1 :: rest).all (fun cell => cell.2 == c0.2) = true) := by
  obtain ⟨_, _, hseg⟩ := BattleshipAlgorithm.plays_segment F size ops maxLives hops e hplay
  rcases hseg with hnil | ⟨s, sx, sy, slen, shz, lo, hi, hs, hscells, hlo, hlohi, hhi, hmem⟩
  · rw [hnil]
    refine ⟨Or.inl rfl, Or.inl (fun c hc => (nomatch hc)), ?_⟩
    intro c0 c1 rest h
    cases h
  · have hline : (∀ c ∈ e.woundedCells_, ∀ d ∈ e.woundedCells_, c.1 = d.1) ∨
        (∀ c ∈ e.woundedCells_, ∀ d ∈ e.woundedCells_, c.2 = d.2) := by
      cases shz with
      | false =>
        left
        intro c hc d hd
        obtain ⟨i, _, _, hci⟩ := (hmem c).mp hc
        obtain ⟨j, _, _, hdj⟩ := (hmem d).mp hd
        rw [hci, hdj]
        rfl
      | true =>
        right
        intro c hc d hd
        obtain ⟨i, _, _, hci⟩ := (hmem c).mp hc
        obtain ⟨j, _, _, hdj⟩ := (hmem d).mp hd
        rw [hci, hdj]
        rfl
    refine ⟨Or.inr ⟨s, hs, ?_⟩, hline, ?_⟩
    · intro c hc
      obtain ⟨i, hi1, hi2, hci⟩ := (hmem c).mp hc
      rw [hscells, hci]
      exact (mem_shipCells sx sy slen shz _).mpr ⟨i, by omega, by omega, rfl⟩
    · intro c0 c1 rest h
      have h0 : c0 ∈ e.woundedCells_ := by
        rw [h]
        exact List.mem_cons_self _ _
      rw [← h]
      rcases hline with hx | hy
      · left
        rw [List.all_eq_true]
        intro c hc
        rw [beq_iff_eq]
        exact hx c hc c0 h0
      · right
        rw [List.all_eq_true]
        intro c hc
        rw [beq_iff_eq]
        exact hy c hc c0 h0

set_option maxRecDepth 8000 in
theorem wounded_cells_lie_on_one_ship_witness :
    (∀ op ∈ demoRowOps, op.isPlacement = true) ∧
    BattleshipAlgorithm.makeMove ratOps demoRowEngine = some (true, demoRowHit) ∧
    BattleshipAlgorithm.makeMove ratOps demoRowHit = some (true, demoRowTwo) ∧
    demoRowTwo.woundedCells_ = [(2, 0), (1, 0)] ∧
    ((demoRowTwo.woundedCells_ = [] ∨
        ∃ s ∈ demoRowTwo.board_.ships_, ∀ c ∈ demoRowTwo.woundedCells_, c ∈ s.cells) ∧
      ((∀ c ∈ demoRowTwo.woundedCells_, ∀ d ∈ demoRowTwo.woundedCells_, c.1 = d.1) ∨
        (∀ c ∈ demoRowTwo.woundedCells_, ∀ d ∈ demoRowTwo.woundedCells_, c.2 = d.2)) ∧
      (∀ c0 c1 rest, demoRowTwo.woundedCells_ = c0 :: c1 :: rest →
        (c0 :: c1 :: rest).all (fun cell => cell.1 == c0.1) = true ∨
        (c0 :: c1 :: rest).all (fun cell => cell.2 == c0.2) = true)) := by
  have h1 : BattleshipAlgorithm.makeMove ratOps demoRowEngine = some (true, demoRowHit) := by
    rw [BattleshipAlgorithm.makeMove_of_firedCell ratOps demoRowEngine 2 0 (by decide!)]
    have : (BattleshipAlgorithm.fireAt ratOps demoRowEngine 2 0).1 = true := by decide!
    rw [← this]
    rfl
  have h2 : BattleshipAlgorithm.makeMove ratOps demoRowHit = some (true, demoRowTwo) := by
    rw [BattleshipAlgorithm.makeMove_of_firedCell ratOps demoRowHit 1 0 (by decide!)]
    have : (BattleshipAlgorithm.fireAt ratOps demoRowHit 1 0).1 = true := by decide!
    rw [← this]
    rfl
  exact ⟨by decide, h1, h2, by decide!,
    wounded_cells_lie_on_one_ship ratOps 5 demoRowOps 3 (by decide) demoRowTwo
      (BattleshipAlgorithm.Plays.move demoRowHit true demoRowTwo
        (BattleshipAlgorithm.Plays.move demoRowEngine true demoRowHit
          BattleshipAlgorithm.Plays.start h1) h2)⟩

end OneShip

end Battleship
